import Mathlib

/-!
# SkPDFGradientShader: a shallow embedding of `src/pdf/SkPDFGradientShader.cpp`

Scalars (`SkScalar`, a C++ `float`) are exact rationals, colours are 32-bit ARGB words,
emitted PostScript-calculator text is a list of tokens, and reads through raw pointers or
`std::vector::operator[]` are checked (`none` models an out-of-bounds read or a failed
assertion).  The document is an explicit state that is passed through every emitting call.
-/

namespace SkPDFGradientShader

/-! ## Scalars, colours and the gradient descriptor -/

abbrev SkScalar := ℚ

/-- A colour is a 32-bit word `0xAARRGGBB`. -/
abbrev SkColor := Nat

/-- Modelled from the spec: the `SkColorGetA` accessor of `include/core/SkColor.h`
(colours are 4 x 8-bit), bits 24..31. -/
def SkColorGetA (c : SkColor) : Nat := c / 16777216 % 256

/-- Modelled from the spec: the `SkColorGetR` accessor, bits 16..23. -/
def SkColorGetR (c : SkColor) : Nat := c / 65536 % 256

/-- Modelled from the spec: the `SkColorGetG` accessor, bits 8..15. -/
def SkColorGetG (c : SkColor) : Nat := c / 256 % 256

/-- Modelled from the spec: the `SkColorGetB` accessor, bits 0..7. -/
def SkColorGetB (c : SkColor) : Nat := c % 256

/-- Modelled from the spec: `SkColorSetARGB` packs four 8-bit channels. -/
def SkColorSetARGB (a r g b : Nat) : SkColor :=
  a % 256 * 16777216 + r % 256 * 65536 + g % 256 * 256 + b % 256

/-- Modelled from the spec: `SkColorSetA` is `(c & 0x00FFFFFF) | (a << 24)`. -/
def SkColorSetA (c : SkColor) (a : Nat) : SkColor := c % 16777216 + a % 256 * 16777216

def SK_AlphaOPAQUE : Nat := 255

/-- The gradient kinds of `SkShaderBase::GradientType`. -/
inductive GradientType where
  | kNone
  | kColor
  | kLinear
  | kRadial
  | kSweep
  | kConical
  deriving DecidableEq, Repr

/-- Tile modes of the data model. -/
inductive SkTileMode where
  | kClamp
  | kRepeat
  | kMirror
  deriving DecidableEq, Repr

structure SkPoint where
  fX : SkScalar
  fY : SkScalar
  deriving DecidableEq

/-- The descriptor `SkShaderBase::GradientInfo`: `fColors` and `fColorOffsets` are the
arrays behind the two pointers, `fColorCount` is the count the code iterates to. -/
structure GradientInfo where
  fColorCount : Nat
  fColors : List SkColor
  fColorOffsets : List SkScalar
  fPoint : SkPoint × SkPoint
  fRadius : SkScalar × SkScalar
  fTileMode : SkTileMode
  fGradientFlags : Nat
  deriving DecidableEq

/-- A 3x3 matrix in the order of `SkMatrix::setAll`. -/
structure SkMatrix where
  sx : SkScalar
  kx : SkScalar
  tx : SkScalar
  ky : SkScalar
  sy : SkScalar
  ty : SkScalar
  p0 : SkScalar
  p1 : SkScalar
  p2 : SkScalar
  deriving DecidableEq

structure SkIRect where
  fLeft : Int
  fTop : Int
  fRight : Int
  fBottom : Int
  deriving DecidableEq

structure SkRect where
  fLeft : SkScalar
  fTop : SkScalar
  fRight : SkScalar
  fBottom : SkScalar
  deriving DecidableEq

/-- The cache key `SkPDFGradientShader::Key`; the owned arrays `fColors`/`fStops` are the
lists inside `fInfo`. -/
structure Key where
  fType : GradientType
  fInfo : GradientInfo
  fCanvasTransform : SkMatrix
  fShaderTransform : SkMatrix
  fBBox : SkIRect
  fHash : Nat
  deriving DecidableEq

/-! ## The emitted stack language -/

/-- Operators of the PostScript calculator language that the generator writes. -/
inductive Op where
  | dup
  | pop
  | exch
  | copy
  | index
  | roll
  | add
  | sub
  | mul
  | div
  | neg
  | abs
  | truncate
  | cvi
  | mod
  | sqrt
  | atan
  | le
  | lt
  | ge
  | gt
  | eq
  | and
  | true
  | false
  | if_
  | ifelse
  deriving DecidableEq, Repr

/-- One token of emitted function text. -/
inductive Tok where
  | num (q : ℚ)
  | op (o : Op)
  | lbrace
  | rbrace
  deriving DecidableEq

/-- `SkPDFUtils::AppendColorComponent`: an 8-bit channel written as a number in [0,1]. -/
def AppendColorComponent (c : Nat) : Tok := Tok.num ((c : ℚ) / 255)

/-- `SkPDFUtils::AppendScalar`: a scalar written as a number (exactly). -/
def AppendScalar (q : SkScalar) : Tok := Tok.num q

def kColorScale : SkScalar := 1 / 255

/-- The multiplier of one component in `interpolate_color_code`. -/
def multiplier (range : SkScalar) (cur prev : Nat) : SkScalar :=
  kColorScale * ((cur : ℚ) - (prev : ℚ)) / range

/-- The body of the emitting loop of `interpolate_color_code` for one component. -/
def componentCode (dupInput : Bool) (m : SkScalar) (prev : Nat) : List Tok :=
  (if dupInput && m != 0 then [Tok.op Op.dup] else []) ++
  (if m == 0 then [AppendColorComponent prev]
   else (if m != 1 then [AppendScalar m, Tok.op Op.mul] else []) ++
        (if prev != 0 then [AppendColorComponent prev, Tok.op Op.add] else [])) ++
  (if dupInput then [Tok.op Op.exch] else [])

/-- The function `interpolate_color_code`; `none` is the failed `SkASSERT(range != 0)`. -/
def interpolate_color_code (range : SkScalar) (beginColor endColor : SkColor) :
    Option (List Tok) :=
  if range = 0 then none
  else
    let m0 := multiplier range (SkColorGetR endColor) (SkColorGetR beginColor)
    let m1 := multiplier range (SkColorGetG endColor) (SkColorGetG beginColor)
    let m2 := multiplier range (SkColorGetB endColor) (SkColorGetB beginColor)
    let dupInput2 := false
    let dupInput1 := dupInput2 || m2 != 0
    let dupInput0 := dupInput1 || m1 != 0
    some ((if !dupInput0 && m0 == 0 then [Tok.op Op.pop] else []) ++
      componentCode dupInput0 m0 (SkColorGetR beginColor) ++
      componentCode dupInput1 m1 (SkColorGetG beginColor) ++
      componentCode dupInput2 m2 (SkColorGetB beginColor))

/-- The `size_t` subtraction `rangeEndIndex - 1`, which wraps at `2^64`. -/
def size_t_pred (n : Nat) : Nat := (n + 18446744073709551615) % 18446744073709551616

/-- The text `write_gradient_ranges` writes before the ranges of a node: the range test
of the top level, of a first (lo) branch, or the bare opening of an else (hi) branch. -/
def rangesHead (top first : Bool) (rangeEnd : SkScalar) : List Tok :=
  if top then
    [Tok.op Op.dup, Tok.op Op.dup, Tok.num 0, Tok.op Op.gt, Tok.op Op.exch,
     AppendScalar rangeEnd, Tok.op Op.le, Tok.op Op.and, Tok.lbrace]
  else if first then
    [Tok.op Op.dup, AppendScalar rangeEnd, Tok.op Op.le, Tok.lbrace]
  else [Tok.lbrace]

/-- The text `write_gradient_ranges` writes after the ranges of a node. -/
def rangesTail (top first : Bool) : List Tok :=
  if top then [Tok.num 0, Tok.rbrace, Tok.op Op.if_]
  else if first then [Tok.rbrace]
  else [Tok.rbrace, Tok.op Op.ifelse]

/-- The recursion of `write_gradient_ranges`, with the depth of the recursion bounded by
`fuel`.  `none` is a failed assertion, an out-of-bounds read or exhausted fuel. -/
def write_gradient_ranges_fuel :
    Nat → GradientInfo → List Nat → Bool → Bool → Option (List Tok)
  | 0, _, _, _, _ => none
  | fuel + 1, info, rangeEnds, top, first =>
    match rangeEnds.getLast? with
    | none => none
    | some rangeEndIndex =>
      match info.fColorOffsets[rangeEndIndex]? with
      | none => none
      | some rangeEnd =>
        let body : Option (List Tok) :=
          if rangeEnds.length = 1 then
            let rangeBeginIndex := size_t_pred rangeEndIndex
            match info.fColorOffsets[rangeBeginIndex]?, info.fColors[rangeBeginIndex]?,
                  info.fColors[rangeEndIndex]? with
            | some rangeBegin, some beginColor, some endColor =>
              match interpolate_color_code (rangeEnd - rangeBegin) beginColor endColor with
              | some code => some ([AppendScalar rangeBegin, Tok.op Op.sub] ++ code)
              | none => none
            | _, _, _ => none
          else
            let loCount := rangeEnds.length / 2
            match write_gradient_ranges_fuel fuel info (rangeEnds.take loCount) false true,
                  write_gradient_ranges_fuel fuel info (rangeEnds.drop loCount) false false with
            | some lo, some hi => some (lo ++ hi)
            | _, _ => none
        match body with
        | some b => some (rangesHead top first rangeEnd ++ b ++ rangesTail top first)
        | none => none

/-- The function `write_gradient_ranges`: the recursion halves the list, so a depth of
`rangeEnds.length` is never reached. -/
def write_gradient_ranges (info : GradientInfo) (rangeEnds : List Nat) (top first : Bool) :
    Option (List Tok) :=
  write_gradient_ranges_fuel rangeEnds.length info rangeEnds top first

/-- The lambda `eqIgnoringAlpha` of `gradient_function_code`. -/
def eqIgnoringAlpha (a b : SkColor) : Bool := SkColorSetA a 0 == SkColorSetA b 0

/-- One iteration of the loop of `gradient_function_code`: is range `i` kept? -/
def keepRange (info : GradientInfo) (i : Nat) : Option Bool :=
  match info.fColors[i - 1]?, info.fColors[i]?, info.fColorOffsets[i - 1]?,
        info.fColorOffsets[i]? with
  | some cPrev, some cCur, some oPrev, some oCur =>
    let constantColorBothSides : Option Bool :=
      if eqIgnoringAlpha cPrev cCur && i != info.fColorCount - 1 then
        match info.fColors[i + 1]? with
        | some cNext => some (eqIgnoringAlpha cCur cNext)
        | none => none
      else some false
    let degenerateRange : Bool := oPrev == oCur
    match constantColorBothSides with
    | some ccbs => some (!degenerateRange && !ccbs)
    | none => none
  | _, _, _, _ => none

/-- The loop `for (int i = 1; i < info.fColorCount; ++i)` of `gradient_function_code`,
run over the indices it visits; the result is `rangeEnds`. -/
def collectRangeEnds (info : GradientInfo) : List Nat → Option (List Nat)
  | [] => some []
  | i :: rest =>
    match keepRange info i, collectRangeEnds info rest with
    | some k, some ends => some (if k then i :: ends else ends)
    | _, _ => none

/-- The list `rangeEnds` built by `gradient_function_code`. -/
def rangeEndsOf (info : GradientInfo) : Option (List Nat) :=
  collectRangeEnds info (List.range' 1 (info.fColorCount - 1))

/-- The function `gradient_function_code`. -/
def gradient_function_code (info : GradientInfo) : Option (List Tok) :=
  match info.fColors[0]?, rangeEndsOf info, info.fColors[info.fColorCount - 1]? with
  | some c0, some rangeEnds, some cLast =>
    match write_gradient_ranges info rangeEnds true true with
    | some ranges =>
      some ([Tok.op Op.dup, Tok.num 0, Tok.op Op.le, Tok.lbrace, Tok.op Op.pop,
             AppendColorComponent (SkColorGetR c0), AppendColorComponent (SkColorGetG c0),
             AppendColorComponent (SkColorGetB c0), Tok.num 0, Tok.rbrace, Tok.op Op.if_] ++
            ranges ++
            [Tok.num 0, Tok.op Op.gt, Tok.lbrace,
             AppendColorComponent (SkColorGetR cLast), AppendColorComponent (SkColorGetG cLast),
             AppendColorComponent (SkColorGetB cLast), Tok.rbrace, Tok.op Op.if_])
    | none => none
  | _, _, _ => none

/-! ## Semantics of the emitted stack language

The operand stack is a list with its top at the head.  A procedure body `{ ... }` is pushed
as a value and consumed by `if` / `ifelse`, as in PostScript. -/

/-- A value on the operand stack. -/
inductive Val where
  | num (q : ℚ)
  | bool (b : Bool)
  | proc (body : List Tok)
  deriving DecidableEq

/-- Splits the text after an opening brace at its matching closing brace; `depth` counts
the braces opened since. -/
def splitBlock : Nat → List Tok → Option (List Tok × List Tok)
  | _, [] => none
  | depth, Tok.rbrace :: rest =>
    match depth with
    | 0 => some ([], rest)
    | d + 1 =>
      match splitBlock d rest with
      | some (body, after) => some (Tok.rbrace :: body, after)
      | none => none
  | depth, Tok.lbrace :: rest =>
    match splitBlock (depth + 1) rest with
    | some (body, after) => some (Tok.lbrace :: body, after)
    | none => none
  | depth, Tok.num q :: rest =>
    match splitBlock depth rest with
    | some (body, after) => some (Tok.num q :: body, after)
    | none => none
  | depth, Tok.op o :: rest =>
    match splitBlock depth rest with
    | some (body, after) => some (Tok.op o :: body, after)
    | none => none

/-- Rounding toward zero, the `truncate` and `cvi` of the stack language. -/
def truncQ (x : ℚ) : ℤ := if 0 ≤ x then ⌊x⌋ else ⌈x⌉

/-- The effect of one operator other than `if` and `ifelse` on the operand stack; `none`
is a type error, a stack underflow, a division by zero, or an operator whose value is not
rational (`atan`, and `sqrt` of a non-square). -/
def applyOp : Op → List Val → Option (List Val)
  | Op.dup, x :: s => some (x :: x :: s)
  | Op.pop, _ :: s => some s
  | Op.exch, x :: y :: s => some (y :: x :: s)
  | Op.copy, Val.num n :: s =>
    if n.den = 1 ∧ 0 ≤ n.num ∧ n.num.toNat ≤ s.length then some (s.take n.num.toNat ++ s)
    else none
  | Op.index, Val.num n :: s =>
    if n.den = 1 ∧ 0 ≤ n.num then
      match s[n.num.toNat]? with
      | some v => some (v :: s)
      | none => none
    else none
  | Op.roll, Val.num j :: Val.num n :: s =>
    if n.den = 1 ∧ j.den = 1 ∧ 0 ≤ n.num ∧ n.num.toNat ≤ s.length then
      if n.num = 0 then some s
      else some ((s.take n.num.toNat).rotate (j.num % n.num).toNat ++ s.drop n.num.toNat)
    else none
  | Op.add, Val.num y :: Val.num x :: s => some (Val.num (x + y) :: s)
  | Op.sub, Val.num y :: Val.num x :: s => some (Val.num (x - y) :: s)
  | Op.mul, Val.num y :: Val.num x :: s => some (Val.num (x * y) :: s)
  | Op.div, Val.num y :: Val.num x :: s => if y = 0 then none else some (Val.num (x / y) :: s)
  | Op.neg, Val.num x :: s => some (Val.num (-x) :: s)
  | Op.abs, Val.num x :: s => some (Val.num |x| :: s)
  | Op.truncate, Val.num x :: s => some (Val.num (truncQ x) :: s)
  | Op.cvi, Val.num x :: s => some (Val.num (truncQ x) :: s)
  | Op.mod, Val.num y :: Val.num x :: s =>
    if x.den = 1 ∧ y.den = 1 ∧ y ≠ 0 then some (Val.num (Int.tmod x.num y.num) :: s) else none
  | Op.sqrt, Val.num x :: s =>
    if Rat.sqrt x * Rat.sqrt x = x then some (Val.num (Rat.sqrt x) :: s) else none
  | Op.le, Val.num y :: Val.num x :: s => some (Val.bool (decide (x ≤ y)) :: s)
  | Op.lt, Val.num y :: Val.num x :: s => some (Val.bool (decide (x < y)) :: s)
  | Op.ge, Val.num y :: Val.num x :: s => some (Val.bool (decide (y ≤ x)) :: s)
  | Op.gt, Val.num y :: Val.num x :: s => some (Val.bool (decide (y < x)) :: s)
  | Op.eq, Val.num y :: Val.num x :: s => some (Val.bool (decide (x = y)) :: s)
  | Op.and, Val.bool b :: Val.bool a :: s => some (Val.bool (a && b) :: s)
  | Op.true, s => some (Val.bool true :: s)
  | Op.false, s => some (Val.bool false :: s)
  | _, _ => none

/-- Executes emitted text on an operand stack.  Every step uses one unit of `fuel`; the
language has no loops, so every program needs only finitely much. -/
def exec : Nat → List Tok → List Val → Option (List Val)
  | _, [], st => some st
  | 0, _ :: _, _ => none
  | fuel + 1, tok :: rest, st =>
    match tok with
    | Tok.num q => exec fuel rest (Val.num q :: st)
    | Tok.lbrace =>
      match splitBlock 0 rest with
      | some (body, after) => exec fuel after (Val.proc body :: st)
      | none => none
    | Tok.rbrace => none
    | Tok.op o =>
      if o = Op.if_ then
        match st with
        | Val.proc body :: Val.bool b :: st1 =>
          if b then
            match exec fuel body st1 with
            | some st2 => exec fuel rest st2
            | none => none
          else exec fuel rest st1
        | _ => none
      else if o = Op.ifelse then
        match st with
        | Val.proc body2 :: Val.proc body1 :: Val.bool b :: st1 =>
          match exec fuel (if b then body1 else body2) st1 with
          | some st2 => exec fuel rest st2
          | none => none
        | _ => none
      else
        match applyOp o st with
        | some st1 => exec fuel rest st1
        | none => none

/-- The program `prog` started on stack `st` stops with stack `r`. -/
def Evaluates (prog : List Tok) (st r : List Val) : Prop := ∃ fuel, exec fuel prog st = some r

/-- The deepest nesting of braces in emitted text, scanning with `cur` braces open. -/
def nestDepthFrom : Nat → List Tok → Nat
  | _, [] => 0
  | cur, Tok.lbrace :: rest => max (cur + 1) (nestDepthFrom (cur + 1) rest)
  | cur, Tok.rbrace :: rest => nestDepthFrom (cur - 1) rest
  | cur, _ :: rest => nestDepthFrom cur rest

/-- The deepest nesting of conditionals in emitted text. -/
def nestDepth (code : List Tok) : Nat := nestDepthFrom 0 code

/-! ## Document objects -/

/-- The reference `SkPDFIndirectReference`; the value -1 is the empty "no object"
reference. -/
structure SkPDFIndirectReference where
  fValue : Int
  deriving DecidableEq

/-- The default-constructed `SkPDFIndirectReference()`. -/
def SkPDFIndirectReference.none : SkPDFIndirectReference := ⟨-1⟩

/-- The conversion `explicit operator bool` of a reference. -/
def SkPDFIndirectReference.isValid (r : SkPDFIndirectReference) : Bool := r.fValue != -1

/-- Modelled from the spec: the content written by `create_pattern_fill_content` through
`SkPDFUtils` (apply a graphics state when its index is not negative, apply the pattern,
append the rectangle, fill even-odd), kept as its arguments. -/
structure PatternFillContent where
  gsIndex : Int
  patternIndex : Int
  bounds : SkRect
  deriving DecidableEq

/-- The payload of a stream object. -/
inductive StreamContent where
  | psCode (code : List Tok)
  | patternFill (c : PatternFillContent)

/-- Modelled from the spec: the object model of `SkPDFTypes.h` as far as this file builds
objects: integers, scalars, booleans, names, references, arrays, dictionaries (in insertion
order) and streams. -/
inductive SkPDFObject where
  | int (n : Int)
  | scalar (q : SkScalar)
  | bool (b : Bool)
  | name (s : String)
  | ref (r : SkPDFIndirectReference)
  | array (xs : List SkPDFObject)
  | dict (entries : List (String × SkPDFObject))
  | stream (entries : List (String × SkPDFObject)) (content : StreamContent)

/-- The value stored under `key` in a dictionary or in the dictionary of a stream. -/
def SkPDFObject.lookup (key : String) : SkPDFObject → Option SkPDFObject
  | SkPDFObject.dict entries => entries.lookup key
  | SkPDFObject.stream entries _ => entries.lookup key
  | _ => Option.none

/-- The entries of an array object. -/
def SkPDFObject.items : SkPDFObject → Option (List SkPDFObject)
  | SkPDFObject.array xs => some xs
  | _ => Option.none

/-- Modelled from the spec: the document `SkPDFDocument` as far as this file uses it: the
indirect objects emitted so far (object number n is entry n-1) and the gradient cache
table `fGradientPatternMap`. -/
structure SkPDFDocument where
  fObjects : List SkPDFObject
  fGradientPatternMap : List (Key × SkPDFIndirectReference)

/-- Modelled from the spec: `emitObject(dict) -> ObjectHandle` allocates the next object
number and serializes the object. -/
def SkPDFDocument.emit (doc : SkPDFDocument) (obj : SkPDFObject) :
    SkPDFIndirectReference × SkPDFDocument :=
  (⟨(doc.fObjects.length : Int) + 1⟩, { doc with fObjects := doc.fObjects ++ [obj] })

/-- Modelled from the spec: `find(Key) -> Option<ObjectHandle>` of the cache table; keys
are compared field by field. -/
def gradientPatternMap_find (m : List (Key × SkPDFIndirectReference)) (key : Key) :
    Option SkPDFIndirectReference :=
  match m with
  | [] => Option.none
  | (k, v) :: rest => if k = key then some v else gradientPatternMap_find rest key

/-- Modelled from the spec: `insert(Key, ObjectHandle)` of the cache table; an entry with
an equal key is overwritten. -/
def gradientPatternMap_set (m : List (Key × SkPDFIndirectReference)) (key : Key)
    (v : SkPDFIndirectReference) : List (Key × SkPDFIndirectReference) :=
  match m with
  | [] => [(key, v)]
  | (k, w) :: rest =>
    if k = key then (key, v) :: rest else (k, w) :: gradientPatternMap_set rest key v

/-! ## The native ramp: `createInterpolationFunction` and `gradientStitchCode` -/

/-- The type `ColorTuple`: three 8-bit components. -/
abbrev ColorTuple := Nat × Nat × Nat

/-- `SkPDFArray::appendColorComponent`: an 8-bit channel as a number in [0,1]. -/
def colorComponentObject (c : Nat) : SkPDFObject := SkPDFObject.scalar ((c : ℚ) / 255)

/-- The function `createInterpolationFunction`. -/
def createInterpolationFunction (color1 color2 : ColorTuple) : SkPDFObject :=
  SkPDFObject.dict
    [("C0", SkPDFObject.array [colorComponentObject color1.1, colorComponentObject color1.2.1,
                               colorComponentObject color1.2.2]),
     ("C1", SkPDFObject.array [colorComponentObject color2.1, colorComponentObject color2.2.1,
                               colorComponentObject color2.2.2]),
     ("Domain", SkPDFObject.array [SkPDFObject.int 0, SkPDFObject.int 1]),
     ("FunctionType", SkPDFObject.int 2),
     ("N", SkPDFObject.scalar 1)]

/-- The perturbation `0.00001f` of `gradientStitchCode`. -/
def kStitchEpsilon : SkScalar := 1 / 100000

/-- The loop `while (i < colorCount - 1)` of `gradientStitchCode` on the state
`(i, colorCount, colors, colorOffsets)`; every iteration uses one unit of `fuel`. -/
def normalizeStops :
    Nat → Nat → Nat → List SkColor → List SkScalar → Option (Nat × List SkColor × List SkScalar)
  | fuel, i, colorCount, colors, colorOffsets =>
    if i + 1 < colorCount then
      match fuel with
      | 0 => Option.none
      | fuel1 + 1 =>
        match colorOffsets[i - 1]?, colorOffsets[i]? with
        | some prev, some cur =>
          -- ensure stops are in order
          let colorOffsets1 := if prev > cur then colorOffsets.set i prev else colorOffsets
          -- remove points that are between 2 coincident points
          match colorOffsets1[i - 1]?, colorOffsets1[i]? with
          | some a, some b =>
            if a = b then
              match colorOffsets1[i + 1]? with
              | some c =>
                if b = c then
                  normalizeStops fuel1 i (colorCount - 1) (colors.eraseIdx i)
                    (colorOffsets1.eraseIdx i)
                else normalizeStops fuel1 (i + 1) colorCount colors colorOffsets1
              | Option.none => Option.none
            else normalizeStops fuel1 (i + 1) colorCount colors colorOffsets1
          | _, _ => Option.none
        | _, _ => Option.none
    else some (colorCount, colors, colorOffsets)

/-- The loop `for (i = 1; i < colorCount - 1; i++)` of `gradientStitchCode` that moves
coincident points, run over the indices it visits. -/
def nudgeCoincident : List Nat → List SkScalar → Option (List SkScalar)
  | [], colorOffsets => some colorOffsets
  | i :: rest, colorOffsets =>
    match colorOffsets[i - 1]?, colorOffsets[i]? with
    | some a, some b =>
      nudgeCoincident rest (if a = b then colorOffsets.set i (b + kStitchEpsilon) else colorOffsets)
    | _, _ => Option.none

/-- The check "last 2 stops coincide" of `gradientStitchCode`, at the index `i` the
preceding loop stopped at. -/
def fixLastStops (i : Nat) (colorOffsets : List SkScalar) : Option (List SkScalar) :=
  match colorOffsets[i - 1]?, colorOffsets[i]? with
  | some a, some b =>
    some (if a = b then colorOffsets.set (i - 1) (a - kStitchEpsilon) else colorOffsets)
  | _, _ => Option.none

/-- The stops of `gradientStitchCode` after its three normalising steps: the stop count,
the colours and the offsets. -/
def normalizedStops (info : GradientInfo) : Option (Nat × List SkColor × List SkScalar) :=
  if info.fColorCount ≤ info.fColors.length ∧ info.fColorCount ≤ info.fColorOffsets.length then
    match normalizeStops info.fColorCount 1 info.fColorCount
            (info.fColors.take info.fColorCount) (info.fColorOffsets.take info.fColorCount) with
    | some (colorCount, colors, colorOffsets) =>
      match nudgeCoincident (List.range' 1 (colorCount - 2)) colorOffsets with
      | some colorOffsets1 =>
        match fixLastStops (max 1 (colorCount - 1)) colorOffsets1 with
        | some colorOffsets2 => some (colorCount, colors, colorOffsets2)
        | Option.none => Option.none
      | Option.none => Option.none
    | Option.none => Option.none
  else Option.none

/-- The entry `colorData[idx]` of `gradientStitchCode`. -/
def colorTupleOf (c : SkColor) : ColorTuple := (SkColorGetR c, SkColorGetG c, SkColorGetB c)

/-- The loop `for (int idx = 1; idx < colorCount; idx++)` of `gradientStitchCode`, run over
the indices it visits; the result is `(encode, bounds, functions)`. -/
def stitchLoop (colorData : List ColorTuple) (colorOffsets : List SkScalar) :
    List Nat → Option (List SkPDFObject × List SkPDFObject × List SkPDFObject)
  | [] => some ([], [], [])
  | idx :: rest =>
    match colorOffsets[idx - 1]?, colorData[idx - 1]?, colorData[idx]?,
          stitchLoop colorData colorOffsets rest with
    | some o, some c1, some c2, some (encode, bounds, functions) =>
      some (SkPDFObject.scalar 0 :: SkPDFObject.scalar 1 :: encode,
            (if idx > 1 then SkPDFObject.scalar o :: bounds else bounds),
            createInterpolationFunction c1 c2 :: functions)
    | _, _, _, _ => Option.none

/-- The function `gradientStitchCode`; `none` is an out-of-bounds read. -/
def gradientStitchCode (info : GradientInfo) : Option SkPDFObject :=
  match normalizedStops info with
  | Option.none => Option.none
  | some (colorCount, colors, colorOffsets) =>
    if colorCount ≤ colors.length then
      let colorData := (colors.take colorCount).map colorTupleOf
      -- no need for a stitch function if there are only 2 stops.
      if colorCount = 2 then
        match colorData[0]?, colorData[1]? with
        | some c0, some c1 => some (createInterpolationFunction c0 c1)
        | _, _ => Option.none
      else
        match stitchLoop colorData colorOffsets (List.range' 1 (colorCount - 1)) with
        | some (encode, bounds, functions) =>
          some (SkPDFObject.dict
            [("Domain", SkPDFObject.array [SkPDFObject.int 0, SkPDFObject.int 1]),
             ("FunctionType", SkPDFObject.int 3),
             ("Encode", SkPDFObject.array encode),
             ("Bounds", SkPDFObject.array bounds),
             ("Functions", SkPDFObject.array functions)])
        | Option.none => Option.none
    else Option.none

/-! ## Matrices and the platform -/

/-- Modelled from the spec: what this file takes from the platform without its code being
under `src`: the scalar square root behind `SkPoint::length`, `SkPoint::Distance` and
`SkMatrix::mapRadius`, and the checksum `SkChecksum::Hash32` over a buffer of words. -/
structure Platform where
  SkScalarSqrt : SkScalar → SkScalar
  Hash32 : List ℚ → Nat

/-- Modelled from the spec: the identity `SkMatrix::I()`. -/
def SkMatrix.I : SkMatrix := ⟨1, 0, 0, 0, 1, 0, 0, 0, 1⟩

/-- Modelled from the spec: the matrix product `a * b` behind `preConcat`/`postConcat`. -/
def SkMatrix.concat (a b : SkMatrix) : SkMatrix :=
  ⟨a.sx * b.sx + a.kx * b.ky + a.tx * b.p0,
   a.sx * b.kx + a.kx * b.sy + a.tx * b.p1,
   a.sx * b.tx + a.kx * b.ty + a.tx * b.p2,
   a.ky * b.sx + a.sy * b.ky + a.ty * b.p0,
   a.ky * b.kx + a.sy * b.sy + a.ty * b.p1,
   a.ky * b.tx + a.sy * b.ty + a.ty * b.p2,
   a.p0 * b.sx + a.p1 * b.ky + a.p2 * b.p0,
   a.p0 * b.kx + a.p1 * b.sy + a.p2 * b.p1,
   a.p0 * b.tx + a.p1 * b.ty + a.p2 * b.p2⟩

/-- Modelled from the spec: `SkMatrix::preConcat`, `this = this * other`. -/
def SkMatrix.preConcat (m other : SkMatrix) : SkMatrix := m.concat other

/-- Modelled from the spec: `SkMatrix::hasPerspective`: the bottom row is not (0, 0, 1),
the "projective row" of the transform. -/
def SkMatrix.hasPerspective (m : SkMatrix) : Bool := m.p0 != 0 || m.p1 != 0 || m.p2 != 1

/-- Modelled from the spec: `SkMatrix::setSinCos`, the rotation with the given sine and
cosine. -/
def SkMatrix.setSinCos (sinV cosV : SkScalar) : SkMatrix := ⟨cosV, -sinV, 0, sinV, cosV, 0, 0, 0, 1⟩

/-- Modelled from the spec: `SkMatrix::preScale`, `this = this * scale(sx, sy)`. -/
def SkMatrix.preScale (m : SkMatrix) (sx sy : SkScalar) : SkMatrix :=
  m.concat ⟨sx, 0, 0, 0, sy, 0, 0, 0, 1⟩

/-- Modelled from the spec: `SkMatrix::postTranslate`, `this = translate(dx, dy) * this`. -/
def SkMatrix.postTranslate (m : SkMatrix) (dx dy : SkScalar) : SkMatrix :=
  SkMatrix.concat ⟨1, 0, dx, 0, 1, dy, 0, 0, 1⟩ m

/-- The determinant of a matrix. -/
def SkMatrix.det (m : SkMatrix) : SkScalar :=
  m.sx * (m.sy * m.p2 - m.ty * m.p1) - m.kx * (m.ky * m.p2 - m.ty * m.p0) +
  m.tx * (m.ky * m.p1 - m.sy * m.p0)

/-- Modelled from the spec: `SkMatrix::invert`, which fails on a singular matrix. -/
def SkMatrix.invert (m : SkMatrix) : Option SkMatrix :=
  if m.det = 0 then Option.none
  else
    let d := m.det
    some ⟨(m.sy * m.p2 - m.ty * m.p1) / d, (m.tx * m.p1 - m.kx * m.p2) / d,
          (m.kx * m.ty - m.tx * m.sy) / d,
          (m.ty * m.p0 - m.ky * m.p2) / d, (m.sx * m.p2 - m.tx * m.p0) / d,
          (m.tx * m.ky - m.sx * m.ty) / d,
          (m.ky * m.p1 - m.sy * m.p0) / d, (m.kx * m.p0 - m.sx * m.p1) / d,
          (m.sx * m.sy - m.kx * m.ky) / d⟩

/-- Modelled from the spec: `SkMatrix::mapPoints` on one point. -/
def SkMatrix.mapPoint (m : SkMatrix) (p : SkPoint) : SkPoint :=
  let w := m.p0 * p.fX + m.p1 * p.fY + m.p2
  ⟨(m.sx * p.fX + m.kx * p.fY + m.tx) / w, (m.ky * p.fX + m.sy * p.fY + m.ty) / w⟩

/-- Modelled from the spec: `SkPoint::length`. -/
def SkPoint.length (pf : Platform) (p : SkPoint) : SkScalar :=
  pf.SkScalarSqrt (p.fX * p.fX + p.fY * p.fY)

/-- Modelled from the spec: `SkPoint::Distance`. -/
def SkPoint.Distance (pf : Platform) (a b : SkPoint) : SkScalar :=
  SkPoint.length pf ⟨a.fX - b.fX, a.fY - b.fY⟩

/-- Modelled from the spec: `SkMatrix::mapRadius`, the geometric mean of the lengths of
the images of the two axis vectors of that length. -/
def SkMatrix.mapRadius (pf : Platform) (m : SkMatrix) (radius : SkScalar) : SkScalar :=
  let d0 := SkPoint.length pf ⟨m.sx * radius, m.ky * radius⟩
  let d1 := SkPoint.length pf ⟨m.kx * radius, m.sy * radius⟩
  pf.SkScalarSqrt (d0 * d1)

/-- Modelled from the spec: `SkMatrix::mapRect`, the bounds of the four mapped corners. -/
def SkMatrix.mapRect (m : SkMatrix) (r : SkRect) : SkRect :=
  let a := m.mapPoint ⟨r.fLeft, r.fTop⟩
  let b := m.mapPoint ⟨r.fRight, r.fTop⟩
  let c := m.mapPoint ⟨r.fRight, r.fBottom⟩
  let d := m.mapPoint ⟨r.fLeft, r.fBottom⟩
  ⟨min (min a.fX b.fX) (min c.fX d.fX), min (min a.fY b.fY) (min c.fY d.fY),
   max (max a.fX b.fX) (max c.fX d.fX), max (max a.fY b.fY) (max c.fY d.fY)⟩

/-- Modelled from the spec: `SkPDFUtils::InverseTransformBBox`: the bounding box mapped
through the inverse of the matrix, failing when the matrix has no inverse. -/
def InverseTransformBBox (m : SkMatrix) (bbox : SkRect) : Option SkRect :=
  match m.invert with
  | some inverse => some (inverse.mapRect bbox)
  | Option.none => Option.none

/-- Modelled from the spec: `SkRect::Make(const SkIRect&)`. -/
def SkRect.Make (r : SkIRect) : SkRect := ⟨r.fLeft, r.fTop, r.fRight, r.fBottom⟩

/-- Modelled from the spec: `SkScalarNearlyZero` with the tolerance 1/4096. -/
def SkScalarNearlyZero (x : SkScalar) : Bool := decide (|x| ≤ 1 / 4096)

/-- Modelled from the spec: `SkPDFUtils::MatrixToArray`, the six affine entries. -/
def MatrixToArray (m : SkMatrix) : SkPDFObject :=
  SkPDFObject.array [SkPDFObject.scalar m.sx, SkPDFObject.scalar m.ky, SkPDFObject.scalar m.kx,
                     SkPDFObject.scalar m.sy, SkPDFObject.scalar m.tx, SkPDFObject.scalar m.ty]

/-- The function `unit_to_points_matrix`. -/
def unit_to_points_matrix (pf : Platform) (pts : SkPoint × SkPoint) : SkMatrix :=
  let vec : SkPoint := ⟨pts.2.fX - pts.1.fX, pts.2.fY - pts.1.fY⟩
  let mag := SkPoint.length pf vec
  let inv := if mag ≠ 0 then 1 / mag else 0
  let vec1 : SkPoint := ⟨vec.fX * inv, vec.fY * inv⟩
  ((SkMatrix.setSinCos vec1.fY vec1.fX).preScale mag mag).postTranslate pts.1.fX pts.1.fY

/-- Modelled from the spec: `SkScalarInvert`, the reciprocal `1 / x`; `none` is a division
by zero. -/
def SkScalarInvert (x : SkScalar) : Option SkScalar :=
  if x = 0 then Option.none else some (1 / x)

/-- The function `unit_to_points_matrix` with its division made visible: `none` when
`SkScalarInvert` is reached with the length 0. -/
def unit_to_points_matrix_checked (pf : Platform) (pts : SkPoint × SkPoint) :
    Option SkMatrix :=
  let vec : SkPoint := ⟨pts.2.fX - pts.1.fX, pts.2.fY - pts.1.fY⟩
  let mag := SkPoint.length pf vec
  let inv : Option SkScalar := if mag ≠ 0 then SkScalarInvert mag else some 0
  match inv with
  | some inv1 =>
    let vec1 : SkPoint := ⟨vec.fX * inv1, vec.fY * inv1⟩
    some (((SkMatrix.setSinCos vec1.fY vec1.fX).preScale mag mag).postTranslate
      pts.1.fX pts.1.fY)
  | Option.none => Option.none

/-! ## The custom evaluator: tile mapping and geometry -/

/-- The function `tileModeCode`. -/
def tileModeCode (mode : SkTileMode) : List Tok :=
  if mode = SkTileMode.kRepeat then
    [Tok.op Op.dup, Tok.op Op.truncate, Tok.op Op.sub,
     Tok.op Op.dup, Tok.num 0, Tok.op Op.le, Tok.lbrace, Tok.num 1, Tok.op Op.add, Tok.rbrace,
     Tok.op Op.if_]
  else if mode = SkTileMode.kMirror then
    [Tok.op Op.abs, Tok.op Op.dup, Tok.op Op.truncate, Tok.op Op.dup, Tok.op Op.cvi,
     Tok.num 2, Tok.op Op.mod, Tok.num 0, Tok.op Op.gt, Tok.num 3, Tok.num 1, Tok.op Op.roll,
     Tok.op Op.sub, Tok.op Op.exch, Tok.lbrace, Tok.num 1, Tok.op Op.exch, Tok.op Op.sub,
     Tok.rbrace, Tok.op Op.if_]
  else []

/-- The function `apply_perspective_to_coordinates`. -/
def apply_perspective_to_coordinates (inversePerspectiveMatrix : SkMatrix) : List Tok :=
  if !inversePerspectiveMatrix.hasPerspective then []
  else
    let p0 := inversePerspectiveMatrix.p0
    let p1 := inversePerspectiveMatrix.p1
    let p2 := inversePerspectiveMatrix.p2
    [Tok.op Op.dup, AppendScalar p1, Tok.op Op.mul, Tok.num 2, Tok.op Op.index,
     AppendScalar p0, Tok.op Op.mul, AppendScalar p2, Tok.op Op.add, Tok.op Op.add,
     Tok.num 3, Tok.num 1, Tok.op Op.roll, Tok.num 2, Tok.op Op.index, Tok.op Op.div,
     Tok.num 3, Tok.num 1, Tok.op Op.roll, Tok.op Op.exch, Tok.op Op.div, Tok.op Op.exch]

/-- The function `linearCode`. -/
def linearCode (info : GradientInfo) (perspectiveRemover : SkMatrix) : Option (List Tok) :=
  match gradient_function_code info with
  | some code =>
    some ([Tok.lbrace] ++ apply_perspective_to_coordinates perspectiveRemover ++
      [Tok.op Op.pop] ++ tileModeCode info.fTileMode ++ code ++ [Tok.rbrace])
  | Option.none => Option.none

/-- The function `radialCode`. -/
def radialCode (info : GradientInfo) (perspectiveRemover : SkMatrix) : Option (List Tok) :=
  match gradient_function_code info with
  | some code =>
    some ([Tok.lbrace] ++ apply_perspective_to_coordinates perspectiveRemover ++
      [Tok.op Op.dup, Tok.op Op.mul, Tok.op Op.exch, Tok.op Op.dup, Tok.op Op.mul,
       Tok.op Op.add, Tok.op Op.sqrt] ++ tileModeCode info.fTileMode ++ code ++ [Tok.rbrace])
  | Option.none => Option.none

/-- The text of `twoPointConicalCode` that computes `b`, `b^2` and `c` from `x y`; it
leaves `c b b^2 c` on the stack. -/
def conicalCoefficientCode (dx dy r0 dr : SkScalar) : List Tok :=
  [Tok.num 2, Tok.op Op.copy,
   -- b = -2 * (y * dy + x * dx + r0 * dr), and b^2
   AppendScalar dy, Tok.op Op.mul, Tok.op Op.exch, AppendScalar dx, Tok.op Op.mul,
   Tok.op Op.add, AppendScalar (r0 * dr), Tok.op Op.add, Tok.num (-2), Tok.op Op.mul,
   Tok.op Op.dup, Tok.op Op.dup, Tok.op Op.mul,
   -- c = x^2 + y^2 - radius0^2
   Tok.num 4, Tok.num 2, Tok.op Op.roll, Tok.op Op.dup, Tok.op Op.mul, Tok.op Op.exch,
   Tok.op Op.dup, Tok.op Op.mul, Tok.op Op.add, AppendScalar (r0 * r0), Tok.op Op.sub,
   Tok.op Op.dup, Tok.num 4, Tok.num 1, Tok.op Op.roll]

/-- The text of `twoPointConicalCode` for `a == 0`: `t = -c/b`, kept when `radius(t)` is
not negative. -/
def conicalLinearCode (r0 dr : SkScalar) : List Tok :=
  [Tok.op Op.pop, Tok.op Op.pop, Tok.op Op.div, Tok.op Op.neg, Tok.op Op.dup,
   AppendScalar dr, Tok.op Op.mul, AppendScalar r0, Tok.op Op.add,
   Tok.num 0, Tok.op Op.lt, Tok.lbrace, Tok.op Op.pop, Tok.op Op.false, Tok.rbrace,
   Tok.lbrace, Tok.op Op.true, Tok.rbrace, Tok.op Op.ifelse]

/-- The text of `twoPointConicalCode` inside the `d >= 0` branch that computes the two
roots `q / a` and `c / q` from `c b d`. -/
def conicalRootsCode (a : SkScalar) : List Tok :=
  [Tok.op Op.sqrt, Tok.op Op.exch, Tok.op Op.dup, Tok.num 0, Tok.op Op.lt,
   Tok.lbrace, Tok.op Op.exch, Tok.num (-1), Tok.op Op.mul, Tok.rbrace, Tok.op Op.if_,
   Tok.op Op.add, Tok.num (-1 / 2), Tok.op Op.mul, Tok.op Op.dup,
   AppendScalar a, Tok.op Op.div,
   Tok.num 3, Tok.num 1, Tok.op Op.roll, Tok.op Op.div]

/-- The text of `twoPointConicalCode` inside the `d >= 0` branch that selects between the
two roots on the stack. -/
def conicalSelectCode (r0 dr : SkScalar) : List Tok :=
  [Tok.num 2, Tok.op Op.copy, Tok.op Op.gt, Tok.lbrace, Tok.op Op.exch, Tok.rbrace,
   Tok.op Op.if_,
   Tok.op Op.dup, AppendScalar dr, Tok.op Op.mul, AppendScalar r0, Tok.op Op.add,
   Tok.num 0, Tok.op Op.gt, Tok.lbrace, Tok.op Op.exch, Tok.op Op.pop, Tok.op Op.true,
   Tok.rbrace,
   Tok.lbrace, Tok.op Op.pop, Tok.op Op.dup, AppendScalar dr, Tok.op Op.mul,
   AppendScalar r0, Tok.op Op.add,
   Tok.num 0, Tok.op Op.le, Tok.lbrace, Tok.op Op.pop, Tok.op Op.false, Tok.rbrace,
   Tok.lbrace, Tok.op Op.true, Tok.rbrace, Tok.op Op.ifelse,
   Tok.rbrace, Tok.op Op.ifelse]

/-- The text of `twoPointConicalCode` for `a != 0`: the discriminant test around the
roots and their selection. -/
def conicalQuadraticCode (a r0 dr : SkScalar) : List Tok :=
  [AppendScalar (a * 4), Tok.op Op.mul, Tok.op Op.sub, Tok.op Op.dup,
   Tok.num 0, Tok.op Op.ge, Tok.lbrace] ++
  conicalRootsCode a ++ conicalSelectCode r0 dr ++
  [Tok.rbrace, Tok.lbrace, Tok.op Op.pop, Tok.op Op.pop, Tok.op Op.pop, Tok.op Op.false,
   Tok.rbrace, Tok.op Op.ifelse]

/-- The function `twoPointConicalCode`. -/
def twoPointConicalCode (info : GradientInfo) (perspectiveRemover : SkMatrix) :
    Option (List Tok) :=
  let dx := info.fPoint.2.fX - info.fPoint.1.fX
  let dy := info.fPoint.2.fY - info.fPoint.1.fY
  let r0 := info.fRadius.1
  let dr := info.fRadius.2 - info.fRadius.1
  let a := dx * dx + dy * dy - dr * dr
  match gradient_function_code info with
  | some code =>
    some ([Tok.lbrace] ++ apply_perspective_to_coordinates perspectiveRemover ++
      conicalCoefficientCode dx dy r0 dr ++
      (if a = 0 then conicalLinearCode r0 dr else conicalQuadraticCode a r0 dr) ++
      [Tok.lbrace] ++ tileModeCode info.fTileMode ++ code ++
      [Tok.rbrace, Tok.lbrace, Tok.num 0, Tok.num 0, Tok.num 0, Tok.rbrace, Tok.op Op.ifelse,
       Tok.rbrace])
  | Option.none => Option.none

/-- The function `sweepCode`; it does not use `perspectiveRemover`. -/
def sweepCode (info : GradientInfo) (_perspectiveRemover : SkMatrix) : Option (List Tok) :=
  match gradient_function_code info with
  | some code =>
    some ([Tok.lbrace, Tok.op Op.exch, Tok.op Op.atan, Tok.num 360, Tok.op Op.div] ++
      tileModeCode info.fTileMode ++ code ++ [Tok.rbrace])
  | Option.none => Option.none

/-- The integer nearest to `m`, the even one of the two when `m` lies half way. -/
def roundHalfEven (m : ℚ) : ℤ :=
  if m - ⌊m⌋ < 1 / 2 then ⌊m⌋
  else if 1 / 2 < m - ⌊m⌋ then ⌊m⌋ + 1
  else if ⌊m⌋ % 2 = 0 then ⌊m⌋ else ⌊m⌋ + 1

/-- The value a `float` operation stores when its exact result is `x`: the binary32 number
nearest to `x`, ties to even (24 significant bits, least exponent -126).  The exponent is
not bounded above: where the machine would store an infinity the test of `FixUpRadius`
fails for it as it fails for the number kept here. -/
def roundToFloat (x : ℚ) : ℚ :=
  if x = 0 then 0
  else roundHalfEven (x / 2 ^ (max (Int.log 2 |x|) (-126) - 23)) *
    2 ^ (max (Int.log 2 |x|) (-126) - 23)

/-- The literal `0.002f`: the binary32 number nearest to 0.002. -/
def kTouchingTolerance : SkScalar := 8589935 / 4294967296

/-- The function `FixUpRadius` on `(r1, r2)`; the points are not changed.  The two
subtractions and the addition `r += 0.002f` are `float` operations and store rounded
results; `fabs` and the comparison with `0.002f` are exact. -/
def FixUpRadius (pf : Platform) (p1 : SkPoint) (r1 : SkScalar) (p2 : SkPoint) (r2 : SkScalar) :
    SkScalar × SkScalar :=
  let distance := SkPoint.Distance pf p1 p2
  let subtractRadii := |roundToFloat (r1 - r2)|
  if |roundToFloat (distance - subtractRadii)| < kTouchingTolerance then
    if r1 > r2 then (roundToFloat (r1 + kTouchingTolerance), r2)
    else (r1, roundToFloat (r2 + kTouchingTolerance))
  else (r1, r2)

/-- The function `split_perspective`; the result is `(affine, perspectiveInverse)`. -/
def split_perspective (inM : SkMatrix) : Option (SkMatrix × SkMatrix) :=
  let p2 := inM.p2
  if SkScalarNearlyZero p2 then Option.none
  else
    let zero : SkScalar := 0
    let one : SkScalar := 1
    let sx := inM.sx
    let kx := inM.kx
    let tx := inM.tx
    let ky := inM.ky
    let sy := inM.sy
    let ty := inM.ty
    let p0 := inM.p0
    let p1 := inM.p1
    let perspectiveInverse : SkMatrix :=
      ⟨one, zero, zero, zero, one, zero, -p0 / p2, -p1 / p2, 1 / p2⟩
    let affine : SkMatrix :=
      ⟨sx - p0 * tx / p2, kx - p1 * tx / p2, tx / p2,
       ky - p0 * ty / p2, sy - p1 * ty / p2, ty / p2,
       zero, zero, one⟩
    some (affine, perspectiveInverse)

/-! ## The ramp strategy selector: `make_function_shader` -/

/-- Modelled from the spec: `emitStream(dict, bytes) -> ObjectHandle` (`SkPDFStreamOut`). -/
def SkPDFStreamOut (entries : List (String × SkPDFObject)) (content : StreamContent)
    (doc : SkPDFDocument) : SkPDFIndirectReference × SkPDFDocument :=
  doc.emit (SkPDFObject.stream entries content)

/-- The function `make_ps_function`. -/
def make_ps_function (psCode : List Tok) (domain range : SkPDFObject) (doc : SkPDFDocument) :
    SkPDFIndirectReference × SkPDFDocument :=
  SkPDFStreamOut [("FunctionType", SkPDFObject.int 4), ("Domain", domain), ("Range", range)]
    (StreamContent.psCode psCode) doc

/-- The matrix `finalMatrix` at the start of `make_function_shader`. -/
def initialFinalMatrix (state : Key) : SkMatrix :=
  state.fCanvasTransform.preConcat state.fShaderTransform

/-- The flag `doStitchFunctions` of `make_function_shader`. -/
def doStitchFunctions (state : Key) : Bool :=
  (decide (state.fType = GradientType.kLinear) ||
   decide (state.fType = GradientType.kRadial) ||
   decide (state.fType = GradientType.kConical)) &&
  decide (state.fInfo.fTileMode = SkTileMode.kClamp) &&
  !(initialFinalMatrix state).hasPerspective

/-- The array `Coords` on the native path of `make_function_shader`. -/
def nativeCoords (pf : Platform) (state : Key) : SkPDFObject :=
  let info := state.fInfo
  if state.fType = GradientType.kConical then
    let pt1 := info.fPoint.1
    let pt2 := info.fPoint.2
    let r := FixUpRadius pf pt1 info.fRadius.1 pt2 info.fRadius.2
    SkPDFObject.array [SkPDFObject.scalar pt1.fX, SkPDFObject.scalar pt1.fY,
                       SkPDFObject.scalar r.1, SkPDFObject.scalar pt2.fX,
                       SkPDFObject.scalar pt2.fY, SkPDFObject.scalar r.2]
  else if state.fType = GradientType.kRadial then
    let pt1 := info.fPoint.1
    SkPDFObject.array [SkPDFObject.scalar pt1.fX, SkPDFObject.scalar pt1.fY, SkPDFObject.int 0,
                       SkPDFObject.scalar pt1.fX, SkPDFObject.scalar pt1.fY,
                       SkPDFObject.scalar info.fRadius.1]
  else
    let pt1 := info.fPoint.1
    let pt2 := info.fPoint.2
    SkPDFObject.array [SkPDFObject.scalar pt1.fX, SkPDFObject.scalar pt1.fY,
                       SkPDFObject.scalar pt2.fX, SkPDFObject.scalar pt2.fY]

/-- The first `switch` of the custom path of `make_function_shader`: the two points handed
to `unit_to_points_matrix`, or `none` for a type that is not a gradient. -/
def transformPointsOf (state : Key) : Option (SkPoint × SkPoint) :=
  let p0 := state.fInfo.fPoint.1
  match state.fType with
  | GradientType.kLinear => some (p0, state.fInfo.fPoint.2)
  | GradientType.kRadial => some (p0, ⟨p0.fX + state.fInfo.fRadius.1, p0.fY⟩)
  | GradientType.kConical => some (p0, ⟨p0.fX + 1, p0.fY⟩)
  | GradientType.kSweep => some (p0, ⟨p0.fX + 1, p0.fY⟩)
  | GradientType.kColor => Option.none
  | GradientType.kNone => Option.none

/-- The second `switch` of the custom path of `make_function_shader`. -/
def functionCodeOf (ty : GradientType) (infoCopy : GradientInfo)
    (perspectiveInverseOnly : SkMatrix) : Option (List Tok) :=
  match ty with
  | GradientType.kLinear => linearCode infoCopy perspectiveInverseOnly
  | GradientType.kRadial => radialCode infoCopy perspectiveInverseOnly
  | GradientType.kConical => twoPointConicalCode infoCopy perspectiveInverseOnly
  | GradientType.kSweep => sweepCode infoCopy perspectiveInverseOnly
  | _ => some []

/-- The pattern dictionary `pdfFunctionShader` emitted at the end of
`make_function_shader`. -/
def patternDict (finalMatrix : SkMatrix) (pdfShader : SkPDFObject) : SkPDFObject :=
  SkPDFObject.dict
    [("Type", SkPDFObject.name "Pattern"), ("PatternType", SkPDFObject.int 2),
     ("Matrix", MatrixToArray finalMatrix), ("Shading", pdfShader)]

/-- The result type of the calls that emit into the document: `none` is undefined
behaviour (an out-of-bounds read or a failed assertion in the code generators); a defined
run returns the reference, which may be the empty one, and the document after the run. -/
abbrev Emitted := Option (SkPDFIndirectReference × SkPDFDocument)

/-- The branch `if (doStitchFunctions)` of `make_function_shader`, up to the emission of
the pattern: the native ramp. -/
def nativeShader (pf : Platform) (doc : SkPDFDocument) (state : Key) : Emitted :=
  let info := state.fInfo
  let finalMatrix := initialFinalMatrix state
  match gradientStitchCode info with
  | Option.none => Option.none
  | some function =>
    let shadingType : Int := if state.fType = GradientType.kLinear then 2 else 3
    let pdfShader := SkPDFObject.dict
      [("Function", function),
       ("Extend", SkPDFObject.array [SkPDFObject.bool true, SkPDFObject.bool true]),
       ("Coords", nativeCoords pf state),
       ("ShadingType", SkPDFObject.int shadingType),
       ("ColorSpace", SkPDFObject.name "DeviceRGB")]
    some (doc.emit (patternDict finalMatrix pdfShader))

/-- The branch `else` of `make_function_shader`, up to the emission of the pattern: the
custom evaluator. -/
def customShader (pf : Platform) (doc : SkPDFDocument) (state : Key) : Emitted :=
  let info := state.fInfo
  let finalMatrix := initialFinalMatrix state
  match transformPointsOf state with
  | Option.none => some (SkPDFIndirectReference.none, doc)
  | some transformPoints =>
    let mapperMatrix := unit_to_points_matrix pf transformPoints
    let finalMatrix1 := finalMatrix.preConcat mapperMatrix
    let split : Option (SkMatrix × SkMatrix) :=
      if finalMatrix1.hasPerspective then split_perspective finalMatrix1
      else some (finalMatrix1, SkMatrix.I)
    match split with
    | Option.none => some (SkPDFIndirectReference.none, doc)
    | some (finalMatrix2, perspectiveInverseOnly) =>
      match InverseTransformBBox finalMatrix2 (SkRect.Make state.fBBox) with
      | Option.none => some (SkPDFIndirectReference.none, doc)
      | some bbox =>
        let infoCopy : Option GradientInfo :=
          if state.fType = GradientType.kConical then
            match mapperMatrix.invert with
            | Option.none => Option.none
            | some inverseMapperMatrix =>
              some { info with
                fPoint := (inverseMapperMatrix.mapPoint info.fPoint.1,
                           inverseMapperMatrix.mapPoint info.fPoint.2)
                fRadius := (inverseMapperMatrix.mapRadius pf info.fRadius.1,
                            inverseMapperMatrix.mapRadius pf info.fRadius.2) }
          else some info
        match infoCopy with
        | Option.none => some (SkPDFIndirectReference.none, doc)
        | some infoCopy1 =>
          match functionCodeOf state.fType infoCopy1 perspectiveInverseOnly with
          | Option.none => Option.none
          | some functionCode =>
            let domain := SkPDFObject.array
              [SkPDFObject.scalar bbox.fLeft, SkPDFObject.scalar bbox.fRight,
               SkPDFObject.scalar bbox.fTop, SkPDFObject.scalar bbox.fBottom]
            let rangeObject := SkPDFObject.array
              [SkPDFObject.int 0, SkPDFObject.int 1, SkPDFObject.int 0, SkPDFObject.int 1,
               SkPDFObject.int 0, SkPDFObject.int 1]
            let fn := make_ps_function functionCode domain rangeObject doc
            let pdfShader := SkPDFObject.dict
              [("Domain", domain),
               ("Function", SkPDFObject.ref fn.1),
               ("ShadingType", SkPDFObject.int 1),
               ("ColorSpace", SkPDFObject.name "DeviceRGB")]
            some (fn.2.emit (patternDict finalMatrix2 pdfShader))

/-- The function `make_function_shader`. -/
def make_function_shader (pf : Platform) (doc : SkPDFDocument) (state : Key) : Emitted :=
  if doStitchFunctions state then nativeShader pf doc state else customShader pf doc state

/-- The object a reference points to in a document, or the object itself when it is not a
reference. -/
def SkPDFDocument.resolve (doc : SkPDFDocument) : SkPDFObject → Option SkPDFObject
  | SkPDFObject.ref r => doc.fObjects[(r.fValue - 1).toNat]?
  | obj => some obj

/-- The shading dictionary of the pattern that a run emitted last. -/
def emittedShading (out : SkPDFIndirectReference × SkPDFDocument) : Option SkPDFObject :=
  match out.2.fObjects.getLast? with
  | some pattern => pattern.lookup "Shading"
  | Option.none => Option.none

/-- The function object of the shading that a run emitted last: the entry `Function`,
followed through the document when it is a reference. -/
def emittedFunction (out : SkPDFIndirectReference × SkPDFDocument) : Option SkPDFObject :=
  match emittedShading out with
  | some shading =>
    match shading.lookup "Function" with
    | some f => out.2.resolve f
    | Option.none => Option.none
  | Option.none => Option.none

/-- The `FunctionType` of the function object of the shading that a run emitted last. -/
def emittedFunctionType (out : SkPDFIndirectReference × SkPDFDocument) : Option Int :=
  match emittedFunction out with
  | some f =>
    match f.lookup "FunctionType" with
    | some (SkPDFObject.int n) => some n
    | _ => Option.none
  | Option.none => Option.none

/-- The `ShadingType` of the shading that a run emitted last. -/
def emittedShadingType (out : SkPDFIndirectReference × SkPDFDocument) : Option Int :=
  match emittedShading out with
  | some shading =>
    match shading.lookup "ShadingType" with
    | some (SkPDFObject.int n) => some n
    | _ => Option.none
  | Option.none => Option.none

/-! ## The alpha decomposer and the cache -/

/-- The function `hash(const SkShaderBase::GradientInfo&)`. -/
def hashInfo (pf : Platform) (v : GradientInfo) : Nat :=
  pf.Hash32
    [(v.fColorCount : ℚ),
     (pf.Hash32 ((v.fColors.take v.fColorCount).map (fun c => (c : ℚ))) : ℚ),
     (pf.Hash32 (v.fColorOffsets.take v.fColorCount) : ℚ),
     (pf.Hash32 [v.fPoint.1.fX, v.fPoint.1.fY, v.fPoint.2.fX, v.fPoint.2.fY] : ℚ),
     (pf.Hash32 [v.fRadius.1, v.fRadius.2] : ℚ),
     (match v.fTileMode with
      | SkTileMode.kClamp => 0
      | SkTileMode.kRepeat => 1
      | SkTileMode.kMirror => 2),
     (v.fGradientFlags : ℚ)]

/-- The words of a matrix, as hashed by `SkChecksum::Hash32(&m, sizeof(SkMatrix))`. -/
def SkMatrix.words (m : SkMatrix) : List ℚ :=
  [m.sx, m.kx, m.tx, m.ky, m.sy, m.ty, m.p0, m.p1, m.p2]

/-- The function `hash(const SkPDFGradientShader::Key&)`. -/
def hashKey (pf : Platform) (k : Key) : Nat :=
  pf.Hash32
    [(match k.fType with
      | GradientType.kNone => 0
      | GradientType.kColor => 1
      | GradientType.kLinear => 2
      | GradientType.kRadial => 3
      | GradientType.kSweep => 4
      | GradientType.kConical => 5),
     (hashInfo pf k.fInfo : ℚ),
     (pf.Hash32 k.fCanvasTransform.words : ℚ),
     (pf.Hash32 k.fShaderTransform.words : ℚ),
     (pf.Hash32 [(k.fBBox.fLeft : ℚ), (k.fBBox.fTop : ℚ), (k.fBBox.fRight : ℚ),
                 (k.fBBox.fBottom : ℚ)] : ℚ)]

/-- The function `gradient_has_alpha`, with the loop run over the indices it visits. -/
def gradient_has_alpha_from (colors : List SkColor) : List Nat → Option Bool
  | [] => some false
  | i :: rest =>
    match colors[i]? with
    | some c => if SkColorGetA c != SK_AlphaOPAQUE then some true
                else gradient_has_alpha_from colors rest
    | Option.none => Option.none

/-- The function `gradient_has_alpha`; `none` is an out-of-bounds read. -/
def gradient_has_alpha (key : Key) : Option Bool :=
  gradient_has_alpha_from key.fInfo.fColors (List.range key.fInfo.fColorCount)

/-- The function `clone_key` on keys as values: arrays of `fColorCount` entries, `fHash`
left 0; `none` is an out-of-bounds read of the source arrays.  The pointers and the two
`new` are in `clone_key_heap` below. -/
def clone_key (k : Key) : Option Key :=
  if k.fInfo.fColorCount ≤ k.fInfo.fColors.length ∧
     k.fInfo.fColorCount ≤ k.fInfo.fColorOffsets.length then
    some { fType := k.fType
           fInfo := { k.fInfo with
             fColors := k.fInfo.fColors.take k.fInfo.fColorCount
             fColorOffsets := k.fInfo.fColorOffsets.take k.fInfo.fColorCount }
           fCanvasTransform := k.fCanvasTransform
           fShaderTransform := k.fShaderTransform
           fBBox := k.fBBox
           fHash := 0 }
  else Option.none

/-! ## The arrays behind the keys -/

/-- Reads entry `i` of the block at address `p`; `none` is a bad pointer or an index
outside the block. -/
def readBlock {α : Type} (blocks : List (List α)) (p i : Nat) : Option α :=
  match blocks[p]? with
  | some b => b[i]?
  | Option.none => Option.none

/-- Writes entry `i` of the block at address `p`; `none` is a bad pointer or an index
outside the block. -/
def writeBlock {α : Type} (blocks : List (List α)) (p i : Nat) (v : α) :
    Option (List (List α)) :=
  match blocks[p]? with
  | some b => if i < b.length then some (blocks.set p (b.set i v)) else Option.none
  | Option.none => Option.none

/-- The free store as far as keys use it: the `SkColor[]` blocks and the `SkScalar[]`
blocks allocated so far.  The address of a block is its position in its list, and
`new T[n]` appends a block of `n` entries. -/
structure Heap where
  colorBlocks : List (List SkColor)
  scalarBlocks : List (List SkScalar)

/-- The descriptor `SkShaderBase::GradientInfo` as it lies in memory: `fColors` and
`fColorOffsets` are pointers, here the addresses of their blocks. -/
structure GradientInfoImage where
  fColorCount : Nat
  fColors : Nat
  fColorOffsets : Nat
  fPoint : SkPoint × SkPoint
  fRadius : SkScalar × SkScalar
  fTileMode : SkTileMode
  fGradientFlags : Nat

/-- The key `SkPDFGradientShader::Key` as it lies in memory: `fColors` and `fStops` are
the owning pointers (`none` is `nullptr`) next to the descriptor with its own two
pointers. -/
structure KeyImage where
  fType : GradientType
  fInfo : GradientInfoImage
  fColors : Option Nat
  fStops : Option Nat
  fCanvasTransform : SkMatrix
  fShaderTransform : SkMatrix
  fBBox : SkIRect
  fHash : Nat

/-- The key a key image stands for in a heap: the arrays are the blocks its descriptor
points to; `none` when a pointer of the descriptor is bad. -/
def KeyImage.value (h : Heap) (k : KeyImage) : Option Key :=
  match h.colorBlocks[k.fInfo.fColors]?, h.scalarBlocks[k.fInfo.fColorOffsets]? with
  | some colors, some offsets =>
    some { fType := k.fType
           fInfo := { fColorCount := k.fInfo.fColorCount
                      fColors := colors
                      fColorOffsets := offsets
                      fPoint := k.fInfo.fPoint
                      fRadius := k.fInfo.fRadius
                      fTileMode := k.fInfo.fTileMode
                      fGradientFlags := k.fInfo.fGradientFlags }
           fCanvasTransform := k.fCanvasTransform
           fShaderTransform := k.fShaderTransform
           fBBox := k.fBBox
           fHash := k.fHash }
  | _, _ => Option.none

/-- The loop of `clone_key` over the indices it visits: entry `i` of both arrays of `k` is
copied to the arrays of `clone`; `none` is a read or a write outside a block. -/
def clone_key_loop (k clone : KeyImage) : List Nat → Heap → Option Heap
  | [], h => some h
  | i :: rest, h =>
    match readBlock h.scalarBlocks k.fInfo.fColorOffsets i with
    | Option.none => Option.none
    | some offset =>
      match writeBlock h.scalarBlocks clone.fInfo.fColorOffsets i offset with
      | Option.none => Option.none
      | some scalarBlocks1 =>
        match readBlock h.colorBlocks k.fInfo.fColors i with
        | Option.none => Option.none
        | some color =>
          match writeBlock h.colorBlocks clone.fInfo.fColors i color with
          | Option.none => Option.none
          | some colorBlocks1 =>
            clone_key_loop k clone rest ⟨colorBlocks1, scalarBlocks1⟩

/-- The function `clone_key` on key images: the two `new` append a block of `fColorCount`
entries each (their content is not specified; 0 stands for it), the clone owns them and
its descriptor points to them, and the loop fills them from the arrays of `k`. -/
def clone_key_heap (h : Heap) (k : KeyImage) : Option (Heap × KeyImage) :=
  let colors := h.colorBlocks.length
  let stops := h.scalarBlocks.length
  let h1 : Heap :=
    ⟨h.colorBlocks ++ [List.replicate k.fInfo.fColorCount 0],
     h.scalarBlocks ++ [List.replicate k.fInfo.fColorCount 0]⟩
  let clone0 : KeyImage :=
    { fType := k.fType
      fInfo := k.fInfo
      fColors := some colors
      fStops := some stops
      fCanvasTransform := k.fCanvasTransform
      fShaderTransform := k.fShaderTransform
      fBBox := k.fBBox
      fHash := 0 }
  let clone : KeyImage :=
    { clone0 with fInfo := { clone0.fInfo with fColors := colors, fColorOffsets := stops } }
  match clone_key_loop k clone (List.range clone.fInfo.fColorCount) h1 with
  | some h2 => some (h2, clone)
  | Option.none => Option.none

/-- Modelled from the spec: `SkPDFMakeResourceDict` as used by `get_gradient_resource_dict`:
the graphic states and the pattern shaders that are not the empty reference. -/
def get_gradient_resource_dict (functionShader gState : SkPDFIndirectReference) : SkPDFObject :=
  let patternShaders : List SkPDFObject :=
    if functionShader ≠ SkPDFIndirectReference.none then [SkPDFObject.ref functionShader] else []
  let graphicStates : List SkPDFObject :=
    if gState ≠ SkPDFIndirectReference.none then [SkPDFObject.ref gState] else []
  SkPDFObject.dict
    [("ExtGState", SkPDFObject.array graphicStates), ("Pattern", SkPDFObject.array patternShaders)]

/-- The function `create_pattern_fill_content`. -/
def create_pattern_fill_content (gsIndex patternIndex : Int) (bounds : SkRect) : StreamContent :=
  StreamContent.patternFill ⟨gsIndex, patternIndex, bounds⟩

/-- Modelled from the spec: `SkPDFUtils::RectToArray`. -/
def RectToArray (r : SkRect) : SkPDFObject :=
  SkPDFObject.array [SkPDFObject.scalar r.fLeft, SkPDFObject.scalar r.fTop,
                     SkPDFObject.scalar r.fRight, SkPDFObject.scalar r.fBottom]

/-- Modelled from the spec: `SkPDFMakeFormXObject`, which emits a form stream. -/
def SkPDFMakeFormXObject (doc : SkPDFDocument) (content : StreamContent)
    (mediaBox resources : SkPDFObject) (colorSpace : String) :
    SkPDFIndirectReference × SkPDFDocument :=
  SkPDFStreamOut
    [("Type", SkPDFObject.name "XObject"), ("Subtype", SkPDFObject.name "Form"),
     ("BBox", mediaBox), ("Resources", resources),
     ("Group", SkPDFObject.dict [("Type", SkPDFObject.name "Group"),
                                 ("S", SkPDFObject.name "Transparency"),
                                 ("CS", SkPDFObject.name colorSpace)])]
    content doc

/-- Modelled from the spec: `SkPDFGraphicState::GetSMaskGraphicState` in luminosity mode,
"an additional soft-mask graphics-state object (luminosity mode)". -/
def GetSMaskGraphicState (sMask : SkPDFIndirectReference) (doc : SkPDFDocument) :
    SkPDFIndirectReference × SkPDFDocument :=
  doc.emit (SkPDFObject.dict
    [("Type", SkPDFObject.name "ExtGState"),
     ("SMask", SkPDFObject.dict [("Type", SkPDFObject.name "Mask"),
                                 ("S", SkPDFObject.name "Luminosity"),
                                 ("G", SkPDFObject.ref sMask)])])

/-- The key `luminosityState` that `create_smask_graphic_state` derives: every colour is
replaced by the grey of its alpha, and the hash is recomputed. -/
def luminosityStateOf (pf : Platform) (state : Key) : Option Key :=
  match clone_key state with
  | Option.none => Option.none
  | some clone =>
    let luminosityColors := clone.fInfo.fColors.map
      (fun c => SkColorSetARGB 255 (SkColorGetA c) (SkColorGetA c) (SkColorGetA c))
    let luminosityState0 : Key :=
      { clone with fInfo := { clone.fInfo with fColors := luminosityColors } }
    some { luminosityState0 with fHash := hashKey pf luminosityState0 }

/-- The function `create_smask_graphic_state`; `find` is `find_pdf_shader`. -/
def create_smask_graphic_state (pf : Platform) (find : SkPDFDocument → Key → Bool → Emitted)
    (doc : SkPDFDocument) (state : Key) : Emitted :=
  match luminosityStateOf pf state with
  | Option.none => Option.none
  | some luminosityState =>
    match find doc luminosityState false with
    | Option.none => Option.none
    | some (luminosityShader, doc1) =>
      let resources := get_gradient_resource_dict luminosityShader SkPDFIndirectReference.none
      let bbox := SkRect.Make state.fBBox
      let alphaMask := SkPDFMakeFormXObject doc1
        (create_pattern_fill_content (-1) luminosityShader.fValue bbox)
        (RectToArray bbox) resources "DeviceRGB"
      some (GetSMaskGraphicState alphaMask.1 alphaMask.2)

/-- Modelled from the spec: `SkPDFUtils::PopulateTilingPatternDict`. -/
def PopulateTilingPatternDict (bbox : SkRect) (resources : SkPDFObject) :
    List (String × SkPDFObject) :=
  [("Type", SkPDFObject.name "Pattern"), ("PatternType", SkPDFObject.int 1),
   ("PaintType", SkPDFObject.int 1), ("TilingType", SkPDFObject.int 1),
   ("BBox", RectToArray bbox),
   ("XStep", SkPDFObject.scalar (bbox.fRight - bbox.fLeft)),
   ("YStep", SkPDFObject.scalar (bbox.fBottom - bbox.fTop)),
   ("Resources", resources)]

/-- The key `opaqueState` that `make_alpha_function_shader` derives: every alpha is set to
opaque, and the hash is recomputed. -/
def opaqueStateOf (pf : Platform) (state : Key) : Option Key :=
  match clone_key state with
  | Option.none => Option.none
  | some clone =>
    let opaqueColors := clone.fInfo.fColors.map (fun c => SkColorSetA c SK_AlphaOPAQUE)
    let opaqueState0 : Key := { clone with fInfo := { clone.fInfo with fColors := opaqueColors } }
    some { opaqueState0 with fHash := hashKey pf opaqueState0 }

/-- The function `make_alpha_function_shader`; `find` is `find_pdf_shader`. -/
def make_alpha_function_shader (pf : Platform) (find : SkPDFDocument → Key → Bool → Emitted)
    (doc : SkPDFDocument) (state : Key) : Emitted :=
  match opaqueStateOf pf state with
  | Option.none => Option.none
  | some opaqueState =>
    let bbox := SkRect.Make state.fBBox
    match find doc opaqueState false with
    | Option.none => Option.none
    | some (colorShader, doc1) =>
      if !colorShader.isValid then some (SkPDFIndirectReference.none, doc1)
      else
        match create_smask_graphic_state pf find doc1 state with
        | Option.none => Option.none
        | some (alphaGsRef, doc2) =>
          let resourceDict := get_gradient_resource_dict colorShader alphaGsRef
          let colorStream := create_pattern_fill_content alphaGsRef.fValue colorShader.fValue bbox
          some (SkPDFStreamOut (PopulateTilingPatternDict bbox resourceDict) colorStream doc2)

/-- The function `find_pdf_shader`, with the depth of its recursion through
`make_alpha_function_shader` bounded by `fuel`. -/
def find_pdf_shader_fuel (pf : Platform) : Nat → SkPDFDocument → Key → Bool → Emitted
  | 0, _, _, _ => Option.none
  | fuel + 1, doc, key, keyHasAlpha =>
    match gradientPatternMap_find doc.fGradientPatternMap key with
    | some ptr => some (ptr, doc)
    | Option.none =>
      let made : Emitted :=
        if keyHasAlpha then make_alpha_function_shader pf (find_pdf_shader_fuel pf fuel) doc key
        else make_function_shader pf doc key
      match made with
      | Option.none => Option.none
      | some (pdfShader, doc1) =>
        some (pdfShader,
          { doc1 with
            fGradientPatternMap := gradientPatternMap_set doc1.fGradientPatternMap key pdfShader })

/-- The function `find_pdf_shader`: the calls made on the alpha path pass `false` for
`keyHasAlpha`, so the recursion is two calls deep at most. -/
def find_pdf_shader (pf : Platform) (doc : SkPDFDocument) (key : Key) (keyHasAlpha : Bool) :
    Emitted :=
  find_pdf_shader_fuel pf 2 doc key keyHasAlpha

/-- The function `make_key`, given what `asGradient` reports for the shader (its type and
descriptor) and the shader's local matrix. -/
def make_key (pf : Platform) (ty : GradientType) (info : GradientInfo)
    (canvasTransform shaderLocalMatrix : SkMatrix) (bbox : SkIRect) : Key :=
  let key : Key :=
    { fType := ty, fInfo := info, fCanvasTransform := canvasTransform,
      fShaderTransform := shaderLocalMatrix, fBBox := bbox, fHash := 0 }
  { key with fHash := hashKey pf key }

/-- The entry point `SkPDFGradientShader::Make`. -/
def Make (pf : Platform) (doc : SkPDFDocument) (ty : GradientType) (info : GradientInfo)
    (canvasTransform shaderLocalMatrix : SkMatrix) (bbox : SkIRect) : Emitted :=
  let key := make_key pf ty info canvasTransform shaderLocalMatrix bbox
  match gradient_has_alpha key with
  | some alpha => find_pdf_shader pf doc key alpha
  | Option.none => Option.none


/-! ## Example inputs -/

/-- A platform with exact square roots of rational squares and a constant checksum. -/
def exactPlatform : Platform := ⟨Rat.sqrt, fun _ => 0⟩

/-- A document with no objects and an empty gradient cache. -/
def emptyDocument : SkPDFDocument := ⟨[], []⟩

/-- A descriptor over the segment (0,0)-(100,0) with the given stops and tile mode. -/
def sampleInfo (colors : List SkColor) (offsets : List SkScalar) (mode : SkTileMode) :
    GradientInfo :=
  { fColorCount := colors.length, fColors := colors, fColorOffsets := offsets,
    fPoint := (⟨0, 0⟩, ⟨100, 0⟩), fRadius := (0, 0), fTileMode := mode, fGradientFlags := 0 }

/-- A key with identity transforms and the bounding box (0,0)-(10,10). -/
def sampleKey (ty : GradientType) (info : GradientInfo) : Key :=
  ⟨ty, info, SkMatrix.I, SkMatrix.I, ⟨0, 0, 10, 10⟩, 0⟩

def kWhite : SkColor := 0xFFFFFFFF

def kBlack : SkColor := 0xFF000000

def kRed : SkColor := 0xFFFF0000

def kBlue : SkColor := 0xFF0000FF

def kGray : SkColor := 0xFF808080

/-- Two stops, white to black, clamped. -/
def whiteToBlack : GradientInfo := sampleInfo [kWhite, kBlack] [0, 1] SkTileMode.kClamp

/-- Three stops that share the offset 1/2. -/
def tripleStop : GradientInfo :=
  sampleInfo [kRed, kWhite, kBlue] [1 / 2, 1 / 2, 1 / 2] SkTileMode.kClamp

/-- Three stops at distinct offsets. -/
def threeStops : GradientInfo := sampleInfo [kRed, kWhite, kBlue] [0, 1 / 2, 1] SkTileMode.kClamp

/-- Four stops, the first two coincident and the third 0.000005 after them. -/
def closeStops : GradientInfo :=
  sampleInfo [kBlack, kRed, kBlue, kWhite] [0, 0, 1 / 200000, 1] SkTileMode.kClamp

/-- A repeating linear gradient drawn under a canvas transform that collapses the plane. -/
def collapsedKey : Key :=
  ⟨GradientType.kLinear, sampleInfo [kWhite, kBlack] [0, 1] SkTileMode.kRepeat,
   ⟨0, 0, 0, 0, 0, 0, 0, 0, 1⟩, SkMatrix.I, ⟨0, 0, 10, 10⟩, 0⟩

/-! ## Notions used to reason about emitted programs -/

/-- The text `code` takes the stack `st` to the stack `st1`, whatever text follows it. -/
def Runs (code : List Tok) (st st1 : List Val) : Prop :=
  ∃ k, ∀ (rest : List Tok) (n : Nat) (r : List Val),
    exec n rest st1 = some r → exec (n + k) (code ++ rest) st = some r

/-- Every brace of the text `b` is matched inside `b`: scanning for a closing brace
passes over `b`. -/
def Balanced (b : List Tok) : Prop :=
  ∀ (d : Nat) (rest : List Tok),
    splitBlock d (b ++ rest) = (splitBlock d rest).map (fun p => (b ++ p.1, p.2))

/-- The offset of stop `i`, 0 outside the array. -/
def offsetAt (info : GradientInfo) (i : Nat) : SkScalar := info.fColorOffsets.getD i 0

/-- The colour of stop `i`, 0 outside the array. -/
def colorAt (info : GradientInfo) (i : Nat) : SkColor := info.fColors.getD i 0

/-- The linear interpolation at `t` between the values `v0` at `o0` and `v1` at `o1` of a
channel given in 0..255, as a number in [0,1]. -/
def lerpChannel (o0 o1 : SkScalar) (v0 v1 : Nat) (t : ℚ) : ℚ :=
  (v0 : ℚ) / 255 + (t - o0) * (((v1 : ℚ) - (v0 : ℚ)) / 255 / (o1 - o0))

/-- The stack that holds the colour of range `e` (between the stops `e - 1` and `e`) at
`t` above `st`: r, g, b in that order, with b on top. -/
def leafStack (info : GradientInfo) (e : Nat) (t : ℚ) (st : List Val) : List Val :=
  Val.num (lerpChannel (offsetAt info (e - 1)) (offsetAt info e)
      (SkColorGetB (colorAt info (e - 1))) (SkColorGetB (colorAt info e)) t) ::
  Val.num (lerpChannel (offsetAt info (e - 1)) (offsetAt info e)
      (SkColorGetG (colorAt info (e - 1))) (SkColorGetG (colorAt info e)) t) ::
  Val.num (lerpChannel (offsetAt info (e - 1)) (offsetAt info e)
      (SkColorGetR (colorAt info (e - 1))) (SkColorGetR (colorAt info e)) t) :: st

/-- The stack that holds the RGB of a colour above `st`, with b on top. -/
def colorStack (c : SkColor) (st : List Val) : List Val :=
  Val.num ((SkColorGetB c : ℚ) / 255) :: Val.num ((SkColorGetG c : ℚ) / 255) ::
    Val.num ((SkColorGetR c : ℚ) / 255) :: st

/-- The first range end in the list whose offset is at least `t`, or the last range end
when there is none. -/
def pickRange (info : GradientInfo) (t : ℚ) : List Nat → Nat
  | [] => 0
  | [e] => e
  | e :: e2 :: rest => if t ≤ offsetAt info e then e else pickRange info t (e2 :: rest)

/-- The range ends in the list are stop indices whose range can be interpolated: the index
and its predecessor are inside both arrays and the two offsets differ. -/
def ValidEnds (info : GradientInfo) (ends : List Nat) : Prop :=
  ∀ e ∈ ends, 1 ≤ e ∧ e < info.fColorOffsets.length ∧ e < info.fColors.length ∧
    e < 18446744073709551616 ∧ offsetAt info e ≠ offsetAt info (e - 1)

/-- The text has no brace. -/
def NoBraces (l : List Tok) : Prop := ∀ t ∈ l, t ≠ Tok.lbrace ∧ t ≠ Tok.rbrace

/-- Three grey stops followed by a white one; the second range is empty. -/
def grayThenWhite : GradientInfo :=
  sampleInfo [kGray, kGray, kGray, kWhite] [0, 1 / 2, 1 / 2, 1] SkTileMode.kClamp

/-- Black, red, blue with the last two stops at the same offset. -/
def hardStop : GradientInfo :=
  sampleInfo [kBlack, kRed, kBlue] [0, 1 / 2, 1 / 2] SkTileMode.kClamp

/-- Half-transparent white to opaque black, two stops. -/
def translucentToBlack : GradientInfo :=
  sampleInfo [0x80FFFFFF, kBlack] [0, 1] SkTileMode.kClamp

/-- A matrix with perspective whose projective scale term is 2. -/
def perspectiveMatrix : SkMatrix := ⟨2, 0, 4, 0, 2, 6, 1, 0, 2⟩

/-- The text `prog` started on the stack `st` stops with no result, however much fuel it is
given: a type error, a stack underflow or a division by zero. -/
def Fails (prog : List Tok) (st : List Val) : Prop := ∀ fuel, exec fuel prog st = none

/-- The triangle wave: the fractional part of `|t|` when the integer part of `|t|` is even,
and one minus it when the integer part is odd. -/
def mirrorValue (t : ℚ) : ℚ :=
  if ⌊|t|⌋ % 2 = 0 then Int.fract |t| else 1 - Int.fract |t|

/-- What the Repeat fragment leaves for the input `t`. -/
def repeatValue (t : ℚ) : ℚ :=
  if t - truncQ t ≤ 0 then t - truncQ t + 1 else t - truncQ t

/-- The text `code` has no braces and no conditional, and takes the stack `st` to `st1` in
one step per token. -/
def Steps (code : List Tok) (st st1 : List Val) : Prop :=
  ∀ (rest : List Tok) (fuel : Nat),
    exec (fuel + code.length) (code ++ rest) st = exec fuel rest st1

/-- A cone from the point (0,0) with radius 0 to the point (1,0) with radius 1/2, white to
black. -/
def centredCone : GradientInfo :=
  { whiteToBlack with fPoint := (⟨0, 0⟩, ⟨1, 0⟩), fRadius := (0, 1 / 2) }

/-- Every key of the gradient cache of the document carries the hash of its other fields. -/
def CacheHashed (pf : Platform) (doc : SkPDFDocument) : Prop :=
  ∀ p ∈ doc.fGradientPatternMap, p.1.fHash = hashKey pf p.1

/-- A cone from the point (0,0) with radius 0 to the point (1,0) with radius 1, white to
black: the distance of the centres equals the difference of the radii. -/
def tangentCone : GradientInfo :=
  { whiteToBlack with fPoint := (⟨0, 0⟩, ⟨1, 0⟩), fRadius := (0, 1) }

/-- A descriptor with one stop. -/
def oneStop : GradientInfo := sampleInfo [kWhite] [0] SkTileMode.kClamp

/-- The text of a leaf of `write_gradient_ranges` for the range that ends at stop `e`:
`rangeBegin sub` followed by the interpolation between the stops `e - 1` and `e`. -/
def leafText (info : GradientInfo) (e : Nat) : List Tok :=
  [AppendScalar (offsetAt info (e - 1)), Tok.op Op.sub] ++
    (interpolate_color_code (offsetAt info e - offsetAt info (e - 1))
      (colorAt info (e - 1)) (colorAt info e)).getD []

/-- The text `code` consists of the texts `leaves`, in this order, separated by text that
has no `sub`. -/
inductive LeavesIn : List (List Tok) → List Tok → Prop where
  | done (gap : List Tok) (h : Tok.op Op.sub ∉ gap) : LeavesIn [] gap
  | leaf (gap leaf : List Tok) (leaves : List (List Tok)) (rest : List Tok)
      (h : Tok.op Op.sub ∉ gap) (hr : LeavesIn leaves rest) :
      LeavesIn (leaf :: leaves) (gap ++ leaf ++ rest)

/-- The stack during the search of `gradient_function_code`: the colour under the marker 0
once a case has produced it, the parameter `t` alone until then. -/
def searchStack (found : Bool) (rgb : List Val) (t : ℚ) : List Val :=
  if found then Val.num 0 :: rgb else [Val.num t]

/-- The colour the program of `gradient_function_code` leaves for `t`, when `e` is the
range its search ends in and `rangeEnd` the offset of the last kept range. -/
def resultStack (info : GradientInfo) (rangeEnd : SkScalar) (e : Nat) (t : ℚ) : List Val :=
  if t ≤ 0 then colorStack (colorAt info 0) []
  else if t ≤ rangeEnd then leafStack info e t []
  else colorStack (colorAt info (info.fColorCount - 1)) []

/-- Four stops with offsets from 0 to 1: solid red up to 1, where the last three stops
coincide and the colour jumps to blue. -/
def solidThenJump : GradientInfo :=
  sampleInfo [kRed, kRed, kRed, kBlue] [0, 1, 1, 1] SkTileMode.kClamp

/-- A cone from the point (0,0) with radius 1 to the point (2,0) with radius 2, white to
black; its apex, where the radius is 0, is the point (-2,0). -/
def apexCone : GradientInfo :=
  { whiteToBlack with fPoint := (⟨0, 0⟩, ⟨2, 0⟩), fRadius := (1, 2) }

/-- A heap that holds nothing but the two arrays of the key `k`. -/
def heapOf (k : Key) : Heap := ⟨[k.fInfo.fColors], [k.fInfo.fColorOffsets]⟩

/-- The image of the key `k` in `heapOf k`: all four pointers are the address 0. -/
def imageOf (k : Key) : KeyImage :=
  { fType := k.fType
    fInfo := { fColorCount := k.fInfo.fColorCount
               fColors := 0
               fColorOffsets := 0
               fPoint := k.fInfo.fPoint
               fRadius := k.fInfo.fRadius
               fTileMode := k.fInfo.fTileMode
               fGradientFlags := k.fInfo.fGradientFlags }
    fColors := some 0
    fStops := some 0
    fCanvasTransform := k.fCanvasTransform
    fShaderTransform := k.fShaderTransform
    fBBox := k.fBBox
    fHash := k.fHash }

/-- A cone from the point (0,0) with radius 65536 to the point (1,0) with radius 65537,
white to black: the first circle touches the second from inside. -/
def largeCone : GradientInfo :=
  { whiteToBlack with fPoint := (⟨0, 0⟩, ⟨1, 0⟩), fRadius := (65536, 65537) }

/-! ## The ramp strategy selector -/

theorem doStitchFunctions_iff (state : Key) :
    doStitchFunctions state = true ↔
      (state.fType = GradientType.kLinear ∨ state.fType = GradientType.kRadial ∨
        state.fType = GradientType.kConical) ∧
      state.fInfo.fTileMode = SkTileMode.kClamp ∧
      (state.fCanvasTransform.concat state.fShaderTransform).hasPerspective = false := by
  simp [doStitchFunctions, initialFinalMatrix, SkMatrix.preConcat, or_assoc, and_assoc]

theorem make_function_shader_of_stitch (pf : Platform) (doc : SkPDFDocument) (state : Key)
    (h : doStitchFunctions state = true) :
    make_function_shader pf doc state = nativeShader pf doc state := by
  simp [make_function_shader, h]

theorem make_function_shader_of_not_stitch (pf : Platform) (doc : SkPDFDocument) (state : Key)
    (h : doStitchFunctions state = false) :
    make_function_shader pf doc state = customShader pf doc state := by
  simp [make_function_shader, h]

/-- C1: `make_function_shader` runs its native (stitched-function) branch when the type is
Linear, Radial or Conical, the tile mode is Clamp and `canvasTransform * shaderTransform`
has no perspective, and runs its custom-evaluator branch in every other case, in particular
for every Sweep gradient. -/
theorem make_function_shader_native_iff (pf : Platform) (doc : SkPDFDocument) (state : Key) :
    (((state.fType = GradientType.kLinear ∨ state.fType = GradientType.kRadial ∨
          state.fType = GradientType.kConical) ∧
        state.fInfo.fTileMode = SkTileMode.kClamp ∧
        (state.fCanvasTransform.concat state.fShaderTransform).hasPerspective = false) →
      make_function_shader pf doc state = nativeShader pf doc state) ∧
    (¬ ((state.fType = GradientType.kLinear ∨ state.fType = GradientType.kRadial ∨
          state.fType = GradientType.kConical) ∧
        state.fInfo.fTileMode = SkTileMode.kClamp ∧
        (state.fCanvasTransform.concat state.fShaderTransform).hasPerspective = false) →
      make_function_shader pf doc state = customShader pf doc state) ∧
    (state.fType = GradientType.kSweep →
      make_function_shader pf doc state = customShader pf doc state) := by
  refine ⟨fun h => ?_, fun h => ?_, fun h => ?_⟩
  · exact make_function_shader_of_stitch pf doc state ((doStitchFunctions_iff state).2 h)
  · apply make_function_shader_of_not_stitch
    cases hd : doStitchFunctions state
    · rfl
    · exact absurd ((doStitchFunctions_iff state).1 hd) h
  · apply make_function_shader_of_not_stitch
    simp [doStitchFunctions, h]

/-! ### What the two branches emit -/

theorem emit_fst_isValid (doc : SkPDFDocument) (obj : SkPDFObject) :
    (doc.emit obj).1.isValid = true := by
  simp only [SkPDFDocument.emit, SkPDFIndirectReference.isValid, bne_iff_ne, ne_eq]
  omega

theorem emit_objects (doc : SkPDFDocument) (obj : SkPDFObject) :
    (doc.emit obj).2.fObjects = doc.fObjects ++ [obj] := rfl

theorem emit_map (doc : SkPDFDocument) (obj : SkPDFObject) :
    (doc.emit obj).2.fGradientPatternMap = doc.fGradientPatternMap := rfl

theorem emittedShading_emit_patternDict (doc : SkPDFDocument) (m : SkMatrix)
    (shading : SkPDFObject) :
    emittedShading (doc.emit (patternDict m shading)) = some shading := by
  simp [emittedShading, SkPDFDocument.emit, patternDict, SkPDFObject.lookup, List.lookup]

/-- The function object built by `gradientStitchCode` is a dictionary. -/
theorem gradientStitchCode_isDict (info : GradientInfo) (fn : SkPDFObject)
    (h : gradientStitchCode info = some fn) : ∃ entries, fn = SkPDFObject.dict entries := by
  unfold gradientStitchCode at h
  split at h
  · simp at h
  · split at h
    · split at h
      · dsimp only at h
        split at h
        · simp only [Option.some.injEq] at h
          exact ⟨_, h.symm⟩
        · simp at h
      · dsimp only at h
        split at h
        · simp only [Option.some.injEq] at h
          exact ⟨_, h.symm⟩
        · simp at h
    · simp at h

/-- On the native branch one pattern object is emitted; its shading holds the function
object of `gradientStitchCode` inline and has `ShadingType` 2 or 3. -/
theorem nativeShader_emits (pf : Platform) (doc : SkPDFDocument) (state : Key)
    (out : SkPDFIndirectReference × SkPDFDocument) (h : nativeShader pf doc state = some out) :
    out.1.isValid = true ∧
    emittedFunction out = gradientStitchCode state.fInfo ∧
    emittedShadingType out = some (if state.fType = GradientType.kLinear then 2 else 3) ∧
    out.2.fObjects.length = doc.fObjects.length + 1 ∧
    out.2.fGradientPatternMap = doc.fGradientPatternMap := by
  unfold nativeShader at h
  cases hg : gradientStitchCode state.fInfo with
  | none => simp [hg] at h
  | some fn =>
    obtain ⟨entries, rfl⟩ := gradientStitchCode_isDict _ _ hg
    simp only [hg, Option.some.injEq] at h
    subst h
    refine ⟨emit_fst_isValid _ _, ?_, ?_, ?_, ?_⟩
    · simp [emittedFunction, emittedShading_emit_patternDict, SkPDFObject.lookup, List.lookup,
        SkPDFDocument.resolve]
    · simp [emittedShadingType, emittedShading_emit_patternDict, SkPDFObject.lookup, List.lookup]
    · simp [emit_objects]
    · rfl

theorem resolve_emitted_stream (doc : SkPDFDocument) (entries : List (String × SkPDFObject))
    (content : StreamContent) (obj : SkPDFObject) :
    ((SkPDFStreamOut entries content doc).2.emit obj).2.resolve
        (SkPDFObject.ref (SkPDFStreamOut entries content doc).1) =
      some (SkPDFObject.stream entries content) := by
  simp only [SkPDFDocument.resolve, SkPDFStreamOut, SkPDFDocument.emit]
  have h : ((doc.fObjects.length : Int) + 1 - 1).toNat = doc.fObjects.length := by omega
  rw [h, List.append_assoc, List.getElem?_append_right (le_refl _)]
  simp

/-- On the custom branch either nothing is emitted and the empty reference is returned, or
a `FunctionType` 4 stream and a pattern whose shading has `ShadingType` 1 and refers to
that stream are emitted. -/
theorem customShader_emits (pf : Platform) (doc : SkPDFDocument) (state : Key)
    (out : SkPDFIndirectReference × SkPDFDocument) (h : customShader pf doc state = some out) :
    (out = (SkPDFIndirectReference.none, doc)) ∨
    (out.1.isValid = true ∧ emittedFunctionType out = some 4 ∧
      emittedShadingType out = some 1 ∧
      out.2.fObjects.length = doc.fObjects.length + 2 ∧
      out.2.fGradientPatternMap = doc.fGradientPatternMap) := by
  unfold customShader at h
  simp only at h
  split at h
  · left; simpa using h.symm
  · split at h
    · left; simpa using h.symm
    · split at h
      · left; simpa using h.symm
      · split at h
        · left; simpa using h.symm
        · split at h
          · simp at h
          · right
            simp only [Option.some.injEq] at h
            subst h
            refine ⟨emit_fst_isValid _ _, ?_, ?_, ?_, ?_⟩
            · simp only [emittedFunctionType, emittedFunction, emittedShading_emit_patternDict,
                make_ps_function]
              simp only [SkPDFObject.lookup, List.lookup]
              rw [show (("Function" : String) == "Domain") = false by decide,
                show (("Function" : String) == "Function") = true by decide]
              simp only [resolve_emitted_stream]
              rfl
            · simp [emittedShadingType, emittedShading_emit_patternDict, SkPDFObject.lookup,
                List.lookup]
            · simp [emit_objects, make_ps_function, SkPDFStreamOut]
            · rfl

/-! ## The native ramp -/

theorem rat_sqrt_one : Rat.sqrt 1 = 1 := by decide

theorem whiteToBlack_code_isSome : (gradient_function_code whiteToBlack).isSome = true := by
  simp [gradient_function_code, whiteToBlack, sampleInfo, rangeEndsOf, collectRangeEnds,
    keepRange, kWhite, kBlack, eqIgnoringAlpha, SkColorSetA, write_gradient_ranges,
    write_gradient_ranges_fuel, size_t_pred, interpolate_color_code]

theorem customShader_sweep_valid :
    ∃ out, customShader exactPlatform emptyDocument (sampleKey GradientType.kSweep whiteToBlack)
        = some out ∧ out.1.isValid = true := by
  obtain ⟨code, hcode⟩ := Option.isSome_iff_exists.1 whiteToBlack_code_isSome
  have hi : (sampleKey GradientType.kSweep whiteToBlack).fInfo = whiteToBlack := rfl
  have hp : whiteToBlack.fPoint = (⟨0, 0⟩, ⟨100, 0⟩) := rfl
  simp [customShader, hi, hp, sampleKey, transformPointsOf, unit_to_points_matrix, exactPlatform,
    SkPoint.length, rat_sqrt_one, initialFinalMatrix, SkMatrix.preConcat, SkMatrix.concat,
    SkMatrix.I, SkMatrix.setSinCos, SkMatrix.preScale, SkMatrix.postTranslate,
    SkMatrix.hasPerspective, InverseTransformBBox, SkMatrix.invert, SkMatrix.det,
    functionCodeOf, sweepCode, hcode, emit_fst_isValid]

/-- C2, as stated, fails: a Sweep gradient with 2 stops, Clamp tiling and identity
transforms is compiled to a `FunctionType` 4 program. -/
theorem two_stop_sweep_emits_custom_program :
    (sampleKey GradientType.kSweep whiteToBlack).fInfo.fColorCount = 2 ∧
    (sampleKey GradientType.kSweep whiteToBlack).fInfo.fTileMode = SkTileMode.kClamp ∧
    ((sampleKey GradientType.kSweep whiteToBlack).fCanvasTransform.concat
      (sampleKey GradientType.kSweep whiteToBlack).fShaderTransform).hasPerspective = false ∧
    (make_function_shader exactPlatform emptyDocument
      (sampleKey GradientType.kSweep whiteToBlack)).bind emittedFunctionType = some 4 := by
  refine ⟨rfl, rfl, by simp [sampleKey, SkMatrix.concat, SkMatrix.I, SkMatrix.hasPerspective], ?_⟩
  rw [make_function_shader_of_not_stitch exactPlatform emptyDocument
    (sampleKey GradientType.kSweep whiteToBlack) (by simp [doStitchFunctions, sampleKey])]
  obtain ⟨out, ho, hv⟩ := customShader_sweep_valid
  rcases customShader_emits _ _ _ _ ho with h | h
  · rw [h] at hv
    simp [SkPDFIndirectReference.isValid, SkPDFIndirectReference.none] at hv
  · simp [ho, h.2.1]

/-- With exactly two stops `gradientStitchCode` returns the two-stop form built from the
RGB of the two stops, whatever their alpha and offsets. -/
theorem gradientStitchCode_two_stops (info : GradientInfo) (c0 c1 : SkColor) (o0 o1 : SkScalar)
    (hcount : info.fColorCount = 2) (hcolors : info.fColors = [c0, c1])
    (hoffsets : info.fColorOffsets = [o0, o1]) :
    gradientStitchCode info =
      some (createInterpolationFunction (colorTupleOf c0) (colorTupleOf c1)) := by
  have hn : ∃ os, normalizedStops info = some (2, [c0, c1], os) := by
    unfold normalizedStops
    simp only [hcount, hcolors, hoffsets]
    by_cases h : o0 = o1
    · simp [normalizeStops, nudgeCoincident, fixLastStops, h]
    · simp [normalizeStops, nudgeCoincident, fixLastStops, h]
  obtain ⟨os, hos⟩ := hn
  simp [gradientStitchCode, hos]

theorem createInterpolationFunction_functionType (a b : ColorTuple) :
    (createInterpolationFunction a b).lookup "FunctionType" = some (SkPDFObject.int 2) := by
  simp [createInterpolationFunction, SkPDFObject.lookup, List.lookup]

/-- C2 (amended): for every key of type Linear, Radial or Conical with exactly 2 stops,
Clamp tiling and a transform without perspective, `make_function_shader` emits a shading
whose Function is the native 2-stop form: `FunctionType` 2 with C0, C1 the RGB of the two
stops. -/
theorem two_stops_native_function (pf : Platform) (doc : SkPDFDocument) (state : Key)
    (c0 c1 : SkColor) (o0 o1 : SkScalar)
    (hcount : state.fInfo.fColorCount = 2) (hcolors : state.fInfo.fColors = [c0, c1])
    (hoffsets : state.fInfo.fColorOffsets = [o0, o1])
    (htype : state.fType = GradientType.kLinear ∨ state.fType = GradientType.kRadial ∨
      state.fType = GradientType.kConical)
    (htile : state.fInfo.fTileMode = SkTileMode.kClamp)
    (hpersp : (state.fCanvasTransform.concat state.fShaderTransform).hasPerspective = false) :
    ∃ out, make_function_shader pf doc state = some out ∧ out.1.isValid = true ∧
      emittedFunction out =
        some (createInterpolationFunction (colorTupleOf c0) (colorTupleOf c1)) ∧
      emittedFunctionType out = some 2 := by
  have hg := gradientStitchCode_two_stops state.fInfo c0 c1 o0 o1 hcount hcolors hoffsets
  have hm := make_function_shader_of_stitch pf doc state
    ((doStitchFunctions_iff state).2 ⟨htype, htile, hpersp⟩)
  have hn : ∃ out, nativeShader pf doc state = some out := by
    simp [nativeShader, hg]
  obtain ⟨out, ho⟩ := hn
  have he := nativeShader_emits pf doc state out ho
  refine ⟨out, hm.trans ho, he.1, he.2.1.trans hg, ?_⟩
  simp [emittedFunctionType, he.2.1, hg, createInterpolationFunction_functionType]

theorem two_stops_native_function_witness :
    ∃ out, make_function_shader exactPlatform emptyDocument
        (sampleKey GradientType.kLinear whiteToBlack) = some out ∧ out.1.isValid = true ∧
      emittedFunction out =
        some (createInterpolationFunction (colorTupleOf kWhite) (colorTupleOf kBlack)) ∧
      emittedFunctionType out = some 2 :=
  two_stops_native_function exactPlatform emptyDocument
    (sampleKey GradientType.kLinear whiteToBlack) kWhite kBlack 0 1 rfl rfl rfl
    (Or.inl rfl) rfl (by simp [sampleKey, SkMatrix.concat, SkMatrix.I, SkMatrix.hasPerspective])

/-- C3, as stated, fails: three stops that share one offset qualify for the native path,
but `gradientStitchCode` drops the middle one and returns the two-stop form. -/
theorem triple_stop_not_stitched :
    tripleStop.fColorCount = 3 ∧
    (gradientStitchCode tripleStop).bind (SkPDFObject.lookup "FunctionType") =
      some (SkPDFObject.int 2) := by
  refine ⟨rfl, ?_⟩
  have hn : normalizedStops tripleStop = some (2, [kRed, kBlue], [1 / 2 - 1 / 100000, 1 / 2]) := by
    simp [normalizedStops, tripleStop, sampleInfo, normalizeStops, nudgeCoincident, fixLastStops,
      kStitchEpsilon, List.eraseIdx]
  simp [gradientStitchCode, hn, createInterpolationFunction_functionType]

/-- The normalising loop leaves stops alone that are in order and of which no three
consecutive ones share an offset. -/
theorem normalizeStops_noop (colors : List SkColor) (offsets : List SkScalar)
    (hs : offsets.Pairwise (· ≤ ·))
    (ht : ∀ j, j + 2 < offsets.length →
      ¬ (offsets.getD j 0 = offsets.getD (j + 1) 0 ∧
         offsets.getD (j + 1) 0 = offsets.getD (j + 2) 0)) :
    ∀ fuel i, 1 ≤ i → offsets.length ≤ fuel + i + 1 →
      normalizeStops fuel i offsets.length colors offsets =
        some (offsets.length, colors, offsets) := by
  intro fuel
  induction fuel with
  | zero =>
    intro i _ hf
    unfold normalizeStops
    have : ¬ i + 1 < offsets.length := by omega
    simp [this]
  | succ fuel ih =>
    intro i hi hf
    unfold normalizeStops
    by_cases hlt : i + 1 < offsets.length
    · have h1 : i - 1 < offsets.length := by omega
      have h2 : i < offsets.length := by omega
      have hle : offsets[i - 1] ≤ offsets[i] :=
        (List.pairwise_iff_getElem.1 hs) (i - 1) i h1 h2 (by omega)
      have hng : ¬ offsets[i - 1] > offsets[i] := not_lt.2 hle
      have hnext := ih (i + 1) (by omega) (by omega)
      simp only [hlt, if_true, List.getElem?_eq_getElem h1, List.getElem?_eq_getElem h2, hng,
        if_false, List.getElem?_eq_getElem hlt]
      by_cases hab : offsets[i - 1] = offsets[i]
      · have hbc : ¬ offsets[i] = offsets[i + 1] := by
          intro hbc
          apply ht (i - 1) (by omega)
          have e1 : i - 1 + 1 = i := by omega
          have e2 : i - 1 + 2 = i + 1 := by omega
          rw [e1, e2, List.getD_eq_getElem _ _ h1, List.getD_eq_getElem _ _ h2,
            List.getD_eq_getElem _ _ hlt]
          exact ⟨hab, hbc⟩
        simp only [hab, if_true, hbc, if_false]
        exact hnext
      · simp only [hab, if_false]
        exact hnext
    · simp [hlt]

theorem nudgeCoincident_length :
    ∀ (idxs : List Nat) (offsets : List SkScalar), (∀ i ∈ idxs, i < offsets.length) →
      ∃ offsets1, nudgeCoincident idxs offsets = some offsets1 ∧
        offsets1.length = offsets.length := by
  intro idxs
  induction idxs with
  | nil => intro offsets _; exact ⟨offsets, rfl, rfl⟩
  | cons i rest ih =>
    intro offsets h
    have hi : i < offsets.length := h i (List.mem_cons_self _ _)
    have hi1 : i - 1 < offsets.length := by omega
    unfold nudgeCoincident
    simp only [List.getElem?_eq_getElem hi, List.getElem?_eq_getElem hi1]
    have hrest : ∀ o2 : List SkScalar, o2.length = offsets.length →
        ∃ offsets1, nudgeCoincident rest o2 = some offsets1 ∧
          offsets1.length = offsets.length := by
      intro o2 h2
      obtain ⟨o3, h3, h4⟩ := ih o2 (fun j hj => by
        rw [h2]; exact h j (List.mem_cons_of_mem _ hj))
      exact ⟨o3, h3, h4.trans h2⟩
    split
    · exact hrest _ (by simp)
    · exact hrest _ rfl

theorem fixLastStops_length (i : Nat) (offsets : List SkScalar) (hi : i < offsets.length) :
    ∃ offsets1, fixLastStops i offsets = some offsets1 ∧ offsets1.length = offsets.length := by
  have hi1 : i - 1 < offsets.length := by omega
  unfold fixLastStops
  simp only [List.getElem?_eq_getElem hi, List.getElem?_eq_getElem hi1]
  split
  · exact ⟨_, rfl, by simp⟩
  · exact ⟨_, rfl, rfl⟩

/-- The emitting loop of `gradientStitchCode` over the indices `s, s+1, ..., s+n-1`
appends one sub-function and one Encode pair per index and one bound per index above 1. -/
theorem stitchLoop_lengths (colorData : List ColorTuple) (offsets : List SkScalar) :
    ∀ n s, 1 ≤ s → s + n ≤ colorData.length → s + n ≤ offsets.length →
      ∃ encode bounds functions,
        stitchLoop colorData offsets (List.range' s n) = some (encode, bounds, functions) ∧
        encode.length = 2 * n ∧ functions.length = n ∧
        bounds.length = (if 1 < s then n else n - 1) := by
  intro n
  induction n with
  | zero =>
    intro s _ _ _
    exact ⟨[], [], [], rfl, rfl, rfl, by simp⟩
  | succ n ih =>
    intro s hs hc ho
    obtain ⟨e, b, f, hl, he, hf, hb⟩ := ih (s + 1) (by omega) (by omega) (by omega)
    have h1 : s - 1 < offsets.length := by omega
    have h2 : s - 1 < colorData.length := by omega
    have h3 : s < colorData.length := by omega
    rw [List.range'_succ]
    unfold stitchLoop
    simp only [List.getElem?_eq_getElem h1, List.getElem?_eq_getElem h2,
      List.getElem?_eq_getElem h3, hl]
    refine ⟨_, _, _, rfl, ?_, ?_, ?_⟩
    · simp only [List.length_cons, he]; omega
    · simp only [List.length_cons, hf]
    · have hs1 : 1 < s + 1 := by omega
      simp only [hs1, if_true] at hb
      by_cases h : 1 < s
      · simp [h, hb]
      · have h' : ¬ s > 1 := h
        simp only [h', h, if_false, hb]
        omega

/-- C3 (amended): for every descriptor with `stopCount >= 3` stops in non-decreasing order
of which no three consecutive ones share an offset, `gradientStitchCode` returns the
stitched form (`FunctionType` 3) whose Functions array has exactly `stopCount - 1` entries
and whose Bounds array has exactly `stopCount - 2` entries. -/
theorem gradientStitchCode_stitched_counts (info : GradientInfo)
    (hcount : 3 ≤ info.fColorCount)
    (hcolors : info.fColors.length = info.fColorCount)
    (hoffsets : info.fColorOffsets.length = info.fColorCount)
    (hsorted : info.fColorOffsets.Pairwise (· ≤ ·))
    (htriple : ∀ j, j + 2 < info.fColorOffsets.length →
      ¬ (info.fColorOffsets.getD j 0 = info.fColorOffsets.getD (j + 1) 0 ∧
         info.fColorOffsets.getD (j + 1) 0 = info.fColorOffsets.getD (j + 2) 0)) :
    ∃ encode bounds functions,
      gradientStitchCode info = some (SkPDFObject.dict
        [("Domain", SkPDFObject.array [SkPDFObject.int 0, SkPDFObject.int 1]),
         ("FunctionType", SkPDFObject.int 3),
         ("Encode", SkPDFObject.array encode),
         ("Bounds", SkPDFObject.array bounds),
         ("Functions", SkPDFObject.array functions)]) ∧
      functions.length = info.fColorCount - 1 ∧
      bounds.length = info.fColorCount - 2 := by
  have hnorm := normalizeStops_noop (info.fColors.take info.fColorCount) info.fColorOffsets
    hsorted htriple info.fColorOffsets.length 1 (le_refl 1) (by omega)
  obtain ⟨o1, ho1, hl1⟩ := nudgeCoincident_length (List.range' 1 (info.fColorCount - 2))
    info.fColorOffsets (fun i hi => by
      rw [List.mem_range'_1] at hi
      omega)
  obtain ⟨o2, ho2, hl2⟩ := fixLastStops_length (max 1 (info.fColorCount - 1)) o1 (by
    rw [hl1, hoffsets]
    omega)
  have hns : normalizedStops info =
      some (info.fColorCount, info.fColors.take info.fColorCount, o2) := by
    unfold normalizedStops
    have htk : info.fColorOffsets.take info.fColorCount = info.fColorOffsets := by
      rw [← hoffsets]; exact List.take_length _
    rw [hoffsets] at hnorm
    simp only [hcolors, hoffsets, le_refl, and_self, if_true, htk, hnorm, ho1, ho2]
  obtain ⟨e, b, f, hl, _, hf, hb⟩ := stitchLoop_lengths
    (((info.fColors.take info.fColorCount).take info.fColorCount).map colorTupleOf) o2
    (info.fColorCount - 1) 1 (le_refl 1)
    (by simp [hcolors]; omega) (by rw [hl2, hl1, hoffsets]; omega)
  refine ⟨e, b, f, ?_, hf, ?_⟩
  · unfold gradientStitchCode
    have h2 : ¬ info.fColorCount = 2 := by omega
    have hle : info.fColorCount ≤ (info.fColors.take info.fColorCount).length := by
      simp [hcolors]
    simp only [hns, hle, if_true, h2, if_false, hl]
  · simp only [lt_irrefl, if_false] at hb
    omega

theorem gradientStitchCode_stitched_counts_witness :
    ∃ encode bounds functions,
      gradientStitchCode threeStops = some (SkPDFObject.dict
        [("Domain", SkPDFObject.array [SkPDFObject.int 0, SkPDFObject.int 1]),
         ("FunctionType", SkPDFObject.int 3),
         ("Encode", SkPDFObject.array encode),
         ("Bounds", SkPDFObject.array bounds),
         ("Functions", SkPDFObject.array functions)]) ∧
      functions.length = threeStops.fColorCount - 1 ∧
      bounds.length = threeStops.fColorCount - 2 :=
  gradientStitchCode_stitched_counts threeStops (by decide) rfl rfl
    (by simp [threeStops, sampleInfo]; norm_num)
    (by
      intro j hj
      have hj0 : j = 0 := by
        simp [threeStops, sampleInfo] at hj
        omega
      subst hj0
      simp [threeStops, sampleInfo])

/-- C4: on the stops 0, 0, 0.000005, 1 the Bounds array written by `gradientStitchCode` is
0.00001, 0.000005, which is not increasing. -/
theorem closeStops_bounds_decrease :
    (gradientStitchCode closeStops).bind (SkPDFObject.lookup "Bounds") =
      some (SkPDFObject.array
        [SkPDFObject.scalar (1 / 100000), SkPDFObject.scalar (1 / 200000)]) ∧
    ¬ ((1 / 100000 : SkScalar) < 1 / 200000) := by
  refine ⟨?_, by norm_num⟩
  have hn : normalizedStops closeStops =
      some (4, [kBlack, kRed, kBlue, kWhite], [0, 1 / 100000, 1 / 200000, 1]) := by
    have h1 : normalizeStops 4 1 4 [kBlack, kRed, kBlue, kWhite] [0, 0, 1 / 200000, 1] =
        some (4, [kBlack, kRed, kBlue, kWhite], [0, 0, 1 / 200000, 1]) := by
      norm_num [normalizeStops]
    have h2 : nudgeCoincident [1, 2] [0, 0, 1 / 200000, 1] =
        some [0, 1 / 100000, 1 / 200000, 1] := by
      norm_num [nudgeCoincident, kStitchEpsilon]
    have h3 : fixLastStops 3 [0, 1 / 100000, 1 / 200000, 1] =
        some [0, 1 / 100000, 1 / 200000, 1] := by
      norm_num [fixLastStops]
    have hc : closeStops.fColorCount = 4 := rfl
    have hcs : closeStops.fColors = [kBlack, kRed, kBlue, kWhite] := rfl
    have hos : closeStops.fColorOffsets = [0, 0, 1 / 200000, 1] := rfl
    unfold normalizedStops
    rw [hc, hcs, hos]
    simp only [List.take, List.length_cons, List.length_nil, h1]
    rw [show List.range' 1 (4 - 2) = [1, 2] from rfl, show max 1 (4 - 1) = 3 from rfl]
    simp only [h2, h3]
    simp
  have hr3 : List.range' 1 3 = [1, 2, 3] := rfl
  simp [gradientStitchCode, hn, stitchLoop, hr3, SkPDFObject.lookup, List.lookup]

/-! ## The cache -/

theorem gradientPatternMap_find_set (m : List (Key × SkPDFIndirectReference)) (key : Key)
    (v : SkPDFIndirectReference) :
    gradientPatternMap_find (gradientPatternMap_set m key v) key = some v := by
  induction m with
  | nil => simp [gradientPatternMap_set, gradientPatternMap_find]
  | cons e rest ih =>
    obtain ⟨k, w⟩ := e
    by_cases h : k = key
    · simp [gradientPatternMap_set, gradientPatternMap_find, h]
    · simp [gradientPatternMap_set, gradientPatternMap_find, h, ih]

/-- A key that is in the cache is answered from the cache: the stored reference is
returned and the document is not changed. -/
theorem find_pdf_shader_hit (pf : Platform) (doc : SkPDFDocument) (key : Key)
    (keyHasAlpha : Bool) (ptr : SkPDFIndirectReference)
    (h : gradientPatternMap_find doc.fGradientPatternMap key = some ptr) :
    find_pdf_shader pf doc key keyHasAlpha = some (ptr, doc) := by
  simp [find_pdf_shader, find_pdf_shader_fuel, h]

/-- C5: when a call of `find_pdf_shader` with key `k` returns a handle, a second call with
`k` on the resulting document returns the same handle and is a cache hit: the document
(its emitted objects and its cache) is unchanged. -/
theorem find_pdf_shader_idempotent (pf : Platform) (doc : SkPDFDocument) (key : Key)
    (keyHasAlpha : Bool) (pdfShader : SkPDFIndirectReference) (doc1 : SkPDFDocument)
    (h : find_pdf_shader pf doc key keyHasAlpha = some (pdfShader, doc1)) :
    find_pdf_shader pf doc1 key keyHasAlpha = some (pdfShader, doc1) := by
  apply find_pdf_shader_hit
  unfold find_pdf_shader find_pdf_shader_fuel at h
  cases hf : gradientPatternMap_find doc.fGradientPatternMap key with
  | some ptr =>
    simp only [hf, Option.some.injEq, Prod.mk.injEq] at h
    obtain ⟨h1, h2⟩ := h
    subst h1 h2
    exact hf
  | none =>
    simp only [hf] at h
    split at h
    · simp at h
    · simp only [Option.some.injEq, Prod.mk.injEq] at h
      obtain ⟨h1, h2⟩ := h
      subst h1 h2
      exact gradientPatternMap_find_set _ _ _

theorem sampleKey_noPerspective (ty : GradientType) (info : GradientInfo) :
    ((sampleKey ty info).fCanvasTransform.concat
      (sampleKey ty info).fShaderTransform).hasPerspective = false := by
  simp [sampleKey, SkMatrix.concat, SkMatrix.I, SkMatrix.hasPerspective]

theorem find_pdf_shader_idempotent_witness :
    (find_pdf_shader exactPlatform emptyDocument
        (sampleKey GradientType.kLinear whiteToBlack) false).isSome = true ∧
    (find_pdf_shader exactPlatform emptyDocument
        (sampleKey GradientType.kLinear whiteToBlack) false).bind
      (fun out => find_pdf_shader exactPlatform out.2
        (sampleKey GradientType.kLinear whiteToBlack) false) =
    find_pdf_shader exactPlatform emptyDocument
        (sampleKey GradientType.kLinear whiteToBlack) false := by
  have ho : ∃ out, make_function_shader exactPlatform emptyDocument
      (sampleKey GradientType.kLinear whiteToBlack) = some out := by
    rw [make_function_shader_of_stitch _ _ _ (by simp [doStitchFunctions, sampleKey,
      initialFinalMatrix, SkMatrix.preConcat, SkMatrix.concat, SkMatrix.I,
      SkMatrix.hasPerspective, whiteToBlack, sampleInfo])]
    simp [nativeShader, sampleKey,
      gradientStitchCode_two_stops whiteToBlack kWhite kBlack 0 1 rfl rfl rfl]
  obtain ⟨out, ho⟩ := ho
  have hfind : ∃ r d, find_pdf_shader exactPlatform emptyDocument
      (sampleKey GradientType.kLinear whiteToBlack) false = some (r, d) := by
    simp [find_pdf_shader, find_pdf_shader_fuel, emptyDocument, gradientPatternMap_find] at ho ⊢
    simp [ho]
  obtain ⟨r, d, hrd⟩ := hfind
  refine ⟨by simp [hrd], ?_⟩
  rw [hrd]
  exact find_pdf_shader_idempotent exactPlatform emptyDocument _ false r d hrd

/-- When `make_function_shader` returns the empty reference it has emitted nothing. -/
theorem make_function_shader_failure_emits_nothing (pf : Platform) (doc doc1 : SkPDFDocument)
    (state : Key)
    (h : make_function_shader pf doc state = some (SkPDFIndirectReference.none, doc1)) :
    doc1 = doc := by
  unfold make_function_shader at h
  split at h
  · have hv := (nativeShader_emits pf doc state _ h).1
    simp [SkPDFIndirectReference.isValid, SkPDFIndirectReference.none] at hv
  · rcases customShader_emits pf doc state _ h with h1 | h1
    · exact (Prod.mk.inj h1).2
    · have hv := h1.1
      simp [SkPDFIndirectReference.isValid, SkPDFIndirectReference.none] at hv

theorem unit_to_points_matrix_bottom (pf : Platform) (pts : SkPoint × SkPoint) :
    (unit_to_points_matrix pf pts).p0 = 0 ∧ (unit_to_points_matrix pf pts).p1 = 0 ∧
    (unit_to_points_matrix pf pts).p2 = 1 := by
  simp [unit_to_points_matrix, SkMatrix.postTranslate, SkMatrix.preScale, SkMatrix.setSinCos,
    SkMatrix.concat]
theorem collapsed_concat (m : SkMatrix) (h0 : m.p0 = 0) (h1 : m.p1 = 0) (h2 : m.p2 = 1) :
    (⟨0, 0, 0, 0, 0, 0, 0, 0, 1⟩ : SkMatrix).concat m = ⟨0, 0, 0, 0, 0, 0, 0, 0, 1⟩ := by
  simp [SkMatrix.concat, h0, h1, h2]
theorem customShader_of_singular (pf : Platform) (doc : SkPDFDocument) (state : Key)
    (pts : SkPoint × SkPoint) (h1 : transformPointsOf state = some pts)
    (h2 : ((initialFinalMatrix state).preConcat (unit_to_points_matrix pf pts)).hasPerspective
      = false)
    (h3 : InverseTransformBBox ((initialFinalMatrix state).preConcat
      (unit_to_points_matrix pf pts)) (SkRect.Make state.fBBox) = Option.none) :
    customShader pf doc state = some (SkPDFIndirectReference.none, doc) := by
  unfold customShader
  simp only [h1, h2, h3, Bool.false_eq_true, if_false]

theorem collapsedKey_fails :
    make_function_shader exactPlatform emptyDocument collapsedKey =
      some (SkPDFIndirectReference.none, emptyDocument) := by
  have hd : doStitchFunctions collapsedKey = false := by
    simp [doStitchFunctions, collapsedKey, sampleInfo]
  have hi : initialFinalMatrix collapsedKey = ⟨0, 0, 0, 0, 0, 0, 0, 0, 1⟩ := by
    simp [initialFinalMatrix, collapsedKey, SkMatrix.preConcat, SkMatrix.concat, SkMatrix.I]
  have ht : transformPointsOf collapsedKey = some (⟨0, 0⟩, ⟨100, 0⟩) := rfl
  obtain ⟨b0, b1, b2⟩ := unit_to_points_matrix_bottom exactPlatform (⟨0, 0⟩, ⟨100, 0⟩)
  have hf : (initialFinalMatrix collapsedKey).preConcat
      (unit_to_points_matrix exactPlatform (⟨0, 0⟩, ⟨100, 0⟩)) = ⟨0, 0, 0, 0, 0, 0, 0, 0, 1⟩ := by
    rw [hi]
    exact collapsed_concat _ b0 b1 b2
  rw [make_function_shader_of_not_stitch _ _ _ hd]
  apply customShader_of_singular _ _ _ _ ht
  · rw [hf]; simp [SkMatrix.hasPerspective]
  · rw [hf]; simp [InverseTransformBBox, SkMatrix.invert, SkMatrix.det]

/-- A key that is not in the cache is compiled, and the result of the compilation is
stored under the key, whether or not it is the empty reference. -/
theorem find_pdf_shader_miss (pf : Platform) (doc doc1 : SkPDFDocument) (key : Key)
    (keyHasAlpha : Bool) (pdfShader : SkPDFIndirectReference)
    (hmiss : gradientPatternMap_find doc.fGradientPatternMap key = Option.none)
    (hmade : (if keyHasAlpha then
        make_alpha_function_shader pf (find_pdf_shader_fuel pf 1) doc key
      else make_function_shader pf doc key) = some (pdfShader, doc1)) :
    find_pdf_shader pf doc key keyHasAlpha =
      some (pdfShader, { doc1 with
        fGradientPatternMap := gradientPatternMap_set doc1.fGradientPatternMap key pdfShader }) := by
  unfold find_pdf_shader find_pdf_shader_fuel
  simp only [hmiss, hmade]

theorem collapsedKey_compile_fails :
    (if false = true then
        make_alpha_function_shader exactPlatform (find_pdf_shader_fuel exactPlatform 1)
          emptyDocument collapsedKey
      else make_function_shader exactPlatform emptyDocument collapsedKey) =
      some (SkPDFIndirectReference.none, emptyDocument) := by
  rw [if_neg Bool.false_ne_true]
  exact collapsedKey_fails

/-- C6, as stated, fails: compiling `collapsedKey` fails, and `find_pdf_shader` stores the
empty reference under the key in the cache, which was empty before the call. -/
theorem failed_compile_is_cached :
    make_function_shader exactPlatform emptyDocument collapsedKey =
      some (SkPDFIndirectReference.none, emptyDocument) ∧
    emptyDocument.fGradientPatternMap = [] ∧
    (find_pdf_shader exactPlatform emptyDocument collapsedKey false).map
        (fun out => (out.1, out.2.fGradientPatternMap)) =
      some (SkPDFIndirectReference.none, [(collapsedKey, SkPDFIndirectReference.none)]) := by
  refine ⟨collapsedKey_fails, rfl, ?_⟩
  rw [find_pdf_shader_miss exactPlatform emptyDocument emptyDocument collapsedKey false
    SkPDFIndirectReference.none rfl collapsedKey_compile_fails]
  simp only [Option.map_some', emptyDocument, gradientPatternMap_set]

/-- C6 (amended): whenever compiling a key that is not in the cache fails, i.e.
`make_function_shader` or `make_alpha_function_shader` returns the empty reference,
`find_pdf_shader` returns that empty reference to the caller and stores it in the gradient
cache under the key; the emitted objects and the other cache entries are those the failed
compilation left (for `make_function_shader`: those from before the call). -/
theorem find_pdf_shader_failure (pf : Platform) (doc doc1 : SkPDFDocument) (key : Key)
    (keyHasAlpha : Bool)
    (hmiss : gradientPatternMap_find doc.fGradientPatternMap key = Option.none)
    (hfail : (if keyHasAlpha then
        make_alpha_function_shader pf (find_pdf_shader_fuel pf 1) doc key
      else make_function_shader pf doc key) = some (SkPDFIndirectReference.none, doc1)) :
    ∃ doc2, find_pdf_shader pf doc key keyHasAlpha = some (SkPDFIndirectReference.none, doc2) ∧
      doc2.fObjects = doc1.fObjects ∧
      doc2.fGradientPatternMap =
        gradientPatternMap_set doc1.fGradientPatternMap key SkPDFIndirectReference.none ∧
      gradientPatternMap_find doc2.fGradientPatternMap key = some SkPDFIndirectReference.none ∧
      (keyHasAlpha = false → doc1 = doc) := by
  refine ⟨{ doc1 with fGradientPatternMap :=
      gradientPatternMap_set doc1.fGradientPatternMap key SkPDFIndirectReference.none },
    ?_, rfl, rfl, gradientPatternMap_find_set _ _ _, ?_⟩
  · exact find_pdf_shader_miss pf doc doc1 key keyHasAlpha _ hmiss hfail
  · intro ha
    subst ha
    simp only [Bool.false_eq_true, if_false] at hfail
    exact make_function_shader_failure_emits_nothing pf doc doc1 key hfail

theorem find_pdf_shader_failure_witness :
    ∃ doc2, find_pdf_shader exactPlatform emptyDocument collapsedKey false =
        some (SkPDFIndirectReference.none, doc2) ∧
      doc2.fObjects = emptyDocument.fObjects ∧
      doc2.fGradientPatternMap =
        gradientPatternMap_set emptyDocument.fGradientPatternMap collapsedKey
          SkPDFIndirectReference.none ∧
      gradientPatternMap_find doc2.fGradientPatternMap collapsedKey =
        some SkPDFIndirectReference.none ∧
      (false = false → emptyDocument = emptyDocument) :=
  find_pdf_shader_failure exactPlatform emptyDocument emptyDocument collapsedKey false rfl
    collapsedKey_compile_fails

/-! ## Executing emitted text -/

theorem exec_nil (n : Nat) (st : List Val) : exec n [] st = some st := by
  cases n <;> rfl

theorem exec_num (n : Nat) (q : ℚ) (rest : List Tok) (st : List Val) :
    exec (n + 1) (Tok.num q :: rest) st = exec n rest (Val.num q :: st) := by
  simp only [exec]

theorem exec_lbrace (n : Nat) (rest : List Tok) (st : List Val) :
    exec (n + 1) (Tok.lbrace :: rest) st =
      match splitBlock 0 rest with
      | some (body, after) => exec n after (Val.proc body :: st)
      | none => none := by
  rfl

theorem exec_op (o : Op) (h1 : o ≠ Op.if_) (h2 : o ≠ Op.ifelse) (n : Nat) (rest : List Tok)
    (st : List Val) :
    exec (n + 1) (Tok.op o :: rest) st =
      match applyOp o st with
      | some st1 => exec n rest st1
      | none => none := by
  simp only [exec, h1, h2, if_false]
  try rfl

theorem exec_if (n : Nat) (rest : List Tok) (st : List Val) :
    exec (n + 1) (Tok.op Op.if_ :: rest) st =
      match st with
      | Val.proc body :: Val.bool b :: st1 =>
        if b then
          match exec n body st1 with
          | some st2 => exec n rest st2
          | none => none
        else exec n rest st1
      | _ => none := by
  rfl

theorem exec_ifelse (n : Nat) (rest : List Tok) (st : List Val) :
    exec (n + 1) (Tok.op Op.ifelse :: rest) st =
      match st with
      | Val.proc body2 :: Val.proc body1 :: Val.bool b :: st1 =>
        match exec n (if b then body1 else body2) st1 with
        | some st2 => exec n rest st2
        | none => none
      | _ => none := by
  rfl

theorem exec_mono (n : Nat) :
    ∀ (prog : List Tok) (st r : List Val), exec n prog st = some r →
      ∀ m, n ≤ m → exec m prog st = some r := by
  induction n with
  | zero =>
    intro prog st r h m _
    cases prog with
    | nil => rw [exec_nil] at h ⊢; exact h
    | cons t rest => simp [exec] at h
  | succ k ih =>
    intro prog st r h m hm
    obtain ⟨j, rfl⟩ : ∃ j, m = j + 1 := ⟨m - 1, by omega⟩
    have hkj : k ≤ j := by omega
    cases prog with
    | nil => rw [exec_nil] at h ⊢; exact h
    | cons t rest =>
      cases t with
      | num q =>
        rw [exec_num] at h ⊢
        exact ih _ _ _ h j hkj
      | lbrace =>
        rw [exec_lbrace] at h ⊢
        cases hs : splitBlock 0 rest with
        | none => simp [hs] at h
        | some p =>
          obtain ⟨body, after⟩ := p
          simp only [hs] at h ⊢
          exact ih _ _ _ h j hkj
      | rbrace => simp [exec] at h
      | op o =>
        by_cases h1 : o = Op.if_
        · subst h1
          rw [exec_if] at h ⊢
          split at h
          · rename_i body b st1
            by_cases hb : b = true
            · simp only [hb, if_true] at h ⊢
              cases he : exec k body st1 with
              | none => simp [he] at h
              | some st2 =>
                simp only [he] at h
                simp only [ih _ _ _ he j hkj]
                exact ih _ _ _ h j hkj
            · simp only [hb, if_false] at h ⊢
              exact ih _ _ _ h j hkj
          · simp at h
        · by_cases h2 : o = Op.ifelse
          · subst h2
            rw [exec_ifelse] at h ⊢
            split at h
            · rename_i body2 body1 b st1
              cases he : exec k (if b = true then body1 else body2) st1 with
              | none => simp [he] at h
              | some st2 =>
                simp only [he] at h
                simp only [ih _ _ _ he j hkj]
                exact ih _ _ _ h j hkj
            · simp at h
          · rw [exec_op o h1 h2] at h ⊢
            cases ha : applyOp o st with
            | none => simp [ha] at h
            | some st1 =>
              simp only [ha] at h ⊢
              exact ih _ _ _ h j hkj

theorem Runs.nil (st : List Val) : Runs [] st st :=
  ⟨0, fun _ _ _ h => h⟩

theorem Runs.append {c1 c2 : List Tok} {st st1 st2 : List Val}
    (h1 : Runs c1 st st1) (h2 : Runs c2 st1 st2) : Runs (c1 ++ c2) st st2 := by
  obtain ⟨k1, h1⟩ := h1
  obtain ⟨k2, h2⟩ := h2
  refine ⟨k2 + k1, fun rest n r h => ?_⟩
  have := h1 (c2 ++ rest) (n + k2) r (h2 rest n r h)
  rw [List.append_assoc, ← Nat.add_assoc]
  exact this

theorem Runs.num (q : ℚ) (st : List Val) : Runs [Tok.num q] st (Val.num q :: st) :=
  ⟨1, fun rest n r h => by
    rw [List.singleton_append, exec_num]
    exact h⟩

theorem Runs.op {o : Op} {st st1 : List Val} (h1 : o ≠ Op.if_) (h2 : o ≠ Op.ifelse)
    (h : applyOp o st = some st1) : Runs [Tok.op o] st st1 :=
  ⟨1, fun rest n r hr => by
    rw [List.singleton_append, exec_op o h1 h2, h]
    exact hr⟩

theorem Runs.cons_num {code : List Tok} {q : ℚ} {st st1 : List Val}
    (h : Runs code (Val.num q :: st) st1) : Runs (Tok.num q :: code) st st1 :=
  Runs.append (Runs.num q st) h

theorem Runs.cons_op {code : List Tok} {o : Op} {st st1 st2 : List Val}
    (h1 : o ≠ Op.if_) (h2 : o ≠ Op.ifelse) (h : applyOp o st = some st1)
    (hr : Runs code st1 st2) : Runs (Tok.op o :: code) st st2 :=
  Runs.append (Runs.op h1 h2 h) hr

theorem Runs.cons_op_to {code : List Tok} {o : Op} {st st2 : List Val}
    (h1 : o ≠ Op.if_) (h2 : o ≠ Op.ifelse) (st1 : List Val) (h : applyOp o st = some st1)
    (hr : Runs code st1 st2) : Runs (Tok.op o :: code) st st2 :=
  Runs.append (Runs.op h1 h2 h) hr

theorem Runs.evaluates {code : List Tok} {st st1 : List Val} (h : Runs code st st1) :
    Evaluates code st st1 := by
  obtain ⟨k, h⟩ := h
  refine ⟨k, ?_⟩
  have := h [] 0 st1 (exec_nil 0 st1)
  simpa using this

/-- A program stops with at most one stack. -/
theorem Evaluates.unique {code : List Tok} {st r1 r2 : List Val}
    (h1 : Evaluates code st r1) (h2 : Evaluates code st r2) : r1 = r2 := by
  obtain ⟨k1, h1⟩ := h1
  obtain ⟨k2, h2⟩ := h2
  have a := exec_mono k1 _ _ _ h1 (max k1 k2) (le_max_left _ _)
  have b := exec_mono k2 _ _ _ h2 (max k1 k2) (le_max_right _ _)
  rw [a] at b
  exact Option.some.inj b

/-! ### Matching braces -/

theorem Balanced.of_nil : Balanced [] := by
  intro d rest
  cases h : splitBlock d rest with
  | none => simp [h]
  | some p => simp [h]

theorem Balanced.of_num (q : ℚ) : Balanced [Tok.num q] := by
  intro d rest
  simp only [List.singleton_append, splitBlock]
  cases h : splitBlock d rest with
  | none => simp [h]
  | some p => simp [h]

theorem Balanced.of_op (o : Op) : Balanced [Tok.op o] := by
  intro d rest
  simp only [List.singleton_append, splitBlock]
  cases h : splitBlock d rest with
  | none => simp [h]
  | some p => simp [h]

theorem Balanced.of_append {a b : List Tok} (ha : Balanced a) (hb : Balanced b) :
    Balanced (a ++ b) := by
  intro d rest
  rw [List.append_assoc, ha d (b ++ rest), hb d rest]
  cases h : splitBlock d rest with
  | none => simp [h]
  | some p => simp [h]

theorem Balanced.braces {b : List Tok} (hb : Balanced b) :
    Balanced (Tok.lbrace :: b ++ [Tok.rbrace]) := by
  intro d rest
  have e : (Tok.lbrace :: b ++ [Tok.rbrace]) ++ rest =
      Tok.lbrace :: (b ++ (Tok.rbrace :: rest)) := by
    simp
  rw [e]
  simp only [splitBlock]
  rw [hb (d + 1) (Tok.rbrace :: rest)]
  simp only [splitBlock]
  cases h : splitBlock d rest with
  | none => simp [h]
  | some p => simp [h]

theorem Balanced.of_cons_num {b : List Tok} (q : ℚ) (hb : Balanced b) : Balanced (Tok.num q :: b) :=
  Balanced.of_append (Balanced.of_num q) hb

theorem Balanced.of_cons_op {b : List Tok} (o : Op) (hb : Balanced b) : Balanced (Tok.op o :: b) :=
  Balanced.of_append (Balanced.of_op o) hb

theorem splitBlock_of_balanced {b : List Tok} (hb : Balanced b) (rest : List Tok) :
    splitBlock 0 (b ++ Tok.rbrace :: rest) = some (b, rest) := by
  rw [hb 0 (Tok.rbrace :: rest)]
  simp [splitBlock]

/-! ### Conditionals -/

theorem Runs.if_true {body : List Tok} {st st1 : List Val} (hb : Balanced body)
    (h : Runs body st st1) :
    Runs (Tok.lbrace :: body ++ [Tok.rbrace, Tok.op Op.if_]) (Val.bool true :: st) st1 := by
  obtain ⟨k, h⟩ := h
  refine ⟨k + 2, fun rest n r hr => ?_⟩
  have e : (Tok.lbrace :: body ++ [Tok.rbrace, Tok.op Op.if_]) ++ rest =
      Tok.lbrace :: (body ++ Tok.rbrace :: (Tok.op Op.if_ :: rest)) := by simp
  have hbody : exec (n + k) body st = some st1 := by
    have := h [] n st1 (exec_nil n st1)
    simpa using this
  rw [e, show n + (k + 2) = (n + k) + 1 + 1 by omega, exec_lbrace, splitBlock_of_balanced hb]
  simp only [exec_if, if_true, hbody]
  exact exec_mono n _ _ _ hr _ (by omega)

theorem Runs.if_false (body : List Tok) (st : List Val) (hb : Balanced body) :
    Runs (Tok.lbrace :: body ++ [Tok.rbrace, Tok.op Op.if_]) (Val.bool false :: st) st := by
  refine ⟨2, fun rest n r hr => ?_⟩
  have e : (Tok.lbrace :: body ++ [Tok.rbrace, Tok.op Op.if_]) ++ rest =
      Tok.lbrace :: (body ++ Tok.rbrace :: (Tok.op Op.if_ :: rest)) := by simp
  rw [e, show n + 2 = n + 1 + 1 by omega, exec_lbrace, splitBlock_of_balanced hb]
  simp only [exec_if, Bool.false_eq_true, if_false]
  exact hr

theorem Runs.ifelse {body1 body2 : List Tok} {c : Bool} {st st1 : List Val}
    (hb1 : Balanced body1) (hb2 : Balanced body2)
    (h : Runs (if c = true then body1 else body2) st st1) :
    Runs (Tok.lbrace :: body1 ++ [Tok.rbrace] ++ (Tok.lbrace :: body2 ++
      [Tok.rbrace, Tok.op Op.ifelse])) (Val.bool c :: st) st1 := by
  obtain ⟨k, h⟩ := h
  refine ⟨k + 3, fun rest n r hr => ?_⟩
  have e : (Tok.lbrace :: body1 ++ [Tok.rbrace] ++ (Tok.lbrace :: body2 ++
      [Tok.rbrace, Tok.op Op.ifelse])) ++ rest =
      Tok.lbrace :: (body1 ++ Tok.rbrace :: (Tok.lbrace ::
        (body2 ++ Tok.rbrace :: (Tok.op Op.ifelse :: rest)))) := by simp
  have hbody : exec (n + k) (if c = true then body1 else body2) st = some st1 := by
    have := h [] n st1 (exec_nil n st1)
    simpa using this
  rw [e, show n + (k + 3) = (n + k) + 1 + 1 + 1 by omega, exec_lbrace,
    splitBlock_of_balanced hb1]
  simp only []
  rw [exec_lbrace, splitBlock_of_balanced hb2]
  simp only [exec_ifelse, hbody]
  exact exec_mono n _ _ _ hr _ (by omega)

/-! ## Leaf interpolation -/

theorem componentCode_runs_dup (m : SkScalar) (prev : Nat) (x : ℚ) (st : List Val) :
    Runs (componentCode true m prev) (Val.num x :: st)
      (Val.num x :: Val.num (x * m + (prev : ℚ) / 255) :: st) := by
  unfold componentCode
  by_cases hm : m = 0
  · subst hm
    simp only [bne_self_eq_false, Bool.and_false, Bool.false_eq_true, if_false, beq_self_eq_true,
      if_true, List.nil_append, List.singleton_append, AppendColorComponent]
    refine Runs.cons_num (Runs.op (by decide) (by decide) ?_)
    simp [applyOp]
  · have hb : (m != 0) = true := by simpa using hm
    have he : (m == 0) = false := by simpa using hm
    simp only [hb, he, Bool.and_true, if_true, Bool.false_eq_true, if_false,
      List.singleton_append, AppendColorComponent, AppendScalar]
    refine Runs.cons_op_to (by decide) (by decide) (Val.num x :: Val.num x :: st) rfl ?_
    have hmul : Runs (if (m != 1) = true then [Tok.num m, Tok.op Op.mul] else [])
        (Val.num x :: Val.num x :: st) (Val.num (x * m) :: Val.num x :: st) := by
      by_cases h1 : m = 1
      · subst h1
        simp only [bne_self_eq_false, Bool.false_eq_true, if_false, mul_one]
        exact Runs.nil _
      · have : (m != 1) = true := by simpa using h1
        simp only [this, if_true]
        exact Runs.cons_num (Runs.op (by decide) (by decide) rfl)
    have hadd : Runs (if (prev != 0) = true then
          [Tok.num ((prev : ℚ) / 255), Tok.op Op.add] else [])
        (Val.num (x * m) :: Val.num x :: st)
        (Val.num (x * m + (prev : ℚ) / 255) :: Val.num x :: st) := by
      by_cases h0 : prev = 0
      · subst h0
        simp only [bne_self_eq_false, Bool.false_eq_true, if_false, Nat.cast_zero, zero_div,
          add_zero]
        exact Runs.nil _
      · have : (prev != 0) = true := by simpa using h0
        simp only [this, if_true]
        exact Runs.cons_num (Runs.op (by decide) (by decide) rfl)
    have hex : Runs [Tok.op Op.exch] (Val.num (x * m + (prev : ℚ) / 255) :: Val.num x :: st)
        (Val.num x :: Val.num (x * m + (prev : ℚ) / 255) :: st) :=
      Runs.op (by decide) (by decide) rfl
    exact Runs.append (Runs.append hmul hadd) hex

theorem componentCode_runs_last (m : SkScalar) (prev : Nat) (x : ℚ) (st : List Val)
    (hm : m ≠ 0) :
    Runs (componentCode false m prev) (Val.num x :: st)
      (Val.num (x * m + (prev : ℚ) / 255) :: st) := by
  unfold componentCode
  have he : (m == 0) = false := by simpa using hm
  simp only [he, Bool.false_and, Bool.false_eq_true, if_false, List.nil_append,
    List.append_nil, AppendColorComponent, AppendScalar]
  have hmul : Runs (if (m != 1) = true then [Tok.num m, Tok.op Op.mul] else [])
      (Val.num x :: st) (Val.num (x * m) :: st) := by
    by_cases h1 : m = 1
    · subst h1
      simp only [bne_self_eq_false, Bool.false_eq_true, if_false, mul_one]
      exact Runs.nil _
    · have : (m != 1) = true := by simpa using h1
      simp only [this, if_true]
      exact Runs.cons_num (Runs.op (by decide) (by decide) rfl)
  have hadd : Runs (if (prev != 0) = true then
        [Tok.num ((prev : ℚ) / 255), Tok.op Op.add] else [])
      (Val.num (x * m) :: st) (Val.num (x * m + (prev : ℚ) / 255) :: st) := by
    by_cases h0 : prev = 0
    · subst h0
      simp only [bne_self_eq_false, Bool.false_eq_true, if_false, Nat.cast_zero, zero_div,
        add_zero]
      exact Runs.nil _
    · have : (prev != 0) = true := by simpa using h0
      simp only [this, if_true]
      exact Runs.cons_num (Runs.op (by decide) (by decide) rfl)
  exact Runs.append hmul hadd

theorem componentCode_runs_const (prev : Nat) (st : List Val) :
    Runs (componentCode false 0 prev) st (Val.num ((prev : ℚ) / 255) :: st) := by
  unfold componentCode
  simp only [Bool.false_and, Bool.false_eq_true, if_false, beq_self_eq_true, if_true,
    List.nil_append, List.append_nil, AppendColorComponent]
  exact Runs.num _ _

/-- The value of one channel of the leaf interpolation at `x = t - rangeBegin`. -/
theorem interpolate_color_code_runs (range : SkScalar) (beginColor endColor : SkColor)
    (hrange : range ≠ 0) (x : ℚ) (st : List Val) :
    ∃ code, interpolate_color_code range beginColor endColor = some code ∧
      Runs code (Val.num x :: st)
        (Val.num (x * multiplier range (SkColorGetB endColor) (SkColorGetB beginColor) +
            (SkColorGetB beginColor : ℚ) / 255) ::
         Val.num (x * multiplier range (SkColorGetG endColor) (SkColorGetG beginColor) +
            (SkColorGetG beginColor : ℚ) / 255) ::
         Val.num (x * multiplier range (SkColorGetR endColor) (SkColorGetR beginColor) +
            (SkColorGetR beginColor : ℚ) / 255) :: st) := by
  unfold interpolate_color_code
  simp only [hrange, if_false, Bool.false_or]
  refine ⟨_, rfl, ?_⟩
  generalize multiplier range (SkColorGetR endColor) (SkColorGetR beginColor) = m0
  generalize multiplier range (SkColorGetG endColor) (SkColorGetG beginColor) = m1
  generalize multiplier range (SkColorGetB endColor) (SkColorGetB beginColor) = m2
  generalize SkColorGetR beginColor = p0
  generalize SkColorGetG beginColor = p1
  generalize SkColorGetB beginColor = p2
  by_cases h2 : m2 = 0
  · subst h2
    by_cases h1 : m1 = 0
    · subst h1
      by_cases h0 : m0 = 0
      · subst h0
        simp only [bne_self_eq_false, Bool.or_self, Bool.not_false, beq_self_eq_true,
          Bool.and_self, if_true, mul_zero, zero_add]
        refine Runs.append (Runs.append (Runs.append ?_ (componentCode_runs_const p0 _))
          (componentCode_runs_const p1 _)) (componentCode_runs_const p2 _)
        exact Runs.op (by decide) (by decide) rfl
      · have he : (m0 == 0) = false := by simpa using h0
        simp only [bne_self_eq_false, Bool.or_self, Bool.not_false, he, Bool.and_false,
          Bool.false_eq_true, if_false, List.nil_append, mul_zero, zero_add]
        exact Runs.append (Runs.append (componentCode_runs_last m0 p0 x st h0)
          (componentCode_runs_const p1 _)) (componentCode_runs_const p2 _)
    · have hb : (m1 != 0) = true := by simpa using h1
      simp only [bne_self_eq_false, hb, Bool.false_or, Bool.not_true, Bool.false_and,
        Bool.false_eq_true, if_false, List.nil_append, mul_zero, zero_add]
      exact Runs.append (Runs.append (componentCode_runs_dup m0 p0 x st)
        (componentCode_runs_last m1 p1 x _ h1)) (componentCode_runs_const p2 _)
  · have hb : (m2 != 0) = true := by simpa using h2
    simp only [hb, Bool.true_or, Bool.not_true, Bool.false_and, Bool.false_eq_true, if_false,
      List.nil_append]
    exact Runs.append (Runs.append (componentCode_runs_dup m0 p0 x st)
      (componentCode_runs_dup m1 p1 x _)) (componentCode_runs_last m2 p2 x _ h2)

/-- C11: for every begin colour, end colour and non-zero range, the instruction sequence
emitted by `interpolate_color_code`, run on a stack holding only `t'`, leaves exactly the
three values r, g, b in that order (b on top), each equal to
`t' * multiplier + begin/255` with `multiplier = (end - begin)/255/range`. -/
theorem interpolate_color_code_evaluates (range : SkScalar) (beginColor endColor : SkColor)
    (hrange : range ≠ 0) (t' : ℚ) :
    ∃ code, interpolate_color_code range beginColor endColor = some code ∧
      Evaluates code [Val.num t']
        [Val.num (t' * (((SkColorGetB endColor : ℚ) - (SkColorGetB beginColor : ℚ)) / 255 / range)
            + (SkColorGetB beginColor : ℚ) / 255),
         Val.num (t' * (((SkColorGetG endColor : ℚ) - (SkColorGetG beginColor : ℚ)) / 255 / range)
            + (SkColorGetG beginColor : ℚ) / 255),
         Val.num (t' * (((SkColorGetR endColor : ℚ) - (SkColorGetR beginColor : ℚ)) / 255 / range)
            + (SkColorGetR beginColor : ℚ) / 255)] := by
  obtain ⟨code, hc, hr⟩ := interpolate_color_code_runs range beginColor endColor hrange t' []
  refine ⟨code, hc, ?_⟩
  have hm : ∀ cur prev : Nat,
      multiplier range cur prev = ((cur : ℚ) - (prev : ℚ)) / 255 / range := by
    intro cur prev
    unfold multiplier kColorScale
    ring
  simp only [hm] at hr
  exact hr.evaluates

theorem interpolate_color_code_evaluates_witness :
    ∃ code, interpolate_color_code (1 / 2) kBlack kWhite = some code ∧
      Evaluates code [Val.num (1 / 4)]
        [Val.num (1 / 4 * (((SkColorGetB kWhite : ℚ) - (SkColorGetB kBlack : ℚ)) / 255 / (1 / 2))
            + (SkColorGetB kBlack : ℚ) / 255),
         Val.num (1 / 4 * (((SkColorGetG kWhite : ℚ) - (SkColorGetG kBlack : ℚ)) / 255 / (1 / 2))
            + (SkColorGetG kBlack : ℚ) / 255),
         Val.num (1 / 4 * (((SkColorGetR kWhite : ℚ) - (SkColorGetR kBlack : ℚ)) / 255 / (1 / 2))
            + (SkColorGetR kBlack : ℚ) / 255)] :=
  interpolate_color_code_evaluates (1 / 2) kBlack kWhite (by norm_num) (1 / 4)

/-! ## The range dispatch tree -/

theorem NoBraces.balanced : ∀ l : List Tok, NoBraces l → Balanced l := by
  intro l
  induction l with
  | nil => intro _; exact Balanced.of_nil
  | cons t rest ih =>
    intro h
    have hr : NoBraces rest := fun x hx => h x (List.mem_cons_of_mem _ hx)
    have ht := h t (List.mem_cons_self _ _)
    cases t with
    | num q => exact Balanced.of_cons_num q (ih hr)
    | op o => exact Balanced.of_cons_op o (ih hr)
    | lbrace => exact absurd rfl ht.1
    | rbrace => exact absurd rfl ht.2

theorem NoBraces.nestDepthFrom : ∀ (l : List Tok), NoBraces l → ∀ (cur : Nat) (rest : List Tok),
    nestDepthFrom cur (l ++ rest) = nestDepthFrom cur rest := by
  intro l
  induction l with
  | nil => intro _ cur rest; rfl
  | cons t tl ih =>
    intro h cur rest
    have hr : NoBraces tl := fun x hx => h x (List.mem_cons_of_mem _ hx)
    have ht := h t (List.mem_cons_self _ _)
    cases t with
    | num q => simp only [List.cons_append, SkPDFGradientShader.nestDepthFrom]; exact ih hr cur rest
    | op o => simp only [List.cons_append, SkPDFGradientShader.nestDepthFrom]; exact ih hr cur rest
    | lbrace => exact absurd rfl ht.1
    | rbrace => exact absurd rfl ht.2

theorem NoBraces.join {a b : List Tok} (ha : NoBraces a) (hb : NoBraces b) :
    NoBraces (a ++ b) := by
  intro t ht
  rcases List.mem_append.1 ht with h | h
  · exact ha t h
  · exact hb t h

theorem componentCode_noBraces (d : Bool) (m : SkScalar) (prev : Nat) :
    NoBraces (componentCode d m prev) := by
  intro t ht
  unfold componentCode at ht
  simp only [List.mem_append, AppendColorComponent, AppendScalar] at ht
  rcases ht with (ht | ht) | ht
  · split at ht
    · simp at ht; subst ht; exact ⟨by decide, by decide⟩
    · simp at ht
  · split at ht
    · simp at ht; subst ht; exact ⟨by simp, by simp⟩
    · rcases List.mem_append.1 ht with ht | ht
      · split at ht
        · simp at ht
          rcases ht with rfl | rfl
          · exact ⟨by simp, by simp⟩
          · exact ⟨by decide, by decide⟩
        · simp at ht
      · split at ht
        · simp at ht
          rcases ht with rfl | rfl
          · exact ⟨by simp, by simp⟩
          · exact ⟨by decide, by decide⟩
        · simp at ht
  · split at ht
    · simp at ht; subst ht; exact ⟨by decide, by decide⟩
    · simp at ht

theorem interpolate_color_code_noBraces (range : SkScalar) (b e : SkColor) (code : List Tok)
    (h : interpolate_color_code range b e = some code) : NoBraces code := by
  unfold interpolate_color_code at h
  split at h
  · simp at h
  · simp only [Option.some.injEq] at h
    subst h
    refine NoBraces.join (NoBraces.join (NoBraces.join ?_ (componentCode_noBraces _ _ _))
      (componentCode_noBraces _ _ _)) (componentCode_noBraces _ _ _)
    intro t ht
    split at ht
    · simp at ht; subst ht; exact ⟨by decide, by decide⟩
    · simp at ht

theorem getElem?_offsetAt (info : GradientInfo) (i : Nat) (h : i < info.fColorOffsets.length) :
    info.fColorOffsets[i]? = some (offsetAt info i) := by
  simp [offsetAt, List.getD, List.getElem?_eq_getElem h]

theorem getElem?_colorAt (info : GradientInfo) (i : Nat) (h : i < info.fColors.length) :
    info.fColors[i]? = some (colorAt info i) := by
  simp [colorAt, List.getD, List.getElem?_eq_getElem h]

theorem size_t_pred_eq (e : Nat) (h1 : 1 ≤ e) (h2 : e < 18446744073709551616) :
    size_t_pred e = e - 1 := by
  unfold size_t_pred
  omega

theorem pickRange_append_left (info : GradientInfo) (t : ℚ) :
    ∀ (l1 l2 : List Nat), (∃ e ∈ l1, t ≤ offsetAt info e) →
      pickRange info t (l1 ++ l2) = pickRange info t l1 := by
  intro l1
  induction l1 with
  | nil => intro l2 h; obtain ⟨e, he, _⟩ := h; simp at he
  | cons a rest ih =>
    intro l2 h
    by_cases ha : t ≤ offsetAt info a
    · cases rest with
      | nil =>
        cases l2 with
        | nil => rfl
        | cons b l2 => simp [pickRange, ha]
      | cons b rest => simp [pickRange, ha]
    · have hr : ∃ e ∈ rest, t ≤ offsetAt info e := by
        obtain ⟨e, he, hle⟩ := h
        rcases List.mem_cons.1 he with rfl | he
        · exact absurd hle ha
        · exact ⟨e, he, hle⟩
      cases rest with
      | nil => obtain ⟨e, he, _⟩ := hr; simp at he
      | cons b rest =>
        have := ih l2 hr
        simp only [List.cons_append, pickRange, ha, if_false] at this ⊢
        exact this

theorem pickRange_append_right (info : GradientInfo) (t : ℚ) :
    ∀ (l1 l2 : List Nat), (∀ e ∈ l1, ¬ t ≤ offsetAt info e) → l2 ≠ [] →
      pickRange info t (l1 ++ l2) = pickRange info t l2 := by
  intro l1
  induction l1 with
  | nil => intro l2 _ _; rfl
  | cons a rest ih =>
    intro l2 h hne
    have ha := h a (List.mem_cons_self _ _)
    have hr : ∀ e ∈ rest, ¬ t ≤ offsetAt info e := fun e he => h e (List.mem_cons_of_mem _ he)
    have := ih l2 hr hne
    cases hrl : rest ++ l2 with
    | nil =>
      have : l2 = [] := (List.append_eq_nil.1 hrl).2
      exact absurd this hne
    | cons b tl =>
      rw [hrl] at this
      simp only [List.cons_append, hrl, pickRange, ha, if_false]
      exact this

theorem pairwise_le_getLast (f : Nat → ℚ) :
    ∀ (l : List Nat), l.Pairwise (fun a b => f a ≤ f b) → ∀ x, l.getLast? = some x →
      ∀ e ∈ l, f e ≤ f x := by
  intro l
  induction l with
  | nil => intro _ x hx; simp at hx
  | cons a rest ih =>
    intro hp x hx e he
    cases rest with
    | nil =>
      simp at hx he
      subst hx he
      exact le_refl _
    | cons b tl =>
      have hx' : (b :: tl).getLast? = some x := by
        simpa [List.getLast?_cons_cons] using hx
      rw [List.pairwise_cons] at hp
      have hxm : x ∈ b :: tl := List.mem_of_getLast?_eq_some hx'
      rcases List.mem_cons.1 he with rfl | he
      · exact hp.1 x hxm
      · exact ih hp.2 x hx' e he

theorem clog_two_split (n : Nat) (h : 2 ≤ n) :
    Nat.clog 2 n = Nat.clog 2 (n - n / 2) + 1 ∧ Nat.clog 2 (n / 2) ≤ Nat.clog 2 (n - n / 2) := by
  have e : (n + 2 - 1) / 2 = n - n / 2 := by omega
  refine ⟨?_, Nat.clog_mono_right 2 (by omega)⟩
  rw [Nat.clog_of_two_le (by decide) h, e]

theorem rangesNode_nestDepth (top first : Bool) (rangeEnd : SkScalar) (body : List Tok)
    (n : Nat)
    (hbody : ∀ cur rest, nestDepthFrom cur (body ++ rest) =
      max (if n = 1 then 0 else cur + Nat.clog 2 n) (nestDepthFrom cur rest))
    (cur : Nat) (rest : List Tok) :
    nestDepthFrom cur (rangesHead top first rangeEnd ++ body ++ rangesTail top first ++ rest) =
      max (cur + 1 + Nat.clog 2 n) (nestDepthFrom cur rest) := by
  have key : nestDepthFrom (cur + 1) (body ++ (rangesTail top first ++ rest)) =
      max (if n = 1 then 0 else cur + 1 + Nat.clog 2 n) (nestDepthFrom cur rest) := by
    rw [hbody]
    congr 1
    cases top <;> cases first <;>
      simp [rangesTail, nestDepthFrom]
  have h1 : Nat.clog 2 1 = 0 := Nat.clog_one_right 2
  have hfin : max (cur + 1) (max (if n = 1 then 0 else cur + 1 + Nat.clog 2 n)
      (nestDepthFrom cur rest)) = max (cur + 1 + Nat.clog 2 n) (nestDepthFrom cur rest) := by
    by_cases hn : n = 1
    · subst hn
      simp only [if_true, h1]
      omega
    · simp only [hn, if_false]
      omega
  cases top <;> cases first <;>
    simp only [rangesHead, rangesTail, AppendScalar, List.cons_append, List.nil_append,
      List.append_assoc, Bool.false_eq_true, if_false, if_true] <;>
    simp only [rangesTail, Bool.false_eq_true, if_false, if_true, List.cons_append,
      List.nil_append] at key <;>
    simp only [nestDepthFrom] <;>
    rw [key, hfin]

theorem lerpChannel_eq (o0 o1 : SkScalar) (v0 v1 : Nat) (t : ℚ) :
    lerpChannel o0 o1 v0 v1 t = (t - o0) * multiplier (o1 - o0) v1 v0 + (v0 : ℚ) / 255 := by
  unfold lerpChannel multiplier kColorScale
  ring

/-- What `write_gradient_ranges` writes for a non-empty list of valid range ends: the
head and the tail of the node around a body that is the same for every kind of node.  The
body is balanced, its conditionals nest `ceil(log2 n)` deep, and, when the offsets of the
range ends are in order, it replaces `t` on the stack by the colour of the first range
whose end is at least `t` (the last range when there is none). -/
theorem write_gradient_ranges_fuel_spec (info : GradientInfo) :
    ∀ (fuel : Nat) (ends : List Nat), ends ≠ [] → ends.length ≤ fuel → ValidEnds info ends →
      ∃ body : List Tok,
        (∀ top first, write_gradient_ranges_fuel fuel info ends top first =
          some (rangesHead top first (offsetAt info (ends.getLast?.getD 0)) ++ body ++
            rangesTail top first)) ∧
        Balanced body ∧
        (∀ cur rest, nestDepthFrom cur (body ++ rest) =
          max (if ends.length = 1 then 0 else cur + Nat.clog 2 ends.length)
            (nestDepthFrom cur rest)) ∧
        (ends.Pairwise (fun a b => offsetAt info a ≤ offsetAt info b) →
          ∀ t st, Runs body (Val.num t :: st) (leafStack info (pickRange info t ends) t st)) := by
  intro fuel
  induction fuel with
  | zero =>
    intro ends hne hlen _
    cases ends with
    | nil => exact absurd rfl hne
    | cons a l => simp at hlen
  | succ fuel ih =>
    intro ends hne hlen hv
    obtain ⟨last, hlast⟩ : ∃ x, ends.getLast? = some x := by
      cases h : ends.getLast? with
      | none => exact absurd (List.getLast?_eq_none_iff.1 h) hne
      | some x => exact ⟨x, rfl⟩
    have hlastmem : last ∈ ends := List.mem_of_getLast?_eq_some hlast
    obtain ⟨hl1, hl2, hl3, hl4, hl5⟩ := hv last hlastmem
    by_cases h1 : ends.length = 1
    · -- a leaf
      obtain ⟨e, rfl⟩ : ∃ e, ends = [e] := List.length_eq_one.1 h1
      have he : e = last := by simpa using hlast
      subst he
      have hrange : offsetAt info e - offsetAt info (e - 1) ≠ 0 := sub_ne_zero.2 hl5
      obtain ⟨code, hcode, _⟩ := interpolate_color_code_runs
        (offsetAt info e - offsetAt info (e - 1)) (colorAt info (e - 1)) (colorAt info e)
        hrange 0 []
      refine ⟨[AppendScalar (offsetAt info (e - 1)), Tok.op Op.sub] ++ code, ?_, ?_, ?_, ?_⟩
      · intro top first
        unfold write_gradient_ranges_fuel
        simp only [List.getLast?_singleton, getElem?_offsetAt info e hl2, List.length_singleton,
          if_true, size_t_pred_eq e hl1 hl4, getElem?_offsetAt info (e - 1) (by omega),
          getElem?_colorAt info (e - 1) (by omega), getElem?_colorAt info e hl3, hcode,
          Option.getD_some]
      · exact Balanced.of_cons_num _ (Balanced.of_cons_op _
          (NoBraces.balanced _ (interpolate_color_code_noBraces _ _ _ _ hcode)))
      · intro cur rest
        have hnb : NoBraces ([AppendScalar (offsetAt info (e - 1)), Tok.op Op.sub] ++ code) := by
          refine NoBraces.join ?_ (interpolate_color_code_noBraces _ _ _ _ hcode)
          intro t ht
          simp [AppendScalar] at ht
          rcases ht with rfl | rfl
          · exact ⟨by simp, by simp⟩
          · exact ⟨by decide, by decide⟩
        rw [NoBraces.nestDepthFrom _ hnb]
        simp
      · intro _ t st
        obtain ⟨code2, hcode2, hruns⟩ := interpolate_color_code_runs
          (offsetAt info e - offsetAt info (e - 1)) (colorAt info (e - 1)) (colorAt info e)
          hrange (t - offsetAt info (e - 1)) st
        have hc : code2 = code := Option.some.inj (hcode2.symm.trans hcode)
        subst hc
        have hstack : leafStack info (pickRange info t [e]) t st =
            (Val.num ((t - offsetAt info (e - 1)) *
                multiplier (offsetAt info e - offsetAt info (e - 1))
                  (SkColorGetB (colorAt info e)) (SkColorGetB (colorAt info (e - 1))) +
                (SkColorGetB (colorAt info (e - 1)) : ℚ) / 255) ::
             Val.num ((t - offsetAt info (e - 1)) *
                multiplier (offsetAt info e - offsetAt info (e - 1))
                  (SkColorGetG (colorAt info e)) (SkColorGetG (colorAt info (e - 1))) +
                (SkColorGetG (colorAt info (e - 1)) : ℚ) / 255) ::
             Val.num ((t - offsetAt info (e - 1)) *
                multiplier (offsetAt info e - offsetAt info (e - 1))
                  (SkColorGetR (colorAt info e)) (SkColorGetR (colorAt info (e - 1))) +
                (SkColorGetR (colorAt info (e - 1)) : ℚ) / 255) :: st) := by
          simp only [leafStack, pickRange, lerpChannel_eq]
        rw [hstack]
        refine Runs.cons_num (Runs.cons_op (by decide) (by decide) ?_ hruns)
        rfl
    · -- an inner node
      have hn2 : 2 ≤ ends.length := by
        have : ends.length ≠ 0 := fun h => hne (List.length_eq_zero.1 h)
        omega
      have hlo_len : (ends.take (ends.length / 2)).length = ends.length / 2 := by
        rw [List.length_take]; omega
      have hhi_len : (ends.drop (ends.length / 2)).length = ends.length - ends.length / 2 := by
        rw [List.length_drop]
      have hlo_ne : ends.take (ends.length / 2) ≠ [] := by
        intro h; rw [h] at hlo_len; simp at hlo_len; omega
      have hhi_ne : ends.drop (ends.length / 2) ≠ [] := by
        intro h; rw [h] at hhi_len; simp at hhi_len; omega
      have hsplit : ends.take (ends.length / 2) ++ ends.drop (ends.length / 2) = ends :=
        List.take_append_drop _ _
      have hvlo : ValidEnds info (ends.take (ends.length / 2)) :=
        fun e he => hv e (List.mem_of_mem_take he)
      have hvhi : ValidEnds info (ends.drop (ends.length / 2)) :=
        fun e he => hv e (List.mem_of_mem_drop he)
      obtain ⟨bl, hbl, hbalL, hdepL, hrunL⟩ :=
        ih (ends.take (ends.length / 2)) hlo_ne (by omega) hvlo
      obtain ⟨bh, hbh, hbalH, hdepH, hrunH⟩ :=
        ih (ends.drop (ends.length / 2)) hhi_ne (by omega) hvhi
      obtain ⟨lastLo, hlastLo⟩ : ∃ x, (ends.take (ends.length / 2)).getLast? = some x := by
        cases h : (ends.take (ends.length / 2)).getLast? with
        | none => exact absurd (List.getLast?_eq_none_iff.1 h) hlo_ne
        | some x => exact ⟨x, rfl⟩
      have hlastHi : (ends.drop (ends.length / 2)).getLast? = some last := by
        rw [← hsplit, List.getLast?_append_of_ne_nil _ hhi_ne] at hlast
        exact hlast
      simp only [hlastLo, hlastHi, Option.getD_some] at hbl hbh
      refine ⟨(rangesHead false true (offsetAt info lastLo) ++ bl ++ rangesTail false true) ++
        (rangesHead false false (offsetAt info last) ++ bh ++ rangesTail false false),
        ?_, ?_, ?_, ?_⟩
      · intro top first
        unfold write_gradient_ranges_fuel
        simp only [hlast, getElem?_offsetAt info last hl2, h1, if_false, hbl, hbh,
          Option.getD_some]
      · have e1 : rangesHead false true (offsetAt info lastLo) ++ bl ++ rangesTail false true =
            [Tok.op Op.dup, Tok.num (offsetAt info lastLo), Tok.op Op.le] ++
              (Tok.lbrace :: bl ++ [Tok.rbrace]) := by
          simp [rangesHead, rangesTail, AppendScalar]
        have e2 : rangesHead false false (offsetAt info last) ++ bh ++ rangesTail false false =
            (Tok.lbrace :: bh ++ [Tok.rbrace]) ++ [Tok.op Op.ifelse] := by
          simp [rangesHead, rangesTail]
        rw [e1, e2]
        exact Balanced.of_append
          (Balanced.of_append (Balanced.of_cons_op _ (Balanced.of_cons_num _ (Balanced.of_op _)))
            (Balanced.braces hbalL))
          (Balanced.of_append (Balanced.braces hbalH) (Balanced.of_op _))
      · intro cur rest
        have hL := rangesNode_nestDepth false true (offsetAt info lastLo) bl
          (ends.take (ends.length / 2)).length hdepL
        have hH := rangesNode_nestDepth false false (offsetAt info last) bh
          (ends.drop (ends.length / 2)).length hdepH
        rw [List.append_assoc, hL cur, hH cur rest, hlo_len, hhi_len]
        obtain ⟨c1, c2⟩ := clog_two_split ends.length hn2
        simp only [h1, if_false]
        omega
      · intro hsorted t st
        have hsplitP := hsorted
        rw [← hsplit, List.pairwise_append] at hsplitP
        obtain ⟨hpl, hph, _⟩ := hsplitP
        have hcode : (rangesHead false true (offsetAt info lastLo) ++ bl ++
            rangesTail false true) ++
            (rangesHead false false (offsetAt info last) ++ bh ++ rangesTail false false) =
            [Tok.op Op.dup, Tok.num (offsetAt info lastLo), Tok.op Op.le] ++
              (Tok.lbrace :: bl ++ [Tok.rbrace] ++
                (Tok.lbrace :: bh ++ [Tok.rbrace, Tok.op Op.ifelse])) := by
          simp [rangesHead, rangesTail, AppendScalar]
        rw [hcode]
        have hpre : Runs [Tok.op Op.dup, Tok.num (offsetAt info lastLo), Tok.op Op.le]
            (Val.num t :: st)
            (Val.bool (decide (t ≤ offsetAt info lastLo)) :: Val.num t :: st) :=
          Runs.cons_op_to (by decide) (by decide) (Val.num t :: Val.num t :: st) rfl
            (Runs.cons_num (Runs.op (by decide) (by decide) rfl))
        refine Runs.append hpre (Runs.ifelse hbalL hbalH ?_)
        by_cases hc : t ≤ offsetAt info lastLo
        · have hpick : pickRange info t ends = pickRange info t (ends.take (ends.length / 2)) := by
            conv_lhs => rw [← hsplit]
            exact pickRange_append_left info t _ _
              ⟨lastLo, List.mem_of_getLast?_eq_some hlastLo, hc⟩
          simp only [hc, decide_True, if_true, hpick]
          exact hrunL hpl t st
        · have hall : ∀ e ∈ ends.take (ends.length / 2), ¬ t ≤ offsetAt info e := by
            intro e he hle
            exact hc (le_trans hle (pairwise_le_getLast (offsetAt info) _ hpl lastLo hlastLo e he))
          have hpick : pickRange info t ends = pickRange info t (ends.drop (ends.length / 2)) := by
            conv_lhs => rw [← hsplit]
            exact pickRange_append_right info t _ _ hall hhi_ne
          simp only [hc, decide_False, Bool.false_eq_true, if_false, hpick]
          exact hrunH hph t st

/-! ## The whole program of `gradient_function_code` -/

theorem firstClamp_runs (c0 : SkColor) (t : ℚ) (st : List Val) :
    Runs [Tok.op Op.dup, Tok.num 0, Tok.op Op.le, Tok.lbrace, Tok.op Op.pop,
        AppendColorComponent (SkColorGetR c0), AppendColorComponent (SkColorGetG c0),
        AppendColorComponent (SkColorGetB c0), Tok.num 0, Tok.rbrace, Tok.op Op.if_]
      (Val.num t :: st)
      (if t ≤ 0 then Val.num 0 :: colorStack c0 st else Val.num t :: st) := by
  have hpre : Runs [Tok.op Op.dup, Tok.num 0, Tok.op Op.le] (Val.num t :: st)
      (Val.bool (decide (t ≤ 0)) :: Val.num t :: st) :=
    Runs.cons_op_to (by decide) (by decide) (Val.num t :: Val.num t :: st) rfl
      (Runs.cons_num (Runs.op (by decide) (by decide) rfl))
  have hbal : Balanced [Tok.op Op.pop, AppendColorComponent (SkColorGetR c0),
      AppendColorComponent (SkColorGetG c0), AppendColorComponent (SkColorGetB c0),
      Tok.num 0] :=
    Balanced.of_cons_op _ (Balanced.of_cons_num _ (Balanced.of_cons_num _ (Balanced.of_cons_num _
      (Balanced.of_num _))))
  have hbody : Runs [Tok.op Op.pop, AppendColorComponent (SkColorGetR c0),
      AppendColorComponent (SkColorGetG c0), AppendColorComponent (SkColorGetB c0),
      Tok.num 0] (Val.num t :: st) (Val.num 0 :: colorStack c0 st) :=
    Runs.cons_op_to (by decide) (by decide) (st) rfl
      (Runs.cons_num (Runs.cons_num (Runs.cons_num (Runs.num _ _))))
  have hlist : [Tok.op Op.dup, Tok.num 0, Tok.op Op.le, Tok.lbrace, Tok.op Op.pop,
        AppendColorComponent (SkColorGetR c0), AppendColorComponent (SkColorGetG c0),
        AppendColorComponent (SkColorGetB c0), Tok.num 0, Tok.rbrace, Tok.op Op.if_] =
      [Tok.op Op.dup, Tok.num 0, Tok.op Op.le] ++
        (Tok.lbrace :: [Tok.op Op.pop, AppendColorComponent (SkColorGetR c0),
          AppendColorComponent (SkColorGetG c0), AppendColorComponent (SkColorGetB c0),
          Tok.num 0] ++ [Tok.rbrace, Tok.op Op.if_]) := rfl
  rw [hlist]
  refine Runs.append hpre ?_
  by_cases h : t ≤ 0
  · simp only [h, decide_True, if_true]
    exact Runs.if_true hbal hbody
  · simp only [h, decide_False, if_false]
    exact Runs.if_false _ _ hbal

theorem lastClamp_runs (cLast : SkColor) (t : ℚ) (st : List Val) :
    Runs [Tok.num 0, Tok.op Op.gt, Tok.lbrace,
        AppendColorComponent (SkColorGetR cLast), AppendColorComponent (SkColorGetG cLast),
        AppendColorComponent (SkColorGetB cLast), Tok.rbrace, Tok.op Op.if_]
      (Val.num t :: st)
      (if 0 < t then colorStack cLast st else st) := by
  have hpre : Runs [Tok.num 0, Tok.op Op.gt] (Val.num t :: st)
      (Val.bool (decide (0 < t)) :: st) :=
    Runs.cons_num (Runs.op (by decide) (by decide) rfl)
  have hbal : Balanced [AppendColorComponent (SkColorGetR cLast),
      AppendColorComponent (SkColorGetG cLast), AppendColorComponent (SkColorGetB cLast)] :=
    Balanced.of_cons_num _ (Balanced.of_cons_num _ (Balanced.of_num _))
  have hbody : Runs [AppendColorComponent (SkColorGetR cLast),
      AppendColorComponent (SkColorGetG cLast), AppendColorComponent (SkColorGetB cLast)]
      st (colorStack cLast st) :=
    Runs.cons_num (Runs.cons_num (Runs.num _ _))
  have hlist : [Tok.num 0, Tok.op Op.gt, Tok.lbrace,
        AppendColorComponent (SkColorGetR cLast), AppendColorComponent (SkColorGetG cLast),
        AppendColorComponent (SkColorGetB cLast), Tok.rbrace, Tok.op Op.if_] =
      [Tok.num 0, Tok.op Op.gt] ++
        (Tok.lbrace :: [AppendColorComponent (SkColorGetR cLast),
          AppendColorComponent (SkColorGetG cLast),
          AppendColorComponent (SkColorGetB cLast)] ++ [Tok.rbrace, Tok.op Op.if_]) := rfl
  rw [hlist]
  refine Runs.append hpre ?_
  by_cases h : 0 < t
  · simp only [h, decide_True, if_true]
    exact Runs.if_true hbal hbody
  · simp only [h, decide_False, if_false]
    exact Runs.if_false _ _ hbal

/-- The top-level range test: inside `0 < t <= rangeEnd` the body runs and the sentinel 0
is pushed, outside nothing happens. -/
theorem rangesTop_runs (rangeEnd : SkScalar) (body : List Tok) (hbal : Balanced body)
    (t : ℚ) (st res : List Val)
    (hbody : 0 < t → t ≤ rangeEnd → Runs body (Val.num t :: st) res) :
    Runs (rangesHead true true rangeEnd ++ body ++ rangesTail true true) (Val.num t :: st)
      (if 0 < t ∧ t ≤ rangeEnd then Val.num 0 :: res else Val.num t :: st) := by
  have hpre : Runs [Tok.op Op.dup, Tok.op Op.dup, Tok.num 0, Tok.op Op.gt, Tok.op Op.exch,
      Tok.num rangeEnd, Tok.op Op.le, Tok.op Op.and] (Val.num t :: st)
      (Val.bool (decide (0 < t) && decide (t ≤ rangeEnd)) :: Val.num t :: st) :=
    Runs.cons_op_to (by decide) (by decide) (Val.num t :: Val.num t :: st) rfl
      (Runs.cons_op_to (by decide) (by decide)
        (Val.num t :: Val.num t :: Val.num t :: st) rfl
        (Runs.cons_num (Runs.cons_op_to (by decide) (by decide)
          (Val.bool (decide (0 < t)) :: Val.num t :: Val.num t :: st) rfl
          (Runs.cons_op_to (by decide) (by decide)
            (Val.num t :: Val.bool (decide (0 < t)) :: Val.num t :: st) rfl
            (Runs.cons_num (Runs.cons_op_to (by decide) (by decide)
              (Val.bool (decide (t ≤ rangeEnd)) :: Val.bool (decide (0 < t)) ::
                Val.num t :: st) rfl
              (Runs.op (by decide) (by decide) rfl)))))))
  have hlist : rangesHead true true rangeEnd ++ body ++ rangesTail true true =
      [Tok.op Op.dup, Tok.op Op.dup, Tok.num 0, Tok.op Op.gt, Tok.op Op.exch,
        Tok.num rangeEnd, Tok.op Op.le, Tok.op Op.and] ++
      (Tok.lbrace :: (body ++ [Tok.num 0]) ++ [Tok.rbrace, Tok.op Op.if_]) := by
    simp [rangesHead, rangesTail, AppendScalar]
  have hbal2 : Balanced (body ++ [Tok.num 0]) := Balanced.of_append hbal (Balanced.of_num 0)
  rw [hlist]
  refine Runs.append hpre ?_
  by_cases h : 0 < t ∧ t ≤ rangeEnd
  · have hd : (decide (0 < t) && decide (t ≤ rangeEnd)) = true := by simp [h.1, h.2]
    simp only [h, hd, and_self, if_true]
    exact Runs.if_true hbal2 (Runs.append (hbody h.1 h.2) (Runs.num 0 _))
  · have hd : (decide (0 < t) && decide (t ≤ rangeEnd)) = false := by
      rw [Bool.and_eq_false_iff]
      by_cases h0 : 0 < t
      · right; simpa using fun hle => h ⟨h0, hle⟩
      · left; simpa using h0
    simp only [h, hd, if_false]
    exact Runs.if_false _ _ hbal2

/-- The program of `gradient_function_code`, given its list of kept range ends: it exists
when the list is not empty and its entries are valid, and it has three cases. -/
theorem gradient_function_code_spec (info : GradientInfo) (ends : List Nat) (c0 cLast : SkColor)
    (hc0 : info.fColors[0]? = some c0)
    (hcLast : info.fColors[info.fColorCount - 1]? = some cLast)
    (hends : rangeEndsOf info = some ends) (hne : ends ≠ []) (hv : ValidEnds info ends) :
    ∃ prog, gradient_function_code info = some prog ∧
      (∀ t : ℚ, t ≤ 0 → Runs prog [Val.num t] (colorStack c0 [])) ∧
      (∀ t : ℚ, 0 < t → t ≤ offsetAt info (ends.getLast?.getD 0) →
        ends.Pairwise (fun a b => offsetAt info a ≤ offsetAt info b) →
        Runs prog [Val.num t] (leafStack info (pickRange info t ends) t [])) ∧
      (∀ t : ℚ, 0 < t → offsetAt info (ends.getLast?.getD 0) < t →
        Runs prog [Val.num t] (colorStack cLast [])) := by
  obtain ⟨body, hbody, hbal, _, hruns⟩ :=
    write_gradient_ranges_fuel_spec info ends.length ends hne (le_refl _) hv
  have hw := hbody true true
  refine ⟨[Tok.op Op.dup, Tok.num 0, Tok.op Op.le, Tok.lbrace, Tok.op Op.pop,
        AppendColorComponent (SkColorGetR c0), AppendColorComponent (SkColorGetG c0),
        AppendColorComponent (SkColorGetB c0), Tok.num 0, Tok.rbrace, Tok.op Op.if_] ++
      (rangesHead true true (offsetAt info (ends.getLast?.getD 0)) ++ body ++
        rangesTail true true) ++
      [Tok.num 0, Tok.op Op.gt, Tok.lbrace,
        AppendColorComponent (SkColorGetR cLast), AppendColorComponent (SkColorGetG cLast),
        AppendColorComponent (SkColorGetB cLast), Tok.rbrace, Tok.op Op.if_], ?_, ?_, ?_, ?_⟩
  · unfold gradient_function_code write_gradient_ranges
    simp only [hc0, hends, hcLast, hw]
  · intro t ht
    have h1 := firstClamp_runs c0 t []
    simp only [ht, if_true] at h1
    have h2 := rangesTop_runs (offsetAt info (ends.getLast?.getD 0)) body hbal 0
      (colorStack c0 []) [] (fun h => absurd h (lt_irrefl 0))
    simp only [lt_irrefl, false_and, if_false] at h2
    have h3 := lastClamp_runs cLast 0 (colorStack c0 [])
    simp only [lt_irrefl, if_false] at h3
    exact Runs.append (Runs.append h1 h2) h3
  · intro t ht hle hs
    have h1 := firstClamp_runs c0 t []
    simp only [not_le.2 ht, if_false] at h1
    have h2 := rangesTop_runs (offsetAt info (ends.getLast?.getD 0)) body hbal t []
      (leafStack info (pickRange info t ends) t []) (fun _ _ => hruns hs t [])
    simp only [ht, hle, and_self, if_true] at h2
    have h3 := lastClamp_runs cLast 0 (leafStack info (pickRange info t ends) t [])
    simp only [lt_irrefl, if_false] at h3
    exact Runs.append (Runs.append h1 h2) h3
  · intro t ht hlt
    have h1 := firstClamp_runs c0 t []
    simp only [not_le.2 ht, if_false] at h1
    have h2 := rangesTop_runs (offsetAt info (ends.getLast?.getD 0)) body hbal t []
      [] (fun _ hle => absurd hlt (not_lt.2 hle))
    simp only [not_le.2 hlt, and_false, if_false] at h2
    have h3 := lastClamp_runs cLast t []
    simp only [ht, if_true] at h3
    exact Runs.append (Runs.append h1 h2) h3

/-! ## The kept range ends -/

theorem keepRange_eq_some_true (info : GradientInfo) (e : Nat)
    (h : keepRange info e = some true) :
    e - 1 < info.fColorOffsets.length ∧ e < info.fColorOffsets.length ∧
    e - 1 < info.fColors.length ∧ e < info.fColors.length ∧
    offsetAt info e ≠ offsetAt info (e - 1) := by
  unfold keepRange at h
  split at h
  · rename_i cPrev cCur oPrev oCur h1 h2 h3 h4
    have l1 := (List.getElem?_eq_some.1 h1).1
    have l2 := (List.getElem?_eq_some.1 h2).1
    have l3 := (List.getElem?_eq_some.1 h3).1
    have l4 := (List.getElem?_eq_some.1 h4).1
    refine ⟨l3, l4, l1, l2, ?_⟩
    have e3 : offsetAt info (e - 1) = oPrev :=
      Option.some.inj ((getElem?_offsetAt info _ l3).symm.trans h3)
    have e4 : offsetAt info e = oCur :=
      Option.some.inj ((getElem?_offsetAt info _ l4).symm.trans h4)
    rw [e3, e4]
    intro heq
    dsimp only at h
    split at h
    · simp [heq] at h
    · simp at h
  · simp at h

theorem keepRange_eq_some_false (info : GradientInfo) (j : Nat)
    (h : keepRange info j = some false) (hne : offsetAt info (j - 1) ≠ offsetAt info j) :
    eqIgnoringAlpha (colorAt info (j - 1)) (colorAt info j) = true ∧
    j ≠ info.fColorCount - 1 ∧
    eqIgnoringAlpha (colorAt info j) (colorAt info (j + 1)) = true := by
  unfold keepRange at h
  split at h
  · rename_i cPrev cCur oPrev oCur h1 h2 h3 h4
    have l1 := (List.getElem?_eq_some.1 h1).1
    have l2 := (List.getElem?_eq_some.1 h2).1
    have l3 := (List.getElem?_eq_some.1 h3).1
    have l4 := (List.getElem?_eq_some.1 h4).1
    have e1 : colorAt info (j - 1) = cPrev :=
      Option.some.inj ((getElem?_colorAt info _ l1).symm.trans h1)
    have e2 : colorAt info j = cCur :=
      Option.some.inj ((getElem?_colorAt info _ l2).symm.trans h2)
    have e3 : offsetAt info (j - 1) = oPrev :=
      Option.some.inj ((getElem?_offsetAt info _ l3).symm.trans h3)
    have e4 : offsetAt info j = oCur :=
      Option.some.inj ((getElem?_offsetAt info _ l4).symm.trans h4)
    rw [e3, e4] at hne
    rw [e1, e2]
    dsimp only at h
    have hd : (oPrev == oCur) = false := by simpa using hne
    by_cases hc : (eqIgnoringAlpha cPrev cCur && j != info.fColorCount - 1) = true
    · simp only [hc, if_true] at h
      cases hn : info.fColors[j + 1]? with
      | none => simp [hn] at h
      | some cNext =>
        have l5 := (List.getElem?_eq_some.1 hn).1
        have e5 : colorAt info (j + 1) = cNext :=
          Option.some.inj ((getElem?_colorAt info _ l5).symm.trans hn)
        simp only [hn, hd, Bool.not_false, Bool.true_and, Option.some.injEq,
          Bool.not_eq_false'] at h
        rw [Bool.and_eq_true] at hc
        refine ⟨hc.1, by simpa using hc.2, ?_⟩
        rw [e5]
        exact h
    · simp only [hc, Bool.false_eq_true, if_false, hd] at h
      simp at h
  · simp at h

theorem keepRange_isSome (info : GradientInfo) (i : Nat)
    (hcolors : info.fColors.length = info.fColorCount)
    (hoffsets : info.fColorOffsets.length = info.fColorCount)
    (hi : i < info.fColorCount) : ∃ k, keepRange info i = some k := by
  unfold keepRange
  have l1 : i - 1 < info.fColors.length := by omega
  have l2 : i < info.fColors.length := by omega
  have l3 : i - 1 < info.fColorOffsets.length := by omega
  have l4 : i < info.fColorOffsets.length := by omega
  simp only [List.getElem?_eq_getElem l1, List.getElem?_eq_getElem l2,
    List.getElem?_eq_getElem l3, List.getElem?_eq_getElem l4]
  by_cases hc : (eqIgnoringAlpha info.fColors[i - 1] info.fColors[i] &&
      i != info.fColorCount - 1) = true
  · have hne : i ≠ info.fColorCount - 1 := by
      rw [Bool.and_eq_true] at hc
      simpa using hc.2
    have l5 : i + 1 < info.fColors.length := by omega
    simp only [hc, if_true, List.getElem?_eq_getElem l5]
    exact ⟨_, rfl⟩
  · simp only [hc, Bool.false_eq_true, if_false]
    exact ⟨_, rfl⟩

theorem collectRangeEnds_spec (info : GradientInfo) :
    ∀ (idxs ends : List Nat), collectRangeEnds info idxs = some ends →
      ends.Sublist idxs ∧ (∀ e ∈ ends, keepRange info e = some true) ∧
      (∀ j ∈ idxs, j ∉ ends → keepRange info j = some false) := by
  intro idxs
  induction idxs with
  | nil =>
    intro ends h
    simp only [collectRangeEnds, Option.some.injEq] at h
    subst h
    exact ⟨List.Sublist.refl _, by simp, by simp⟩
  | cons i rest ih =>
    intro ends h
    unfold collectRangeEnds at h
    cases hk : keepRange info i with
    | none => simp [hk] at h
    | some k =>
      cases hr : collectRangeEnds info rest with
      | none => simp [hk, hr] at h
      | some ends1 =>
        obtain ⟨hs, ht, hf⟩ := ih ends1 hr
        simp only [hk, hr, Option.some.injEq] at h
        cases k with
        | true =>
          simp only [if_true] at h
          subst h
          refine ⟨hs.cons₂ i, ?_, ?_⟩
          · intro e he
            rcases List.mem_cons.1 he with rfl | he
            · exact hk
            · exact ht e he
          · intro j hj hn
            rcases List.mem_cons.1 hj with rfl | hj
            · exact absurd (List.mem_cons_self _ _) hn
            · exact hf j hj (fun hm => hn (List.mem_cons_of_mem _ hm))
        | false =>
          simp only [Bool.false_eq_true, if_false] at h
          subst h
          refine ⟨hs.cons i, ht, ?_⟩
          intro j hj hn
          rcases List.mem_cons.1 hj with rfl | hj
          · exact hk
          · exact hf j hj hn

theorem collectRangeEnds_isSome (info : GradientInfo)
    (hcolors : info.fColors.length = info.fColorCount)
    (hoffsets : info.fColorOffsets.length = info.fColorCount) :
    ∀ idxs : List Nat, (∀ i ∈ idxs, i < info.fColorCount) →
      ∃ ends, collectRangeEnds info idxs = some ends := by
  intro idxs
  induction idxs with
  | nil => intro _; exact ⟨[], rfl⟩
  | cons i rest ih =>
    intro h
    obtain ⟨k, hk⟩ := keepRange_isSome info i hcolors hoffsets (h i (List.mem_cons_self _ _))
    obtain ⟨ends, he⟩ := ih (fun j hj => h j (List.mem_cons_of_mem _ hj))
    unfold collectRangeEnds
    simp only [hk, he]
    exact ⟨_, rfl⟩

/-- The kept range ends of a descriptor are valid range ends, in increasing order. -/
theorem rangeEndsOf_valid (info : GradientInfo) (ends : List Nat)
    (hcount : info.fColorCount < 2147483648) (h : rangeEndsOf info = some ends) :
    ValidEnds info ends ∧ ends.Pairwise (· < ·) ∧
    (∀ e ∈ ends, 1 ≤ e ∧ e < info.fColorCount) := by
  obtain ⟨hs, ht, _⟩ := collectRangeEnds_spec info _ ends h
  have hmem : ∀ e ∈ ends, 1 ≤ e ∧ e < info.fColorCount := by
    intro e he
    have := hs.subset he
    rw [List.mem_range'_1] at this
    omega
  refine ⟨?_, ?_, hmem⟩
  · intro e he
    obtain ⟨_, l2, _, l4, hne⟩ := keepRange_eq_some_true info e (ht e he)
    have := hmem e he
    exact ⟨this.1, l2, l4, by omega, hne⟩
  · exact (List.pairwise_lt_range' 1 (info.fColorCount - 1)).sublist hs

/-! ## Depth, clamping and the colours at the stops -/

/-- C10: for every non-empty list of `n` (valid) kept range ends, the conditionals written
by `write_gradient_ranges` nest exactly `ceil(log2 n)` deep below the top-level test, so the
whole text nests `1 + ceil(log2 n)` deep, whatever the offsets are; hence for `N = n + 1`
stops the depth below the top-level test is at most `ceil(log2 N)`. -/
theorem write_gradient_ranges_depth (info : GradientInfo) (ends : List Nat) (hne : ends ≠ [])
    (hv : ValidEnds info ends) :
    ∃ code, write_gradient_ranges info ends true true = some code ∧
      nestDepth code = 1 + Nat.clog 2 ends.length ∧
      Nat.clog 2 ends.length ≤ Nat.clog 2 (ends.length + 1) := by
  obtain ⟨body, hbody, _, hdepth, _⟩ :=
    write_gradient_ranges_fuel_spec info ends.length ends hne (le_refl _) hv
  refine ⟨_, hbody true true, ?_, Nat.clog_mono_right 2 (Nat.le_succ _)⟩
  have h := rangesNode_nestDepth true true (offsetAt info (ends.getLast?.getD 0)) body
    ends.length hdepth 0 []
  rw [List.append_nil] at h
  unfold nestDepth
  rw [h]
  simp only [nestDepthFrom]
  omega

theorem threeStops_validEnds : ValidEnds threeStops [1, 2] := by
  intro e he
  have h1 : offsetAt threeStops 0 = 0 := rfl
  have h2 : offsetAt threeStops 1 = 1 / 2 := rfl
  have h3 : offsetAt threeStops 2 = 1 := rfl
  have hl : threeStops.fColorOffsets.length = 3 := rfl
  have hc : threeStops.fColors.length = 3 := rfl
  simp only [List.mem_cons, List.mem_singleton, List.not_mem_nil, or_false] at he
  rcases he with rfl | rfl
  · refine ⟨le_refl _, by rw [hl]; decide, by rw [hc]; decide, by decide, ?_⟩
    rw [h2, show (1 : Nat) - 1 = 0 from rfl, h1]
    norm_num
  · refine ⟨by decide, by rw [hl]; decide, by rw [hc]; decide, by decide, ?_⟩
    rw [h3, show (2 : Nat) - 1 = 1 from rfl, h2]
    norm_num

theorem write_gradient_ranges_depth_witness :
    ∃ code, write_gradient_ranges threeStops [1, 2] true true = some code ∧
      nestDepth code = 1 + Nat.clog 2 [1, 2].length ∧
      Nat.clog 2 [1, 2].length ≤ Nat.clog 2 ([1, 2].length + 1) :=
  write_gradient_ranges_depth threeStops [1, 2] (by simp) threeStops_validEnds

theorem getLast_getD_mem (ends : List Nat) (hne : ends ≠ []) : ends.getLast?.getD 0 ∈ ends := by
  cases h : ends.getLast? with
  | none => exact absurd (List.getLast?_eq_none_iff.1 h) hne
  | some x => simpa using List.mem_of_getLast?_eq_some h

theorem offsetAt_mem (info : GradientInfo) (i : Nat) (h : i < info.fColorOffsets.length) :
    offsetAt info i ∈ info.fColorOffsets := by
  have : offsetAt info i = info.fColorOffsets[i] := by
    simp [offsetAt, List.getD, List.getElem?_eq_getElem h]
  rw [this]
  exact List.getElem_mem _

/-- C9: the program of `gradient_function_code` clamps at both ends: for every `t <= 0`
its result is the RGB of the first stop, and for every `t` greater than the offset of the
last kept range end its result is the RGB of the last stop, each channel divided by 255
(offsets in [0,1], as in the data model). -/
theorem gradient_function_code_clamps (info : GradientInfo) (ends : List Nat)
    (hcount : info.fColorCount < 2147483648)
    (hcolors : info.fColors.length = info.fColorCount)
    (hoffsets : info.fColorOffsets.length = info.fColorCount)
    (hunit : ∀ x ∈ info.fColorOffsets, 0 ≤ x ∧ x ≤ 1)
    (hends : rangeEndsOf info = some ends) (hne : ends ≠ []) :
    ∃ prog, gradient_function_code info = some prog ∧
      (∀ t : ℚ, t ≤ 0 → Evaluates prog [Val.num t] (colorStack (colorAt info 0) [])) ∧
      (∀ t : ℚ, offsetAt info (ends.getLast?.getD 0) < t →
        Evaluates prog [Val.num t] (colorStack (colorAt info (info.fColorCount - 1)) [])) := by
  obtain ⟨hv, _, hmem⟩ := rangeEndsOf_valid info ends hcount hends
  have hlast := hmem _ (getLast_getD_mem ends hne)
  have h0 : 0 < info.fColors.length := by omega
  have hl : info.fColorCount - 1 < info.fColors.length := by omega
  obtain ⟨prog, hp, hlow, _, hhigh⟩ := gradient_function_code_spec info ends
    (colorAt info 0) (colorAt info (info.fColorCount - 1))
    (getElem?_colorAt info 0 h0) (getElem?_colorAt info _ hl) hends hne hv
  have hE : 0 ≤ offsetAt info (ends.getLast?.getD 0) :=
    (hunit _ (offsetAt_mem info _ (by omega))).1
  exact ⟨prog, hp, fun t ht => (hlow t ht).evaluates,
    fun t ht => (hhigh t (lt_of_le_of_lt hE ht) ht).evaluates⟩

theorem threeStops_rangeEnds : rangeEndsOf threeStops = some [1, 2] := by
  have hr : List.range' 1 (threeStops.fColorCount - 1) = [1, 2] := rfl
  have k1 : keepRange threeStops 1 = some true := by
    norm_num [keepRange, threeStops, sampleInfo, eqIgnoringAlpha, SkColorSetA, kRed, kWhite, kBlue]
  have k2 : keepRange threeStops 2 = some true := by
    norm_num [keepRange, threeStops, sampleInfo, eqIgnoringAlpha, SkColorSetA, kRed, kWhite, kBlue]
  unfold rangeEndsOf
  rw [hr]
  simp only [collectRangeEnds, k1, k2, if_true]

theorem gradient_function_code_clamps_witness :
    ∃ prog, gradient_function_code threeStops = some prog ∧
      (∀ t : ℚ, t ≤ 0 → Evaluates prog [Val.num t] (colorStack (colorAt threeStops 0) [])) ∧
      (∀ t : ℚ, offsetAt threeStops ([1, 2].getLast?.getD 0) < t →
        Evaluates prog [Val.num t]
          (colorStack (colorAt threeStops (threeStops.fColorCount - 1)) [])) :=
  gradient_function_code_clamps threeStops [1, 2] (by decide) rfl rfl
    (by
      intro x hx
      simp only [threeStops, sampleInfo, List.mem_cons, List.mem_singleton, List.not_mem_nil,
        or_false] at hx
      rcases hx with rfl | rfl | rfl <;> norm_num)
    threeStops_rangeEnds (by simp)

theorem lerpChannel_at_end (o0 o1 : SkScalar) (v0 v1 : Nat) (h : o1 ≠ o0) :
    lerpChannel o0 o1 v0 v1 o1 = (v1 : ℚ) / 255 := by
  unfold lerpChannel
  have : o1 - o0 ≠ 0 := sub_ne_zero.2 h
  field_simp
  ring

theorem lerpChannel_at_begin (o0 o1 : SkScalar) (v0 v1 : Nat) :
    lerpChannel o0 o1 v0 v1 o0 = (v0 : ℚ) / 255 := by
  unfold lerpChannel
  simp

theorem lerpChannel_const (o0 o1 : SkScalar) (v : Nat) (t : ℚ) :
    lerpChannel o0 o1 v v t = (v : ℚ) / 255 := by
  unfold lerpChannel
  simp

theorem mod_channels (a b : Nat) (h : a % 16777216 = b % 16777216) :
    a / 65536 % 256 = b / 65536 % 256 ∧ a / 256 % 256 = b / 256 % 256 ∧
    a % 256 = b % 256 := by
  omega

theorem eqIgnoringAlpha_channels (a b : SkColor) (h : eqIgnoringAlpha a b = true) :
    SkColorGetR a = SkColorGetR b ∧ SkColorGetG a = SkColorGetG b ∧
    SkColorGetB a = SkColorGetB b := by
  unfold eqIgnoringAlpha SkColorSetA at h
  have h' : a % 16777216 = b % 16777216 := by simpa using h
  exact mod_channels a b h'

theorem colorStack_congr (a b : SkColor) (st : List Val)
    (h : SkColorGetR a = SkColorGetR b ∧ SkColorGetG a = SkColorGetG b ∧
      SkColorGetB a = SkColorGetB b) : colorStack a st = colorStack b st := by
  unfold colorStack
  rw [h.1, h.2.1, h.2.2]

/-- The element that `pickRange` returns when some range end is at least `t`. -/
theorem pickRange_spec (info : GradientInfo) (t : ℚ) :
    ∀ ends : List Nat, ends.Pairwise (· < ·) → (∃ x ∈ ends, t ≤ offsetAt info x) →
      pickRange info t ends ∈ ends ∧ t ≤ offsetAt info (pickRange info t ends) ∧
      ∀ j ∈ ends, j < pickRange info t ends → ¬ t ≤ offsetAt info j := by
  intro ends
  induction ends with
  | nil => intro _ h; obtain ⟨x, hx, _⟩ := h; simp at hx
  | cons a rest ih =>
    intro hp hex
    rw [List.pairwise_cons] at hp
    cases rest with
    | nil =>
      obtain ⟨x, hx, hle⟩ := hex
      simp only [List.mem_singleton] at hx
      subst hx
      refine ⟨by simp [pickRange], by simpa [pickRange] using hle, ?_⟩
      intro j hj hlt
      simp only [List.mem_singleton] at hj
      subst hj
      simp [pickRange] at hlt
    | cons b tl =>
      by_cases ha : t ≤ offsetAt info a
      · rw [show pickRange info t (a :: b :: tl) = a by simp [pickRange, ha]]
        refine ⟨List.mem_cons_self _ _, ha, ?_⟩
        intro j hj hlt
        rcases List.mem_cons.1 hj with rfl | hj
        · exact absurd hlt (lt_irrefl _)
        · exact absurd (hp.1 j hj) (by omega)
      · have hex' : ∃ x ∈ b :: tl, t ≤ offsetAt info x := by
          obtain ⟨x, hx, hle⟩ := hex
          rcases List.mem_cons.1 hx with rfl | hx
          · exact absurd hle ha
          · exact ⟨x, hx, hle⟩
        obtain ⟨h1, h2, h3⟩ := ih hp.2 hex'
        rw [show pickRange info t (a :: b :: tl) = pickRange info t (b :: tl) by
          simp [pickRange, ha]]
        refine ⟨List.mem_cons_of_mem _ h1, h2, ?_⟩
        intro j hj hlt
        rcases List.mem_cons.1 hj with rfl | hj
        · exact ha
        · exact h3 j hj hlt

theorem offsetAt_strictMono (info : GradientInfo)
    (hstrict : info.fColorOffsets.Pairwise (· < ·)) (a b : Nat) (hab : a < b)
    (hb : b < info.fColorOffsets.length) : offsetAt info a < offsetAt info b := by
  have ha : a < info.fColorOffsets.length := by omega
  have := (List.pairwise_iff_getElem.1 hstrict) a b ha hb hab
  simpa [offsetAt, List.getD, List.getElem?_eq_getElem ha, List.getElem?_eq_getElem hb] using this

/-- With strictly increasing offsets every range that is dropped has the colour of both
its neighbours, so the colours are constant from a stop up to the next kept range. -/
theorem dropped_ranges_constant (info : GradientInfo) (ends : List Nat)
    (hoffsets : info.fColorOffsets.length = info.fColorCount)
    (hstrict : info.fColorOffsets.Pairwise (· < ·))
    (hends : rangeEndsOf info = some ends) (i e : Nat) (he : e < info.fColorCount)
    (hdrop : ∀ j, i < j → j < e → j ∉ ends) :
    ∀ k, i + k + 1 ≤ e → 
      eqIgnoringAlpha (colorAt info i) (colorAt info (i + k)) = true ∧
      (0 < k → eqIgnoringAlpha (colorAt info (i + k)) (colorAt info (i + k + 1)) = true) := by
  obtain ⟨_, _, hf⟩ := collectRangeEnds_spec info _ ends hends
  have hdropped : ∀ j, i < j → j < e →
      eqIgnoringAlpha (colorAt info (j - 1)) (colorAt info j) = true ∧
      eqIgnoringAlpha (colorAt info j) (colorAt info (j + 1)) = true := by
    intro j hij hje
    have hmem : j ∈ List.range' 1 (info.fColorCount - 1) := by
      rw [List.mem_range'_1]; omega
    have hk := hf j hmem (hdrop j hij hje)
    have hne : offsetAt info (j - 1) ≠ offsetAt info j :=
      ne_of_lt (offsetAt_strictMono info hstrict (j - 1) j (by omega) (by omega))
    obtain ⟨h1, _, h3⟩ := keepRange_eq_some_false info j hk hne
    exact ⟨h1, h3⟩
  have hrefl : ∀ c : SkColor, eqIgnoringAlpha c c = true := by
    intro c; simp [eqIgnoringAlpha]
  have htrans : ∀ a b c : SkColor, eqIgnoringAlpha a b = true → eqIgnoringAlpha b c = true →
      eqIgnoringAlpha a c = true := by
    intro a b c h1 h2
    simp only [eqIgnoringAlpha, beq_iff_eq] at h1 h2 ⊢
    exact h1.trans h2
  intro k
  induction k with
  | zero =>
    intro _
    exact ⟨hrefl _, fun h => absurd h (lt_irrefl 0)⟩
  | succ k ih =>
    intro hk
    obtain ⟨h1, _⟩ := ih (by omega)
    have hd := hdropped (i + (k + 1)) (by omega) (by omega)
    have e1 : i + (k + 1) - 1 = i + k := by omega
    rw [e1] at hd
    exact ⟨htrans _ _ _ h1 hd.1, fun _ => hd.2⟩

/-- With strictly increasing offsets starting at 0 or above, the program of
`gradient_function_code` exists and returns the colour of stop `i` at `t = offset[i]`. -/
theorem gradient_function_code_stop_colors (info : GradientInfo)
    (hcount2 : 2 ≤ info.fColorCount) (hcount : info.fColorCount < 2147483648)
    (hcolors : info.fColors.length = info.fColorCount)
    (hoffsets : info.fColorOffsets.length = info.fColorCount)
    (hstrict : info.fColorOffsets.Pairwise (· < ·))
    (hfirst : 0 ≤ offsetAt info 0) :
    ∃ prog, gradient_function_code info = some prog ∧
      ∀ i, i < info.fColorCount →
        Runs prog [Val.num (offsetAt info i)] (colorStack (colorAt info i) []) := by
  obtain ⟨ends, hends⟩ := collectRangeEnds_isSome info hcolors hoffsets
    (List.range' 1 (info.fColorCount - 1)) (fun i hi => by
      rw [List.mem_range'_1] at hi; omega)
  have hends' : rangeEndsOf info = some ends := hends
  obtain ⟨hv, hpw, hmem⟩ := rangeEndsOf_valid info ends hcount hends'
  obtain ⟨_, _, hf⟩ := collectRangeEnds_spec info _ ends hends
  have hmono := offsetAt_strictMono info hstrict
  -- the last range is kept
  have hlastKept : info.fColorCount - 1 ∈ ends := by
    by_contra hn
    have hm : info.fColorCount - 1 ∈ List.range' 1 (info.fColorCount - 1) := by
      rw [List.mem_range'_1]; omega
    have hk := hf _ hm hn
    have hne : offsetAt info (info.fColorCount - 1 - 1) ≠ offsetAt info (info.fColorCount - 1) :=
      ne_of_lt (hmono _ _ (by omega) (by omega))
    exact (keepRange_eq_some_false info _ hk hne).2.1 rfl
  have hne : ends ≠ [] := List.ne_nil_of_mem hlastKept
  have hsorted : ends.Pairwise (fun a b => offsetAt info a ≤ offsetAt info b) := by
    refine List.Pairwise.imp_of_mem ?_ hpw
    intro a b _ hb hab
    exact le_of_lt (hmono a b hab (by have := hmem b hb; omega))
  obtain ⟨last, hlast⟩ : ∃ x, ends.getLast? = some x := by
    cases h : ends.getLast? with
    | none => exact absurd (List.getLast?_eq_none_iff.1 h) hne
    | some x => exact ⟨x, rfl⟩
  have hE : offsetAt info (info.fColorCount - 1) ≤ offsetAt info (ends.getLast?.getD 0) := by
    rw [hlast, Option.getD_some]
    exact pairwise_le_getLast (offsetAt info) ends hsorted last hlast _ hlastKept
  have hle_of : ∀ a b, a ≤ b → b < info.fColorCount → offsetAt info a ≤ offsetAt info b := by
    intro a b hab hb
    rcases Nat.lt_or_eq_of_le hab with h | h
    · exact le_of_lt (hmono a b h (by omega))
    · rw [h]
  obtain ⟨prog, hp, hlow, hmid, _⟩ := gradient_function_code_spec info ends
    (colorAt info 0) (colorAt info (info.fColorCount - 1))
    (getElem?_colorAt info 0 (by omega)) (getElem?_colorAt info _ (by omega)) hends' hne hv
  refine ⟨prog, hp, ?_⟩
  intro i hi
  by_cases ht : offsetAt info i ≤ 0
  · -- only stop 0 can have an offset that is not positive
    have hi0 : i = 0 := by
      by_contra h
      have := hmono 0 i (by omega) (by omega)
      exact absurd (lt_of_le_of_lt hfirst this) (not_lt.2 ht)
    subst hi0
    exact hlow _ ht
  · have htpos : 0 < offsetAt info i := not_le.1 ht
    have hte : offsetAt info i ≤ offsetAt info (ends.getLast?.getD 0) :=
      le_trans (hle_of i _ (by omega) (by omega)) hE
    have hrun := hmid _ htpos hte hsorted
    obtain ⟨hpm, hpt, hpb⟩ := pickRange_spec info (offsetAt info i) ends hpw
      ⟨info.fColorCount - 1, hlastKept, hle_of i _ (by omega) (by omega)⟩
    generalize pickRange info (offsetAt info i) ends = e at hrun hpm hpt hpb
    obtain ⟨he1, he2, _, _, hene⟩ := hv e hpm
    have hec : e < info.fColorCount := (hmem e hpm).2
    have hie : i ≤ e := by
      by_contra h
      exact absurd (hmono e i (by omega) (by omega)) (not_lt.2 hpt)
    have hdrop : ∀ j, i < j → j < e → j ∉ ends := by
      intro j hij hje hj
      exact hpb j hj hje (hle_of i j (by omega) (by omega))
    have hstack : leafStack info e (offsetAt info i) [] = colorStack (colorAt info i) [] := by
      unfold leafStack colorStack
      rcases Nat.lt_or_eq_of_le hie with hlt | heq
      · by_cases hprev : i = e - 1
        · rw [← hprev]
          simp only [lerpChannel_at_begin]
        · -- the range before `e` is dropped: constant colour
          obtain ⟨hc1, hc2⟩ := dropped_ranges_constant info ends hoffsets hstrict hends'
            i e hec hdrop (e - 1 - i) (by omega)
          have e1 : i + (e - 1 - i) = e - 1 := by omega
          have e2 : e - 1 + 1 = e := by omega
          rw [e1] at hc1 hc2
          rw [e2] at hc2
          obtain ⟨r1, g1, b1⟩ := eqIgnoringAlpha_channels _ _ hc1
          obtain ⟨r2, g2, b2⟩ := eqIgnoringAlpha_channels _ _ (hc2 (by omega))
          rw [← r2, ← g2, ← b2, lerpChannel_const, lerpChannel_const, lerpChannel_const,
            r1, g1, b1]
      · subst heq
        simp only [lerpChannel_at_end _ _ _ _ hene]
    rw [hstack] at hrun
    exact hrun

/-- C7 (amended): for every descriptor with at least two stops and strictly increasing
offsets that start at 0 or above, and for every stop index `i`, the program emitted by
`gradient_function_code` exists, and evaluated at `t = offset[i]` it yields the RGB of stop
`i`, each channel divided by 255. -/
theorem gradient_function_code_at_stops (info : GradientInfo)
    (hcount2 : 2 ≤ info.fColorCount) (hcount : info.fColorCount < 2147483648)
    (hcolors : info.fColors.length = info.fColorCount)
    (hoffsets : info.fColorOffsets.length = info.fColorCount)
    (hstrict : info.fColorOffsets.Pairwise (· < ·))
    (hfirst : 0 ≤ offsetAt info 0) :
    ∃ prog, gradient_function_code info = some prog ∧
      ∀ i, i < info.fColorCount →
        Evaluates prog [Val.num (offsetAt info i)]
          [Val.num ((SkColorGetB (colorAt info i) : ℚ) / 255),
           Val.num ((SkColorGetG (colorAt info i) : ℚ) / 255),
           Val.num ((SkColorGetR (colorAt info i) : ℚ) / 255)] := by
  obtain ⟨prog, hp, h⟩ := gradient_function_code_stop_colors info hcount2 hcount hcolors
    hoffsets hstrict hfirst
  exact ⟨prog, hp, fun i hi => (h i hi).evaluates⟩

theorem gradient_function_code_at_stops_witness :
    ∃ prog, gradient_function_code threeStops = some prog ∧
      ∀ i, i < threeStops.fColorCount →
        Evaluates prog [Val.num (offsetAt threeStops i)]
          [Val.num ((SkColorGetB (colorAt threeStops i) : ℚ) / 255),
           Val.num ((SkColorGetG (colorAt threeStops i) : ℚ) / 255),
           Val.num ((SkColorGetR (colorAt threeStops i) : ℚ) / 255)] :=
  gradient_function_code_at_stops threeStops (by decide) (by decide) rfl rfl
    (by simp [threeStops, sampleInfo]; norm_num)
    (le_of_eq rfl)

theorem hardStop_rangeEnds : rangeEndsOf hardStop = some [1] := by
  have hr : List.range' 1 (hardStop.fColorCount - 1) = [1, 2] := rfl
  have k1 : keepRange hardStop 1 = some true := by
    norm_num [keepRange, hardStop, sampleInfo, eqIgnoringAlpha, SkColorSetA, kBlack, kRed, kBlue]
  have k2 : keepRange hardStop 2 = some false := by
    norm_num [keepRange, hardStop, sampleInfo, eqIgnoringAlpha, SkColorSetA, kBlack, kRed, kBlue]
  unfold rangeEndsOf
  rw [hr]
  simp only [collectRangeEnds, k1, k2, if_true, Bool.false_eq_true, if_false]

theorem hardStop_validEnds : ValidEnds hardStop [1] := by
  intro e he
  simp only [List.mem_singleton] at he
  subst he
  have h1 : offsetAt hardStop 0 = 0 := rfl
  have h2 : offsetAt hardStop 1 = 1 / 2 := rfl
  have hl : hardStop.fColorOffsets.length = 3 := rfl
  have hc : hardStop.fColors.length = 3 := rfl
  refine ⟨le_refl _, by rw [hl]; decide, by rw [hc]; decide, by decide, ?_⟩
  rw [h2, show (1 : Nat) - 1 = 0 from rfl, h1]
  norm_num

/-- C7, as stated, fails: with black, red, blue at the offsets 0, 1/2, 1/2 (non-decreasing)
the program evaluated at `t = offset[2] = 1/2` yields red, the colour of stop 1, and not
blue, the colour of stop 2. -/
theorem hardStop_second_colour_lost :
    hardStop.fColorOffsets.Pairwise (· ≤ ·) ∧ 2 < hardStop.fColorCount ∧
    ∃ prog, gradient_function_code hardStop = some prog ∧
      Evaluates prog [Val.num (offsetAt hardStop 2)] (colorStack (colorAt hardStop 1) []) ∧
      ¬ Evaluates prog [Val.num (offsetAt hardStop 2)] (colorStack (colorAt hardStop 2) []) := by
  refine ⟨by simp [hardStop, sampleInfo], by decide, ?_⟩
  obtain ⟨prog, hp, _, hmid, _⟩ := gradient_function_code_spec hardStop [1]
    (colorAt hardStop 0) (colorAt hardStop 2) rfl rfl hardStop_rangeEnds (by simp)
    hardStop_validEnds
  have h2 : offsetAt hardStop 2 = 1 / 2 := rfl
  have h1 : offsetAt hardStop 1 = 1 / 2 := rfl
  have h0 : offsetAt hardStop 0 = 0 := rfl
  have hrun := hmid (1 / 2) (by norm_num)
    (by simp only [List.getLast?_singleton, Option.getD_some, h1]; exact le_refl _)
    (List.pairwise_singleton _ _)
  have hstack : leafStack hardStop (pickRange hardStop (1 / 2) [1]) (1 / 2) [] =
      colorStack (colorAt hardStop 1) [] := by
    have hne : offsetAt hardStop 1 ≠ offsetAt hardStop (1 - 1) := by
      rw [h1, show (1 : Nat) - 1 = 0 from rfl, h0]; norm_num
    have := lerpChannel_at_end (offsetAt hardStop (1 - 1)) (offsetAt hardStop 1)
    simp only [leafStack, pickRange, colorStack]
    rw [← h1, this _ _ hne, this _ _ hne, this _ _ hne]
  rw [hstack] at hrun
  have hev : Evaluates prog [Val.num (offsetAt hardStop 2)] (colorStack (colorAt hardStop 1) []) := by
    rw [h2]; exact hrun.evaluates
  refine ⟨prog, hp, hev, ?_⟩
  intro hbad
  have heq := Evaluates.unique hev hbad
  have hb1 : SkColorGetB (colorAt hardStop 1) = 0 := by decide
  have hb2 : SkColorGetB (colorAt hardStop 2) = 255 := by decide
  simp only [colorStack, hb1, hb2, List.cons.injEq, Val.num.injEq] at heq
  norm_num at heq

theorem grayThenWhite_rangeEnds : rangeEndsOf grayThenWhite = some [3] := by
  have hr : List.range' 1 (grayThenWhite.fColorCount - 1) = [1, 2, 3] := rfl
  have k1 : keepRange grayThenWhite 1 = some false := by
    norm_num [keepRange, grayThenWhite, sampleInfo, eqIgnoringAlpha, SkColorSetA, kGray, kWhite]
  have k2 : keepRange grayThenWhite 2 = some false := by
    norm_num [keepRange, grayThenWhite, sampleInfo, eqIgnoringAlpha, SkColorSetA, kGray, kWhite]
  have k3 : keepRange grayThenWhite 3 = some true := by
    norm_num [keepRange, grayThenWhite, sampleInfo, eqIgnoringAlpha, SkColorSetA, kGray, kWhite]
  unfold rangeEndsOf
  rw [hr]
  simp only [collectRangeEnds, k1, k2, k3, if_true, Bool.false_eq_true, if_false]

theorem grayThenWhite_validEnds : ValidEnds grayThenWhite [3] := by
  intro e he
  simp only [List.mem_singleton] at he
  subst he
  have h2 : offsetAt grayThenWhite 2 = 1 / 2 := rfl
  have h3 : offsetAt grayThenWhite 3 = 1 := rfl
  have hl : grayThenWhite.fColorOffsets.length = 4 := rfl
  have hc : grayThenWhite.fColors.length = 4 := rfl
  refine ⟨by decide, by rw [hl]; decide, by rw [hc]; decide, by decide, ?_⟩
  rw [h3, show (3 : Nat) - 1 = 2 from rfl, h2]
  norm_num

/-- C8: with grey, grey, grey, white at the offsets 0, 1/2, 1/2, 1 the program evaluated at
`t = 1/4` yields 43/170 in every channel, while the interpolation between the stops 0 and 1
that bracket `t` is grey, 128/255: the constant range 1 was dropped although the next kept
range does not start where it ends. -/
theorem grayThenWhite_quarter_not_gray :
    ∃ prog, gradient_function_code grayThenWhite = some prog ∧
      Evaluates prog [Val.num (1 / 4)]
        [Val.num (43 / 170), Val.num (43 / 170), Val.num (43 / 170)] ∧
      leafStack grayThenWhite 1 (1 / 4) [] =
        [Val.num (128 / 255), Val.num (128 / 255), Val.num (128 / 255)] ∧
      offsetAt grayThenWhite 0 < 1 / 4 ∧ 1 / 4 ≤ offsetAt grayThenWhite 1 := by
  obtain ⟨prog, hp, _, hmid, _⟩ := gradient_function_code_spec grayThenWhite [3]
    (colorAt grayThenWhite 0) (colorAt grayThenWhite 3) rfl rfl grayThenWhite_rangeEnds
    (by simp) grayThenWhite_validEnds
  have h0 : offsetAt grayThenWhite 0 = 0 := rfl
  have h1 : offsetAt grayThenWhite 1 = 1 / 2 := rfl
  have h2 : offsetAt grayThenWhite 2 = 1 / 2 := rfl
  have h3 : offsetAt grayThenWhite 3 = 1 := rfl
  have hg : ∀ i, i < 3 → SkColorGetR (colorAt grayThenWhite i) = 128 ∧
      SkColorGetG (colorAt grayThenWhite i) = 128 ∧
      SkColorGetB (colorAt grayThenWhite i) = 128 := by
    intro i hi
    interval_cases i <;> decide
  have hw : SkColorGetR (colorAt grayThenWhite 3) = 255 ∧
      SkColorGetG (colorAt grayThenWhite 3) = 255 ∧
      SkColorGetB (colorAt grayThenWhite 3) = 255 := by decide
  have hrun := hmid (1 / 4) (by norm_num)
    (by simp only [List.getLast?_singleton, Option.getD_some, h3]; norm_num)
    (List.pairwise_singleton _ _)
  have hstack : leafStack grayThenWhite (pickRange grayThenWhite (1 / 4) [3]) (1 / 4) [] =
      [Val.num (43 / 170), Val.num (43 / 170), Val.num (43 / 170)] := by
    simp only [leafStack, pickRange, show (3 : Nat) - 1 = 2 from rfl, h2, h3,
      (hg 2 (by decide)).1, (hg 2 (by decide)).2.1, (hg 2 (by decide)).2.2, hw.1, hw.2.1,
      hw.2.2, lerpChannel]
    norm_num
  rw [hstack] at hrun
  refine ⟨prog, hp, hrun.evaluates, ?_, by rw [h0]; norm_num, by rw [h1]; norm_num⟩
  simp only [leafStack, show (1 : Nat) - 1 = 0 from rfl, h0, h1,
    (hg 0 (by decide)).1, (hg 0 (by decide)).2.1, (hg 0 (by decide)).2.2,
    (hg 1 (by decide)).1, (hg 1 (by decide)).2.1, (hg 1 (by decide)).2.2, lerpChannel]
  norm_num

/-! ## The keys derived by the alpha decomposer -/

theorem SkColorSetA_opaque_channels (c : Nat) :
    SkColorGetA (SkColorSetA c SK_AlphaOPAQUE) = 255 ∧
    SkColorGetR (SkColorSetA c SK_AlphaOPAQUE) = SkColorGetR c ∧
    SkColorGetG (SkColorSetA c SK_AlphaOPAQUE) = SkColorGetG c ∧
    SkColorGetB (SkColorSetA c SK_AlphaOPAQUE) = SkColorGetB c := by
  unfold SkColorGetA SkColorGetR SkColorGetG SkColorGetB SkColorSetA SK_AlphaOPAQUE
  omega

theorem SkColorSetARGB_gray_channels (a : Nat) (h : a < 256) :
    SkColorGetA (SkColorSetARGB 255 a a a) = 255 ∧
    SkColorGetR (SkColorSetARGB 255 a a a) = a ∧
    SkColorGetG (SkColorSetARGB 255 a a a) = a ∧
    SkColorGetB (SkColorSetARGB 255 a a a) = a := by
  unfold SkColorGetA SkColorGetR SkColorGetG SkColorGetB SkColorSetARGB
  rw [Nat.mod_eq_of_lt h, Nat.mod_eq_of_lt (show 255 < 256 by decide)]
  have h1 : (255 * 16777216 + a * 65536 + a * 256 + a) / 16777216 = 255 := by omega
  have h2 : (255 * 16777216 + a * 65536 + a * 256 + a) / 65536 = 255 * 256 + a := by omega
  have h3 : (255 * 16777216 + a * 65536 + a * 256 + a) / 256 = 255 * 65536 + a * 256 + a := by
    omega
  rw [h1, h2, h3]
  omega

theorem SkColorGetA_lt (c : Nat) : SkColorGetA c < 256 := by
  unfold SkColorGetA
  omega

theorem gradient_has_alpha_from_opaque (colors : List SkColor)
    (hop : ∀ c ∈ colors, SkColorGetA c = 255) :
    ∀ l : List Nat, (∀ i ∈ l, i < colors.length) →
      gradient_has_alpha_from colors l = some false := by
  intro l
  induction l with
  | nil => intro _; rfl
  | cons i rest ih =>
    intro h
    have hi : i < colors.length := h i (List.mem_cons_self _ _)
    have hc : SkColorGetA colors[i] = 255 := hop _ (List.getElem_mem _)
    simp only [gradient_has_alpha_from, List.getElem?_eq_getElem hi, hc, SK_AlphaOPAQUE]
    simpa using ih (fun j hj => h j (List.mem_cons_of_mem _ hj))

theorem clone_key_eq (state : Key)
    (hc : state.fInfo.fColorCount ≤ state.fInfo.fColors.length)
    (ho : state.fInfo.fColorCount ≤ state.fInfo.fColorOffsets.length) :
    clone_key state = some
      { fType := state.fType
        fInfo := { state.fInfo with
          fColors := state.fInfo.fColors.take state.fInfo.fColorCount
          fColorOffsets := state.fInfo.fColorOffsets.take state.fInfo.fColorCount }
        fCanvasTransform := state.fCanvasTransform
        fShaderTransform := state.fShaderTransform
        fBBox := state.fBBox
        fHash := 0 } := by
  unfold clone_key
  rw [if_pos ⟨hc, ho⟩]

theorem getD_map_take (f : SkColor → SkColor) (colors : List SkColor) (n i : Nat)
    (hi : i < n) (hn : n ≤ colors.length) :
    ((colors.take n).map f).getD i 0 = f (colors.getD i 0) := by
  have h1 : i < colors.length := lt_of_lt_of_le hi hn
  have h2 : i < ((colors.take n).map f).length := by
    rw [List.length_map, List.length_take]; omega
  rw [List.getD_eq_getElem _ _ h2, List.getD_eq_getElem _ _ h1, List.getElem_map,
    List.getElem_take]

theorem opaqueStateOf_eq (pf : Platform) (state : Key)
    (hc : state.fInfo.fColorCount ≤ state.fInfo.fColors.length)
    (ho : state.fInfo.fColorCount ≤ state.fInfo.fColorOffsets.length) :
    ∃ k, opaqueStateOf pf state = some k ∧ k.fInfo =
      { state.fInfo with
        fColors := (state.fInfo.fColors.take state.fInfo.fColorCount).map
          (fun c => SkColorSetA c SK_AlphaOPAQUE)
        fColorOffsets := state.fInfo.fColorOffsets.take state.fInfo.fColorCount } := by
  rw [opaqueStateOf, clone_key_eq state hc ho]
  exact ⟨_, rfl, rfl⟩

theorem luminosityStateOf_eq (pf : Platform) (state : Key)
    (hc : state.fInfo.fColorCount ≤ state.fInfo.fColors.length)
    (ho : state.fInfo.fColorCount ≤ state.fInfo.fColorOffsets.length) :
    ∃ k, luminosityStateOf pf state = some k ∧ k.fInfo =
      { state.fInfo with
        fColors := (state.fInfo.fColors.take state.fInfo.fColorCount).map
          (fun c => SkColorSetARGB 255 (SkColorGetA c) (SkColorGetA c) (SkColorGetA c))
        fColorOffsets := state.fInfo.fColorOffsets.take state.fInfo.fColorCount } := by
  rw [luminosityStateOf, clone_key_eq state hc ho]
  exact ⟨_, rfl, rfl⟩

/-- C12: for every key whose arrays hold the declared number of stops, the opaque key of
`make_alpha_function_shader` and the luminosity key of `create_smask_graphic_state` exist;
the opaque key has the source's stop count, offsets and RGB with alpha 255 at every stop,
the luminosity key has alpha 255 and red = green = blue = the source alpha at every stop,
and `gradient_has_alpha` is false for both. -/
theorem derived_keys_opaque (pf : Platform) (state : Key)
    (hc : state.fInfo.fColorCount ≤ state.fInfo.fColors.length)
    (ho : state.fInfo.fColorCount ≤ state.fInfo.fColorOffsets.length) :
    ∃ opaqueState luminosityState,
      opaqueStateOf pf state = some opaqueState ∧
      luminosityStateOf pf state = some luminosityState ∧
      opaqueState.fInfo.fColorCount = state.fInfo.fColorCount ∧
      opaqueState.fInfo.fColors.length = state.fInfo.fColorCount ∧
      opaqueState.fInfo.fColorOffsets =
        state.fInfo.fColorOffsets.take state.fInfo.fColorCount ∧
      (∀ i, i < state.fInfo.fColorCount →
        SkColorGetA (colorAt opaqueState.fInfo i) = 255 ∧
        SkColorGetR (colorAt opaqueState.fInfo i) = SkColorGetR (colorAt state.fInfo i) ∧
        SkColorGetG (colorAt opaqueState.fInfo i) = SkColorGetG (colorAt state.fInfo i) ∧
        SkColorGetB (colorAt opaqueState.fInfo i) = SkColorGetB (colorAt state.fInfo i)) ∧
      luminosityState.fInfo.fColorCount = state.fInfo.fColorCount ∧
      luminosityState.fInfo.fColors.length = state.fInfo.fColorCount ∧
      (∀ i, i < state.fInfo.fColorCount →
        SkColorGetA (colorAt luminosityState.fInfo i) = 255 ∧
        SkColorGetR (colorAt luminosityState.fInfo i) = SkColorGetA (colorAt state.fInfo i) ∧
        SkColorGetG (colorAt luminosityState.fInfo i) = SkColorGetA (colorAt state.fInfo i) ∧
        SkColorGetB (colorAt luminosityState.fInfo i) = SkColorGetA (colorAt state.fInfo i)) ∧
      gradient_has_alpha opaqueState = some false ∧
      gradient_has_alpha luminosityState = some false := by
  have hlen : ∀ f : SkColor → SkColor,
      ((state.fInfo.fColors.take state.fInfo.fColorCount).map f).length =
        state.fInfo.fColorCount := by
    intro f
    rw [List.length_map, List.length_take]
    omega
  obtain ⟨o, hoe, hoi⟩ := opaqueStateOf_eq pf state hc ho
  obtain ⟨l, hle, hli⟩ := luminosityStateOf_eq pf state hc ho
  refine ⟨o, l, hoe, hle, ?_⟩
  unfold gradient_has_alpha
  rw [hoi, hli]
  refine ⟨rfl, hlen _, rfl, ?_, rfl, hlen _, ?_, ?_, ?_⟩
  · intro i hi
    simp only [colorAt]
    rw [getD_map_take _ _ _ _ hi hc]
    exact SkColorSetA_opaque_channels _
  · intro i hi
    simp only [colorAt]
    rw [getD_map_take _ _ _ _ hi hc]
    exact SkColorSetARGB_gray_channels _ (SkColorGetA_lt _)
  · refine gradient_has_alpha_from_opaque _ ?_ _ ?_
    · intro c hcm
      obtain ⟨c0, _, rfl⟩ := List.mem_map.mp hcm
      exact (SkColorSetA_opaque_channels c0).1
    · intro i hi
      rw [List.mem_range] at hi
      exact lt_of_lt_of_eq hi (hlen _).symm
  · refine gradient_has_alpha_from_opaque _ ?_ _ ?_
    · intro c hcm
      obtain ⟨c0, _, rfl⟩ := List.mem_map.mp hcm
      exact (SkColorSetARGB_gray_channels _ (SkColorGetA_lt c0)).1
    · intro i hi
      rw [List.mem_range] at hi
      exact lt_of_lt_of_eq hi (hlen _).symm

theorem derived_keys_opaque_witness :
    ∃ opaqueState luminosityState,
      opaqueStateOf exactPlatform (sampleKey GradientType.kLinear translucentToBlack) =
        some opaqueState ∧
      luminosityStateOf exactPlatform (sampleKey GradientType.kLinear translucentToBlack) =
        some luminosityState ∧
      opaqueState.fInfo.fColorCount = 2 ∧
      opaqueState.fInfo.fColors.length = 2 ∧
      opaqueState.fInfo.fColorOffsets = [0, 1] ∧
      (∀ i, i < 2 →
        SkColorGetA (colorAt opaqueState.fInfo i) = 255 ∧
        SkColorGetR (colorAt opaqueState.fInfo i) = SkColorGetR (colorAt translucentToBlack i) ∧
        SkColorGetG (colorAt opaqueState.fInfo i) = SkColorGetG (colorAt translucentToBlack i) ∧
        SkColorGetB (colorAt opaqueState.fInfo i) = SkColorGetB (colorAt translucentToBlack i)) ∧
      luminosityState.fInfo.fColorCount = 2 ∧
      luminosityState.fInfo.fColors.length = 2 ∧
      (∀ i, i < 2 →
        SkColorGetA (colorAt luminosityState.fInfo i) = 255 ∧
        SkColorGetR (colorAt luminosityState.fInfo i) = SkColorGetA (colorAt translucentToBlack i) ∧
        SkColorGetG (colorAt luminosityState.fInfo i) = SkColorGetA (colorAt translucentToBlack i) ∧
        SkColorGetB (colorAt luminosityState.fInfo i) = SkColorGetA (colorAt translucentToBlack i)) ∧
      gradient_has_alpha opaqueState = some false ∧
      gradient_has_alpha luminosityState = some false :=
  derived_keys_opaque exactPlatform (sampleKey GradientType.kLinear translucentToBlack)
    (by decide) (by decide)

/-! ## Perspective splitting and the tangent-circle fix-up -/

theorem not_nearlyZero_ne_zero (x : SkScalar) (h : SkScalarNearlyZero x = false) : x ≠ 0 := by
  intro hx
  subst hx
  simp [SkScalarNearlyZero] at h

theorem split_perspective_eq (inM : SkMatrix) (h : SkScalarNearlyZero inM.p2 = false) :
    split_perspective inM = some
      (⟨inM.sx - inM.p0 * inM.tx / inM.p2, inM.kx - inM.p1 * inM.tx / inM.p2, inM.tx / inM.p2,
        inM.ky - inM.p0 * inM.ty / inM.p2, inM.sy - inM.p1 * inM.ty / inM.p2, inM.ty / inM.p2,
        0, 0, 1⟩,
       ⟨1, 0, 0, 0, 1, 0, -inM.p0 / inM.p2, -inM.p1 / inM.p2, 1 / inM.p2⟩) := by
  unfold split_perspective
  simp only [h, Bool.false_eq_true, if_false]

theorem split_perspective_none_iff (inM : SkMatrix) :
    split_perspective inM = Option.none ↔ SkScalarNearlyZero inM.p2 = true := by
  constructor
  · intro h
    by_contra hn
    have hf : SkScalarNearlyZero inM.p2 = false := by simpa using hn
    rw [split_perspective_eq inM hf] at h
    exact Option.noConfusion h
  · intro h
    unfold split_perspective
    simp only [h, if_true]

/-- C13: whenever `split_perspective` succeeds on `inM`, with `P` the matrix with identity
top rows and the bottom row of `inM`: `affine * P = inM`, `P` is the two-sided inverse of
the returned `perspectiveInverse`, the returned affine matrix has bottom row (0, 0, 1), and
`perspectiveInverse` has identity top rows and bottom row (-p0/p2, -p1/p2, 1/p2). -/
theorem split_perspective_roundtrip (inM affine perspectiveInverse : SkMatrix)
    (h : split_perspective inM = some (affine, perspectiveInverse)) :
    affine.concat ⟨1, 0, 0, 0, 1, 0, inM.p0, inM.p1, inM.p2⟩ = inM ∧
    perspectiveInverse.concat ⟨1, 0, 0, 0, 1, 0, inM.p0, inM.p1, inM.p2⟩ = SkMatrix.I ∧
    (⟨1, 0, 0, 0, 1, 0, inM.p0, inM.p1, inM.p2⟩ : SkMatrix).concat perspectiveInverse =
      SkMatrix.I ∧
    (affine.p0 = 0 ∧ affine.p1 = 0 ∧ affine.p2 = 1) ∧
    perspectiveInverse =
      ⟨1, 0, 0, 0, 1, 0, -inM.p0 / inM.p2, -inM.p1 / inM.p2, 1 / inM.p2⟩ := by
  have hz : SkScalarNearlyZero inM.p2 = false := by
    cases hb : SkScalarNearlyZero inM.p2
    · rfl
    · rw [(split_perspective_none_iff inM).mpr hb] at h
      exact Option.noConfusion h
  have hp : inM.p2 ≠ 0 := not_nearlyZero_ne_zero _ hz
  rw [split_perspective_eq inM hz] at h
  obtain ⟨ha, hi⟩ := Prod.mk.inj (Option.some.inj h)
  subst ha
  subst hi
  clear h hz
  obtain ⟨sx, kx, tx, ky, sy, ty, p0, p1, p2⟩ := inM
  simp only at hp
  refine ⟨?_, ?_, ?_, ⟨rfl, rfl, rfl⟩, rfl⟩
  · simp only [SkMatrix.concat, SkMatrix.mk.injEq]
    refine ⟨?_, ?_, ?_, ?_, ?_, ?_, ?_, ?_, ?_⟩ <;> field_simp <;> ring
  · simp only [SkMatrix.concat, SkMatrix.I, SkMatrix.mk.injEq]
    refine ⟨?_, ?_, ?_, ?_, ?_, ?_, ?_, ?_, ?_⟩ <;> field_simp <;> ring
  · simp only [SkMatrix.concat, SkMatrix.I, SkMatrix.mk.injEq]
    refine ⟨?_, ?_, ?_, ?_, ?_, ?_, ?_, ?_, ?_⟩ <;> field_simp <;> ring

theorem perspectiveMatrix_split :
    split_perspective perspectiveMatrix =
      some (⟨0, 0, 2, -3, 2, 3, 0, 0, 1⟩, ⟨1, 0, 0, 0, 1, 0, -1 / 2, 0, 1 / 2⟩) := by
  rw [split_perspective_eq perspectiveMatrix (by
    simp only [SkScalarNearlyZero, perspectiveMatrix]
    norm_num [abs_of_pos])]
  simp only [perspectiveMatrix]
  norm_num

theorem split_perspective_roundtrip_witness :
    (⟨0, 0, 2, -3, 2, 3, 0, 0, 1⟩ : SkMatrix).concat
      ⟨1, 0, 0, 0, 1, 0, perspectiveMatrix.p0, perspectiveMatrix.p1, perspectiveMatrix.p2⟩ =
      perspectiveMatrix :=
  (split_perspective_roundtrip perspectiveMatrix _ _ perspectiveMatrix_split).1

theorem roundHalfEven_eq (m : ℚ) (n : ℤ) (h : |m - n| < 1 / 2) : roundHalfEven m = n := by
  obtain ⟨h1, h2⟩ := abs_lt.1 h
  unfold roundHalfEven
  by_cases hm : (n : ℚ) ≤ m
  · have hf : ⌊m⌋ = n := Int.floor_eq_iff.2 ⟨hm, by linarith⟩
    rw [hf, if_pos (by linarith)]
  · have hf : ⌊m⌋ = n - 1 := Int.floor_eq_iff.2 ⟨by push_cast; linarith, by push_cast; linarith⟩
    rw [hf]
    push_cast
    rw [if_neg (by linarith), if_pos (by linarith)]
    ring

/-- The rounded value of `x`, given its binary exponent `e` and the multiple `n` of the
unit in the last place `2 ^ (e - 23)` that is nearer to `x` than half a unit. -/
theorem roundToFloat_eq (x : ℚ) (e n : ℤ) (h1 : (2 : ℚ) ^ e ≤ |x|) (h2 : |x| < (2 : ℚ) ^ (e + 1))
    (he : -126 ≤ e) (hn : |x / 2 ^ (e - 23) - n| < 1 / 2) :
    roundToFloat x = n * 2 ^ (e - 23) := by
  have hpos : 0 < |x| := lt_of_lt_of_le (zpow_pos (by norm_num) e) h1
  have hx : x ≠ 0 := abs_pos.1 hpos
  have hlog : Int.log 2 |x| = e := by
    have a1 : e ≤ Int.log 2 |x| :=
      (Int.zpow_le_iff_le_log (by norm_num) hpos).1 (by exact_mod_cast h1)
    have a2 : Int.log 2 |x| < e + 1 :=
      (Int.lt_zpow_iff_log_lt (by norm_num) hpos).1 (by exact_mod_cast h2)
    omega
  unfold roundToFloat
  rw [if_neg hx, hlog, max_eq_left he, roundHalfEven_eq _ n hn]

theorem roundToFloat_of_pos (x : ℚ) (e n : ℤ) (h1 : (2 : ℚ) ^ e ≤ x) (h2 : x < (2 : ℚ) ^ (e + 1))
    (he : -126 ≤ e) (hn1 : (n : ℚ) - 1 / 2 < x / 2 ^ (e - 23))
    (hn2 : x / 2 ^ (e - 23) < (n : ℚ) + 1 / 2) :
    roundToFloat x = n * 2 ^ (e - 23) := by
  have hpos : 0 < x := lt_of_lt_of_le (zpow_pos (by norm_num) e) h1
  have ha : |x| = x := abs_of_pos hpos
  exact roundToFloat_eq x e n (by rw [ha]; exact h1) (by rw [ha]; exact h2) he
    (abs_lt.2 ⟨by linarith, by linarith⟩)

theorem roundToFloat_zero : roundToFloat 0 = 0 := by simp [roundToFloat]

/-- The constant of the embedding is the binary32 number nearest to 0.002. -/
theorem kTouchingTolerance_eq : roundToFloat (2 / 1000) = kTouchingTolerance := by
  rw [roundToFloat_of_pos (2 / 1000) (-9) 8589935 (by norm_num) (by norm_num) (by norm_num)
    (by norm_num) (by norm_num)]
  norm_num [kTouchingTolerance]

theorem roundToFloat_one : roundToFloat 1 = 1 := by
  rw [roundToFloat_of_pos 1 0 8388608 (by norm_num) (by norm_num) (by norm_num)
    (by norm_num) (by norm_num)]
  norm_num

theorem roundToFloat_neg_one : roundToFloat (-1) = -1 := by
  rw [roundToFloat_eq (-1) 0 (-8388608) (by norm_num) (by norm_num) (by norm_num)
    (by norm_num [abs_lt])]
  norm_num

/-- At 65537 the unit in the last place is 1/128, so the sum with `0.002f` is stored as
65537 again. -/
theorem roundToFloat_absorbs : roundToFloat (65537 + kTouchingTolerance) = 65537 := by
  rw [roundToFloat_of_pos (65537 + kTouchingTolerance) 16 8388736
    (by norm_num [kTouchingTolerance]) (by norm_num [kTouchingTolerance]) (by norm_num)
    (by norm_num [kTouchingTolerance]) (by norm_num [kTouchingTolerance])]
  norm_num

/-- At 1 the sum with `0.002f` is stored as `1 + 16777 / 2^23`. -/
theorem roundToFloat_one_plus :
    roundToFloat (1 + kTouchingTolerance) = 1 + 16777 / 8388608 := by
  rw [roundToFloat_of_pos (1 + kTouchingTolerance) 0 8405385
    (by norm_num [kTouchingTolerance]) (by norm_num [kTouchingTolerance]) (by norm_num)
    (by norm_num [kTouchingTolerance]) (by norm_num [kTouchingTolerance])]
  norm_num

theorem distance_unit (pf : Platform) (h1 : pf.SkScalarSqrt 1 = 1) :
    SkPoint.Distance pf ⟨0, 0⟩ ⟨1, 0⟩ = 1 := by
  simp only [SkPoint.Distance, SkPoint.length]
  norm_num
  exact h1

/-- The circles with centres (0,0) and (1,0) and radii 65536 and 65537 touch, and
`FixUpRadius` returns both radii as they were. -/
theorem FixUpRadius_large (pf : Platform) (h1 : pf.SkScalarSqrt 1 = 1) :
    FixUpRadius pf ⟨0, 0⟩ 65536 ⟨1, 0⟩ 65537 = (65536, 65537) := by
  have hsub : roundToFloat ((65536 : ℚ) - 65537) = -1 := by
    rw [show (65536 : ℚ) - 65537 = -1 by norm_num]
    exact roundToFloat_neg_one
  have hd : roundToFloat (1 - |(-1 : ℚ)|) = 0 := by
    rw [show (1 : ℚ) - |(-1 : ℚ)| = 0 by norm_num]
    exact roundToFloat_zero
  unfold FixUpRadius
  simp only [distance_unit pf h1, hsub, hd, roundToFloat_absorbs]
  norm_num [kTouchingTolerance]

/-- The circles with centres (0,0) and (1,0) and radii 1 and 0 touch, and `FixUpRadius`
stores `1 + 16777 / 2^23` in the first radius. -/
theorem FixUpRadius_unit (pf : Platform) (h1 : pf.SkScalarSqrt 1 = 1) :
    FixUpRadius pf ⟨0, 0⟩ 1 ⟨1, 0⟩ 0 = (1 + 16777 / 8388608, 0) := by
  have hsub : roundToFloat ((1 : ℚ) - 0) = 1 := by
    rw [sub_zero]
    exact roundToFloat_one
  have hd : roundToFloat (1 - |(1 : ℚ)|) = 0 := by
    rw [show (1 : ℚ) - |(1 : ℚ)| = 0 by norm_num]
    exact roundToFloat_zero
  unfold FixUpRadius
  simp only [distance_unit pf h1, hsub, hd, roundToFloat_one_plus]
  norm_num [kTouchingTolerance]

theorem roundToFloat_absorbs_equal : roundToFloat (65536 + kTouchingTolerance) = 65536 := by
  rw [roundToFloat_of_pos (65536 + kTouchingTolerance) 16 8388608
    (by norm_num [kTouchingTolerance]) (by norm_num [kTouchingTolerance]) (by norm_num)
    (by norm_num [kTouchingTolerance]) (by norm_num [kTouchingTolerance])]
  norm_num

theorem roundToFloat_small : roundToFloat (1 / 1024) = 1 / 1024 := by
  rw [roundToFloat_of_pos (1 / 1024) (-10) 8388608 (by norm_num) (by norm_num) (by norm_num)
    (by norm_num) (by norm_num)]
  norm_num

theorem distance_small (pf : Platform) (h2 : pf.SkScalarSqrt (1 / 1048576) = 1 / 1024) :
    SkPoint.Distance pf ⟨0, 0⟩ ⟨1 / 1024, 0⟩ = 1 / 1024 := by
  simp only [SkPoint.Distance, SkPoint.length]
  norm_num
  exact h2

/-- The circles with radius 65536 whose centres are 1/1024 apart pass the test of
`FixUpRadius`, which returns both radii as they were. -/
theorem FixUpRadius_equal (pf : Platform) (h2 : pf.SkScalarSqrt (1 / 1048576) = 1 / 1024) :
    FixUpRadius pf ⟨0, 0⟩ 65536 ⟨1 / 1024, 0⟩ 65536 = (65536, 65536) := by
  have hsub : roundToFloat ((65536 : ℚ) - 65536) = 0 := by
    rw [sub_self]
    exact roundToFloat_zero
  have hd : roundToFloat (1 / 1024 - |(0 : ℚ)|) = 1 / 1024 := by
    rw [abs_zero, sub_zero]
    exact roundToFloat_small
  unfold FixUpRadius
  simp only [distance_small pf h2, hsub, hd, roundToFloat_absorbs_equal]
  norm_num [kTouchingTolerance]

theorem rat_sqrt_small : Rat.sqrt (1 / 1048576) = 1 / 1024 := by
  have h := Rat.sqrt_eq (1 / 1024)
  rw [show (1 / 1024 : ℚ) * (1 / 1024) = 1 / 1048576 by norm_num] at h
  rw [h]
  norm_num [abs_of_pos]

/-- C15: for every platform whose square roots of 1 and of 1/1048576 are 1 and 1/1024.
The circles with centres (0,0) and (1,0) and radii 65536 and 65537 satisfy
`|distance - |r1 - r2|| < 0.002`, and `FixUpRadius` leaves both radii as they were: the
sum `r2 + 0.002f` is stored as `r2`, so no radius is increased. The circles with radius
65536 whose centres are 1/1024 apart satisfy the test too, and their radii stay equal,
so they do not differ by 0.002. For the radii 1 and 0 the first radius is increased by
`16777 / 2^23`, which is less than 0.002. When the test of `FixUpRadius` fails, both radii
are unchanged, for all inputs. -/
theorem FixUpRadius_increment_rounded (pf : Platform) (h1 : pf.SkScalarSqrt 1 = 1)
    (h2 : pf.SkScalarSqrt (1 / 1048576) = 1 / 1024) :
    (|SkPoint.Distance pf ⟨0, 0⟩ ⟨1, 0⟩ - abs ((65536 : ℚ) - 65537)| < 2 / 1000 ∧
      FixUpRadius pf ⟨0, 0⟩ 65536 ⟨1, 0⟩ 65537 = (65536, 65537)) ∧
    (|SkPoint.Distance pf ⟨0, 0⟩ ⟨1 / 1024, 0⟩ - abs ((65536 : ℚ) - 65536)| < 2 / 1000 ∧
      FixUpRadius pf ⟨0, 0⟩ 65536 ⟨1 / 1024, 0⟩ 65536 = (65536, 65536) ∧
      ¬ (2 / 1000 ≤ |(FixUpRadius pf ⟨0, 0⟩ 65536 ⟨1 / 1024, 0⟩ 65536).1 -
        (FixUpRadius pf ⟨0, 0⟩ 65536 ⟨1 / 1024, 0⟩ 65536).2|)) ∧
    (|SkPoint.Distance pf ⟨0, 0⟩ ⟨1, 0⟩ - abs ((1 : ℚ) - 0)| < 2 / 1000 ∧
      FixUpRadius pf ⟨0, 0⟩ 1 ⟨1, 0⟩ 0 = (1 + 16777 / 8388608, 0) ∧
      (16777 / 8388608 : ℚ) < 2 / 1000) ∧
    (∀ (p1 p2 : SkPoint) (r1 r2 : SkScalar),
      kTouchingTolerance ≤
        |roundToFloat (SkPoint.Distance pf p1 p2 - |roundToFloat (r1 - r2)|)| →
      FixUpRadius pf p1 r1 p2 r2 = (r1, r2)) := by
  refine ⟨⟨?_, FixUpRadius_large pf h1⟩, ⟨?_, FixUpRadius_equal pf h2, ?_⟩,
    ⟨?_, FixUpRadius_unit pf h1, by norm_num⟩, ?_⟩
  · rw [distance_unit pf h1]
    norm_num
  · rw [distance_small pf h2]
    norm_num [abs_lt]
  · rw [FixUpRadius_equal pf h2]
    norm_num
  · rw [distance_unit pf h1]
    norm_num
  · intro p1 p2 r1 r2 h
    unfold FixUpRadius
    simp only [not_lt.mpr h, if_false]

theorem FixUpRadius_increment_rounded_witness :
    FixUpRadius exactPlatform ⟨0, 0⟩ 65536 ⟨1, 0⟩ 65537 = (65536, 65537) ∧
    FixUpRadius exactPlatform ⟨0, 0⟩ 65536 ⟨1 / 1024, 0⟩ 65536 = (65536, 65536) :=
  ⟨(FixUpRadius_increment_rounded exactPlatform rat_sqrt_one rat_sqrt_small).1.2,
   (FixUpRadius_increment_rounded exactPlatform rat_sqrt_one rat_sqrt_small).2.1.2.1⟩

/-! ## Programs that stop without a result -/

theorem Fails.after_num {q : ℚ} {rest : List Tok} {st : List Val}
    (h : Fails rest (Val.num q :: st)) : Fails (Tok.num q :: rest) st := by
  intro fuel
  cases fuel with
  | zero => rfl
  | succ n => rw [exec_num]; exact h n

theorem Fails.after_op {o : Op} {rest : List Tok} {st st1 : List Val}
    (h1 : o ≠ Op.if_) (h2 : o ≠ Op.ifelse) (h : applyOp o st = some st1)
    (hr : Fails rest st1) : Fails (Tok.op o :: rest) st := by
  intro fuel
  cases fuel with
  | zero => rfl
  | succ n => rw [exec_op o h1 h2, h]; exact hr n

theorem Fails.of_op_none {o : Op} {rest : List Tok} {st : List Val}
    (h1 : o ≠ Op.if_) (h2 : o ≠ Op.ifelse) (h : applyOp o st = none) :
    Fails (Tok.op o :: rest) st := by
  intro fuel
  cases fuel with
  | zero => rfl
  | succ n => rw [exec_op o h1 h2, h]

theorem Fails.of_lbrace {rest body after : List Tok} {st : List Val}
    (h : splitBlock 0 rest = some (body, after))
    (hr : Fails after (Val.proc body :: st)) : Fails (Tok.lbrace :: rest) st := by
  intro fuel
  cases fuel with
  | zero => rfl
  | succ n => rw [exec_lbrace, h]; exact hr n

theorem Fails.of_if_false {rest body : List Tok} {st : List Val}
    (hr : Fails rest st) :
    Fails (Tok.op Op.if_ :: rest) (Val.proc body :: Val.bool false :: st) := by
  intro fuel
  cases fuel with
  | zero => rfl
  | succ n => rw [exec_if]; exact hr n

theorem Fails.of_ifelse_body {rest body1 body2 : List Tok} {b : Bool} {st : List Val}
    (hb : Fails (if b then body1 else body2) st) :
    Fails (Tok.op Op.ifelse :: rest) (Val.proc body2 :: Val.proc body1 :: Val.bool b :: st) := by
  intro fuel
  cases fuel with
  | zero => rfl
  | succ n => rw [exec_ifelse]; simp only [hb n]

/-- A program that fails has no result. -/
theorem Fails.not_evaluates {prog : List Tok} {st : List Val} (h : Fails prog st)
    (r : List Val) : ¬ Evaluates prog st r := by
  rintro ⟨fuel, hf⟩
  rw [h fuel] at hf
  exact Option.noConfusion hf

/-! ## The tile mapping -/

theorem applyOp_roll_3_1 (a b c : Val) (s : List Val) :
    applyOp Op.roll (Val.num 1 :: Val.num 3 :: a :: b :: c :: s) = some (b :: c :: a :: s) := by
  have h3 : ((3 : ℚ).num).toNat = 3 := by simp
  have hc : (3 : ℚ).den = 1 ∧ (1 : ℚ).den = 1 ∧ 0 ≤ (3 : ℚ).num ∧
      ((3 : ℚ).num).toNat ≤ (a :: b :: c :: s).length := by
    rw [h3]
    simp
  have hn : ¬ (3 : ℚ).num = 0 := by simp
  have hj : (((1 : ℚ).num) % ((3 : ℚ).num)).toNat = 1 := by simp
  simp only [applyOp]
  rw [if_pos hc, if_neg hn, hj, h3]
  rfl

theorem applyOp_copy_2 (a b : Val) (s : List Val) :
    applyOp Op.copy (Val.num 2 :: a :: b :: s) = some (a :: b :: a :: b :: s) := by
  have h2 : ((2 : ℚ).num).toNat = 2 := by simp
  have hc : (2 : ℚ).den = 1 ∧ 0 ≤ (2 : ℚ).num ∧ ((2 : ℚ).num).toNat ≤ (a :: b :: s).length := by
    rw [h2]
    simp
  simp only [applyOp]
  rw [if_pos hc, h2]
  rfl

theorem repeat_runs (t : ℚ) (st : List Val) :
    Runs (tileModeCode SkTileMode.kRepeat) (Val.num t :: st) (Val.num (repeatValue t) :: st) := by
  have hb : Balanced [Tok.num 1, Tok.op Op.add] := Balanced.of_cons_num _ (Balanced.of_op _)
  have hpre : Runs [Tok.op Op.dup, Tok.op Op.truncate, Tok.op Op.sub,
      Tok.op Op.dup, Tok.num 0, Tok.op Op.le] (Val.num t :: st)
      (Val.bool (decide (t - truncQ t ≤ 0)) :: Val.num (t - truncQ t) :: st) :=
    Runs.cons_op (by decide) (by decide) rfl
      (Runs.cons_op (by decide) (by decide) rfl
        (Runs.cons_op (by decide) (by decide) rfl
          (Runs.cons_op (by decide) (by decide) rfl
            (Runs.cons_num (Runs.op (by decide) (by decide) rfl)))))
  have hbody : Runs [Tok.num 1, Tok.op Op.add] (Val.num (t - truncQ t) :: st)
      (Val.num (t - truncQ t + 1) :: st) :=
    Runs.cons_num (Runs.op (by decide) (by decide) rfl)
  unfold repeatValue
  by_cases h : t - truncQ t ≤ 0
  · rw [if_pos h]
    have hd : decide (t - truncQ t ≤ 0) = true := decide_eq_true h
    rw [hd] at hpre
    exact Runs.append hpre (Runs.if_true hb hbody)
  · rw [if_neg h]
    have hd : decide (t - truncQ t ≤ 0) = false := decide_eq_false h
    rw [hd] at hpre
    exact Runs.append hpre (Runs.if_false _ _ hb)

theorem truncQ_intCast (n : ℤ) : truncQ (n : ℚ) = n := by
  unfold truncQ
  split <;> simp

theorem truncQ_of_nonneg (x : ℚ) (h : 0 ≤ x) : truncQ x = ⌊x⌋ := by
  unfold truncQ
  rw [if_pos h]

theorem truncQ_frac_bounds (t : ℚ) : -1 < t - truncQ t ∧ t - truncQ t < 1 := by
  unfold truncQ
  split
  · have h1 := Int.floor_le t
    have h2 := Int.lt_floor_add_one t
    constructor <;> linarith
  · have h1 := Int.le_ceil t
    have h2 := Int.ceil_lt_add_one t
    constructor <;> linarith

theorem repeatValue_range (t : ℚ) :
    0 < repeatValue t ∧ repeatValue t ≤ 1 ∧ ∃ k : ℤ, repeatValue t = t - k := by
  obtain ⟨h1, h2⟩ := truncQ_frac_bounds t
  unfold repeatValue
  by_cases h : t - truncQ t ≤ 0
  · rw [if_pos h]
    refine ⟨by linarith, by linarith, truncQ t - 1, ?_⟩
    push_cast
    ring
  · rw [if_neg h]
    exact ⟨lt_of_not_le h, le_of_lt h2, truncQ t, rfl⟩

/-- C18: for every integer `n` the Repeat fragment of `tileModeCode` leaves 1 for the input
`n`, a value outside the half-open interval [0,1); for every `t` what the fragment leaves
differs from `t` by an integer and lies in (0,1]. -/
theorem repeat_of_integer_is_one (n : ℤ) :
    Evaluates (tileModeCode SkTileMode.kRepeat) [Val.num n] [Val.num 1] ∧
    ¬ ((1 : ℚ) < 1) ∧
    ∀ t : ℚ, Evaluates (tileModeCode SkTileMode.kRepeat) [Val.num t] [Val.num (repeatValue t)] ∧
      0 < repeatValue t ∧ repeatValue t ≤ 1 ∧ ∃ k : ℤ, repeatValue t = t - k := by
  refine ⟨?_, lt_irrefl 1, fun t => ⟨(repeat_runs t []).evaluates, repeatValue_range t⟩⟩
  have h := (repeat_runs n []).evaluates
  have hv : repeatValue (n : ℚ) = 1 := by
    unfold repeatValue
    rw [truncQ_intCast]
    simp
  rw [hv] at h
  exact h

theorem applyOp_mod_two (k : ℤ) (s : List Val) :
    applyOp Op.mod (Val.num 2 :: Val.num (k : ℚ) :: s) =
      some (Val.num ((Int.tmod k 2 : ℤ) : ℚ) :: s) := by
  have hc : ((k : ℚ)).den = 1 ∧ (2 : ℚ).den = 1 ∧ (2 : ℚ) ≠ 0 := by simp
  have hk : ((k : ℚ)).num = k := by simp
  have h2 : (2 : ℚ).num = 2 := by simp
  simp only [applyOp]
  rw [if_pos hc, hk, h2]

theorem mirror_runs (t : ℚ) (st : List Val) :
    Runs (tileModeCode SkTileMode.kMirror) (Val.num t :: st) (Val.num (mirrorValue t) :: st) := by
  have hb : Balanced [Tok.num 1, Tok.op Op.exch, Tok.op Op.sub] :=
    Balanced.of_cons_num _ (Balanced.of_cons_op _ (Balanced.of_op _))
  have hfl : truncQ |t| = ⌊|t|⌋ := truncQ_of_nonneg _ (abs_nonneg t)
  have hpre : Runs [Tok.op Op.abs, Tok.op Op.dup, Tok.op Op.truncate, Tok.op Op.dup,
      Tok.op Op.cvi, Tok.num 2, Tok.op Op.mod, Tok.num 0, Tok.op Op.gt, Tok.num 3, Tok.num 1,
      Tok.op Op.roll, Tok.op Op.sub, Tok.op Op.exch] (Val.num t :: st)
      (Val.bool (decide ((0 : ℚ) < ((Int.tmod ⌊|t|⌋ 2 : ℤ) : ℚ))) ::
        Val.num (|t| - (⌊|t|⌋ : ℚ)) :: st) := by
    refine Runs.cons_op (by decide) (by decide) rfl ?_
    refine Runs.cons_op (by decide) (by decide) rfl ?_
    refine Runs.cons_op (by decide) (by decide) rfl ?_
    rw [hfl]
    refine Runs.cons_op (by decide) (by decide) rfl ?_
    refine Runs.cons_op (by decide) (by decide) rfl ?_
    rw [truncQ_intCast]
    refine Runs.cons_num ?_
    refine Runs.cons_op (by decide) (by decide) (applyOp_mod_two _ _) ?_
    refine Runs.cons_num ?_
    refine Runs.cons_op (by decide) (by decide) rfl ?_
    refine Runs.cons_num ?_
    refine Runs.cons_num ?_
    refine Runs.cons_op (by decide) (by decide) (applyOp_roll_3_1 _ _ _ _) ?_
    refine Runs.cons_op (by decide) (by decide) rfl ?_
    exact Runs.op (by decide) (by decide) rfl
  have hbody : Runs [Tok.num 1, Tok.op Op.exch, Tok.op Op.sub]
      (Val.num (|t| - (⌊|t|⌋ : ℚ)) :: st) (Val.num (1 - (|t| - (⌊|t|⌋ : ℚ))) :: st) :=
    Runs.cons_num (Runs.cons_op (by decide) (by decide) rfl
      (Runs.op (by decide) (by decide) rfl))
  have hnn : 0 ≤ ⌊|t|⌋ := Int.floor_nonneg.mpr (abs_nonneg t)
  have hmod : Int.tmod ⌊|t|⌋ 2 = ⌊|t|⌋ % 2 := Int.tmod_eq_emod hnn (by decide)
  have hfr : Int.fract |t| = |t| - (⌊|t|⌋ : ℚ) := rfl
  unfold mirrorValue
  rw [hfr]
  by_cases h : ⌊|t|⌋ % 2 = 0
  · rw [if_pos h]
    have hd : decide ((0 : ℚ) < ((Int.tmod ⌊|t|⌋ 2 : ℤ) : ℚ)) = false := by
      rw [hmod, h]
      simp
    rw [hd] at hpre
    exact Runs.append hpre (Runs.if_false _ _ hb)
  · rw [if_neg h]
    have hd : decide ((0 : ℚ) < ((Int.tmod ⌊|t|⌋ 2 : ℤ) : ℚ)) = true := by
      rw [hmod]
      have : 0 < ⌊|t|⌋ % 2 := by omega
      simpa using this
    rw [hd] at hpre
    exact Runs.append hpre (Runs.if_true hb hbody)

theorem mirrorValue_range (t : ℚ) : 0 ≤ mirrorValue t ∧ mirrorValue t ≤ 1 := by
  have h1 := Int.fract_nonneg |t|
  have h2 := le_of_lt (Int.fract_lt_one |t|)
  unfold mirrorValue
  split <;> constructor <;> linarith

theorem mirrorValue_neg (t : ℚ) : mirrorValue (-t) = mirrorValue t := by
  unfold mirrorValue
  rw [abs_neg]

theorem mirrorValue_of_floor (x : ℚ) (n : ℤ) (h1 : (n : ℚ) ≤ |x|) (h2 : |x| < n + 1) :
    mirrorValue x = if n % 2 = 0 then |x| - n else 1 - (|x| - n) := by
  have hf : ⌊|x|⌋ = n := Int.floor_eq_iff.mpr ⟨h1, h2⟩
  unfold mirrorValue
  rw [Int.fract, hf]

theorem mirrorValue_add_two (t : ℚ) : mirrorValue (t + 2) = mirrorValue t := by
  have hfl := Int.floor_le |t|
  have hfu := Int.lt_floor_add_one |t|
  have hn : 0 ≤ ⌊|t|⌋ := Int.floor_nonneg.mpr (abs_nonneg t)
  rw [mirrorValue_of_floor t ⌊|t|⌋ hfl hfu]
  rcases le_or_lt 0 t with ht | ht
  · have ha : |t| = t := abs_of_nonneg ht
    have ha2 : |t + 2| = t + 2 := abs_of_nonneg (by linarith)
    rw [mirrorValue_of_floor (t + 2) (⌊|t|⌋ + 2) (by rw [ha2]; push_cast; linarith)
      (by rw [ha2]; push_cast; linarith)]
    have hm : (⌊|t|⌋ + 2) % 2 = ⌊|t|⌋ % 2 := by omega
    rw [hm, ha2, ha]
    push_cast
    split <;> ring
  · have ha : |t| = -t := abs_of_neg ht
    rcases le_or_lt t (-2) with h2 | h2
    · have ha2 : |t + 2| = -t - 2 := by rw [abs_of_nonpos (by linarith)]; ring
      have hge : 2 ≤ ⌊|t|⌋ := Int.le_floor.mpr (by rw [ha]; push_cast; linarith)
      rw [mirrorValue_of_floor (t + 2) (⌊|t|⌋ - 2) (by rw [ha2]; push_cast; linarith)
        (by rw [ha2]; push_cast; linarith)]
      have hm : (⌊|t|⌋ - 2) % 2 = ⌊|t|⌋ % 2 := by omega
      rw [hm, ha2, ha]
      push_cast
      split <;> ring
    · have ha2 : |t + 2| = t + 2 := abs_of_pos (by linarith)
      have hlt : ⌊|t|⌋ < 2 := Int.floor_lt.mpr (by rw [ha]; push_cast; linarith)
      rcases lt_or_le (t + 2) 1 with h1 | h1
      · have hf : ⌊|t|⌋ = 1 := by
          have : 1 ≤ ⌊|t|⌋ := Int.le_floor.mpr (by rw [ha]; push_cast; linarith)
          omega
        rw [mirrorValue_of_floor (t + 2) 0 (by rw [ha2]; push_cast; linarith)
          (by rw [ha2]; push_cast; linarith), hf, ha2, ha]
        norm_num
        ring
      · rcases eq_or_lt_of_le h1 with h1e | h1l
        · have hf : ⌊|t|⌋ = 1 := by
            have : 1 ≤ ⌊|t|⌋ := Int.le_floor.mpr (by rw [ha]; push_cast; linarith)
            omega
          rw [mirrorValue_of_floor (t + 2) 1 (by rw [ha2]; push_cast; linarith)
            (by rw [ha2]; push_cast; linarith), hf, ha2, ha]
          norm_num
          linarith
        · have hf : ⌊|t|⌋ = 0 := by
            have : ⌊|t|⌋ < 1 := Int.floor_lt.mpr (by rw [ha]; push_cast; linarith)
            omega
          rw [mirrorValue_of_floor (t + 2) 1 (by rw [ha2]; push_cast; linarith)
            (by rw [ha2]; push_cast; linarith), hf, ha2, ha]
          norm_num
          ring

/-- C19: for every `t` the Mirror fragment of `tileModeCode` leaves `frac |t|` when the
integer part of `|t|` is even and `1 - frac |t|` when it is odd; the result lies in [0,1],
is the same for `t` and `-t`, and is the same for `t` and `t + 2`. -/
theorem mirror_triangle_wave (t : ℚ) :
    Evaluates (tileModeCode SkTileMode.kMirror) [Val.num t]
      [Val.num (if ⌊|t|⌋ % 2 = 0 then Int.fract |t| else 1 - Int.fract |t|)] ∧
    Evaluates (tileModeCode SkTileMode.kMirror) [Val.num t] [Val.num (mirrorValue t)] ∧
    0 ≤ mirrorValue t ∧ mirrorValue t ≤ 1 ∧
    Evaluates (tileModeCode SkTileMode.kMirror) [Val.num (-t)] [Val.num (mirrorValue t)] ∧
    Evaluates (tileModeCode SkTileMode.kMirror) [Val.num (t + 2)] [Val.num (mirrorValue t)] := by
  refine ⟨(mirror_runs t []).evaluates, (mirror_runs t []).evaluates, (mirrorValue_range t).1,
    (mirrorValue_range t).2, ?_, ?_⟩
  · rw [← mirrorValue_neg t]
    exact (mirror_runs (-t) []).evaluates
  · rw [← mirrorValue_add_two t]
    exact (mirror_runs (t + 2) []).evaluates

/-! ## Straight-line text -/

theorem Steps.refl (st : List Val) : Steps [] st st := fun _ _ => rfl

theorem Steps.step_num {code : List Tok} {q : ℚ} {st st1 : List Val}
    (h : Steps code (Val.num q :: st) st1) : Steps (Tok.num q :: code) st st1 := by
  intro rest fuel
  rw [List.length_cons, ← Nat.add_assoc, List.cons_append, exec_num]
  exact h rest fuel

theorem Steps.step_op {code : List Tok} {o : Op} {st st1 st2 : List Val}
    (h1 : o ≠ Op.if_) (h2 : o ≠ Op.ifelse) (h : applyOp o st = some st1)
    (hr : Steps code st1 st2) : Steps (Tok.op o :: code) st st2 := by
  intro rest fuel
  rw [List.length_cons, ← Nat.add_assoc, List.cons_append, exec_op o h1 h2, h]
  exact hr rest fuel

theorem Steps.runs {code : List Tok} {st st1 : List Val} (h : Steps code st st1) :
    Runs code st st1 :=
  ⟨code.length, fun rest n r hr => by rw [h rest n]; exact hr⟩

theorem Steps.fails {code rest : List Tok} {st st1 : List Val} (h : Steps code st st1)
    (hf : Fails rest st1) : Fails (code ++ rest) st := by
  intro fuel
  cases hx : exec fuel (code ++ rest) st with
  | none => rfl
  | some r =>
    have h1 := exec_mono fuel _ _ _ hx (fuel + code.length) (Nat.le_add_right _ _)
    rw [h rest fuel, hf fuel] at h1
    exact Option.noConfusion h1

theorem Fails.branch {body1 body2 rest : List Tok} {c : Bool} {st : List Val}
    (hb1 : Balanced body1) (hb2 : Balanced body2)
    (h : Fails (if c = true then body1 else body2) st) :
    Fails (Tok.lbrace :: body1 ++ [Tok.rbrace] ++ (Tok.lbrace :: body2 ++
      [Tok.rbrace, Tok.op Op.ifelse]) ++ rest) (Val.bool c :: st) := by
  have e : (Tok.lbrace :: body1 ++ [Tok.rbrace] ++ (Tok.lbrace :: body2 ++
      [Tok.rbrace, Tok.op Op.ifelse])) ++ rest =
      Tok.lbrace :: (body1 ++ Tok.rbrace :: (Tok.lbrace ::
        (body2 ++ Tok.rbrace :: (Tok.op Op.ifelse :: rest)))) := by simp
  rw [e]
  exact Fails.of_lbrace (splitBlock_of_balanced hb1 _)
    (Fails.of_lbrace (splitBlock_of_balanced hb2 _) (Fails.of_ifelse_body h))

theorem Fails.skip_if {body rest : List Tok} {st : List Val} (hb : Balanced body)
    (h : Fails rest st) :
    Fails (Tok.lbrace :: body ++ [Tok.rbrace, Tok.op Op.if_] ++ rest) (Val.bool false :: st) := by
  have e : (Tok.lbrace :: body ++ [Tok.rbrace, Tok.op Op.if_]) ++ rest =
      Tok.lbrace :: (body ++ Tok.rbrace :: (Tok.op Op.if_ :: rest)) := by simp
  rw [e]
  exact Fails.of_lbrace (splitBlock_of_balanced hb _) (Fails.of_if_false h)

/-! ## The conical solver -/

theorem applyOp_roll_4_2 (a b c d : Val) (s : List Val) :
    applyOp Op.roll (Val.num 2 :: Val.num 4 :: a :: b :: c :: d :: s) =
      some (c :: d :: a :: b :: s) := by
  have h4 : ((4 : ℚ).num).toNat = 4 := by simp
  have hc : (4 : ℚ).den = 1 ∧ (2 : ℚ).den = 1 ∧ 0 ≤ (4 : ℚ).num ∧
      ((4 : ℚ).num).toNat ≤ (a :: b :: c :: d :: s).length := by
    rw [h4]
    simp
  have hn : ¬ (4 : ℚ).num = 0 := by simp
  have hj : (((2 : ℚ).num) % ((4 : ℚ).num)).toNat = 2 := by simp
  simp only [applyOp]
  rw [if_pos hc, if_neg hn, hj, h4]
  rfl

theorem applyOp_roll_4_1 (a b c d : Val) (s : List Val) :
    applyOp Op.roll (Val.num 1 :: Val.num 4 :: a :: b :: c :: d :: s) =
      some (b :: c :: d :: a :: s) := by
  have h4 : ((4 : ℚ).num).toNat = 4 := by simp
  have hc : (4 : ℚ).den = 1 ∧ (1 : ℚ).den = 1 ∧ 0 ≤ (4 : ℚ).num ∧
      ((4 : ℚ).num).toNat ≤ (a :: b :: c :: d :: s).length := by
    rw [h4]
    simp
  have hn : ¬ (4 : ℚ).num = 0 := by simp
  have hj : (((1 : ℚ).num) % ((4 : ℚ).num)).toNat = 1 := by simp
  simp only [applyOp]
  rw [if_pos hc, if_neg hn, hj, h4]
  rfl

/-- The coefficient text of the conical program takes `x y` to `c b b^2 c` with
`b = -2 (y dy + x dx + r0 dr)` and `c = x^2 + y^2 - r0^2`. -/
theorem conicalCoefficientCode_steps (dx dy r0 dr x y : ℚ) (st : List Val) :
    Steps (conicalCoefficientCode dx dy r0 dr) (Val.num y :: Val.num x :: st)
      (Val.num (y * y + x * x - r0 * r0) ::
       Val.num ((y * dy + x * dx + r0 * dr) * -2 * ((y * dy + x * dx + r0 * dr) * -2)) ::
       Val.num ((y * dy + x * dx + r0 * dr) * -2) ::
       Val.num (y * y + x * x - r0 * r0) :: st) := by
  unfold conicalCoefficientCode AppendScalar
  refine Steps.step_num ?_
  refine Steps.step_op (by decide) (by decide) (applyOp_copy_2 _ _ _) ?_
  refine Steps.step_num ?_
  refine Steps.step_op (by decide) (by decide) rfl ?_
  refine Steps.step_op (by decide) (by decide) rfl ?_
  refine Steps.step_num ?_
  refine Steps.step_op (by decide) (by decide) rfl ?_
  refine Steps.step_op (by decide) (by decide) rfl ?_
  refine Steps.step_num ?_
  refine Steps.step_op (by decide) (by decide) rfl ?_
  refine Steps.step_num ?_
  refine Steps.step_op (by decide) (by decide) rfl ?_
  refine Steps.step_op (by decide) (by decide) rfl ?_
  refine Steps.step_op (by decide) (by decide) rfl ?_
  refine Steps.step_op (by decide) (by decide) rfl ?_
  refine Steps.step_num ?_
  refine Steps.step_num ?_
  refine Steps.step_op (by decide) (by decide) (applyOp_roll_4_2 _ _ _ _ _) ?_
  refine Steps.step_op (by decide) (by decide) rfl ?_
  refine Steps.step_op (by decide) (by decide) rfl ?_
  refine Steps.step_op (by decide) (by decide) rfl ?_
  refine Steps.step_op (by decide) (by decide) rfl ?_
  refine Steps.step_op (by decide) (by decide) rfl ?_
  refine Steps.step_op (by decide) (by decide) rfl ?_
  refine Steps.step_num ?_
  refine Steps.step_op (by decide) (by decide) rfl ?_
  refine Steps.step_op (by decide) (by decide) rfl ?_
  refine Steps.step_num ?_
  refine Steps.step_num ?_
  refine Steps.step_op (by decide) (by decide) (applyOp_roll_4_1 _ _ _ _ _) ?_
  exact Steps.refl _

theorem applyOp_sqrt_zero (s : List Val) :
    applyOp Op.sqrt (Val.num 0 :: s) = some (Val.num 0 :: s) := by
  have h0 : Rat.sqrt 0 = 0 := by decide
  simp only [applyOp, h0]
  simp

theorem applyOp_div (x y : ℚ) (s : List Val) (h : y ≠ 0) :
    applyOp Op.div (Val.num y :: Val.num x :: s) = some (Val.num (x / y) :: s) := by
  simp only [applyOp, if_neg h]

theorem conicalSelectCode_balanced (r0 dr : SkScalar) : Balanced (conicalSelectCode r0 dr) := by
  have h1 : Balanced [Tok.op Op.exch] := Balanced.of_op _
  have h2 : Balanced [Tok.op Op.exch, Tok.op Op.pop, Tok.op Op.true] :=
    Balanced.of_cons_op _ (Balanced.of_cons_op _ (Balanced.of_op _))
  have h3 : Balanced [Tok.op Op.pop, Tok.op Op.false] := Balanced.of_cons_op _ (Balanced.of_op _)
  have h4 : Balanced [Tok.op Op.true] := Balanced.of_op _
  have h5 : Balanced ([Tok.op Op.pop, Tok.op Op.dup, AppendScalar dr, Tok.op Op.mul,
      AppendScalar r0, Tok.op Op.add, Tok.num 0, Tok.op Op.le] ++
      ((Tok.lbrace :: [Tok.op Op.pop, Tok.op Op.false] ++ [Tok.rbrace]) ++
       ((Tok.lbrace :: [Tok.op Op.true] ++ [Tok.rbrace]) ++ [Tok.op Op.ifelse]))) :=
    Balanced.of_append
      (Balanced.of_cons_op _ (Balanced.of_cons_op _ (Balanced.of_cons_num _
        (Balanced.of_cons_op _ (Balanced.of_cons_num _ (Balanced.of_cons_op _
          (Balanced.of_cons_num _ (Balanced.of_op _))))))))
      (Balanced.of_append (Balanced.braces h3)
        (Balanced.of_append (Balanced.braces h4) (Balanced.of_op _)))
  have h : conicalSelectCode r0 dr =
      [Tok.num 2, Tok.op Op.copy, Tok.op Op.gt] ++
      ((Tok.lbrace :: [Tok.op Op.exch] ++ [Tok.rbrace]) ++
       ([Tok.op Op.if_, Tok.op Op.dup, AppendScalar dr, Tok.op Op.mul, AppendScalar r0,
         Tok.op Op.add, Tok.num 0, Tok.op Op.gt] ++
        ((Tok.lbrace :: [Tok.op Op.exch, Tok.op Op.pop, Tok.op Op.true] ++ [Tok.rbrace]) ++
         ((Tok.lbrace :: ([Tok.op Op.pop, Tok.op Op.dup, AppendScalar dr, Tok.op Op.mul,
            AppendScalar r0, Tok.op Op.add, Tok.num 0, Tok.op Op.le] ++
            ((Tok.lbrace :: [Tok.op Op.pop, Tok.op Op.false] ++ [Tok.rbrace]) ++
             ((Tok.lbrace :: [Tok.op Op.true] ++ [Tok.rbrace]) ++ [Tok.op Op.ifelse]))) ++
            [Tok.rbrace]) ++ [Tok.op Op.ifelse])))) := by
    simp [conicalSelectCode, AppendScalar]
  rw [h]
  exact Balanced.of_append
    (Balanced.of_cons_num _ (Balanced.of_cons_op _ (Balanced.of_op _)))
    (Balanced.of_append (Balanced.braces h1)
      (Balanced.of_append
        (Balanced.of_cons_op _ (Balanced.of_cons_op _ (Balanced.of_cons_num _
          (Balanced.of_cons_op _ (Balanced.of_cons_num _ (Balanced.of_cons_op _
            (Balanced.of_cons_num _ (Balanced.of_op _))))))))
        (Balanced.of_append (Balanced.braces h2)
          (Balanced.of_append (Balanced.braces h5) (Balanced.of_op _)))))

theorem conicalRootsCode_balanced (a : SkScalar) : Balanced (conicalRootsCode a) := by
  have h1 : Balanced [Tok.op Op.exch, Tok.num (-1), Tok.op Op.mul] :=
    Balanced.of_cons_op _ (Balanced.of_cons_num _ (Balanced.of_op _))
  have h : conicalRootsCode a =
      [Tok.op Op.sqrt, Tok.op Op.exch, Tok.op Op.dup, Tok.num 0, Tok.op Op.lt] ++
      ((Tok.lbrace :: [Tok.op Op.exch, Tok.num (-1), Tok.op Op.mul] ++ [Tok.rbrace]) ++
       [Tok.op Op.if_, Tok.op Op.add, Tok.num (-1 / 2), Tok.op Op.mul, Tok.op Op.dup,
        AppendScalar a, Tok.op Op.div, Tok.num 3, Tok.num 1, Tok.op Op.roll, Tok.op Op.div]) := by
    simp [conicalRootsCode, AppendScalar]
  rw [h]
  exact Balanced.of_append
    (Balanced.of_cons_op _ (Balanced.of_cons_op _ (Balanced.of_cons_op _
      (Balanced.of_cons_num _ (Balanced.of_op _)))))
    (Balanced.of_append (Balanced.braces h1)
      (Balanced.of_cons_op _ (Balanced.of_cons_op _ (Balanced.of_cons_num _
        (Balanced.of_cons_op _ (Balanced.of_cons_op _ (Balanced.of_cons_num _
          (Balanced.of_cons_op _ (Balanced.of_cons_num _ (Balanced.of_cons_num _
            (Balanced.of_cons_op _ (Balanced.of_op _))))))))))))

/-- With `b = 0` and discriminant 0 the root text divides by `q = 0`. -/
theorem conicalRootsCode_fails (a c : ℚ) (ha : a ≠ 0) (rest : List Tok) (st : List Val) :
    Fails (conicalRootsCode a ++ rest) (Val.num 0 :: Val.num 0 :: Val.num c :: st) := by
  have hb : Balanced [Tok.op Op.exch, Tok.num (-1), Tok.op Op.mul] :=
    Balanced.of_cons_op _ (Balanced.of_cons_num _ (Balanced.of_op _))
  have h : conicalRootsCode a ++ rest =
      Tok.op Op.sqrt :: Tok.op Op.exch :: Tok.op Op.dup :: Tok.num 0 :: Tok.op Op.lt ::
      ((Tok.lbrace :: [Tok.op Op.exch, Tok.num (-1), Tok.op Op.mul] ++
        [Tok.rbrace, Tok.op Op.if_]) ++
       (Tok.op Op.add :: Tok.num (-1 / 2) :: Tok.op Op.mul :: Tok.op Op.dup ::
        Tok.num a :: Tok.op Op.div :: Tok.num 3 :: Tok.num 1 :: Tok.op Op.roll ::
        Tok.op Op.div :: rest)) := by
    simp [conicalRootsCode, AppendScalar]
  rw [h]
  refine Fails.after_op (by decide) (by decide) (applyOp_sqrt_zero _) ?_
  refine Fails.after_op (by decide) (by decide) rfl ?_
  refine Fails.after_op (by decide) (by decide) rfl ?_
  refine Fails.after_num ?_
  refine Fails.after_op (by decide) (by decide) rfl ?_
  rw [show decide ((0 : ℚ) < 0) = false from decide_eq_false (lt_irrefl 0)]
  refine Fails.skip_if hb ?_
  refine Fails.after_op (by decide) (by decide) rfl ?_
  refine Fails.after_num ?_
  refine Fails.after_op (by decide) (by decide) rfl ?_
  refine Fails.after_op (by decide) (by decide) rfl ?_
  refine Fails.after_num ?_
  refine Fails.after_op (by decide) (by decide) (applyOp_div _ _ _ ha) ?_
  refine Fails.after_num ?_
  refine Fails.after_num ?_
  refine Fails.after_op (by decide) (by decide) (applyOp_roll_3_1 _ _ _ _) ?_
  refine Fails.of_op_none (by decide) (by decide) ?_
  simp [applyOp]

/-- With `b = 0` and discriminant 0 the quadratic text of the conical program takes the
branch `d >= 0` and stops there without a result. -/
theorem conicalQuadraticCode_fails (a r0 dr c bb c1 : ℚ) (ha : a ≠ 0)
    (hd : bb - c * (a * 4) = 0) (rest : List Tok) (st : List Val) :
    Fails (conicalQuadraticCode a r0 dr ++ rest)
      (Val.num c :: Val.num bb :: Val.num 0 :: Val.num c1 :: st) := by
  have hb2 : Balanced [Tok.op Op.pop, Tok.op Op.pop, Tok.op Op.pop, Tok.op Op.false] :=
    Balanced.of_cons_op _ (Balanced.of_cons_op _ (Balanced.of_cons_op _ (Balanced.of_op _)))
  have hb1 : Balanced (conicalRootsCode a ++ conicalSelectCode r0 dr) :=
    Balanced.of_append (conicalRootsCode_balanced a) (conicalSelectCode_balanced r0 dr)
  have h : conicalQuadraticCode a r0 dr ++ rest =
      Tok.num (a * 4) :: Tok.op Op.mul :: Tok.op Op.sub :: Tok.op Op.dup :: Tok.num 0 ::
      Tok.op Op.ge ::
      (Tok.lbrace :: (conicalRootsCode a ++ conicalSelectCode r0 dr) ++ [Tok.rbrace] ++
        (Tok.lbrace :: [Tok.op Op.pop, Tok.op Op.pop, Tok.op Op.pop, Tok.op Op.false] ++
          [Tok.rbrace, Tok.op Op.ifelse]) ++ rest) := by
    simp [conicalQuadraticCode, AppendScalar]
  rw [h]
  refine Fails.after_num ?_
  refine Fails.after_op (by decide) (by decide) rfl ?_
  refine Fails.after_op (by decide) (by decide) rfl ?_
  rw [hd]
  refine Fails.after_op (by decide) (by decide) rfl ?_
  refine Fails.after_num ?_
  refine Fails.after_op (by decide) (by decide) rfl ?_
  rw [show decide ((0 : ℚ) ≤ 0) = true from decide_eq_true (le_refl 0)]
  refine Fails.branch hb1 hb2 ?_
  rw [if_pos rfl]
  have := conicalRootsCode_fails a c1 ha (conicalSelectCode r0 dr) st
  exact this

theorem centredCone_code_isSome : (gradient_function_code centredCone).isSome = true := by
  simp [gradient_function_code, centredCone, whiteToBlack, sampleInfo, rangeEndsOf,
    collectRangeEnds, keepRange, kWhite, kBlack, eqIgnoringAlpha, SkColorSetA,
    write_gradient_ranges, write_gradient_ranges_fuel, size_t_pred, interpolate_color_code]

/-- C16: for the cone from (0,0) with radius 0 to (1,0) with radius 1/2 (`a = 3/4 > 0`) the
point (0,0) has `b = 0`, `c = 0` and discriminant 0; the body of the program emitted by
`twoPointConicalCode`, started on `x y = 0 0`, stops without a result: in the branch
`d >= 0` the root `c / q` is a division by `q = 0`. -/
theorem conical_centre_divides_by_zero :
    ∃ body, twoPointConicalCode centredCone SkMatrix.I =
        some (Tok.lbrace :: body ++ [Tok.rbrace]) ∧
      Evaluates (conicalCoefficientCode 1 0 0 (1 / 2) ++
          [AppendScalar (3 / 4 * 4), Tok.op Op.mul, Tok.op Op.sub])
        [Val.num 0, Val.num 0] [Val.num 0, Val.num 0, Val.num 0] ∧
      ∀ r, ¬ Evaluates body [Val.num 0, Val.num 0] r := by
  obtain ⟨code, hcode⟩ := Option.isSome_iff_exists.1 centredCone_code_isSome
  have hsteps := conicalCoefficientCode_steps 1 0 0 (1 / 2) 0 0 []
  have hc : (0 : ℚ) * 0 + 0 * 0 - 0 * 0 = 0 := by norm_num
  have hb : ((0 : ℚ) * 0 + 0 * 1 + 0 * (1 / 2)) * -2 = 0 := by norm_num
  rw [hc, hb] at hsteps
  have ha : (3 / 4 : ℚ) ≠ 0 := by norm_num
  refine ⟨conicalCoefficientCode 1 0 0 (1 / 2) ++ (conicalQuadraticCode (3 / 4) 0 (1 / 2) ++
    ([Tok.lbrace] ++ tileModeCode SkTileMode.kClamp ++ code ++
      [Tok.rbrace, Tok.lbrace, Tok.num 0, Tok.num 0, Tok.num 0, Tok.rbrace,
       Tok.op Op.ifelse])), ?_, ?_, ?_⟩
  · have hp : centredCone.fPoint = (⟨0, 0⟩, ⟨1, 0⟩) := rfl
    have hr : centredCone.fRadius = (0, 1 / 2) := rfl
    have hm : centredCone.fTileMode = SkTileMode.kClamp := rfl
    have hA : ((1 : ℚ) - 0) * (1 - 0) + (0 - 0) * (0 - 0) - (1 / 2 - 0) * (1 / 2 - 0) = 3 / 4 := by
      norm_num
    unfold twoPointConicalCode
    simp only [hcode, hp, hr, hm]
    rw [hA, if_neg ha]
    simp [apply_perspective_to_coordinates, SkMatrix.hasPerspective, SkMatrix.I]
  · have h1 : Runs [AppendScalar (3 / 4 * 4), Tok.op Op.mul, Tok.op Op.sub]
        [Val.num 0, Val.num (0 * 0), Val.num 0, Val.num 0]
        [Val.num (0 * 0 - 0 * (3 / 4 * 4)), Val.num 0, Val.num 0] :=
      Runs.cons_num (Runs.cons_op (by decide) (by decide) rfl
        (Runs.op (by decide) (by decide) rfl))
    rw [show (0 : ℚ) * 0 - 0 * (3 / 4 * 4) = 0 by norm_num] at h1
    exact (Runs.append hsteps.runs h1).evaluates
  · intro r
    exact Fails.not_evaluates (Steps.fails hsteps
      (conicalQuadraticCode_fails (3 / 4) 0 (1 / 2) 0 (0 * 0) 0 ha (by norm_num) _ [])) r

/-! ## The choice between the two roots of the conical solver -/

theorem conicalSelectCode_sort (x y : ℚ) (st : List Val) :
    Runs [Tok.num 2, Tok.op Op.copy, Tok.op Op.gt, Tok.lbrace, Tok.op Op.exch, Tok.rbrace,
      Tok.op Op.if_] (Val.num y :: Val.num x :: st)
      (Val.num (max x y) :: Val.num (min x y) :: st) := by
  have hb : Balanced [Tok.op Op.exch] := Balanced.of_op _
  have hpre : Runs [Tok.num 2, Tok.op Op.copy, Tok.op Op.gt] (Val.num y :: Val.num x :: st)
      (Val.bool (decide (y < x)) :: Val.num y :: Val.num x :: st) :=
    Runs.cons_num (Runs.cons_op (by decide) (by decide) (applyOp_copy_2 _ _ _)
      (Runs.op (by decide) (by decide) rfl))
  by_cases h : y < x
  · rw [decide_eq_true h] at hpre
    rw [max_eq_left (le_of_lt h), min_eq_right (le_of_lt h)]
    exact Runs.append hpre (Runs.if_true hb (Runs.op (by decide) (by decide) rfl))
  · rw [decide_eq_false h] at hpre
    rw [max_eq_right (not_lt.mp h), min_eq_left (not_lt.mp h)]
    exact Runs.append hpre (Runs.if_false _ _ hb)

theorem conicalSelectCode_radius (r0 dr v : ℚ) (st : List Val) :
    Runs [Tok.op Op.dup, Tok.num dr, Tok.op Op.mul, Tok.num r0, Tok.op Op.add, Tok.num 0]
      (Val.num v :: st) (Val.num 0 :: Val.num (v * dr + r0) :: Val.num v :: st) :=
  Runs.cons_op (by decide) (by decide) rfl
    (Runs.cons_num (Runs.cons_op (by decide) (by decide) rfl
      (Runs.cons_num (Runs.cons_op (by decide) (by decide) rfl (Runs.num _ _)))))

/-- What the second conditional of the root choice leaves, given the larger root `l` on
top of the smaller root `s`. -/
theorem conicalSelectCode_choose (r0 dr l s : ℚ) (st : List Val) :
    Runs ([Tok.op Op.dup, Tok.num dr, Tok.op Op.mul, Tok.num r0, Tok.op Op.add, Tok.num 0,
        Tok.op Op.gt] ++
      (Tok.lbrace :: [Tok.op Op.exch, Tok.op Op.pop, Tok.op Op.true] ++ [Tok.rbrace] ++
        (Tok.lbrace :: ([Tok.op Op.pop, Tok.op Op.dup, Tok.num dr, Tok.op Op.mul, Tok.num r0,
            Tok.op Op.add, Tok.num 0, Tok.op Op.le] ++
          (Tok.lbrace :: [Tok.op Op.pop, Tok.op Op.false] ++ [Tok.rbrace] ++
            (Tok.lbrace :: [Tok.op Op.true] ++ [Tok.rbrace, Tok.op Op.ifelse]))) ++
          [Tok.rbrace, Tok.op Op.ifelse])))
      (Val.num l :: Val.num s :: st)
      (if 0 < l * dr + r0 then Val.bool true :: Val.num l :: st
       else if s * dr + r0 ≤ 0 then Val.bool false :: st
       else Val.bool true :: Val.num s :: st) := by
  have hb1 : Balanced [Tok.op Op.exch, Tok.op Op.pop, Tok.op Op.true] :=
    Balanced.of_cons_op _ (Balanced.of_cons_op _ (Balanced.of_op _))
  have hb3 : Balanced [Tok.op Op.pop, Tok.op Op.false] :=
    Balanced.of_cons_op _ (Balanced.of_op _)
  have hb4 : Balanced [Tok.op Op.true] := Balanced.of_op _
  have hinner : Runs ([Tok.op Op.pop, Tok.op Op.dup, Tok.num dr, Tok.op Op.mul, Tok.num r0,
        Tok.op Op.add, Tok.num 0, Tok.op Op.le] ++
      (Tok.lbrace :: [Tok.op Op.pop, Tok.op Op.false] ++ [Tok.rbrace] ++
        (Tok.lbrace :: [Tok.op Op.true] ++ [Tok.rbrace, Tok.op Op.ifelse])))
      (Val.num l :: Val.num s :: st)
      (if s * dr + r0 ≤ 0 then Val.bool false :: st else Val.bool true :: Val.num s :: st) := by
    have hp : Runs [Tok.op Op.pop, Tok.op Op.dup, Tok.num dr, Tok.op Op.mul, Tok.num r0,
        Tok.op Op.add, Tok.num 0, Tok.op Op.le] (Val.num l :: Val.num s :: st)
        (Val.bool (decide (s * dr + r0 ≤ 0)) :: Val.num s :: st) :=
      Runs.cons_op (by decide) (by decide) rfl
        (Runs.append (conicalSelectCode_radius r0 dr s st) (Runs.op (by decide) (by decide) rfl))
    refine Runs.append hp (Runs.ifelse hb3 hb4 ?_)
    by_cases h : s * dr + r0 ≤ 0
    · rw [decide_eq_true h, if_pos rfl, if_pos h]
      exact Runs.cons_op (by decide) (by decide) rfl (Runs.op (by decide) (by decide) rfl)
    · rw [decide_eq_false h, if_neg Bool.false_ne_true, if_neg h]
      exact Runs.op (by decide) (by decide) rfl
  have hb2 : Balanced ([Tok.op Op.pop, Tok.op Op.dup, Tok.num dr, Tok.op Op.mul, Tok.num r0,
        Tok.op Op.add, Tok.num 0, Tok.op Op.le] ++
      (Tok.lbrace :: [Tok.op Op.pop, Tok.op Op.false] ++ [Tok.rbrace] ++
        (Tok.lbrace :: [Tok.op Op.true] ++ [Tok.rbrace, Tok.op Op.ifelse]))) := by
    have e : (Tok.lbrace :: [Tok.op Op.pop, Tok.op Op.false] ++ [Tok.rbrace] ++
        (Tok.lbrace :: [Tok.op Op.true] ++ [Tok.rbrace, Tok.op Op.ifelse])) =
        (Tok.lbrace :: [Tok.op Op.pop, Tok.op Op.false] ++ [Tok.rbrace]) ++
        ((Tok.lbrace :: [Tok.op Op.true] ++ [Tok.rbrace]) ++ [Tok.op Op.ifelse]) := by simp
    rw [e]
    exact Balanced.of_append
      (Balanced.of_cons_op _ (Balanced.of_cons_op _ (Balanced.of_cons_num _
        (Balanced.of_cons_op _ (Balanced.of_cons_num _ (Balanced.of_cons_op _
          (Balanced.of_cons_num _ (Balanced.of_op _))))))))
      (Balanced.of_append (Balanced.braces hb3)
        (Balanced.of_append (Balanced.braces hb4) (Balanced.of_op _)))
  have hp : Runs [Tok.op Op.dup, Tok.num dr, Tok.op Op.mul, Tok.num r0, Tok.op Op.add,
      Tok.num 0, Tok.op Op.gt] (Val.num l :: Val.num s :: st)
      (Val.bool (decide (0 < l * dr + r0)) :: Val.num l :: Val.num s :: st) := by
    have := Runs.append (conicalSelectCode_radius r0 dr l (Val.num s :: st))
      (Runs.op (o := Op.gt) (by decide) (by decide) rfl)
    exact this
  refine Runs.append hp (Runs.ifelse hb1 hb2 ?_)
  by_cases h : 0 < l * dr + r0
  · rw [decide_eq_true h, if_pos rfl, if_pos h]
    exact Runs.cons_op (by decide) (by decide) rfl
      (Runs.cons_op (by decide) (by decide) rfl (Runs.op (by decide) (by decide) rfl))
  · rw [decide_eq_false h, if_neg Bool.false_ne_true, if_neg h]
    exact hinner

theorem conicalSelectCode_runs (r0 dr x y : ℚ) (st : List Val) :
    Runs (conicalSelectCode r0 dr) (Val.num y :: Val.num x :: st)
      (if 0 < max x y * dr + r0 then Val.bool true :: Val.num (max x y) :: st
       else if min x y * dr + r0 ≤ 0 then Val.bool false :: st
       else Val.bool true :: Val.num (min x y) :: st) := by
  have e : conicalSelectCode r0 dr =
      [Tok.num 2, Tok.op Op.copy, Tok.op Op.gt, Tok.lbrace, Tok.op Op.exch, Tok.rbrace,
        Tok.op Op.if_] ++
      ([Tok.op Op.dup, Tok.num dr, Tok.op Op.mul, Tok.num r0, Tok.op Op.add, Tok.num 0,
        Tok.op Op.gt] ++
      (Tok.lbrace :: [Tok.op Op.exch, Tok.op Op.pop, Tok.op Op.true] ++ [Tok.rbrace] ++
        (Tok.lbrace :: ([Tok.op Op.pop, Tok.op Op.dup, Tok.num dr, Tok.op Op.mul, Tok.num r0,
            Tok.op Op.add, Tok.num 0, Tok.op Op.le] ++
          (Tok.lbrace :: [Tok.op Op.pop, Tok.op Op.false] ++ [Tok.rbrace] ++
            (Tok.lbrace :: [Tok.op Op.true] ++ [Tok.rbrace, Tok.op Op.ifelse]))) ++
          [Tok.rbrace, Tok.op Op.ifelse]))) := by
    simp [conicalSelectCode, AppendScalar]
  rw [e]
  exact Runs.append (conicalSelectCode_sort x y st) (conicalSelectCode_choose r0 dr _ _ st)

/-- What the root choice does away from a radius of exactly 0 at the smaller root: with the
two roots `x` and `y` on the stack in either order, the selected `t` is the larger root
whenever the radius `r0 + t dr` at the larger root is positive; it is the smaller root when
the radius at the larger root is not positive and the radius at the smaller root is
positive; and the pixel is reported outside the cone when the radius at the larger root is
not positive and the radius at the smaller root is negative. -/
theorem conicalSelectCode_selects (r0 dr x y : ℚ) :
    (0 < r0 + max x y * dr →
      Evaluates (conicalSelectCode r0 dr) [Val.num y, Val.num x]
        [Val.bool true, Val.num (max x y)]) ∧
    (r0 + max x y * dr ≤ 0 → 0 < r0 + min x y * dr →
      Evaluates (conicalSelectCode r0 dr) [Val.num y, Val.num x]
        [Val.bool true, Val.num (min x y)]) ∧
    (r0 + max x y * dr ≤ 0 → r0 + min x y * dr < 0 →
      Evaluates (conicalSelectCode r0 dr) [Val.num y, Val.num x] [Val.bool false]) := by
  have h := (conicalSelectCode_runs r0 dr x y []).evaluates
  refine ⟨fun h1 => ?_, fun h1 h2 => ?_, fun h1 h2 => ?_⟩
  · rw [if_pos (by linarith)] at h
    exact h
  · rw [if_neg (by linarith), if_neg (by linarith)] at h
    exact h
  · rw [if_neg (by linarith), if_pos (by linarith)] at h
    exact h

theorem conicalSelectCode_selects_witness :
    Evaluates (conicalSelectCode 1 1) [Val.num 2, Val.num 3] [Val.bool true, Val.num (max 3 2)] :=
  (conicalSelectCode_selects 1 1 3 2).1 (by norm_num)

/-! ## The apex of the cone -/

/-- With discriminant 0 and `b` not negative the root text leaves the double root twice:
`c / q` on top of `q / a`, where `q = -b / 2`. -/
theorem conicalRootsCode_runs_double (a b c : ℚ) (ha : a ≠ 0) (hb : 0 < b) (st : List Val) :
    Runs (conicalRootsCode a) (Val.num 0 :: Val.num b :: Val.num c :: st)
      (Val.num (c / ((0 + b) * (-1 / 2))) :: Val.num ((0 + b) * (-1 / 2) / a) :: st) := by
  have hbal : Balanced [Tok.op Op.exch, Tok.num (-1), Tok.op Op.mul] :=
    Balanced.of_cons_op _ (Balanced.of_cons_num _ (Balanced.of_op _))
  have hq : (0 + b) * (-1 / 2) ≠ 0 := by
    have : (0 + b) * (-1 / 2) < 0 := by linarith
    exact ne_of_lt this
  have h : conicalRootsCode a =
      [Tok.op Op.sqrt, Tok.op Op.exch, Tok.op Op.dup, Tok.num 0, Tok.op Op.lt] ++
      ((Tok.lbrace :: [Tok.op Op.exch, Tok.num (-1), Tok.op Op.mul] ++
        [Tok.rbrace, Tok.op Op.if_]) ++
       [Tok.op Op.add, Tok.num (-1 / 2), Tok.op Op.mul, Tok.op Op.dup,
        Tok.num a, Tok.op Op.div, Tok.num 3, Tok.num 1, Tok.op Op.roll, Tok.op Op.div]) := by
    simp [conicalRootsCode, AppendScalar]
  rw [h]
  have h1 : Runs [Tok.op Op.sqrt, Tok.op Op.exch, Tok.op Op.dup, Tok.num 0, Tok.op Op.lt]
      (Val.num 0 :: Val.num b :: Val.num c :: st)
      (Val.bool (decide (b < 0)) :: Val.num b :: Val.num 0 :: Val.num c :: st) :=
    Runs.cons_op (by decide) (by decide) (applyOp_sqrt_zero _)
      (Runs.cons_op (by decide) (by decide) rfl
        (Runs.cons_op (by decide) (by decide) rfl
          (Runs.cons_num (Runs.op (by decide) (by decide) rfl))))
  rw [decide_eq_false (not_lt.2 (le_of_lt hb))] at h1
  have h2 := Runs.if_false [Tok.op Op.exch, Tok.num (-1), Tok.op Op.mul]
    (Val.num b :: Val.num 0 :: Val.num c :: st) hbal
  have h3 : Runs [Tok.op Op.add, Tok.num (-1 / 2), Tok.op Op.mul, Tok.op Op.dup,
        Tok.num a, Tok.op Op.div, Tok.num 3, Tok.num 1, Tok.op Op.roll, Tok.op Op.div]
      (Val.num b :: Val.num 0 :: Val.num c :: st)
      (Val.num (c / ((0 + b) * (-1 / 2))) :: Val.num ((0 + b) * (-1 / 2) / a) :: st) := by
    refine Runs.cons_op (by decide) (by decide) rfl ?_
    refine Runs.cons_num ?_
    refine Runs.cons_op (by decide) (by decide) rfl ?_
    refine Runs.cons_op (by decide) (by decide) rfl ?_
    refine Runs.cons_num ?_
    refine Runs.cons_op (by decide) (by decide) (applyOp_div _ _ _ ha) ?_
    refine Runs.cons_num ?_
    refine Runs.cons_num ?_
    refine Runs.cons_op (by decide) (by decide) (applyOp_roll_3_1 _ _ _ _) ?_
    exact Runs.op (by decide) (by decide) (applyOp_div _ _ _ hq)
  exact Runs.append h1 (Runs.append h2 h3)

/-- With discriminant 0 and `b` positive the quadratic text of the conical program takes
the branch `d >= 0`, computes the double root twice and chooses between the two copies. -/
theorem conicalQuadraticCode_runs_double (a r0 dr c bb b c1 : ℚ) (ha : a ≠ 0) (hb : 0 < b)
    (hd : bb - c * (a * 4) = 0) (st : List Val) :
    Runs (conicalQuadraticCode a r0 dr)
      (Val.num c :: Val.num bb :: Val.num b :: Val.num c1 :: st)
      (if 0 < max ((0 + b) * (-1 / 2) / a) (c1 / ((0 + b) * (-1 / 2))) * dr + r0 then
        Val.bool true :: Val.num (max ((0 + b) * (-1 / 2) / a) (c1 / ((0 + b) * (-1 / 2)))) :: st
       else if min ((0 + b) * (-1 / 2) / a) (c1 / ((0 + b) * (-1 / 2))) * dr + r0 ≤ 0 then
        Val.bool false :: st
       else
        Val.bool true :: Val.num (min ((0 + b) * (-1 / 2) / a) (c1 / ((0 + b) * (-1 / 2)))) ::
          st) := by
  have hb2 : Balanced [Tok.op Op.pop, Tok.op Op.pop, Tok.op Op.pop, Tok.op Op.false] :=
    Balanced.of_cons_op _ (Balanced.of_cons_op _ (Balanced.of_cons_op _ (Balanced.of_op _)))
  have hb1 : Balanced (conicalRootsCode a ++ conicalSelectCode r0 dr) :=
    Balanced.of_append (conicalRootsCode_balanced a) (conicalSelectCode_balanced r0 dr)
  have h : conicalQuadraticCode a r0 dr =
      [Tok.num (a * 4), Tok.op Op.mul, Tok.op Op.sub, Tok.op Op.dup, Tok.num 0,
        Tok.op Op.ge] ++
      (Tok.lbrace :: (conicalRootsCode a ++ conicalSelectCode r0 dr) ++ [Tok.rbrace] ++
        (Tok.lbrace :: [Tok.op Op.pop, Tok.op Op.pop, Tok.op Op.pop, Tok.op Op.false] ++
          [Tok.rbrace, Tok.op Op.ifelse])) := by
    simp [conicalQuadraticCode, AppendScalar]
  rw [h]
  have h1 : Runs [Tok.num (a * 4), Tok.op Op.mul, Tok.op Op.sub, Tok.op Op.dup, Tok.num 0,
        Tok.op Op.ge]
      (Val.num c :: Val.num bb :: Val.num b :: Val.num c1 :: st)
      (Val.bool (decide ((0 : ℚ) ≤ bb - c * (a * 4))) :: Val.num (bb - c * (a * 4)) ::
        Val.num b :: Val.num c1 :: st) :=
    Runs.cons_num (Runs.cons_op (by decide) (by decide) rfl
      (Runs.cons_op (by decide) (by decide) rfl
        (Runs.cons_op (by decide) (by decide) rfl
          (Runs.cons_num (Runs.op (by decide) (by decide) rfl)))))
  rw [hd, decide_eq_true (le_refl (0 : ℚ))] at h1
  refine Runs.append h1 (Runs.ifelse hb1 hb2 ?_)
  rw [if_pos rfl]
  exact Runs.append (conicalRootsCode_runs_double a b c1 ha hb st)
    (conicalSelectCode_runs r0 dr _ _ st)

/-- The program of `gradient_function_code` has its braces matched. -/
theorem gradient_function_code_balanced (info : GradientInfo) (ends : List Nat)
    (hcount : info.fColorCount < 2147483648) (hends : rangeEndsOf info = some ends)
    (hne : ends ≠ []) (prog : List Tok) (h : gradient_function_code info = some prog) :
    Balanced prog := by
  obtain ⟨hv, _, _⟩ := rangeEndsOf_valid info ends hcount hends
  obtain ⟨body, hbody, hbal, _, _⟩ :=
    write_gradient_ranges_fuel_spec info ends.length ends hne (le_refl _) hv
  have hw := hbody true true
  unfold gradient_function_code write_gradient_ranges at h
  rw [hends] at h
  cases hc0 : info.fColors[0]? with
  | none => rw [hc0] at h; simp at h
  | some c0 =>
    cases hcl : info.fColors[info.fColorCount - 1]? with
    | none => rw [hc0, hcl] at h; simp at h
    | some cLast =>
      rw [hc0, hcl] at h
      simp only [hw, Option.some.injEq] at h
      rw [← h]
      have b1 : Balanced [Tok.op Op.pop, AppendColorComponent (SkColorGetR c0),
          AppendColorComponent (SkColorGetG c0), AppendColorComponent (SkColorGetB c0),
          Tok.num 0] :=
        Balanced.of_cons_op _ (Balanced.of_cons_num _ (Balanced.of_cons_num _
          (Balanced.of_cons_num _ (Balanced.of_num _))))
      have b3 : Balanced [AppendColorComponent (SkColorGetR cLast),
          AppendColorComponent (SkColorGetG cLast), AppendColorComponent (SkColorGetB cLast)] :=
        Balanced.of_cons_num _ (Balanced.of_cons_num _ (Balanced.of_num _))
      have e1 : [Tok.op Op.dup, Tok.num 0, Tok.op Op.le, Tok.lbrace, Tok.op Op.pop,
          AppendColorComponent (SkColorGetR c0), AppendColorComponent (SkColorGetG c0),
          AppendColorComponent (SkColorGetB c0), Tok.num 0, Tok.rbrace, Tok.op Op.if_] =
          [Tok.op Op.dup, Tok.num 0, Tok.op Op.le] ++
          ((Tok.lbrace :: [Tok.op Op.pop, AppendColorComponent (SkColorGetR c0),
            AppendColorComponent (SkColorGetG c0), AppendColorComponent (SkColorGetB c0),
            Tok.num 0] ++ [Tok.rbrace]) ++ [Tok.op Op.if_]) := by simp
      have e2 : rangesHead true true (offsetAt info (ends.getLast?.getD 0)) ++ body ++
          rangesTail true true =
          [Tok.op Op.dup, Tok.op Op.dup, Tok.num 0, Tok.op Op.gt, Tok.op Op.exch,
            Tok.num (offsetAt info (ends.getLast?.getD 0)), Tok.op Op.le, Tok.op Op.and] ++
          ((Tok.lbrace :: (body ++ [Tok.num 0]) ++ [Tok.rbrace]) ++ [Tok.op Op.if_]) := by
        simp [rangesHead, rangesTail, AppendScalar]
      have e3 : [Tok.num 0, Tok.op Op.gt, Tok.lbrace,
          AppendColorComponent (SkColorGetR cLast), AppendColorComponent (SkColorGetG cLast),
          AppendColorComponent (SkColorGetB cLast), Tok.rbrace, Tok.op Op.if_] =
          [Tok.num 0, Tok.op Op.gt] ++
          ((Tok.lbrace :: [AppendColorComponent (SkColorGetR cLast),
            AppendColorComponent (SkColorGetG cLast),
            AppendColorComponent (SkColorGetB cLast)] ++ [Tok.rbrace]) ++ [Tok.op Op.if_]) := by
        simp
      rw [e1, e2, e3]
      exact Balanced.of_append (Balanced.of_append
        (Balanced.of_append (Balanced.of_cons_op _ (Balanced.of_cons_num _ (Balanced.of_op _)))
          (Balanced.of_append (Balanced.braces b1) (Balanced.of_op _)))
        (Balanced.of_append (Balanced.of_cons_op _ (Balanced.of_cons_op _ (Balanced.of_cons_num _
            (Balanced.of_cons_op _ (Balanced.of_cons_op _ (Balanced.of_cons_num _
              (Balanced.of_cons_op _ (Balanced.of_op _))))))))
          (Balanced.of_append (Balanced.braces (Balanced.of_append hbal (Balanced.of_num _)))
            (Balanced.of_op _))))
        (Balanced.of_append (Balanced.of_cons_num _ (Balanced.of_op _))
          (Balanced.of_append (Balanced.braces b3) (Balanced.of_op _)))

theorem apexCone_rangeEnds : rangeEndsOf apexCone = some [1] := by
  simp [apexCone, whiteToBlack, sampleInfo, rangeEndsOf, collectRangeEnds, keepRange, kWhite,
    kBlack, eqIgnoringAlpha, SkColorSetA]

theorem apexCone_code_isSome : (gradient_function_code apexCone).isSome = true := by
  simp [gradient_function_code, apexCone, whiteToBlack, sampleInfo, rangeEndsOf,
    collectRangeEnds, keepRange, kWhite, kBlack, eqIgnoringAlpha, SkColorSetA,
    write_gradient_ranges, write_gradient_ranges_fuel, size_t_pred, interpolate_color_code]

/-- C17: the cone from (0,0) with radius 1 to (2,0) with radius 2 has `a = 3`, and its
apex is the point (-2,0): there `b = 6`, `c = 3`, the discriminant is 0, both roots are
`t = -1` and `radius(t) = r0 + t dr = 0`, which is not negative. The text that chooses
between the roots reports this pixel outside the cone, and the body of the program
emitted by `twoPointConicalCode` paints it black. -/
theorem conical_apex_reported_outside :
    ∃ body, twoPointConicalCode apexCone SkMatrix.I =
        some (Tok.lbrace :: body ++ [Tok.rbrace]) ∧
      Evaluates (conicalCoefficientCode 2 0 1 1 ++
          [AppendScalar (3 * 4), Tok.op Op.mul, Tok.op Op.sub])
        [Val.num 0, Val.num (-2)] [Val.num 0, Val.num 6, Val.num 3] ∧
      Evaluates (conicalRootsCode 3) [Val.num 0, Val.num 6, Val.num 3]
        [Val.num (-1), Val.num (-1)] ∧
      ¬ ((1 : ℚ) + (-1) * 1 < 0) ∧
      Evaluates (conicalSelectCode 1 1) [Val.num (-1), Val.num (-1)] [Val.bool false] ∧
      Evaluates (conicalCoefficientCode 2 0 1 1 ++ conicalQuadraticCode 3 1 1)
        [Val.num 0, Val.num (-2)] [Val.bool false] ∧
      Evaluates body [Val.num 0, Val.num (-2)] [Val.num 0, Val.num 0, Val.num 0] := by
  obtain ⟨code, hcode⟩ := Option.isSome_iff_exists.1 apexCone_code_isSome
  have hcbal : Balanced code :=
    gradient_function_code_balanced apexCone [1] (by decide) apexCone_rangeEnds (by simp) code
      hcode
  have hsteps := conicalCoefficientCode_steps 2 0 1 1 (-2) 0 []
  have hc : (0 : ℚ) * 0 + (-2) * (-2) - 1 * 1 = 3 := by norm_num
  have hb : ((0 : ℚ) * 0 + (-2) * 2 + 1 * 1) * -2 = 6 := by norm_num
  rw [hc, hb] at hsteps
  have ha : (3 : ℚ) ≠ 0 := by norm_num
  have hroots := conicalRootsCode_runs_double 3 6 3 ha (by norm_num) []
  have hr1 : (3 : ℚ) / ((0 + 6) * (-1 / 2)) = -1 := by norm_num
  have hr2 : ((0 : ℚ) + 6) * (-1 / 2) / 3 = -1 := by norm_num
  have hsel := conicalSelectCode_runs 1 1 (-1) (-1) []
  rw [if_neg (by norm_num), if_pos (by norm_num)] at hsel
  have hquad := conicalQuadraticCode_runs_double 3 1 1 3 (6 * 6) 6 3 ha (by norm_num)
    (by norm_num) []
  rw [hr1, hr2, if_neg (by norm_num), if_pos (by norm_num)] at hquad
  rw [hr1, hr2] at hroots
  have hsolve : Runs (conicalCoefficientCode 2 0 1 1 ++ conicalQuadraticCode 3 1 1)
      [Val.num 0, Val.num (-2)] [Val.bool false] := Runs.append hsteps.runs hquad
  have hbt : Balanced (tileModeCode SkTileMode.kClamp ++ code) := by
    have : tileModeCode SkTileMode.kClamp = [] := by simp [tileModeCode]
    rw [this]
    exact hcbal
  have hblack : Runs (Tok.lbrace :: (tileModeCode SkTileMode.kClamp ++ code) ++ [Tok.rbrace] ++
      (Tok.lbrace :: [Tok.num 0, Tok.num 0, Tok.num 0] ++ [Tok.rbrace, Tok.op Op.ifelse]))
      [Val.bool false] [Val.num 0, Val.num 0, Val.num 0] := by
    refine Runs.ifelse hbt (Balanced.of_cons_num _ (Balanced.of_cons_num _ (Balanced.of_num _))) ?_
    rw [if_neg Bool.false_ne_true]
    exact Runs.cons_num (Runs.cons_num (Runs.num _ _))
  refine ⟨(conicalCoefficientCode 2 0 1 1 ++ conicalQuadraticCode 3 1 1) ++
    (Tok.lbrace :: (tileModeCode SkTileMode.kClamp ++ code) ++ [Tok.rbrace] ++
      (Tok.lbrace :: [Tok.num 0, Tok.num 0, Tok.num 0] ++ [Tok.rbrace, Tok.op Op.ifelse])),
    ?_, ?_, hroots.evaluates, by norm_num, hsel.evaluates, hsolve.evaluates,
    (Runs.append hsolve hblack).evaluates⟩
  · have hp : apexCone.fPoint = (⟨0, 0⟩, ⟨2, 0⟩) := rfl
    have hr : apexCone.fRadius = (1, 2) := rfl
    have hm : apexCone.fTileMode = SkTileMode.kClamp := rfl
    have hA : ((2 : ℚ) - 0) * (2 - 0) + (0 - 0) * (0 - 0) - (2 - 1) * (2 - 1) = 3 := by
      norm_num
    have hdr : (2 : ℚ) - 1 = 1 := by norm_num
    have hdx : (2 : ℚ) - 0 = 2 := by norm_num
    have hdy : (0 : ℚ) - 0 = 0 := by norm_num
    unfold twoPointConicalCode
    simp only [hcode, hp, hr, hm]
    rw [hA, if_neg ha, hdr, hdx, hdy]
    simp [apply_perspective_to_coordinates, SkMatrix.hasPerspective, SkMatrix.I]
  · have h1 : Runs [AppendScalar (3 * 4), Tok.op Op.mul, Tok.op Op.sub]
        [Val.num 3, Val.num (6 * 6), Val.num 6, Val.num 3]
        [Val.num (6 * 6 - 3 * (3 * 4)), Val.num 6, Val.num 3] :=
      Runs.cons_num (Runs.cons_op (by decide) (by decide) rfl
        (Runs.op (by decide) (by decide) rfl))
    rw [show (6 : ℚ) * 6 - 3 * (3 * 4) = 0 by norm_num] at h1
    exact (Runs.append hsteps.runs h1).evaluates

/-! ## The shading dictionary -/

theorem nativeShader_shading (pf : Platform) (doc : SkPDFDocument) (state : Key)
    (out : SkPDFIndirectReference × SkPDFDocument) (h : nativeShader pf doc state = some out) :
    ∃ shading, emittedShading out = some shading ∧
      shading.lookup "ShadingType" =
        some (SkPDFObject.int (if state.fType = GradientType.kLinear then 2 else 3)) ∧
      shading.lookup "Extend" =
        some (SkPDFObject.array [SkPDFObject.bool true, SkPDFObject.bool true]) ∧
      shading.lookup "Coords" = some (nativeCoords pf state) := by
  unfold nativeShader at h
  cases hg : gradientStitchCode state.fInfo with
  | none => simp [hg] at h
  | some fn =>
    simp only [hg, Option.some.injEq] at h
    subst h
    refine ⟨_, emittedShading_emit_patternDict _ _ _, ?_, ?_, ?_⟩
    · simp [SkPDFObject.lookup, List.lookup]
    · simp only [SkPDFObject.lookup, List.lookup]
      rw [show (("Extend" : String) == "Function") = false by decide,
        show (("Extend" : String) == "Extend") = true by decide]
    · simp only [SkPDFObject.lookup, List.lookup]
      rw [show (("Coords" : String) == "Function") = false by decide,
        show (("Coords" : String) == "Extend") = false by decide,
        show (("Coords" : String) == "Coords") = true by decide]

theorem sampleLinear_native :
    ∃ out, make_function_shader exactPlatform emptyDocument
      (sampleKey GradientType.kLinear whiteToBlack) = some out := by
  rw [make_function_shader_of_stitch _ _ _ (by simp [doStitchFunctions, sampleKey,
    initialFinalMatrix, SkMatrix.preConcat, SkMatrix.concat, SkMatrix.I,
    SkMatrix.hasPerspective, whiteToBlack, sampleInfo])]
  simp [nativeShader, sampleKey,
    gradientStitchCode_two_stops whiteToBlack kWhite kBlack 0 1 rfl rfl rfl]

/-- C20: on the native path the emitted shading dictionary has `ShadingType` 2 for a Linear
gradient and 3 for Radial and Conical, `Extend` = [true, true], and `Coords` of 4 numbers
(the two points) for Linear, 6 numbers (centre, 0, centre, radius) for Radial and 6 numbers
(the two centres with the radii after `FixUpRadius`) for Conical; on the custom path every
emitted shading has `ShadingType` 1. -/
theorem make_function_shader_shading (pf : Platform) (doc : SkPDFDocument) (state : Key)
    (out : SkPDFIndirectReference × SkPDFDocument)
    (h : make_function_shader pf doc state = some out) :
    (doStitchFunctions state = true →
      ∃ shading, emittedShading out = some shading ∧
        shading.lookup "ShadingType" =
          some (SkPDFObject.int (if state.fType = GradientType.kLinear then 2 else 3)) ∧
        shading.lookup "Extend" =
          some (SkPDFObject.array [SkPDFObject.bool true, SkPDFObject.bool true]) ∧
        (state.fType = GradientType.kLinear →
          shading.lookup "Coords" = some (SkPDFObject.array
            [SkPDFObject.scalar state.fInfo.fPoint.1.fX,
             SkPDFObject.scalar state.fInfo.fPoint.1.fY,
             SkPDFObject.scalar state.fInfo.fPoint.2.fX,
             SkPDFObject.scalar state.fInfo.fPoint.2.fY])) ∧
        (state.fType = GradientType.kRadial →
          shading.lookup "Coords" = some (SkPDFObject.array
            [SkPDFObject.scalar state.fInfo.fPoint.1.fX,
             SkPDFObject.scalar state.fInfo.fPoint.1.fY, SkPDFObject.int 0,
             SkPDFObject.scalar state.fInfo.fPoint.1.fX,
             SkPDFObject.scalar state.fInfo.fPoint.1.fY,
             SkPDFObject.scalar state.fInfo.fRadius.1])) ∧
        (state.fType = GradientType.kConical →
          shading.lookup "Coords" = some (SkPDFObject.array
            [SkPDFObject.scalar state.fInfo.fPoint.1.fX,
             SkPDFObject.scalar state.fInfo.fPoint.1.fY,
             SkPDFObject.scalar (FixUpRadius pf state.fInfo.fPoint.1 state.fInfo.fRadius.1
               state.fInfo.fPoint.2 state.fInfo.fRadius.2).1,
             SkPDFObject.scalar state.fInfo.fPoint.2.fX,
             SkPDFObject.scalar state.fInfo.fPoint.2.fY,
             SkPDFObject.scalar (FixUpRadius pf state.fInfo.fPoint.1 state.fInfo.fRadius.1
               state.fInfo.fPoint.2 state.fInfo.fRadius.2).2]))) ∧
    (doStitchFunctions state = false → out ≠ (SkPDFIndirectReference.none, doc) →
      emittedShadingType out = some 1) := by
  constructor
  · intro hd
    rw [make_function_shader_of_stitch _ _ _ hd] at h
    obtain ⟨shading, hs, h1, h2, h3⟩ := nativeShader_shading pf doc state out h
    refine ⟨shading, hs, h1, h2, ?_, ?_, ?_⟩
    · intro ht
      rw [h3]
      simp [nativeCoords, ht]
    · intro ht
      rw [h3]
      simp [nativeCoords, ht]
    · intro ht
      rw [h3]
      simp [nativeCoords, ht]
  · intro hd hne
    rw [make_function_shader_of_not_stitch _ _ _ hd] at h
    rcases customShader_emits pf doc state out h with h1 | h1
    · exact absurd h1 hne
    · exact h1.2.2.1

theorem make_function_shader_shading_witness :
    ∃ out shading, make_function_shader exactPlatform emptyDocument
        (sampleKey GradientType.kLinear whiteToBlack) = some out ∧
      emittedShading out = some shading ∧
      shading.lookup "ShadingType" = some (SkPDFObject.int 2) ∧
      shading.lookup "Extend" =
        some (SkPDFObject.array [SkPDFObject.bool true, SkPDFObject.bool true]) ∧
      shading.lookup "Coords" = some (SkPDFObject.array
        [SkPDFObject.scalar 0, SkPDFObject.scalar 0, SkPDFObject.scalar 100,
         SkPDFObject.scalar 0]) := by
  obtain ⟨out, ho⟩ := sampleLinear_native
  obtain ⟨shading, hs, h1, h2, h3, _⟩ :=
    (make_function_shader_shading exactPlatform emptyDocument
      (sampleKey GradientType.kLinear whiteToBlack) out ho).1
      (by simp [doStitchFunctions, sampleKey, initialFinalMatrix, SkMatrix.preConcat,
        SkMatrix.concat, SkMatrix.I, SkMatrix.hasPerspective, whiteToBlack, sampleInfo])
  exact ⟨out, shading, ho, hs, h1, h2, h3 rfl⟩

/-! ## The two-stop function object -/

/-- C21: for every descriptor with exactly two stops, the function object returned by
`gradientStitchCode` has `FunctionType` 2, `N` = 1, `Domain` = [0, 1], `C0` the first
stop's (R, G, B)/255 and `C1` the second stop's (R, G, B)/255, whatever the alpha and the
offsets of the stops are. -/
theorem gradientStitchCode_two_stop_entries (info : GradientInfo) (c0 c1 : SkColor)
    (o0 o1 : SkScalar) (hcount : info.fColorCount = 2) (hcolors : info.fColors = [c0, c1])
    (hoffsets : info.fColorOffsets = [o0, o1]) :
    ∃ fn, gradientStitchCode info = some fn ∧
      fn.lookup "FunctionType" = some (SkPDFObject.int 2) ∧
      fn.lookup "N" = some (SkPDFObject.scalar 1) ∧
      fn.lookup "Domain" = some (SkPDFObject.array [SkPDFObject.int 0, SkPDFObject.int 1]) ∧
      fn.lookup "C0" = some (SkPDFObject.array
        [SkPDFObject.scalar ((SkColorGetR c0 : ℚ) / 255),
         SkPDFObject.scalar ((SkColorGetG c0 : ℚ) / 255),
         SkPDFObject.scalar ((SkColorGetB c0 : ℚ) / 255)]) ∧
      fn.lookup "C1" = some (SkPDFObject.array
        [SkPDFObject.scalar ((SkColorGetR c1 : ℚ) / 255),
         SkPDFObject.scalar ((SkColorGetG c1 : ℚ) / 255),
         SkPDFObject.scalar ((SkColorGetB c1 : ℚ) / 255)]) := by
  refine ⟨_, gradientStitchCode_two_stops info c0 c1 o0 o1 hcount hcolors hoffsets,
    createInterpolationFunction_functionType _ _, ?_, ?_, ?_, ?_⟩
  · simp only [createInterpolationFunction, SkPDFObject.lookup, List.lookup]
    rw [show (("N" : String) == "C0") = false by decide,
      show (("N" : String) == "C1") = false by decide,
      show (("N" : String) == "Domain") = false by decide,
      show (("N" : String) == "FunctionType") = false by decide,
      show (("N" : String) == "N") = true by decide]
  · simp only [createInterpolationFunction, SkPDFObject.lookup, List.lookup]
    rw [show (("Domain" : String) == "C0") = false by decide,
      show (("Domain" : String) == "C1") = false by decide,
      show (("Domain" : String) == "Domain") = true by decide]
  · simp only [createInterpolationFunction, SkPDFObject.lookup, List.lookup]
    rw [show (("C0" : String) == "C0") = true by decide]
    rfl
  · simp only [createInterpolationFunction, SkPDFObject.lookup, List.lookup]
    rw [show (("C1" : String) == "C0") = false by decide,
      show (("C1" : String) == "C1") = true by decide]
    rfl

theorem gradientStitchCode_two_stop_entries_witness :
    ∃ fn, gradientStitchCode whiteToBlack = some fn ∧
      fn.lookup "C0" = some (SkPDFObject.array
        [SkPDFObject.scalar 1, SkPDFObject.scalar 1, SkPDFObject.scalar 1]) ∧
      fn.lookup "C1" = some (SkPDFObject.array
        [SkPDFObject.scalar 0, SkPDFObject.scalar 0, SkPDFObject.scalar 0]) ∧
      fn.lookup "Domain" = some (SkPDFObject.array [SkPDFObject.int 0, SkPDFObject.int 1]) := by
  obtain ⟨fn, hf, _, _, hd, h0, h1⟩ :=
    gradientStitchCode_two_stop_entries whiteToBlack kWhite kBlack 0 1 rfl rfl rfl
  have w : SkColorGetR kWhite = 255 ∧ SkColorGetG kWhite = 255 ∧ SkColorGetB kWhite = 255 := by
    decide
  have b : SkColorGetR kBlack = 0 ∧ SkColorGetG kBlack = 0 ∧ SkColorGetB kBlack = 0 := by
    decide
  rw [w.1, w.2.1, w.2.2] at h0
  rw [b.1, b.2.1, b.2.2] at h1
  norm_num at h0 h1
  exact ⟨fn, hf, h0, h1, hd⟩

/-! ## Keys the compiler does not support -/

/-- C23: for every key whose gradient type is not Linear, Radial, Conical or Sweep,
`make_function_shader` returns the empty reference and leaves the document as it was. -/
theorem make_function_shader_of_unsupported_type (pf : Platform) (doc : SkPDFDocument)
    (state : Key)
    (h : state.fType ≠ GradientType.kLinear ∧ state.fType ≠ GradientType.kRadial ∧
      state.fType ≠ GradientType.kConical ∧ state.fType ≠ GradientType.kSweep) :
    make_function_shader pf doc state = some (SkPDFIndirectReference.none, doc) := by
  have hd : doStitchFunctions state = false := by
    simp [doStitchFunctions, h.1, h.2.1, h.2.2.1]
  rw [make_function_shader_of_not_stitch _ _ _ hd]
  have ht : transformPointsOf state = Option.none := by
    unfold transformPointsOf
    cases hty : state.fType <;> simp_all
  simp [customShader, ht]

theorem make_function_shader_of_unsupported_type_witness :
    make_function_shader exactPlatform emptyDocument (sampleKey GradientType.kColor whiteToBlack) =
      some (SkPDFIndirectReference.none, emptyDocument) :=
  make_function_shader_of_unsupported_type exactPlatform emptyDocument
    (sampleKey GradientType.kColor whiteToBlack) (by decide)

/-! ## The projective correction -/

theorem applyOp_index_2 (a b c : Val) (s : List Val) :
    applyOp Op.index (Val.num 2 :: a :: b :: c :: s) = some (c :: a :: b :: c :: s) := by
  have h2 : ((2 : ℚ).num).toNat = 2 := by simp
  have hc : (2 : ℚ).den = 1 ∧ 0 ≤ (2 : ℚ).num := by simp
  simp only [applyOp]
  rw [if_pos hc, h2]
  simp

theorem apply_perspective_to_coordinates_runs (m : SkMatrix) (x y : ℚ) (st : List Val)
    (hp : m.hasPerspective = true) (hw : y * m.p1 + (x * m.p0 + m.p2) ≠ 0) :
    Runs (apply_perspective_to_coordinates m) (Val.num y :: Val.num x :: st)
      (Val.num (y / (y * m.p1 + (x * m.p0 + m.p2))) ::
       Val.num (x / (y * m.p1 + (x * m.p0 + m.p2))) :: st) := by
  unfold apply_perspective_to_coordinates
  rw [hp]
  simp only [Bool.not_true, Bool.false_eq_true, if_false, AppendScalar]
  refine Runs.cons_op (by decide) (by decide) rfl ?_
  refine Runs.cons_num ?_
  refine Runs.cons_op (by decide) (by decide) rfl ?_
  refine Runs.cons_num ?_
  refine Runs.cons_op (by decide) (by decide) (applyOp_index_2 _ _ _ _) ?_
  refine Runs.cons_num ?_
  refine Runs.cons_op (by decide) (by decide) rfl ?_
  refine Runs.cons_num ?_
  refine Runs.cons_op (by decide) (by decide) rfl ?_
  refine Runs.cons_op (by decide) (by decide) rfl ?_
  refine Runs.cons_num ?_
  refine Runs.cons_num ?_
  refine Runs.cons_op (by decide) (by decide) (applyOp_roll_3_1 _ _ _ _) ?_
  refine Runs.cons_num ?_
  refine Runs.cons_op (by decide) (by decide) (applyOp_index_2 _ _ _ _) ?_
  refine Runs.cons_op (by decide) (by decide) (applyOp_div _ _ _ hw) ?_
  refine Runs.cons_num ?_
  refine Runs.cons_num ?_
  refine Runs.cons_op (by decide) (by decide) (applyOp_roll_3_1 _ _ _ _) ?_
  refine Runs.cons_op (by decide) (by decide) rfl ?_
  refine Runs.cons_op (by decide) (by decide) (applyOp_div _ _ _ hw) ?_
  exact Runs.op (by decide) (by decide) rfl

theorem apply_perspective_to_coordinates_fails (m : SkMatrix) (x y : ℚ) (st : List Val)
    (hp : m.hasPerspective = true) (hw : y * m.p1 + (x * m.p0 + m.p2) = 0) :
    Fails (apply_perspective_to_coordinates m) (Val.num y :: Val.num x :: st) := by
  unfold apply_perspective_to_coordinates
  rw [hp]
  simp only [Bool.not_true, Bool.false_eq_true, if_false, AppendScalar]
  refine Fails.after_op (by decide) (by decide) rfl ?_
  refine Fails.after_num ?_
  refine Fails.after_op (by decide) (by decide) rfl ?_
  refine Fails.after_num ?_
  refine Fails.after_op (by decide) (by decide) (applyOp_index_2 _ _ _ _) ?_
  refine Fails.after_num ?_
  refine Fails.after_op (by decide) (by decide) rfl ?_
  refine Fails.after_num ?_
  refine Fails.after_op (by decide) (by decide) rfl ?_
  refine Fails.after_op (by decide) (by decide) rfl ?_
  refine Fails.after_num ?_
  refine Fails.after_num ?_
  refine Fails.after_op (by decide) (by decide) (applyOp_roll_3_1 _ _ _ _) ?_
  refine Fails.after_num ?_
  refine Fails.after_op (by decide) (by decide) (applyOp_index_2 _ _ _ _) ?_
  refine Fails.of_op_none (by decide) (by decide) ?_
  simp only [applyOp, if_pos hw]

/-- C31, the case the claim leaves out: the matrix with bottom row `1 0 2` has
perspective, and for `x y = -2 5` the divisor `w = p0 x + p1 y + p2` is 0; the text of
`apply_perspective_to_coordinates` then stops at its first `div` and leaves no stack at
all, so the two numbers are not replaced by `x / w` and `y / w`. -/
theorem perspective_zero_divisor_has_no_result :
    perspectiveMatrix.hasPerspective = true ∧
    perspectiveMatrix.p0 * (-2) + perspectiveMatrix.p1 * 5 + perspectiveMatrix.p2 = 0 ∧
    (∀ fuel, exec fuel (apply_perspective_to_coordinates perspectiveMatrix)
      [Val.num 5, Val.num (-2)] = Option.none) ∧
    ∀ r, ¬ Evaluates (apply_perspective_to_coordinates perspectiveMatrix)
      [Val.num 5, Val.num (-2)] r := by
  have hp : perspectiveMatrix.hasPerspective = true := by
    simp [SkMatrix.hasPerspective, perspectiveMatrix]
  have hf := apply_perspective_to_coordinates_fails perspectiveMatrix (-2) 5 [] hp
    (by simp only [perspectiveMatrix]; norm_num)
  exact ⟨hp, by simp only [perspectiveMatrix]; norm_num, hf, fun r => hf.not_evaluates r⟩

/-- C31, as amended: for a matrix with perspective, and a stack that ends in two numbers
`x y` with `w = p0 x + p1 y + p2` not zero, the text emitted by `apply_perspective_to_coordinates`
replaces them by `x / w` and `y / w` in the same order and leaves the rest of the stack as
it was; for a matrix without perspective it emits nothing. -/
theorem apply_perspective_to_coordinates_spec (m : SkMatrix) (x y : ℚ) (st : List Val) :
    (m.hasPerspective = false → apply_perspective_to_coordinates m = []) ∧
    (m.hasPerspective = true → m.p0 * x + m.p1 * y + m.p2 ≠ 0 →
      Evaluates (apply_perspective_to_coordinates m) (Val.num y :: Val.num x :: st)
        (Val.num (y / (m.p0 * x + m.p1 * y + m.p2)) ::
         Val.num (x / (m.p0 * x + m.p1 * y + m.p2)) :: st)) := by
  constructor
  · intro h
    simp [apply_perspective_to_coordinates, h]
  · intro hp hw
    have e : y * m.p1 + (x * m.p0 + m.p2) = m.p0 * x + m.p1 * y + m.p2 := by ring
    have h := apply_perspective_to_coordinates_runs m x y st hp (by rw [e]; exact hw)
    rw [e] at h
    exact h.evaluates

theorem apply_perspective_to_coordinates_spec_witness :
    Evaluates (apply_perspective_to_coordinates perspectiveMatrix) [Val.num 2, Val.num 4]
      [Val.num (2 / (perspectiveMatrix.p0 * 4 + perspectiveMatrix.p1 * 2 + perspectiveMatrix.p2)),
       Val.num (4 / (perspectiveMatrix.p0 * 4 + perspectiveMatrix.p1 * 2 + perspectiveMatrix.p2))] :=
  (apply_perspective_to_coordinates_spec perspectiveMatrix 4 2 []).2
    (by simp [SkMatrix.hasPerspective, perspectiveMatrix])
    (by simp only [perspectiveMatrix]; norm_num)

/-- C24: `sweepCode` emits the same text whatever projective correction it is given, while
`linearCode` puts the correction in front of its geometry: for a matrix with perspective
the correction text is not empty and changes the program of `linearCode`. -/
theorem sweepCode_ignores_perspective :
    (∀ (info : GradientInfo) (m : SkMatrix), sweepCode info m = sweepCode info SkMatrix.I) ∧
    perspectiveMatrix.hasPerspective = true ∧
    apply_perspective_to_coordinates perspectiveMatrix ≠ [] ∧
    linearCode whiteToBlack perspectiveMatrix ≠ linearCode whiteToBlack SkMatrix.I ∧
    (sweepCode whiteToBlack perspectiveMatrix).isSome = true := by
  obtain ⟨code, hcode⟩ := Option.isSome_iff_exists.1 whiteToBlack_code_isSome
  have hp : perspectiveMatrix.hasPerspective = true := by
    simp [SkMatrix.hasPerspective, perspectiveMatrix]
  have hi : SkMatrix.I.hasPerspective = false := by
    simp [SkMatrix.hasPerspective, SkMatrix.I]
  refine ⟨fun info m => rfl, hp, ?_, ?_, ?_⟩
  · simp [apply_perspective_to_coordinates, hp]
  · intro h
    simp [linearCode, hcode, apply_perspective_to_coordinates, hp, hi] at h
  · simp [sweepCode, hcode]

/-! ## Termination of `find_pdf_shader` -/

theorem find_pdf_shader_fuel_false (pf : Platform) (fuel : Nat) (doc : SkPDFDocument)
    (key : Key) :
    find_pdf_shader_fuel pf (fuel + 1) doc key false =
      match gradientPatternMap_find doc.fGradientPatternMap key with
      | some ptr => some (ptr, doc)
      | Option.none =>
        match make_function_shader pf doc key with
        | Option.none => Option.none
        | some (pdfShader, doc1) =>
          some (pdfShader,
            { doc1 with
              fGradientPatternMap :=
                gradientPatternMap_set doc1.fGradientPatternMap key pdfShader }) := by
  simp only [find_pdf_shader_fuel, Bool.false_eq_true, if_false]
  all_goals
    cases gradientPatternMap_find doc.fGradientPatternMap key <;>
      first | rfl | (simp only []; cases make_function_shader pf doc key <;> rfl)

/-- The alpha decomposer calls `find_pdf_shader` only with `keyHasAlpha = false`, and only
on the opaque key and the luminosity key of its input. -/
theorem make_alpha_function_shader_congr (pf : Platform)
    (find1 find2 : SkPDFDocument → Key → Bool → Emitted) (doc : SkPDFDocument) (state : Key)
    (h : ∀ d k, (opaqueStateOf pf state = some k ∨ luminosityStateOf pf state = some k) →
      find1 d k false = find2 d k false) :
    make_alpha_function_shader pf find1 doc state =
      make_alpha_function_shader pf find2 doc state := by
  unfold make_alpha_function_shader
  cases ho : opaqueStateOf pf state with
  | none => rfl
  | some o =>
    simp only []
    rw [h doc o (Or.inl ho)]
    cases hf : find2 doc o false with
    | none => rfl
    | some out =>
      obtain ⟨colorShader, doc1⟩ := out
      simp only []
      have hs : create_smask_graphic_state pf find1 doc1 state =
          create_smask_graphic_state pf find2 doc1 state := by
        unfold create_smask_graphic_state
        cases hl : luminosityStateOf pf state with
        | none => rfl
        | some l =>
          simp only []
          rw [h doc1 l (Or.inr hl)]
      rw [hs]

theorem find_pdf_shader_fuel_stable (pf : Platform) (fuel : Nat) (doc : SkPDFDocument)
    (key : Key) (keyHasAlpha : Bool) :
    find_pdf_shader_fuel pf (fuel + 2) doc key keyHasAlpha =
      find_pdf_shader_fuel pf 2 doc key keyHasAlpha := by
  cases keyHasAlpha with
  | false => rw [find_pdf_shader_fuel_false pf (fuel + 1), find_pdf_shader_fuel_false pf 1]
  | true =>
    have hc : make_alpha_function_shader pf (find_pdf_shader_fuel pf (fuel + 1)) doc key =
        make_alpha_function_shader pf (find_pdf_shader_fuel pf 1) doc key :=
      make_alpha_function_shader_congr pf _ _ doc key (fun d k _ => by
        rw [find_pdf_shader_fuel_false pf fuel, find_pdf_shader_fuel_false pf 0])
    have e : ∀ n, find_pdf_shader_fuel pf (n + 1) doc key true =
        match gradientPatternMap_find doc.fGradientPatternMap key with
        | some ptr => some (ptr, doc)
        | Option.none =>
          match make_alpha_function_shader pf (find_pdf_shader_fuel pf n) doc key with
          | Option.none => Option.none
          | some (pdfShader, doc1) =>
            some (pdfShader,
              { doc1 with
                fGradientPatternMap :=
                  gradientPatternMap_set doc1.fGradientPatternMap key pdfShader }) := by
      intro n
      rw [find_pdf_shader_fuel]
      simp only [if_true]
      all_goals
        cases gradientPatternMap_find doc.fGradientPatternMap key <;>
          first
          | rfl
          | (simp only []
             cases make_alpha_function_shader pf (find_pdf_shader_fuel pf n) doc key <;> rfl)
    rw [e (fuel + 1), e 1, hc]

theorem derived_keys_no_alpha (pf : Platform) (state : Key)
    (hc : state.fInfo.fColorCount ≤ state.fInfo.fColors.length)
    (ho : state.fInfo.fColorCount ≤ state.fInfo.fColorOffsets.length) (k : Key)
    (h : opaqueStateOf pf state = some k ∨ luminosityStateOf pf state = some k) :
    gradient_has_alpha k = some false := by
  have hlen : ∀ f : SkColor → SkColor,
      ((state.fInfo.fColors.take state.fInfo.fColorCount).map f).length =
        state.fInfo.fColorCount := by
    intro f
    rw [List.length_map, List.length_take]
    omega
  rcases h with h | h
  · obtain ⟨o, hoe, hoi⟩ := opaqueStateOf_eq pf state hc ho
    rw [hoe] at h
    obtain rfl := Option.some.inj h
    unfold gradient_has_alpha
    rw [hoi]
    refine gradient_has_alpha_from_opaque _ ?_ _ ?_
    · intro c hcm
      obtain ⟨c0, _, rfl⟩ := List.mem_map.mp hcm
      exact (SkColorSetA_opaque_channels c0).1
    · intro i hi
      rw [List.mem_range] at hi
      exact lt_of_lt_of_eq hi (hlen _).symm
  · obtain ⟨l, hle, hli⟩ := luminosityStateOf_eq pf state hc ho
    rw [hle] at h
    obtain rfl := Option.some.inj h
    unfold gradient_has_alpha
    rw [hli]
    refine gradient_has_alpha_from_opaque _ ?_ _ ?_
    · intro c hcm
      obtain ⟨c0, _, rfl⟩ := List.mem_map.mp hcm
      exact (SkColorSetARGB_gray_channels _ (SkColorGetA_lt c0)).1
    · intro i hi
      rw [List.mem_range] at hi
      exact lt_of_lt_of_eq hi (hlen _).symm

/-- C25: `find_pdf_shader` needs a recursion depth of 2 at most: with any larger bound it
returns what it returns with the bound 2. The alpha path calls it only with
`keyHasAlpha = false` and only on the opaque and the luminosity key, for which
`gradient_has_alpha` is false; a call with `keyHasAlpha = false` returns the cached
reference or the result of `make_function_shader` and never enters the alpha path, and
`Make` passes `false` for a key with every stop opaque. -/
theorem find_pdf_shader_terminates (pf : Platform) (fuel : Nat) (doc : SkPDFDocument)
    (key : Key) (keyHasAlpha : Bool) :
    find_pdf_shader_fuel pf (fuel + 2) doc key keyHasAlpha =
      find_pdf_shader pf doc key keyHasAlpha ∧
    (∀ find1 find2 : SkPDFDocument → Key → Bool → Emitted,
      (∀ d k, (opaqueStateOf pf key = some k ∨ luminosityStateOf pf key = some k) →
        find1 d k false = find2 d k false) →
      make_alpha_function_shader pf find1 doc key =
        make_alpha_function_shader pf find2 doc key) ∧
    (key.fInfo.fColorCount ≤ key.fInfo.fColors.length →
      key.fInfo.fColorCount ≤ key.fInfo.fColorOffsets.length →
      ∀ k, (opaqueStateOf pf key = some k ∨ luminosityStateOf pf key = some k) →
        gradient_has_alpha k = some false) ∧
    find_pdf_shader pf doc key false =
      (match gradientPatternMap_find doc.fGradientPatternMap key with
       | some ptr => some (ptr, doc)
       | Option.none =>
         match make_function_shader pf doc key with
         | Option.none => Option.none
         | some (pdfShader, doc1) =>
           some (pdfShader,
             { doc1 with
               fGradientPatternMap :=
                 gradientPatternMap_set doc1.fGradientPatternMap key pdfShader })) ∧
    (∀ ty info canvasTransform shaderLocalMatrix bbox,
      gradient_has_alpha (make_key pf ty info canvasTransform shaderLocalMatrix bbox) =
        some false →
      Make pf doc ty info canvasTransform shaderLocalMatrix bbox =
        find_pdf_shader pf doc (make_key pf ty info canvasTransform shaderLocalMatrix bbox)
          false) := by
  refine ⟨find_pdf_shader_fuel_stable pf fuel doc key keyHasAlpha,
    fun find1 find2 h => make_alpha_function_shader_congr pf find1 find2 doc key h,
    fun hc ho k h => derived_keys_no_alpha pf key hc ho k h,
    find_pdf_shader_fuel_false pf 1 doc key, ?_⟩
  intro ty info canvasTransform shaderLocalMatrix bbox h
  simp only [Make, h]

/-! ## Cloned keys and their hashes -/

theorem hashKey_congr (pf : Platform) (k : Key) (h : Nat) :
    hashKey pf { k with fHash := h } = hashKey pf k := rfl

theorem opaqueStateOf_hashed (pf : Platform) (state k : Key)
    (h : opaqueStateOf pf state = some k) : k.fHash = hashKey pf k := by
  unfold opaqueStateOf at h
  split at h
  · exact Option.noConfusion h
  · simp only [Option.some.injEq] at h
    rw [← h]
    rfl

theorem luminosityStateOf_hashed (pf : Platform) (state k : Key)
    (h : luminosityStateOf pf state = some k) : k.fHash = hashKey pf k := by
  unfold luminosityStateOf at h
  split at h
  · exact Option.noConfusion h
  · simp only [Option.some.injEq] at h
    rw [← h]
    rfl

theorem make_key_hashed (pf : Platform) (ty : GradientType) (info : GradientInfo)
    (canvasTransform shaderLocalMatrix : SkMatrix) (bbox : SkIRect) :
    (make_key pf ty info canvasTransform shaderLocalMatrix bbox).fHash =
      hashKey pf (make_key pf ty info canvasTransform shaderLocalMatrix bbox) := rfl

theorem gradientPatternMap_set_mem (m : List (Key × SkPDFIndirectReference)) (key : Key)
    (v : SkPDFIndirectReference) (p : Key × SkPDFIndirectReference)
    (h : p ∈ gradientPatternMap_set m key v) : p.1 = key ∨ p ∈ m := by
  induction m with
  | nil =>
    simp only [gradientPatternMap_set, List.mem_singleton] at h
    left
    rw [h]
  | cons q rest ih =>
    obtain ⟨k, w⟩ := q
    simp only [gradientPatternMap_set] at h
    split at h
    · rcases List.mem_cons.1 h with h1 | h1
      · left; rw [h1]
      · right; exact List.mem_cons_of_mem _ h1
    · rcases List.mem_cons.1 h with h1 | h1
      · right; rw [h1]; exact List.mem_cons_self _ _
      · rcases ih h1 with h2 | h2
        · left; exact h2
        · right; exact List.mem_cons_of_mem _ h2

theorem make_function_shader_map (pf : Platform) (doc : SkPDFDocument) (state : Key)
    (out : SkPDFIndirectReference × SkPDFDocument)
    (h : make_function_shader pf doc state = some out) :
    out.2.fGradientPatternMap = doc.fGradientPatternMap := by
  unfold make_function_shader at h
  split at h
  · exact (nativeShader_emits pf doc state out h).2.2.2.2
  · rcases customShader_emits pf doc state out h with h1 | h1
    · rw [h1]
    · exact h1.2.2.2.2

theorem find_pdf_shader_fuel_false_hashed (pf : Platform) (fuel : Nat) (doc : SkPDFDocument)
    (key : Key) (out : SkPDFIndirectReference × SkPDFDocument)
    (hdoc : CacheHashed pf doc) (hkey : key.fHash = hashKey pf key)
    (h : find_pdf_shader_fuel pf (fuel + 1) doc key false = some out) :
    CacheHashed pf out.2 := by
  rw [find_pdf_shader_fuel_false] at h
  split at h
  · simp only [Option.some.injEq] at h
    rw [← h]
    exact hdoc
  · split at h
    · exact Option.noConfusion h
    · rename_i pdfShader doc1 hm
      simp only [Option.some.injEq] at h
      rw [← h]
      intro p hp
      rcases gradientPatternMap_set_mem _ _ _ _ hp with h1 | h1
      · rw [h1]; exact hkey
      · have := make_function_shader_map pf doc key _ hm
        simp only at this
        rw [this] at h1
        exact hdoc p h1

theorem make_alpha_function_shader_hashed (pf : Platform) (doc : SkPDFDocument) (state : Key)
    (out : SkPDFIndirectReference × SkPDFDocument) (hdoc : CacheHashed pf doc)
    (h : make_alpha_function_shader pf (find_pdf_shader_fuel pf 1) doc state = some out) :
    CacheHashed pf out.2 := by
  unfold make_alpha_function_shader at h
  cases ho : opaqueStateOf pf state with
  | none => simp [ho] at h
  | some o =>
    simp only [ho] at h
    cases hf : find_pdf_shader_fuel pf 1 doc o false with
    | none => simp [hf] at h
    | some out1 =>
      obtain ⟨colorShader, doc1⟩ := out1
      have h1 : CacheHashed pf doc1 :=
        find_pdf_shader_fuel_false_hashed pf 0 doc o _ hdoc (opaqueStateOf_hashed pf state o ho) hf
      simp only [hf] at h
      split at h
      · simp only [Option.some.injEq] at h
        rw [← h]
        exact h1
      · unfold create_smask_graphic_state at h
        cases hl : luminosityStateOf pf state with
        | none => simp [hl] at h
        | some l =>
          simp only [hl] at h
          cases hf2 : find_pdf_shader_fuel pf 1 doc1 l false with
          | none => simp [hf2] at h
          | some out2 =>
            obtain ⟨luminosityShader, doc2⟩ := out2
            have h2 : CacheHashed pf doc2 :=
              find_pdf_shader_fuel_false_hashed pf 0 doc1 l _ h1
                (luminosityStateOf_hashed pf state l hl) hf2
            simp only [hf2, Option.some.injEq] at h
            rw [← h]
            exact h2

/-! ## The arrays of a clone -/

theorem readBlock_append_left {α : Type} (blocks : List (List α)) (b : List α) (p i : Nat)
    (hp : p < blocks.length) : readBlock (blocks ++ [b]) p i = readBlock blocks p i := by
  unfold readBlock
  rw [List.getElem?_append_left hp]

theorem writeBlock_last {α : Type} (blocks : List (List α)) (b : List α) (i : Nat) (v : α)
    (hi : i < b.length) :
    writeBlock (blocks ++ [b]) blocks.length i v = some (blocks ++ [b.set i v]) := by
  unfold writeBlock
  have h : (blocks ++ [b])[blocks.length]? = some b := by simp
  rw [h]
  simp only [hi, if_true, Option.some.injEq]
  rw [List.set_append_right _ _ (le_refl _)]
  simp

theorem set_take_replicate {α : Type} (l : List α) (d v : α) (n j : Nat) (hj : j < n)
    (hv : l[j]? = some v) :
    (l.take j ++ List.replicate (n - j) d).set j v =
      l.take (j + 1) ++ List.replicate (n - (j + 1)) d := by
  have hl : j < l.length := by
    rcases List.getElem?_eq_some_iff.1 hv with ⟨h, _⟩
    exact h
  have hlen : (l.take j).length = j := by rw [List.length_take]; omega
  have e : n - j = (n - (j + 1)) + 1 := by omega
  rw [List.set_append_right _ _ (by rw [hlen]), hlen, Nat.sub_self, e, List.replicate_succ,
    List.set_cons_zero, List.take_succ, hv]
  simp

/-- The heap while the loop of `clone_key` runs: the first `j` entries of the two new
blocks are copied. -/
theorem clone_key_loop_spec (k clone : KeyImage) (blocksC : List (List SkColor))
    (blocksS : List (List SkScalar)) (colors : List SkColor) (offsets : List SkScalar) (n : Nat)
    (hc : blocksC[k.fInfo.fColors]? = some colors)
    (ho : blocksS[k.fInfo.fColorOffsets]? = some offsets)
    (hn1 : n ≤ colors.length) (hn2 : n ≤ offsets.length)
    (hcc : clone.fInfo.fColors = blocksC.length)
    (hco : clone.fInfo.fColorOffsets = blocksS.length) :
    ∀ (m j : Nat), j + m = n →
      clone_key_loop k clone (List.range' j m)
        ⟨blocksC ++ [colors.take j ++ List.replicate (n - j) 0],
         blocksS ++ [offsets.take j ++ List.replicate (n - j) 0]⟩ =
      some ⟨blocksC ++ [colors.take n], blocksS ++ [offsets.take n]⟩ := by
  have hpc : k.fInfo.fColors < blocksC.length := (List.getElem?_eq_some_iff.1 hc).1
  have hpo : k.fInfo.fColorOffsets < blocksS.length := (List.getElem?_eq_some_iff.1 ho).1
  intro m
  induction m with
  | zero =>
    intro j hj
    have : j = n := by omega
    subst this
    simp [clone_key_loop]
  | succ m ih =>
    intro j hj
    have hjn : j < n := by omega
    obtain ⟨o, hoj⟩ : ∃ o, offsets[j]? = some o :=
      ⟨offsets[j], List.getElem?_eq_getElem (by omega)⟩
    obtain ⟨c, hcj⟩ : ∃ c, colors[j]? = some c :=
      ⟨colors[j], List.getElem?_eq_getElem (by omega)⟩
    have hlenO : j < (offsets.take j ++ List.replicate (n - j) (0 : SkScalar)).length := by
      rw [List.length_append, List.length_take, List.length_replicate]; omega
    have hlenC : j < (colors.take j ++ List.replicate (n - j) (0 : SkColor)).length := by
      rw [List.length_append, List.length_take, List.length_replicate]; omega
    have r1 : readBlock (blocksS ++ [offsets.take j ++ List.replicate (n - j) 0])
        k.fInfo.fColorOffsets j = some o := by
      rw [readBlock_append_left _ _ _ _ hpo]
      simp only [readBlock, ho, hoj]
    have r2 : readBlock (blocksC ++ [colors.take j ++ List.replicate (n - j) 0])
        k.fInfo.fColors j = some c := by
      rw [readBlock_append_left _ _ _ _ hpc]
      simp only [readBlock, hc, hcj]
    have w1 := writeBlock_last blocksS (offsets.take j ++ List.replicate (n - j) 0) j o hlenO
    have w2 := writeBlock_last blocksC (colors.take j ++ List.replicate (n - j) 0) j c hlenC
    rw [set_take_replicate offsets 0 o n j hjn hoj] at w1
    rw [set_take_replicate colors 0 c n j hjn hcj] at w2
    rw [List.range'_succ, clone_key_loop]
    simp only [r1, r2, hcc, hco, w1, w2]
    exact ih (j + 1) (by omega)

/-- What `clone_key` does to the heap and which key image it returns, when the descriptor
of `k` points to blocks of at least `fColorCount` entries. -/
theorem clone_key_heap_eq (h : Heap) (k : KeyImage) (colors : List SkColor)
    (offsets : List SkScalar)
    (hc : h.colorBlocks[k.fInfo.fColors]? = some colors)
    (ho : h.scalarBlocks[k.fInfo.fColorOffsets]? = some offsets)
    (hn1 : k.fInfo.fColorCount ≤ colors.length) (hn2 : k.fInfo.fColorCount ≤ offsets.length) :
    clone_key_heap h k =
      some (⟨h.colorBlocks ++ [colors.take k.fInfo.fColorCount],
             h.scalarBlocks ++ [offsets.take k.fInfo.fColorCount]⟩,
        { fType := k.fType
          fInfo := { k.fInfo with fColors := h.colorBlocks.length,
                                  fColorOffsets := h.scalarBlocks.length }
          fColors := some h.colorBlocks.length
          fStops := some h.scalarBlocks.length
          fCanvasTransform := k.fCanvasTransform
          fShaderTransform := k.fShaderTransform
          fBBox := k.fBBox
          fHash := 0 }) := by
  have hloop := clone_key_loop_spec k
    { fType := k.fType
      fInfo := { k.fInfo with fColors := h.colorBlocks.length,
                              fColorOffsets := h.scalarBlocks.length }
      fColors := some h.colorBlocks.length
      fStops := some h.scalarBlocks.length
      fCanvasTransform := k.fCanvasTransform
      fShaderTransform := k.fShaderTransform
      fBBox := k.fBBox
      fHash := 0 } h.colorBlocks h.scalarBlocks colors offsets k.fInfo.fColorCount hc ho hn1 hn2
    rfl rfl k.fInfo.fColorCount 0 (by omega)
  simp only [List.take_zero, List.nil_append, Nat.sub_zero] at hloop
  unfold clone_key_heap
  simp only [List.range_eq_range', hloop]

theorem KeyImage.value_congr (h1 h2 : Heap) (k : KeyImage)
    (hc : h2.colorBlocks[k.fInfo.fColors]? = h1.colorBlocks[k.fInfo.fColors]?)
    (ho : h2.scalarBlocks[k.fInfo.fColorOffsets]? = h1.scalarBlocks[k.fInfo.fColorOffsets]?) :
    k.value h2 = k.value h1 := by
  unfold KeyImage.value
  rw [hc, ho]

theorem writeBlock_last_elim {α : Type} (blocks : List (List α)) (b : List α) (i : Nat) (v : α)
    (res : List (List α)) (h : writeBlock (blocks ++ [b]) blocks.length i v = some res) :
    ∀ p, p < blocks.length → res[p]? = blocks[p]? := by
  intro p hp
  by_cases hi : i < b.length
  · rw [writeBlock_last blocks b i v hi] at h
    rw [← Option.some.inj h, List.getElem?_append_left hp]
  · unfold writeBlock at h
    have hb : (blocks ++ [b])[blocks.length]? = some b := by simp
    rw [hb] at h
    simp only [hi, if_false] at h
    exact Option.noConfusion h

/-- The clone of a key image: its arrays are two new blocks, no block that existed
before is changed, the clone stands for the key of `k` with `fHash = 0`, and a later write
through the pointers of the clone does not reach the arrays of `k`. -/
theorem clone_key_heap_spec (h : Heap) (ki : KeyImage) (k : Key) (hv : ki.value h = some k)
    (hc : k.fInfo.fColors.length = k.fInfo.fColorCount)
    (ho : k.fInfo.fColorOffsets.length = k.fInfo.fColorCount) :
    ∃ h2 c, clone_key_heap h ki = some (h2, c) ∧
      c.fColors = some h.colorBlocks.length ∧ c.fStops = some h.scalarBlocks.length ∧
      c.fInfo.fColors = h.colorBlocks.length ∧
      c.fInfo.fColorOffsets = h.scalarBlocks.length ∧
      ki.fInfo.fColors < h.colorBlocks.length ∧
      ki.fInfo.fColorOffsets < h.scalarBlocks.length ∧
      (∀ p, p < h.colorBlocks.length → h2.colorBlocks[p]? = h.colorBlocks[p]?) ∧
      (∀ p, p < h.scalarBlocks.length → h2.scalarBlocks[p]? = h.scalarBlocks[p]?) ∧
      ki.value h2 = some k ∧
      c.value h2 = some { k with fHash := 0 } ∧
      (∀ i v blocks, writeBlock h2.colorBlocks c.fInfo.fColors i v = some blocks →
        ki.value ⟨blocks, h2.scalarBlocks⟩ = some k) ∧
      (∀ i v blocks, writeBlock h2.scalarBlocks c.fInfo.fColorOffsets i v = some blocks →
        ki.value ⟨h2.colorBlocks, blocks⟩ = some k) := by
  cases hcb : h.colorBlocks[ki.fInfo.fColors]? with
  | none => simp [KeyImage.value, hcb] at hv
  | some colors =>
    cases hsb : h.scalarBlocks[ki.fInfo.fColorOffsets]? with
    | none => simp [KeyImage.value, hcb, hsb] at hv
    | some offsets =>
      have hk : k = { fType := ki.fType
                      fInfo := { fColorCount := ki.fInfo.fColorCount
                                 fColors := colors
                                 fColorOffsets := offsets
                                 fPoint := ki.fInfo.fPoint
                                 fRadius := ki.fInfo.fRadius
                                 fTileMode := ki.fInfo.fTileMode
                                 fGradientFlags := ki.fInfo.fGradientFlags }
                      fCanvasTransform := ki.fCanvasTransform
                      fShaderTransform := ki.fShaderTransform
                      fBBox := ki.fBBox
                      fHash := ki.fHash } := by
        simp only [KeyImage.value, hcb, hsb, Option.some.injEq] at hv
        exact hv.symm
      have hlc : colors.length = ki.fInfo.fColorCount := by rw [hk] at hc; exact hc
      have hlo : offsets.length = ki.fInfo.fColorCount := by rw [hk] at ho; exact ho
      have hpc : ki.fInfo.fColors < h.colorBlocks.length := (List.getElem?_eq_some_iff.1 hcb).1
      have hpo : ki.fInfo.fColorOffsets < h.scalarBlocks.length :=
        (List.getElem?_eq_some_iff.1 hsb).1
      have htc : colors.take ki.fInfo.fColorCount = colors := by
        rw [← hlc]; exact List.take_length _
      have hto : offsets.take ki.fInfo.fColorCount = offsets := by
        rw [← hlo]; exact List.take_length _
      have heq := clone_key_heap_eq h ki colors offsets hcb hsb (le_of_eq hlc.symm)
        (le_of_eq hlo.symm)
      rw [htc, hto] at heq
      have hkeep : ki.value ⟨h.colorBlocks ++ [colors], h.scalarBlocks ++ [offsets]⟩ =
          some k := by
        rw [KeyImage.value_congr h _ ki (List.getElem?_append_left hpc)
          (List.getElem?_append_left hpo)]
        exact hv
      refine ⟨_, _, heq, rfl, rfl, rfl, rfl, hpc, hpo,
        fun p hp => List.getElem?_append_left hp, fun p hp => List.getElem?_append_left hp,
        hkeep, ?_, ?_, ?_⟩
      · have e1 : (h.colorBlocks ++ [colors])[h.colorBlocks.length]? = some colors := by simp
        have e2 : (h.scalarBlocks ++ [offsets])[h.scalarBlocks.length]? = some offsets := by
          simp
        simp only [KeyImage.value, e1, e2]
        rw [hk]
      · intro i v blocks hw
        have hsame := writeBlock_last_elim h.colorBlocks colors i v blocks hw
        rw [KeyImage.value_congr h _ ki (hsame _ hpc) (List.getElem?_append_left hpo)]
        exact hv
      · intro i v blocks hw
        have hsame := writeBlock_last_elim h.scalarBlocks offsets i v blocks hw
        rw [KeyImage.value_congr h _ ki (List.getElem?_append_left hpc) (hsame _ hpo)]
        exact hv

theorem imageOf_value (k : Key) : (imageOf k).value (heapOf k) = some k := rfl

/-- C40: for every key whose arrays hold the declared number of stops, `clone_key` returns
a key with the same type, descriptor (stop count, colours, offsets, points, radii, tile
mode, flags), transforms and bounding box and with `fHash = 0`; the keys that the two
callers derive, and the key of `make_key`, carry the hash of their fields; and when every
key of the cache does so and so does the key looked up, every key of the cache after
`find_pdf_shader` does so. In memory, for every heap and every key image that stands for
`k` there: `clone_key` returns; the clone owns two blocks that did not exist before and
its descriptor points to them, so its pointers differ from those of `k`; every block that
existed before is unchanged and `k` still stands for the same key; the clone stands for
`k` with `fHash = 0`; and a write through either pointer of the clone leaves the key of
`k` as it was. -/
theorem clone_key_spec (pf : Platform) (doc : SkPDFDocument) (k : Key) (keyHasAlpha : Bool)
    (hc : k.fInfo.fColors.length = k.fInfo.fColorCount)
    (ho : k.fInfo.fColorOffsets.length = k.fInfo.fColorCount) :
    clone_key k = some { k with fHash := 0 } ∧
    (∀ d, opaqueStateOf pf k = some d ∨ luminosityStateOf pf k = some d →
      d.fHash = hashKey pf d) ∧
    (∀ ty info canvasTransform shaderLocalMatrix bbox,
      (make_key pf ty info canvasTransform shaderLocalMatrix bbox).fHash =
        hashKey pf (make_key pf ty info canvasTransform shaderLocalMatrix bbox)) ∧
    (CacheHashed pf doc → k.fHash = hashKey pf k →
      ∀ out, find_pdf_shader pf doc k keyHasAlpha = some out → CacheHashed pf out.2) ∧
    (∀ (h : Heap) (ki : KeyImage), ki.value h = some k →
      ∃ h2 c, clone_key_heap h ki = some (h2, c) ∧
        c.fColors = some h.colorBlocks.length ∧ c.fStops = some h.scalarBlocks.length ∧
        c.fInfo.fColors = h.colorBlocks.length ∧
        c.fInfo.fColorOffsets = h.scalarBlocks.length ∧
        c.fInfo.fColors ≠ ki.fInfo.fColors ∧
        c.fInfo.fColorOffsets ≠ ki.fInfo.fColorOffsets ∧
        (∀ p, p < h.colorBlocks.length → h2.colorBlocks[p]? = h.colorBlocks[p]?) ∧
        (∀ p, p < h.scalarBlocks.length → h2.scalarBlocks[p]? = h.scalarBlocks[p]?) ∧
        ki.value h2 = some k ∧
        c.value h2 = some { k with fHash := 0 } ∧
        (∀ i v blocks, writeBlock h2.colorBlocks c.fInfo.fColors i v = some blocks →
          ki.value ⟨blocks, h2.scalarBlocks⟩ = some k) ∧
        (∀ i v blocks, writeBlock h2.scalarBlocks c.fInfo.fColorOffsets i v = some blocks →
          ki.value ⟨h2.colorBlocks, blocks⟩ = some k)) := by
  refine ⟨?_, ?_, make_key_hashed pf, ?_, ?_⟩
  · rw [clone_key_eq k (le_of_eq hc.symm) (le_of_eq ho.symm)]
    have h1 : k.fInfo.fColors.take k.fInfo.fColorCount = k.fInfo.fColors := by
      rw [← hc]; exact List.take_length _
    have h2 : k.fInfo.fColorOffsets.take k.fInfo.fColorCount = k.fInfo.fColorOffsets := by
      rw [← ho]; exact List.take_length _
    rw [h1, h2]
  · intro d hd
    rcases hd with hd | hd
    · exact opaqueStateOf_hashed pf k d hd
    · exact luminosityStateOf_hashed pf k d hd
  · intro hdoc hkey out h
    cases keyHasAlpha with
    | false => exact find_pdf_shader_fuel_false_hashed pf 1 doc k out hdoc hkey h
    | true =>
      unfold find_pdf_shader find_pdf_shader_fuel at h
      split at h
      · simp only [Option.some.injEq] at h
        rw [← h]
        exact hdoc
      · simp only [if_true] at h
        split at h
        · exact Option.noConfusion h
        · rename_i pdfShader doc1 hm
          simp only [Option.some.injEq] at h
          rw [← h]
          have h1 := make_alpha_function_shader_hashed pf doc k _ hdoc hm
          intro p hp
          rcases gradientPatternMap_set_mem _ _ _ _ hp with h2 | h2
          · rw [h2]; exact hkey
          · exact h1 p h2
  · intro h ki hv
    obtain ⟨h2, c, e1, e2, e3, e4, e5, e6, e7, e8, e9, e10, e11, e12, e13⟩ :=
      clone_key_heap_spec h ki k hv hc ho
    exact ⟨h2, c, e1, e2, e3, e4, e5, by rw [e4]; exact (ne_of_lt e6).symm,
      by rw [e5]; exact (ne_of_lt e7).symm, e8, e9, e10, e11, e12, e13⟩

theorem clone_key_spec_witness :
    clone_key (sampleKey GradientType.kLinear translucentToBlack) =
      some { sampleKey GradientType.kLinear translucentToBlack with fHash := 0 } ∧
    ∃ h2 c, clone_key_heap (heapOf (sampleKey GradientType.kLinear translucentToBlack))
        (imageOf (sampleKey GradientType.kLinear translucentToBlack)) = some (h2, c) ∧
      c.fInfo.fColors = 1 ∧ c.fInfo.fColorOffsets = 1 ∧
      (imageOf (sampleKey GradientType.kLinear translucentToBlack)).value h2 =
        some (sampleKey GradientType.kLinear translucentToBlack) := by
  have h := clone_key_spec exactPlatform emptyDocument
    (sampleKey GradientType.kLinear translucentToBlack) true rfl rfl
  obtain ⟨h2, c, e1, _, _, e4, e5, _, _, _, _, e10, _⟩ :=
    h.2.2.2.2 (heapOf (sampleKey GradientType.kLinear translucentToBlack))
      (imageOf (sampleKey GradientType.kLinear translucentToBlack)) (imageOf_value _)
  exact ⟨h.1, h2, c, e1, e4, e5, e10⟩

/-! ## The mapping from the unit segment -/

/-- C26: when the length of `p1 - p0` is not zero, `unit_to_points_matrix` builds the matrix
with rows (dx, -dy, p0.x), (dy, dx, p0.y), (0, 0, 1), where (dx, dy) = p1 - p0, which maps
(0,0) to `p0` and (1,0) to `p1`; for `p1 = p0` it builds the matrix with zero linear part
that maps every point to `p0`. For all points, equal or not, the function with its
division made visible returns this matrix: `SkScalarInvert` is never reached with 0. -/
theorem unit_to_points_matrix_spec (pf : Platform) (p0 p1 : SkPoint) :
    (pf.SkScalarSqrt ((p1.fX - p0.fX) * (p1.fX - p0.fX) + (p1.fY - p0.fY) * (p1.fY - p0.fY))
        ≠ 0 →
      unit_to_points_matrix pf (p0, p1) =
        ⟨p1.fX - p0.fX, -(p1.fY - p0.fY), p0.fX, p1.fY - p0.fY, p1.fX - p0.fX, p0.fY, 0, 0, 1⟩ ∧
      (unit_to_points_matrix pf (p0, p1)).mapPoint ⟨0, 0⟩ = p0 ∧
      (unit_to_points_matrix pf (p0, p1)).mapPoint ⟨1, 0⟩ = p1) ∧
    unit_to_points_matrix pf (p0, p0) = ⟨0, 0, p0.fX, 0, 0, p0.fY, 0, 0, 1⟩ ∧
    (∀ q : SkPoint, (unit_to_points_matrix pf (p0, p0)).mapPoint q = p0) ∧
    unit_to_points_matrix_checked pf (p0, p1) = some (unit_to_points_matrix pf (p0, p1)) ∧
    unit_to_points_matrix_checked pf (p0, p0) = some ⟨0, 0, p0.fX, 0, 0, p0.fY, 0, 0, 1⟩ := by
  have hchecked : ∀ pts : SkPoint × SkPoint,
      unit_to_points_matrix_checked pf pts = some (unit_to_points_matrix pf pts) := by
    intro pts
    unfold unit_to_points_matrix_checked unit_to_points_matrix SkScalarInvert
    by_cases hmag : SkPoint.length pf ⟨pts.2.fX - pts.1.fX, pts.2.fY - pts.1.fY⟩ = 0
    · simp [hmag]
    · simp [hmag]
  have hsame : unit_to_points_matrix pf (p0, p0) = ⟨0, 0, p0.fX, 0, 0, p0.fY, 0, 0, 1⟩ := by
    simp [unit_to_points_matrix, SkMatrix.postTranslate, SkMatrix.preScale,
      SkMatrix.setSinCos, SkMatrix.concat]
  refine ⟨fun hmag => ?_, hsame, fun q => ?_, hchecked (p0, p1), ?_⟩
  · have hm : unit_to_points_matrix pf (p0, p1) =
        ⟨p1.fX - p0.fX, -(p1.fY - p0.fY), p0.fX, p1.fY - p0.fY, p1.fX - p0.fX, p0.fY,
          0, 0, 1⟩ := by
      simp only [unit_to_points_matrix, SkPoint.length, SkMatrix.postTranslate,
        SkMatrix.preScale, SkMatrix.setSinCos, SkMatrix.concat, if_pos hmag, ne_eq,
        SkMatrix.mk.injEq]
      refine ⟨?_, ?_, ?_, ?_, ?_, ?_, ?_, ?_, ?_⟩ <;> field_simp
    refine ⟨hm, ?_, ?_⟩
    · rw [hm]
      obtain ⟨x0, y0⟩ := p0
      simp [SkMatrix.mapPoint]
    · rw [hm]
      obtain ⟨x0, y0⟩ := p0
      obtain ⟨x1, y1⟩ := p1
      simp [SkMatrix.mapPoint]
  · rw [hsame]
    obtain ⟨x0, y0⟩ := p0
    simp [SkMatrix.mapPoint]
  · rw [hchecked (p0, p0), hsame]

theorem unit_to_points_matrix_spec_witness :
    unit_to_points_matrix exactPlatform (⟨0, 0⟩, ⟨1, 0⟩) =
      ⟨1 - 0, -(0 - 0), 0, 0 - 0, 1 - 0, 0, 0, 0, 1⟩ ∧
    unit_to_points_matrix_checked exactPlatform (⟨0, 0⟩, ⟨0, 0⟩) =
      some ⟨0, 0, 0, 0, 0, 0, 0, 0, 1⟩ :=
  ⟨((unit_to_points_matrix_spec exactPlatform ⟨0, 0⟩ ⟨1, 0⟩).1 (by
    simp only [exactPlatform]
    norm_num [rat_sqrt_one])).1,
   (unit_to_points_matrix_spec exactPlatform ⟨0, 0⟩ ⟨1, 0⟩).2.2.2.2⟩

/-! ## Touching circles -/

/-- The key of the cone with radii 65536 and 65537 takes the native path, and the
`Coords` written for it hold the two radii as they were. -/
theorem largeCone_coords (pf : Platform) (h1 : pf.SkScalarSqrt 1 = 1) :
    doStitchFunctions (sampleKey GradientType.kConical largeCone) = true ∧
    nativeCoords pf (sampleKey GradientType.kConical largeCone) =
      SkPDFObject.array [SkPDFObject.scalar 0, SkPDFObject.scalar 0, SkPDFObject.scalar 65536,
        SkPDFObject.scalar 1, SkPDFObject.scalar 0, SkPDFObject.scalar 65537] := by
  constructor
  · simp [doStitchFunctions, sampleKey, initialFinalMatrix, SkMatrix.preConcat,
      SkMatrix.concat, SkMatrix.I, SkMatrix.hasPerspective, largeCone, whiteToBlack, sampleInfo]
  · have hp : (sampleKey GradientType.kConical largeCone).fInfo.fPoint = (⟨0, 0⟩, ⟨1, 0⟩) := rfl
    have hr : (sampleKey GradientType.kConical largeCone).fInfo.fRadius = (65536, 65537) := rfl
    have ht : (sampleKey GradientType.kConical largeCone).fType = GradientType.kConical := rfl
    unfold nativeCoords
    simp only [ht, hp, hr, if_true, FixUpRadius_large pf h1]

/-- C38: for every platform whose square root of 1 is 1, the circles with centres (0,0)
and (1,0) and radii 65536 and 65537 touch (`|distance - |r1 - r2|| < 0.002`), and after
`FixUpRadius` the distance between the centres is still equal to the absolute difference
of the radii, not strictly smaller: the smaller circle is not moved inside the larger
one. The key of this cone takes the native path, and its `Coords` are
`0 0 65536 1 0 65537`. -/
theorem FixUpRadius_large_circles_still_touch (pf : Platform) (h1 : pf.SkScalarSqrt 1 = 1) :
    |SkPoint.Distance pf ⟨0, 0⟩ ⟨1, 0⟩ - abs ((65536 : ℚ) - 65537)| < 2 / 1000 ∧
    SkPoint.Distance pf ⟨0, 0⟩ ⟨1, 0⟩ =
      |(FixUpRadius pf ⟨0, 0⟩ 65536 ⟨1, 0⟩ 65537).1 -
        (FixUpRadius pf ⟨0, 0⟩ 65536 ⟨1, 0⟩ 65537).2| ∧
    ¬ (SkPoint.Distance pf ⟨0, 0⟩ ⟨1, 0⟩ <
      |(FixUpRadius pf ⟨0, 0⟩ 65536 ⟨1, 0⟩ 65537).1 -
        (FixUpRadius pf ⟨0, 0⟩ 65536 ⟨1, 0⟩ 65537).2|) ∧
    doStitchFunctions (sampleKey GradientType.kConical largeCone) = true ∧
    nativeCoords pf (sampleKey GradientType.kConical largeCone) =
      SkPDFObject.array [SkPDFObject.scalar 0, SkPDFObject.scalar 0, SkPDFObject.scalar 65536,
        SkPDFObject.scalar 1, SkPDFObject.scalar 0, SkPDFObject.scalar 65537] := by
  refine ⟨?_, ?_, ?_, (largeCone_coords pf h1).1, (largeCone_coords pf h1).2⟩
  · rw [distance_unit pf h1]
    norm_num
  · rw [FixUpRadius_large pf h1, distance_unit pf h1]
    norm_num
  · rw [FixUpRadius_large pf h1, distance_unit pf h1]
    norm_num

theorem FixUpRadius_large_circles_still_touch_witness :
    ¬ (SkPoint.Distance exactPlatform ⟨0, 0⟩ ⟨1, 0⟩ <
      |(FixUpRadius exactPlatform ⟨0, 0⟩ 65536 ⟨1, 0⟩ 65537).1 -
        (FixUpRadius exactPlatform ⟨0, 0⟩ 65536 ⟨1, 0⟩ 65537).2|) :=
  (FixUpRadius_large_circles_still_touch exactPlatform rat_sqrt_one).2.2.1

/-! ## Divisions of the conical solver -/

/-- With `b = 0` the linear text of the conical program divides by `b`. -/
theorem conicalLinearCode_fails (r0 dr c bb c1 : ℚ) (rest : List Tok) (st : List Val) :
    Fails (conicalLinearCode r0 dr ++ rest)
      (Val.num c :: Val.num bb :: Val.num 0 :: Val.num c1 :: st) := by
  unfold conicalLinearCode
  simp only [List.cons_append]
  refine Fails.after_op (by decide) (by decide) rfl ?_
  refine Fails.after_op (by decide) (by decide) rfl ?_
  refine Fails.of_op_none (by decide) (by decide) ?_
  simp [applyOp]

theorem tangentCone_code_isSome : (gradient_function_code tangentCone).isSome = true := by
  simp [gradient_function_code, tangentCone, whiteToBlack, sampleInfo, rangeEndsOf,
    collectRangeEnds, keepRange, kWhite, kBlack, eqIgnoringAlpha, SkColorSetA,
    write_gradient_ranges, write_gradient_ranges_fuel, size_t_pred, interpolate_color_code]

/-- C39: for the cone from (0,0) with radius 0 to (1,0) with radius 1 (`a = 0`, the
degenerate branch) the point (0,0) has `b = 0`; the body of the program emitted by
`twoPointConicalCode`, started on `x y = 0 0`, stops without a result at the division
`c / b` of `t = -c/b`. -/
theorem conical_linear_divides_by_zero :
    ∃ body, twoPointConicalCode tangentCone SkMatrix.I =
        some (Tok.lbrace :: body ++ [Tok.rbrace]) ∧
      Evaluates (conicalCoefficientCode 1 0 0 1) [Val.num 0, Val.num 0]
        [Val.num 0, Val.num 0, Val.num 0, Val.num 0] ∧
      ∀ r, ¬ Evaluates body [Val.num 0, Val.num 0] r := by
  obtain ⟨code, hcode⟩ := Option.isSome_iff_exists.1 tangentCone_code_isSome
  have hsteps := conicalCoefficientCode_steps 1 0 0 1 0 0 []
  have hc : (0 : ℚ) * 0 + 0 * 0 - 0 * 0 = 0 := by norm_num
  have hb : ((0 : ℚ) * 0 + 0 * 1 + 0 * 1) * -2 = 0 := by norm_num
  rw [hc, hb] at hsteps
  refine ⟨conicalCoefficientCode 1 0 0 1 ++ (conicalLinearCode 0 1 ++
    ([Tok.lbrace] ++ tileModeCode SkTileMode.kClamp ++ code ++
      [Tok.rbrace, Tok.lbrace, Tok.num 0, Tok.num 0, Tok.num 0, Tok.rbrace,
       Tok.op Op.ifelse])), ?_, ?_, ?_⟩
  · have hp : tangentCone.fPoint = (⟨0, 0⟩, ⟨1, 0⟩) := rfl
    have hr : tangentCone.fRadius = (0, 1) := rfl
    have hm : tangentCone.fTileMode = SkTileMode.kClamp := rfl
    have hA : ((1 : ℚ) - 0) * (1 - 0) + (0 - 0) * (0 - 0) - (1 - 0) * (1 - 0) = 0 := by
      norm_num
    unfold twoPointConicalCode
    simp only [hcode, hp, hr, hm]
    rw [hA, if_pos rfl]
    simp [apply_perspective_to_coordinates, SkMatrix.hasPerspective, SkMatrix.I]
  · have h := hsteps.runs.evaluates
    rw [show (0 : ℚ) * 0 = 0 by norm_num] at h
    exact h
  · intro r
    exact Fails.not_evaluates (Steps.fails hsteps (conicalLinearCode_fails 0 1 0 (0 * 0) 0 _ [])) r

/-! ## The stop-normalising loop of `gradientStitchCode` -/

theorem normalizeStops_done (fuel i count : Nat) (colors : List SkColor)
    (offsets : List SkScalar) (h : ¬ i + 1 < count) :
    normalizeStops fuel i count colors offsets = some (count, colors, offsets) := by
  unfold normalizeStops
  rw [if_neg h]

/-- One iteration of the normalising loop. -/
theorem normalizeStops_step (fuel i count : Nat) (colors : List SkColor)
    (offsets : List SkScalar) (h : i + 1 < count) (hlen : count ≤ offsets.length) :
    normalizeStops (fuel + 1) i count colors offsets =
      if (if offsets.getD (i - 1) 0 > offsets.getD i 0
            then offsets.set i (offsets.getD (i - 1) 0) else offsets).getD (i - 1) 0 =
          (if offsets.getD (i - 1) 0 > offsets.getD i 0
            then offsets.set i (offsets.getD (i - 1) 0) else offsets).getD i 0 ∧
         (if offsets.getD (i - 1) 0 > offsets.getD i 0
            then offsets.set i (offsets.getD (i - 1) 0) else offsets).getD i 0 =
          (if offsets.getD (i - 1) 0 > offsets.getD i 0
            then offsets.set i (offsets.getD (i - 1) 0) else offsets).getD (i + 1) 0
      then normalizeStops fuel i (count - 1) (colors.eraseIdx i)
        ((if offsets.getD (i - 1) 0 > offsets.getD i 0
            then offsets.set i (offsets.getD (i - 1) 0) else offsets).eraseIdx i)
      else normalizeStops fuel (i + 1) count colors
        (if offsets.getD (i - 1) 0 > offsets.getD i 0
            then offsets.set i (offsets.getD (i - 1) 0) else offsets) := by
  have h1 : i - 1 < offsets.length := by omega
  have h2 : i < offsets.length := by omega
  have h3 : i + 1 < offsets.length := by omega
  rw [List.getD_eq_getElem _ _ h1, List.getD_eq_getElem _ _ h2]
  generalize ho1 : (if offsets[i - 1] > offsets[i] then offsets.set i offsets[i - 1]
    else offsets) = offsets1
  have hl1 : offsets1.length = offsets.length := by
    rw [← ho1]
    split
    · simp
    · rfl
  have g1 : i - 1 < offsets1.length := by omega
  have g2 : i < offsets1.length := by omega
  have g3 : i + 1 < offsets1.length := by omega
  rw [List.getD_eq_getElem _ _ g1, List.getD_eq_getElem _ _ g2, List.getD_eq_getElem _ _ g3]
  rw [normalizeStops]
  simp only [h, if_true, List.getElem?_eq_getElem h1, List.getElem?_eq_getElem h2, ho1,
    List.getElem?_eq_getElem g1, List.getElem?_eq_getElem g2, List.getElem?_eq_getElem g3]
  by_cases hab : offsets1[i - 1] = offsets1[i]
  · by_cases hbc : offsets1[i] = offsets1[i + 1]
    · simp only [hab, hbc, if_true, and_self]
    · simp only [hab, hbc, if_true, if_false, and_false]
  · simp only [hab, if_false, false_and]

/-- The normalising loop returns for every input whose arrays hold `count` stops, given one
unit of fuel per stop; the result arrays hold the result count of stops, and the stops at
and below the index are kept. -/
theorem normalizeStops_total :
    ∀ (fuel i count : Nat) (colors : List SkColor) (offsets : List SkScalar),
      colors.length = count → offsets.length = count → count ≤ fuel + i + 1 →
      ∃ count1 colors1 offsets1,
        normalizeStops fuel i count colors offsets = some (count1, colors1, offsets1) ∧
        colors1.length = count1 ∧ offsets1.length = count1 ∧ count1 ≤ count ∧
        (i + 1 ≤ count → i + 1 ≤ count1) := by
  intro fuel
  induction fuel with
  | zero =>
    intro i count colors offsets hc ho hf
    exact ⟨count, colors, offsets, normalizeStops_done _ _ _ _ _ (by omega), hc, ho,
      le_refl _, fun h => h⟩
  | succ fuel ih =>
    intro i count colors offsets hc ho hf
    by_cases h : i + 1 < count
    · rw [normalizeStops_step fuel i count colors offsets h (le_of_eq ho.symm)]
      generalize ho1 : (if offsets.getD (i - 1) 0 > offsets.getD i 0
        then offsets.set i (offsets.getD (i - 1) 0) else offsets) = offsets1
      have hl1 : offsets1.length = count := by
        rw [← ho1]
        split
        · simp [ho]
        · exact ho
      split
      · obtain ⟨c1, cs1, os1, he, h1, h2, h3, h4⟩ := ih i (count - 1) (colors.eraseIdx i)
          (offsets1.eraseIdx i) (by rw [List.length_eraseIdx]; simp [hc]; omega)
          (by rw [List.length_eraseIdx]; simp [hl1]; omega) (by omega)
        exact ⟨c1, cs1, os1, he, h1, h2, by omega, fun _ => h4 (by omega)⟩
      · obtain ⟨c1, cs1, os1, he, h1, h2, h3, h4⟩ := ih (i + 1) count colors offsets1 hc hl1
          (by omega)
        exact ⟨c1, cs1, os1, he, h1, h2, h3, fun _ => by have := h4 (by omega); omega⟩
    · exact ⟨count, colors, offsets, normalizeStops_done _ _ _ _ _ h, hc, ho, le_refl _,
        fun h => h⟩

/-- More fuel does not change a result of the normalising loop. -/
theorem normalizeStops_fuel_mono :
    ∀ (fuel i count : Nat) (colors : List SkColor) (offsets : List SkScalar)
      (r : Nat × List SkColor × List SkScalar), offsets.length = count →
      normalizeStops fuel i count colors offsets = some r →
      normalizeStops (fuel + 1) i count colors offsets = some r := by
  intro fuel
  induction fuel with
  | zero =>
    intro i count colors offsets r _ h
    by_cases hlt : i + 1 < count
    · unfold normalizeStops at h
      simp [hlt] at h
    · rw [normalizeStops_done _ _ _ _ _ hlt] at h ⊢
      exact h
  | succ fuel ih =>
    intro i count colors offsets r ho h
    by_cases hlt : i + 1 < count
    · rw [normalizeStops_step _ i count colors offsets hlt (le_of_eq ho.symm)] at h ⊢
      generalize ho1 : (if offsets.getD (i - 1) 0 > offsets.getD i 0
        then offsets.set i (offsets.getD (i - 1) 0) else offsets) = offsets1 at h ⊢
      have hl1 : offsets1.length = count := by
        rw [← ho1]
        split
        · simp [ho]
        · exact ho
      by_cases hc : offsets1.getD (i - 1) 0 = offsets1.getD i 0 ∧
          offsets1.getD i 0 = offsets1.getD (i + 1) 0
      · rw [if_pos hc] at h ⊢
        exact ih _ _ _ _ _ (by rw [List.length_eraseIdx]; simp [hl1]; omega) h
      · rw [if_neg hc] at h ⊢
        exact ih _ _ _ _ _ hl1 h
    · rw [normalizeStops_done _ _ _ _ _ hlt] at h ⊢
      exact h

theorem normalizeStops_fuel_ge (i count : Nat) (colors : List SkColor)
    (offsets : List SkScalar) (r : Nat × List SkColor × List SkScalar)
    (ho : offsets.length = count) (fuel : Nat)
    (h : normalizeStops fuel i count colors offsets = some r) :
    ∀ k, normalizeStops (fuel + k) i count colors offsets = some r := by
  intro k
  induction k with
  | zero => exact h
  | succ k ih => exact normalizeStops_fuel_mono _ _ _ _ _ _ ho ih

theorem getD_eraseIdx_of_lt (l : List SkScalar) (i k : Nat) (h : k < i) :
    (l.eraseIdx i).getD k 0 = l.getD k 0 := by
  simp only [List.getD_eq_getElem?_getD, List.getElem?_eraseIdx_of_lt l i k h]

theorem getD_eraseIdx_self (l : List SkScalar) (i : Nat) :
    (l.eraseIdx i).getD i 0 = l.getD (i + 1) 0 := by
  simp only [List.getD_eq_getElem?_getD, List.getElem?_eraseIdx_of_ge l i i (le_refl i)]

theorem mem_eraseIdx_of_dup (l : List SkScalar) (i : Nat) (hi : 1 ≤ i)
    (h : l.getD (i - 1) 0 = l.getD i 0) (hlt : i < l.length) (x : SkScalar) (hx : x ∈ l) :
    x ∈ l.eraseIdx i := by
  rw [List.mem_eraseIdx_iff_getElem?]
  obtain ⟨n, hn⟩ := List.mem_iff_getElem?.1 hx
  by_cases hni : n = i
  · subst hni
    refine ⟨n - 1, by omega, ?_⟩
    have h1 : n - 1 < l.length := by omega
    rw [List.getD_eq_getElem _ _ h1, List.getD_eq_getElem _ _ hlt] at h
    rw [List.getElem?_eq_getElem hlt] at hn
    rw [List.getElem?_eq_getElem h1, h]
    exact hn
  · exact ⟨n, hni, hn⟩

/-- On offsets in non-decreasing order the normalising loop only removes stops (the offsets
are not changed), it removes none of the first and the last stop, every offset value of
the input is still there afterwards, and no three consecutive stops share an offset. -/
theorem normalizeStops_sorted :
    ∀ (fuel i count : Nat) (colors : List SkColor) (offsets : List SkScalar),
      1 ≤ i → colors.length = count → offsets.length = count → count ≤ fuel + i + 1 →
      offsets.Pairwise (· ≤ ·) →
      (∀ j, j + 1 < i → ¬ (offsets.getD j 0 = offsets.getD (j + 1) 0 ∧
        offsets.getD (j + 1) 0 = offsets.getD (j + 2) 0)) →
      ∃ count1 colors1 offsets1,
        normalizeStops fuel i count colors offsets = some (count1, colors1, offsets1) ∧
        offsets1.length = count1 ∧
        offsets1.Sublist offsets ∧ colors1.Sublist colors ∧
        (∀ j, j + 2 < count1 → ¬ (offsets1.getD j 0 = offsets1.getD (j + 1) 0 ∧
          offsets1.getD (j + 1) 0 = offsets1.getD (j + 2) 0)) ∧
        (∀ x ∈ offsets, x ∈ offsets1) ∧
        offsets1[0]? = offsets[0]? ∧ colors1[0]? = colors[0]? ∧
        (i + 1 ≤ count → offsets1[count1 - 1]? = offsets[count - 1]? ∧
          colors1[count1 - 1]? = colors[count - 1]?) := by
  intro fuel
  induction fuel with
  | zero =>
    intro i count colors offsets hi hc ho hf hs hinv
    refine ⟨count, colors, offsets, normalizeStops_done _ _ _ _ _ (by omega), ho,
      List.Sublist.refl _, List.Sublist.refl _, ?_, fun x hx => hx, rfl, rfl,
      fun _ => ⟨rfl, rfl⟩⟩
    intro j hj
    exact hinv j (by omega)
  | succ fuel ih =>
    intro i count colors offsets hi hc ho hf hs hinv
    by_cases h : i + 1 < count
    · have h1 : i - 1 < offsets.length := by omega
      have h2 : i < offsets.length := by omega
      have hle : offsets.getD (i - 1) 0 ≤ offsets.getD i 0 := by
        rw [List.getD_eq_getElem _ _ h1, List.getD_eq_getElem _ _ h2]
        exact (List.pairwise_iff_getElem.1 hs) (i - 1) i h1 h2 (by omega)
      rw [normalizeStops_step fuel i count colors offsets h (le_of_eq ho.symm),
        if_neg (not_lt.2 hle)]
      by_cases hcnd : offsets.getD (i - 1) 0 = offsets.getD i 0 ∧
          offsets.getD i 0 = offsets.getD (i + 1) 0
      · rw [if_pos hcnd]
        have hinv1 : ∀ j, j + 1 < i →
            ¬ ((offsets.eraseIdx i).getD j 0 = (offsets.eraseIdx i).getD (j + 1) 0 ∧
              (offsets.eraseIdx i).getD (j + 1) 0 = (offsets.eraseIdx i).getD (j + 2) 0) := by
          intro j hj
          rw [getD_eraseIdx_of_lt _ _ _ (by omega : j < i),
            getD_eraseIdx_of_lt _ _ _ (by omega : j + 1 < i)]
          rcases Nat.lt_or_ge (j + 2) i with h3 | h3
          · rw [getD_eraseIdx_of_lt _ _ _ h3]
            exact hinv j hj
          · have e : j + 2 = i := by omega
            rw [e, getD_eraseIdx_self, ← hcnd.2, ← e]
            exact hinv j hj
        obtain ⟨c1, cs1, os1, he, hl, hso, hsc, hno, hmem, hf0, hc0, hlast⟩ :=
          ih i (count - 1) (colors.eraseIdx i) (offsets.eraseIdx i) hi
            (by rw [List.length_eraseIdx]; simp [hc]; omega)
            (by rw [List.length_eraseIdx]; simp [ho]; omega) (by omega)
            (hs.sublist (List.eraseIdx_sublist _ _)) hinv1
        refine ⟨c1, cs1, os1, he, hl, hso.trans (List.eraseIdx_sublist _ _),
          hsc.trans (List.eraseIdx_sublist _ _), hno, ?_, ?_, ?_, ?_⟩
        · intro x hx
          exact hmem x (mem_eraseIdx_of_dup offsets i hi hcnd.1 h2 x hx)
        · rw [hf0, List.getElem?_eraseIdx_of_lt _ _ _ (by omega : 0 < i)]
        · rw [hc0, List.getElem?_eraseIdx_of_lt _ _ _ (by omega : 0 < i)]
        · intro _
          obtain ⟨e1, e2⟩ := hlast (by omega)
          have e : count - 1 - 1 + 1 = count - 1 := by omega
          rw [e1, e2, List.getElem?_eraseIdx_of_ge _ _ _ (by omega : i ≤ count - 1 - 1),
            List.getElem?_eraseIdx_of_ge _ _ _ (by omega : i ≤ count - 1 - 1), e]
          exact ⟨rfl, rfl⟩
      · rw [if_neg hcnd]
        have hinv1 : ∀ j, j + 1 < i + 1 →
            ¬ (offsets.getD j 0 = offsets.getD (j + 1) 0 ∧
              offsets.getD (j + 1) 0 = offsets.getD (j + 2) 0) := by
          intro j hj
          rcases Nat.lt_or_ge (j + 1) i with h3 | h3
          · exact hinv j h3
          · have e : j = i - 1 := by omega
            subst e
            have e1 : i - 1 + 1 = i := by omega
            have e2 : i - 1 + 2 = i + 1 := by omega
            rw [e1, e2]
            exact hcnd
        obtain ⟨c1, cs1, os1, he, hl, hso, hsc, hno, hmem, hf0, hc0, hlast⟩ :=
          ih (i + 1) count colors offsets (by omega) hc ho (by omega) hs hinv1
        exact ⟨c1, cs1, os1, he, hl, hso, hsc, hno, hmem, hf0, hc0, fun _ => hlast (by omega)⟩
    · refine ⟨count, colors, offsets, normalizeStops_done _ _ _ _ _ h, ho,
        List.Sublist.refl _, List.Sublist.refl _, ?_, fun x hx => hx, rfl, rfl,
        fun _ => ⟨rfl, rfl⟩⟩
      intro j hj
      exact hinv j (by omega)

/-- C36: the normalising loop of `gradientStitchCode` returns for every input whose arrays
hold the stops, with one unit of fuel per stop and the same result with more; it leaves at
least 2 stops when the input has at least 2. An iteration removes stop `i` when, after the
in-order fix, it and both its neighbours have one offset, and advances the index otherwise.
On offsets in non-decreasing order stops are only removed, the first and the last stop are
kept, every offset value stays present, and afterwards no three consecutive stops share an
offset. -/
theorem normalizeStops_terminates (colors : List SkColor) (offsets : List SkScalar)
    (hc : colors.length = offsets.length) :
    (∃ count1 colors1 offsets1,
      (∀ k, normalizeStops (offsets.length + k) 1 offsets.length colors offsets =
        some (count1, colors1, offsets1)) ∧
      colors1.length = count1 ∧ offsets1.length = count1 ∧ count1 ≤ offsets.length ∧
      (2 ≤ offsets.length → 2 ≤ count1) ∧
      (offsets.Pairwise (· ≤ ·) →
        offsets1.Sublist offsets ∧ colors1.Sublist colors ∧
        (∀ j, j + 2 < count1 → ¬ (offsets1.getD j 0 = offsets1.getD (j + 1) 0 ∧
          offsets1.getD (j + 1) 0 = offsets1.getD (j + 2) 0)) ∧
        (∀ x ∈ offsets, x ∈ offsets1) ∧
        offsets1[0]? = offsets[0]? ∧ colors1[0]? = colors[0]? ∧
        (2 ≤ offsets.length → offsets1[count1 - 1]? = offsets[offsets.length - 1]? ∧
          colors1[count1 - 1]? = colors[offsets.length - 1]?))) ∧
    (∀ fuel i, i + 1 < offsets.length → offsets.getD (i - 1) 0 ≤ offsets.getD i 0 →
      normalizeStops (fuel + 1) i offsets.length colors offsets =
        if offsets.getD (i - 1) 0 = offsets.getD i 0 ∧
            offsets.getD i 0 = offsets.getD (i + 1) 0
        then normalizeStops fuel i (offsets.length - 1) (colors.eraseIdx i) (offsets.eraseIdx i)
        else normalizeStops fuel (i + 1) offsets.length colors offsets) := by
  constructor
  · obtain ⟨c1, cs1, os1, he, h1, h2, h3, h4⟩ :=
      normalizeStops_total offsets.length 1 offsets.length colors offsets hc rfl (by omega)
    refine ⟨c1, cs1, os1, normalizeStops_fuel_ge 1 _ colors offsets _ rfl _ he, h1, h2, h3,
      fun h => h4 h, fun hs => ?_⟩
    obtain ⟨c2, cs2, os2, he2, _, hso, hsc, hno, hmem, hf0, hc0, hlast⟩ :=
      normalizeStops_sorted offsets.length 1 offsets.length colors offsets (le_refl 1) hc rfl
        (by omega) hs (fun j hj => absurd hj (by omega))
    rw [he] at he2
    simp only [Option.some.injEq, Prod.mk.injEq] at he2
    obtain ⟨e1, e2, e3⟩ := he2
    subst e1 e2 e3
    exact ⟨hso, hsc, hno, hmem, hf0, hc0, fun h => hlast h⟩
  · intro fuel i hi hle
    rw [normalizeStops_step fuel i offsets.length colors offsets hi (le_refl _),
      if_neg (not_lt.2 hle)]

theorem normalizeStops_terminates_witness :
    ∃ count1 colors1 offsets1,
      normalizeStops (3 + 0) 1 3 [kRed, kWhite, kBlue] [1 / 2, 1 / 2, 1 / 2] =
        some (count1, colors1, offsets1) ∧ 2 ≤ count1 := by
  obtain ⟨c, cs, os, h, _, _, _, h2, _⟩ :=
    (normalizeStops_terminates [kRed, kWhite, kBlue] [1 / 2, 1 / 2, 1 / 2] rfl).1
  exact ⟨c, cs, os, h 0, h2 (by decide)⟩

/-! ## Reads of `gradientStitchCode` -/

/-- With at least two stops the three normalising steps of `gradientStitchCode` read inside
the arrays: they return, and the normalised arrays hold the normalised count of stops. -/
theorem normalizedStops_total (info : GradientInfo) (hcount : 2 ≤ info.fColorCount)
    (hcolors : info.fColors.length = info.fColorCount)
    (hoffsets : info.fColorOffsets.length = info.fColorCount) :
    ∃ k colors offsets, normalizedStops info = some (k, colors, offsets) ∧
      colors.length = k ∧ offsets.length = k ∧ 2 ≤ k := by
  have htk : info.fColorOffsets.take info.fColorCount = info.fColorOffsets := by
    rw [← hoffsets]; exact List.take_length _
  have htc : info.fColors.take info.fColorCount = info.fColors := by
    rw [← hcolors]; exact List.take_length _
  obtain ⟨c1, cs1, os1, he, h1, h2, _, h4⟩ :=
    normalizeStops_total info.fColorCount 1 info.fColorCount info.fColors info.fColorOffsets
      hcolors hoffsets (by omega)
  have hk : 2 ≤ c1 := h4 hcount
  obtain ⟨o1, ho1, hl1⟩ := nudgeCoincident_length (List.range' 1 (c1 - 2)) os1 (fun i hi => by
    rw [List.mem_range'_1] at hi
    omega)
  obtain ⟨o2, ho2, hl2⟩ := fixLastStops_length (max 1 (c1 - 1)) o1 (by
    rw [hl1, h2]
    omega)
  refine ⟨c1, cs1, o2, ?_, h1, by rw [hl2, hl1, h2], hk⟩
  unfold normalizedStops
  simp only [hcolors, hoffsets, le_refl, and_self, if_true, htk, htc, he, ho1, ho2]

theorem gradientStitchCode_total (info : GradientInfo) (hcount : 2 ≤ info.fColorCount)
    (hcolors : info.fColors.length = info.fColorCount)
    (hoffsets : info.fColorOffsets.length = info.fColorCount) :
    (gradientStitchCode info).isSome = true := by
  obtain ⟨k, cs, os, hn, hc, ho, hk⟩ := normalizedStops_total info hcount hcolors hoffsets
  unfold gradientStitchCode
  simp only [hn, hc, le_refl, if_true]
  by_cases h2 : k = 2
  · have l0 : 0 < ((cs.take k).map colorTupleOf).length := by simp [hc]; omega
    have l1 : 1 < ((cs.take k).map colorTupleOf).length := by simp [hc]; omega
    simp only [h2, if_true]
    rw [h2] at l0 l1
    simp only [List.getElem?_eq_getElem l0, List.getElem?_eq_getElem l1, Option.isSome_some]
  · obtain ⟨e, b, f, hl, _⟩ := stitchLoop_lengths ((cs.take k).map colorTupleOf) os (k - 1) 1
      (le_refl 1) (by simp [hc]; omega) (by omega)
    simp only [h2, if_false, hl, Option.isSome_some]

/-- C35: a descriptor with one stop satisfies the data model, and the normalising loop
leaves its one stop alone; the check "last 2 stops coincide" then reads the offsets 0 and
1 of an array of one entry, so `gradientStitchCode` has no value. -/
theorem one_stop_read_out_of_bounds :
    oneStop.fColorCount = 1 ∧ oneStop.fColors.length = 1 ∧ oneStop.fColorOffsets.length = 1 ∧
    normalizeStops 1 1 1 oneStop.fColors oneStop.fColorOffsets =
      some (1, oneStop.fColors, oneStop.fColorOffsets) ∧
    oneStop.fColorOffsets[max 1 (1 - 1)]? = Option.none ∧
    fixLastStops (max 1 (1 - 1)) oneStop.fColorOffsets = Option.none ∧
    gradientStitchCode oneStop = Option.none := by
  refine ⟨rfl, rfl, rfl, normalizeStops_done _ _ _ _ _ (by decide), rfl, rfl, ?_⟩
  simp [gradientStitchCode, normalizedStops, oneStop, sampleInfo, normalizeStops,
    nudgeCoincident, fixLastStops]

/-! ## The stitched function object -/

/-- What the emitting loop of `gradientStitchCode` appends over the indices
`s, s+1, ..., s+n-1`. -/
theorem stitchLoop_eq (colorData : List ColorTuple) (offsets : List SkScalar) :
    ∀ n s, 1 ≤ s → s + n ≤ colorData.length → s + n ≤ offsets.length →
      stitchLoop colorData offsets (List.range' s n) = some
        ((List.replicate n [SkPDFObject.scalar 0, SkPDFObject.scalar 1]).flatten,
         ((List.range' s n).filter (fun idx => decide (idx > 1))).map
           (fun idx => SkPDFObject.scalar (offsets.getD (idx - 1) 0)),
         (List.range' s n).map (fun idx =>
           createInterpolationFunction (colorData.getD (idx - 1) (0, 0, 0))
             (colorData.getD idx (0, 0, 0)))) := by
  intro n
  induction n with
  | zero =>
    intro s _ _ _
    rfl
  | succ n ih =>
    intro s hs hc ho
    have hl := ih (s + 1) (by omega) (by omega) (by omega)
    have h1 : s - 1 < offsets.length := by omega
    have h2 : s - 1 < colorData.length := by omega
    have h3 : s < colorData.length := by omega
    rw [List.range'_succ]
    unfold stitchLoop
    simp only [List.getElem?_eq_getElem h1, List.getElem?_eq_getElem h2,
      List.getElem?_eq_getElem h3, hl, List.replicate_succ, List.flatten_cons, List.map_cons,
      List.getD_eq_getElem _ _ h1, List.getD_eq_getElem _ _ h2, List.getD_eq_getElem _ _ h3,
      List.filter_cons]
    by_cases h : s > 1
    · simp [h, List.getElem?_eq_getElem h1, List.getElem?_eq_getElem h2,
        List.getElem?_eq_getElem h3]
    · simp [h, List.getElem?_eq_getElem h1, List.getElem?_eq_getElem h2,
        List.getElem?_eq_getElem h3]

theorem normalizedStops_lengths (info : GradientInfo) (k : Nat) (colors : List SkColor)
    (offsets : List SkScalar) (h : normalizedStops info = some (k, colors, offsets))
    (hk : 2 ≤ k) : colors.length = k ∧ offsets.length = k := by
  unfold normalizedStops at h
  split at h
  · rename_i hlen
    have hc : (info.fColors.take info.fColorCount).length = info.fColorCount := by
      rw [List.length_take]; omega
    have ho : (info.fColorOffsets.take info.fColorCount).length = info.fColorCount := by
      rw [List.length_take]; omega
    obtain ⟨c1, cs1, os1, he, h1, h2, _, _⟩ :=
      normalizeStops_total info.fColorCount 1 info.fColorCount _ _ hc ho (by omega)
    rw [he] at h
    simp only at h
    split at h
    · rename_i o1 ho1
      split at h
      · rename_i o2 ho2
        simp only [Option.some.injEq, Prod.mk.injEq] at h
        obtain ⟨e1, e2, e3⟩ := h
        subst e1 e2 e3
        obtain ⟨o1', ho1', hl1⟩ := nudgeCoincident_length (List.range' 1 (c1 - 2)) os1
          (fun i hi => by
            rw [List.mem_range'_1] at hi
            omega)
        rw [ho1] at ho1'
        obtain rfl := Option.some.inj ho1'
        obtain ⟨o2', ho2', hl2⟩ := fixLastStops_length (max 1 (c1 - 1)) o1 (by
          rw [hl1, h2]
          omega)
        rw [ho2] at ho2'
        obtain rfl := Option.some.inj ho2'
        exact ⟨h1, by rw [hl2, hl1, h2]⟩
      · exact Option.noConfusion h
    · exact Option.noConfusion h
  · exact Option.noConfusion h

/-- C37: whenever `gradientStitchCode` reaches the stitched form, with `k >= 3` normalised
stops, it returns the dictionary with `FunctionType` 3 and `Domain` [0, 1] whose Functions
are, for the stops `idx = 1, ..., k-1`, the two-stop function from the RGB of stop
`idx - 1` to the RGB of stop `idx` (`k - 1` of them), whose Bounds are the normalised
offsets of the stops `1, ..., k-2` (`k - 2` of them), and whose Encode is `0 1` once per
sub-function (`2 (k - 1)` numbers). -/
theorem gradientStitchCode_stitched (info : GradientInfo) (k : Nat) (colors : List SkColor)
    (offsets : List SkScalar) (hn : normalizedStops info = some (k, colors, offsets))
    (hk : 3 ≤ k) :
    gradientStitchCode info = some (SkPDFObject.dict
      [("Domain", SkPDFObject.array [SkPDFObject.int 0, SkPDFObject.int 1]),
       ("FunctionType", SkPDFObject.int 3),
       ("Encode", SkPDFObject.array
         (List.replicate (k - 1) [SkPDFObject.scalar 0, SkPDFObject.scalar 1]).flatten),
       ("Bounds", SkPDFObject.array
         ((List.range' 2 (k - 2)).map
           (fun idx => SkPDFObject.scalar (offsets.getD (idx - 1) 0)))),
       ("Functions", SkPDFObject.array
         ((List.range' 1 (k - 1)).map (fun idx =>
           createInterpolationFunction (colorTupleOf (colors.getD (idx - 1) 0))
             (colorTupleOf (colors.getD idx 0)))))]) ∧
    ((List.range' 1 (k - 1)).map (fun idx =>
      createInterpolationFunction (colorTupleOf (colors.getD (idx - 1) 0))
        (colorTupleOf (colors.getD idx 0)))).length = k - 1 ∧
    ((List.range' 2 (k - 2)).map
      (fun idx => SkPDFObject.scalar (offsets.getD (idx - 1) 0))).length = k - 2 ∧
    (List.replicate (k - 1) [SkPDFObject.scalar 0, SkPDFObject.scalar 1]).flatten.length =
      2 * (k - 1) := by
  obtain ⟨hc, ho⟩ := normalizedStops_lengths info k colors offsets hn (by omega)
  have hlen : ((colors.take k).map colorTupleOf).length = k := by simp [hc]
  have hl := stitchLoop_eq ((colors.take k).map colorTupleOf) offsets (k - 1) 1 (le_refl 1)
    (by rw [hlen]; omega) (by omega)
  have hfilter : (List.range' 1 (k - 1)).filter (fun idx => decide (idx > 1)) =
      List.range' 2 (k - 2) := by
    obtain ⟨m, hm⟩ : ∃ m, k - 1 = m + 1 := ⟨k - 2, by omega⟩
    have hm2 : k - 2 = m := by omega
    rw [hm, hm2, List.range'_succ, List.filter_cons]
    simp only [gt_iff_lt, lt_irrefl, decide_False, Bool.false_eq_true, if_false]
    rw [List.filter_eq_self]
    intro a ha
    rw [List.mem_range'_1] at ha
    simp only [decide_eq_true_eq]
    omega
  have hfun : (List.range' 1 (k - 1)).map (fun idx =>
      createInterpolationFunction (((colors.take k).map colorTupleOf).getD (idx - 1) (0, 0, 0))
        (((colors.take k).map colorTupleOf).getD idx (0, 0, 0))) =
      (List.range' 1 (k - 1)).map (fun idx =>
        createInterpolationFunction (colorTupleOf (colors.getD (idx - 1) 0))
          (colorTupleOf (colors.getD idx 0))) := by
    apply List.map_congr_left
    intro idx hidx
    rw [List.mem_range'_1] at hidx
    have g : ∀ j, j < k →
        ((colors.take k).map colorTupleOf).getD j (0, 0, 0) = colorTupleOf (colors.getD j 0) := by
      intro j hj
      have hj1 : j < ((colors.take k).map colorTupleOf).length := by rw [hlen]; exact hj
      have hj2 : j < colors.length := by omega
      rw [List.getD_eq_getElem _ _ hj1, List.getD_eq_getElem _ _ hj2, List.getElem_map,
        List.getElem_take]
    rw [g (idx - 1) (by omega), g idx (by omega)]
  rw [hfilter, hfun] at hl
  refine ⟨?_, by simp, by simp, ?_⟩
  · unfold gradientStitchCode
    have h2 : ¬ k = 2 := by omega
    simp only [hn, hc, le_refl, if_true, h2, if_false, hl]
  · generalize k - 1 = m
    induction m with
    | zero => rfl
    | succ m ih =>
      rw [List.replicate_succ, List.flatten_cons, List.length_append, ih]
      simp only [List.length_cons, List.length_nil]
      omega

theorem threeStops_normalized :
    normalizedStops threeStops = some (3, [kRed, kWhite, kBlue], [0, 1 / 2, 1]) := by
  norm_num [normalizedStops, threeStops, sampleInfo, normalizeStops, nudgeCoincident,
    fixLastStops, kStitchEpsilon]

theorem gradientStitchCode_stitched_witness :
    ((List.range' 2 (3 - 2)).map
      (fun idx => SkPDFObject.scalar (([0, 1 / 2, 1] : List SkScalar).getD (idx - 1) 0))).length
        = 3 - 2 :=
  (gradientStitchCode_stitched threeStops 3 [kRed, kWhite, kBlue] [0, 1 / 2, 1]
    threeStops_normalized (by decide)).2.2.1

/-! ## The operators of an interpolation leaf -/

theorem componentCode_counts (d : Bool) (m : SkScalar) (prev : Nat) :
    (componentCode d m prev).count (Tok.op Op.mul) = (if m ≠ 0 ∧ m ≠ 1 then 1 else 0) ∧
    (componentCode d m prev).count (Tok.op Op.add) = (if m ≠ 0 ∧ prev ≠ 0 then 1 else 0) ∧
    (componentCode d m prev).count (Tok.op Op.dup) = (if d = true ∧ m ≠ 0 then 1 else 0) ∧
    (componentCode d m prev).count (Tok.op Op.pop) = 0 := by
  unfold componentCode AppendColorComponent AppendScalar
  by_cases h0 : m = 0 <;> by_cases h1 : m = 1 <;> by_cases hp : prev = 0 <;>
    cases d <;> simp [h0, h1, hp, List.count_cons]

/-- C27: in the text emitted by `interpolate_color_code` (the optional leading `pop`
followed by the text of the three components), a component emits one `mul` iff its
multiplier is neither 0 nor 1 and one `add` iff its multiplier is not 0 and its begin value
is not 0; the number of `dup` is the number of non-zero multipliers minus one (none when
all are zero); and a `pop` is emitted, once and in front, iff all three multipliers are
zero. -/
theorem interpolate_color_code_counts (range : SkScalar) (beginColor endColor : SkColor)
    (hr : range ≠ 0) :
    ∃ code, interpolate_color_code range beginColor endColor = some code ∧
      (∀ (d : Bool) (m : SkScalar) (prev : Nat),
        (componentCode d m prev).count (Tok.op Op.mul) = (if m ≠ 0 ∧ m ≠ 1 then 1 else 0) ∧
        (componentCode d m prev).count (Tok.op Op.add) =
          (if m ≠ 0 ∧ prev ≠ 0 then 1 else 0)) ∧
      code.count (Tok.op Op.mul) =
        (if multiplier range (SkColorGetR endColor) (SkColorGetR beginColor) ≠ 0 ∧
            multiplier range (SkColorGetR endColor) (SkColorGetR beginColor) ≠ 1
          then 1 else 0) +
        (if multiplier range (SkColorGetG endColor) (SkColorGetG beginColor) ≠ 0 ∧
            multiplier range (SkColorGetG endColor) (SkColorGetG beginColor) ≠ 1
          then 1 else 0) +
        (if multiplier range (SkColorGetB endColor) (SkColorGetB beginColor) ≠ 0 ∧
            multiplier range (SkColorGetB endColor) (SkColorGetB beginColor) ≠ 1
          then 1 else 0) ∧
      code.count (Tok.op Op.add) =
        (if multiplier range (SkColorGetR endColor) (SkColorGetR beginColor) ≠ 0 ∧
            SkColorGetR beginColor ≠ 0 then 1 else 0) +
        (if multiplier range (SkColorGetG endColor) (SkColorGetG beginColor) ≠ 0 ∧
            SkColorGetG beginColor ≠ 0 then 1 else 0) +
        (if multiplier range (SkColorGetB endColor) (SkColorGetB beginColor) ≠ 0 ∧
            SkColorGetB beginColor ≠ 0 then 1 else 0) ∧
      code.count (Tok.op Op.dup) =
        ((if multiplier range (SkColorGetR endColor) (SkColorGetR beginColor) ≠ 0
          then 1 else 0) +
        (if multiplier range (SkColorGetG endColor) (SkColorGetG beginColor) ≠ 0
          then 1 else 0) +
        (if multiplier range (SkColorGetB endColor) (SkColorGetB beginColor) ≠ 0
          then 1 else 0)) - 1 ∧
      code.count (Tok.op Op.pop) =
        (if multiplier range (SkColorGetR endColor) (SkColorGetR beginColor) = 0 ∧
            multiplier range (SkColorGetG endColor) (SkColorGetG beginColor) = 0 ∧
            multiplier range (SkColorGetB endColor) (SkColorGetB beginColor) = 0
          then 1 else 0) ∧
      ((multiplier range (SkColorGetR endColor) (SkColorGetR beginColor) = 0 ∧
          multiplier range (SkColorGetG endColor) (SkColorGetG beginColor) = 0 ∧
          multiplier range (SkColorGetB endColor) (SkColorGetB beginColor) = 0) →
        code.head? = some (Tok.op Op.pop)) := by
  unfold interpolate_color_code
  rw [if_neg hr]
  generalize multiplier range (SkColorGetR endColor) (SkColorGetR beginColor) = m0
  generalize multiplier range (SkColorGetG endColor) (SkColorGetG beginColor) = m1
  generalize multiplier range (SkColorGetB endColor) (SkColorGetB beginColor) = m2
  refine ⟨_, rfl, fun d m prev =>
    ⟨(componentCode_counts d m prev).1, (componentCode_counts d m prev).2.1⟩, ?_, ?_, ?_, ?_, ?_⟩
  · simp only [List.count_append, (componentCode_counts _ _ _).1]
    by_cases h0 : m0 = 0 <;> by_cases h1 : m1 = 0 <;> by_cases h2 : m2 = 0 <;>
      simp [h0, h1, h2, List.count_cons]
  · simp only [List.count_append, (componentCode_counts _ _ _).2.1]
    by_cases h0 : m0 = 0 <;> by_cases h1 : m1 = 0 <;> by_cases h2 : m2 = 0 <;>
      simp [h0, h1, h2, List.count_cons]
  · simp only [List.count_append, (componentCode_counts _ _ _).2.2.1]
    by_cases h0 : m0 = 0 <;> by_cases h1 : m1 = 0 <;> by_cases h2 : m2 = 0 <;>
      simp [h0, h1, h2, List.count_cons]
  · simp only [List.count_append, (componentCode_counts _ _ _).2.2.2]
    by_cases h0 : m0 = 0 <;> by_cases h1 : m1 = 0 <;> by_cases h2 : m2 = 0 <;>
      simp [h0, h1, h2, List.count_cons]
  · rintro ⟨h0, h1, h2⟩
    simp [h0, h1, h2]

theorem interpolate_color_code_counts_witness :
    ∃ code, interpolate_color_code 1 kWhite kBlack = some code ∧
      code.count (Tok.op Op.dup) =
        ((if multiplier 1 (SkColorGetR kBlack) (SkColorGetR kWhite) ≠ 0 then 1 else 0) +
        (if multiplier 1 (SkColorGetG kBlack) (SkColorGetG kWhite) ≠ 0 then 1 else 0) +
        (if multiplier 1 (SkColorGetB kBlack) (SkColorGetB kWhite) ≠ 0 then 1 else 0)) - 1 := by
  obtain ⟨code, h, _, _, _, hd, _⟩ := interpolate_color_code_counts 1 kWhite kBlack one_ne_zero
  exact ⟨code, h, hd⟩

/-! ## Which ranges are kept -/

theorem keepRange_eq (info : GradientInfo)
    (hcolors : info.fColors.length = info.fColorCount)
    (hoffsets : info.fColorOffsets.length = info.fColorCount) (i : Nat) (h1 : 1 ≤ i)
    (h2 : i < info.fColorCount) :
    keepRange info i = some (decide (offsetAt info (i - 1) ≠ offsetAt info i) &&
      !(eqIgnoringAlpha (colorAt info (i - 1)) (colorAt info i) &&
        decide (i ≠ info.fColorCount - 1) &&
        eqIgnoringAlpha (colorAt info i) (colorAt info (i + 1)))) := by
  have l1 : i - 1 < info.fColors.length := by omega
  have l2 : i < info.fColors.length := by omega
  have l3 : i - 1 < info.fColorOffsets.length := by omega
  have l4 : i < info.fColorOffsets.length := by omega
  unfold keepRange
  simp only [List.getElem?_eq_getElem l1, List.getElem?_eq_getElem l2,
    List.getElem?_eq_getElem l3, List.getElem?_eq_getElem l4, offsetAt, colorAt,
    List.getD_eq_getElem _ _ l1, List.getD_eq_getElem _ _ l2, List.getD_eq_getElem _ _ l3,
    List.getD_eq_getElem _ _ l4]
  have hbeq : (info.fColorOffsets[i - 1] == info.fColorOffsets[i]) =
      decide (info.fColorOffsets[i - 1] = info.fColorOffsets[i]) := by
    by_cases ho : info.fColorOffsets[i - 1] = info.fColorOffsets[i]
    · rw [decide_eq_true ho]
      exact beq_iff_eq.2 ho
    · rw [decide_eq_false ho]
      exact beq_eq_false_iff_ne.2 ho
  rw [hbeq]
  by_cases hl : i = info.fColorCount - 1
  · simp [hl]
  · have l5 : i + 1 < info.fColors.length := by omega
    simp only [List.getElem?_eq_getElem l5, List.getD_eq_getElem _ _ l5]
    by_cases he : eqIgnoringAlpha info.fColors[i - 1] info.fColors[i] = true
    · simp [he, hl]
    · simp [he, hl]

/-- C28: for a descriptor whose arrays hold the declared stops, `gradient_function_code`
keeps range `i` (`1 <= i < stopCount`) exactly when `offset[i-1] != offset[i]` and it is
not the case that the colours `i-1`, `i`, `i+1` are equal ignoring alpha with `i` not the
last index; the list of kept range ends is strictly increasing, and every entry `e` lies in
`[1, stopCount - 1]`, so that `e - 1` is a stop index. -/
theorem rangeEndsOf_spec (info : GradientInfo) (hcount : info.fColorCount < 2147483648)
    (hcolors : info.fColors.length = info.fColorCount)
    (hoffsets : info.fColorOffsets.length = info.fColorCount) :
    ∃ ends, rangeEndsOf info = some ends ∧
      (∀ i, i ∈ ends ↔ (1 ≤ i ∧ i < info.fColorCount ∧
        offsetAt info (i - 1) ≠ offsetAt info i ∧
        ¬ (eqIgnoringAlpha (colorAt info (i - 1)) (colorAt info i) = true ∧
           i ≠ info.fColorCount - 1 ∧
           eqIgnoringAlpha (colorAt info i) (colorAt info (i + 1)) = true))) ∧
      ends.Pairwise (· < ·) ∧
      (∀ e ∈ ends, 1 ≤ e ∧ e ≤ info.fColorCount - 1 ∧ e - 1 < info.fColorCount) := by
  obtain ⟨ends, he⟩ := collectRangeEnds_isSome info hcolors hoffsets
    (List.range' 1 (info.fColorCount - 1)) (fun i hi => by
      rw [List.mem_range'_1] at hi
      omega)
  have hends : rangeEndsOf info = some ends := he
  obtain ⟨_, hsorted, hmem⟩ := rangeEndsOf_valid info ends hcount hends
  obtain ⟨_, ht, hf⟩ := collectRangeEnds_spec info _ ends he
  refine ⟨ends, hends, fun i => ⟨fun hi => ?_, fun hi => ?_⟩, hsorted, fun e hee => ?_⟩
  · obtain ⟨b1, b2⟩ := hmem i hi
    have hk := ht i hi
    rw [keepRange_eq info hcolors hoffsets i b1 b2] at hk
    simp only [Option.some.injEq, Bool.and_eq_true, decide_eq_true_eq, Bool.not_eq_true',
      Bool.and_eq_false_iff, decide_eq_false_iff_not] at hk
    refine ⟨b1, b2, hk.1, ?_⟩
    rintro ⟨g1, g2, g3⟩
    rcases hk.2 with (g | g) | g
    · rw [g1] at g; exact Bool.noConfusion g
    · exact g g2
    · rw [g3] at g; exact Bool.noConfusion g
  · obtain ⟨b1, b2, b3, b4⟩ := hi
    by_contra hni
    have hk := hf i (by rw [List.mem_range'_1]; omega) hni
    rw [keepRange_eq info hcolors hoffsets i b1 b2] at hk
    simp only [Option.some.injEq, Bool.and_eq_false_iff, decide_eq_false_iff_not,
      Bool.not_eq_false', Bool.and_eq_true, decide_eq_true_eq] at hk
    rcases hk with g | g
    · exact g b3
    · exact b4 ⟨g.1.1, g.1.2, g.2⟩
  · obtain ⟨b1, b2⟩ := hmem e hee
    omega

theorem rangeEndsOf_spec_witness :
    ∃ ends, rangeEndsOf threeStops = some ends ∧ ends.Pairwise (· < ·) := by
  obtain ⟨ends, h, _, hs, _⟩ := rangeEndsOf_spec threeStops (by decide) rfl rfl
  exact ⟨ends, h, hs⟩

/-! ## The assertions of the range writer -/

/-- C33: the stops red, red, red, blue at the offsets 0, 1, 1, 1 are four stops in
non-decreasing order: the first range is solid red with a solid red range after it and
the other two ranges are empty, so the list of kept range ends that
`gradient_function_code` passes to `write_gradient_ranges` is empty, the assertion
`rangeEnds.size() > 0` fails, and `gradient_function_code` has no value. The same holds
for three stops that share the offset 1/2. -/
theorem coincident_stops_keep_no_range :
    (2 ≤ solidThenJump.fColorCount ∧ solidThenJump.fColorOffsets.Pairwise (· ≤ ·) ∧
      solidThenJump.fColors.length = solidThenJump.fColorCount ∧
      solidThenJump.fColorOffsets.length = solidThenJump.fColorCount ∧
      rangeEndsOf solidThenJump = some [] ∧
      write_gradient_ranges solidThenJump [] true true = Option.none ∧
      gradient_function_code solidThenJump = Option.none) ∧
    (2 ≤ tripleStop.fColorCount ∧ tripleStop.fColorOffsets.Pairwise (· ≤ ·) ∧
      rangeEndsOf tripleStop = some [] ∧
      write_gradient_ranges tripleStop [] true true = Option.none ∧
      gradient_function_code tripleStop = Option.none) := by
  have hr : List.range' 1 (tripleStop.fColorCount - 1) = [1, 2] := rfl
  have k1 : keepRange tripleStop 1 = some false := by
    norm_num [keepRange, tripleStop, sampleInfo, eqIgnoringAlpha, SkColorSetA, kRed, kWhite,
      kBlue]
  have k2 : keepRange tripleStop 2 = some false := by
    norm_num [keepRange, tripleStop, sampleInfo, eqIgnoringAlpha, SkColorSetA, kRed, kWhite,
      kBlue]
  have he : rangeEndsOf tripleStop = some [] := by
    unfold rangeEndsOf
    rw [hr]
    simp only [collectRangeEnds, k1, k2, Bool.false_eq_true, if_false]
  have hr2 : List.range' 1 (solidThenJump.fColorCount - 1) = [1, 2, 3] := rfl
  have j1 : keepRange solidThenJump 1 = some false := by
    norm_num [keepRange, solidThenJump, sampleInfo, eqIgnoringAlpha, SkColorSetA, kRed, kBlue]
  have j2 : keepRange solidThenJump 2 = some false := by
    norm_num [keepRange, solidThenJump, sampleInfo, eqIgnoringAlpha, SkColorSetA, kRed, kBlue]
  have j3 : keepRange solidThenJump 3 = some false := by
    norm_num [keepRange, solidThenJump, sampleInfo, eqIgnoringAlpha, SkColorSetA, kRed, kBlue]
  have he2 : rangeEndsOf solidThenJump = some [] := by
    unfold rangeEndsOf
    rw [hr2]
    simp only [collectRangeEnds, j1, j2, j3, Bool.false_eq_true, if_false]
  refine ⟨⟨by decide, by simp [solidThenJump, sampleInfo], rfl, rfl, he2, rfl, ?_⟩,
    by decide, by simp [tripleStop, sampleInfo], he, rfl, ?_⟩
  · unfold gradient_function_code
    rw [he2]
    have h0 : solidThenJump.fColors[0]? = some kRed := rfl
    have hl : solidThenJump.fColors[solidThenJump.fColorCount - 1]? = some kBlue := rfl
    rw [h0, hl]
    rfl
  · unfold gradient_function_code
    rw [he]
    have h0 : tripleStop.fColors[0]? = some kRed := rfl
    have hl : tripleStop.fColors[tripleStop.fColorCount - 1]? = some kBlue := rfl
    rw [h0, hl]
    rfl

/-- C34: for a descriptor whose arrays hold the declared stops, every kept range end `i`
has `offset[i] - offset[i-1]` non-zero, and positive when the offsets are in non-decreasing
order, so that `interpolate_color_code` is called with a non-zero range and returns its
text; the call of `write_gradient_ranges` on a non-empty list of kept range ends returns
its text. -/
theorem kept_ranges_have_width (info : GradientInfo) (ends : List Nat)
    (hcount : info.fColorCount < 2147483648) (hends : rangeEndsOf info = some ends) :
    (∀ e ∈ ends, offsetAt info e - offsetAt info (e - 1) ≠ 0 ∧
      (info.fColorOffsets.Pairwise (· ≤ ·) → 0 < offsetAt info e - offsetAt info (e - 1)) ∧
      (interpolate_color_code (offsetAt info e - offsetAt info (e - 1))
        (colorAt info (e - 1)) (colorAt info e)).isSome = true) ∧
    (ends ≠ [] → (write_gradient_ranges info ends true true).isSome = true) := by
  obtain ⟨hv, _, hmem⟩ := rangeEndsOf_valid info ends hcount hends
  constructor
  · intro e he
    obtain ⟨b1, b2, b3, _, hne⟩ := hv e he
    have hw : offsetAt info e - offsetAt info (e - 1) ≠ 0 := sub_ne_zero.2 hne
    refine ⟨hw, fun hs => ?_, ?_⟩
    · have hle : offsetAt info (e - 1) ≤ offsetAt info e := by
        have l1 : e - 1 < info.fColorOffsets.length := by omega
        simp only [offsetAt, List.getD_eq_getElem _ _ l1, List.getD_eq_getElem _ _ b2]
        exact (List.pairwise_iff_getElem.1 hs) (e - 1) e l1 b2 (by omega)
      exact sub_pos.2 (lt_of_le_of_ne hle (Ne.symm hne))
    · simp [interpolate_color_code, hw]
  · intro hne
    obtain ⟨body, hb, _⟩ := write_gradient_ranges_fuel_spec info ends.length ends hne
      (le_refl _) hv
    unfold write_gradient_ranges
    rw [hb true true]
    rfl

theorem kept_ranges_have_width_witness :
    (write_gradient_ranges threeStops [1, 2] true true).isSome = true :=
  (kept_ranges_have_width threeStops [1, 2] (by decide) threeStops_rangeEnds).2 (by simp)

/-! ## The shape of the range tree -/

theorem LeavesIn.prepend {gap : List Tok} (hg : Tok.op Op.sub ∉ gap) {leaves : List (List Tok)}
    {code : List Tok} (h : LeavesIn leaves code) : LeavesIn leaves (gap ++ code) := by
  cases h with
  | done g hgap =>
    exact LeavesIn.done _ (by
      intro hm
      rcases List.mem_append.1 hm with h1 | h1
      · exact hg h1
      · exact hgap h1)
  | leaf g l ls rest hgap hr =>
    have e : gap ++ (g ++ l ++ rest) = (gap ++ g) ++ l ++ rest := by simp
    rw [e]
    exact LeavesIn.leaf _ _ _ _ (by
      intro hm
      rcases List.mem_append.1 hm with h1 | h1
      · exact hg h1
      · exact hgap h1) hr

theorem LeavesIn.concat {l1 l2 : List (List Tok)} {c1 c2 : List Tok} (h1 : LeavesIn l1 c1)
    (h2 : LeavesIn l2 c2) : LeavesIn (l1 ++ l2) (c1 ++ c2) := by
  induction h1 with
  | done g hgap => exact LeavesIn.prepend hgap h2
  | leaf g l ls rest hgap _ ih =>
    have e : g ++ l ++ rest ++ c2 = g ++ l ++ (rest ++ c2) := by simp
    rw [e]
    exact LeavesIn.leaf _ _ _ _ hgap ih

theorem LeavesIn.count_sub {leaves : List (List Tok)} {code : List Tok}
    (h : LeavesIn leaves code) (hl : ∀ l ∈ leaves, l.count (Tok.op Op.sub) = 1) :
    code.count (Tok.op Op.sub) = leaves.length := by
  induction h with
  | done g hgap => exact List.count_eq_zero.2 hgap
  | leaf g l ls rest hgap _ ih =>
    rw [List.count_append, List.count_append, List.count_eq_zero.2 hgap,
      hl l (List.mem_cons_self _ _), ih (fun x hx => hl x (List.mem_cons_of_mem _ hx))]
    simp only [List.length_cons]
    omega

theorem componentCode_no_sub (d : Bool) (m : SkScalar) (prev : Nat) :
    Tok.op Op.sub ∉ componentCode d m prev := by
  unfold componentCode AppendColorComponent AppendScalar
  by_cases h0 : m = 0 <;> by_cases h1 : m = 1 <;> by_cases hp : prev = 0 <;>
    cases d <;> simp [h0, h1, hp]

theorem leafText_count_sub (info : GradientInfo) (e : Nat) :
    (leafText info e).count (Tok.op Op.sub) = 1 := by
  have hcode : Tok.op Op.sub ∉ (interpolate_color_code (offsetAt info e - offsetAt info (e - 1))
      (colorAt info (e - 1)) (colorAt info e)).getD [] := by
    unfold interpolate_color_code
    split
    · simp
    · simp only [Option.getD_some, List.mem_append, not_or]
      refine ⟨⟨⟨?_, componentCode_no_sub _ _ _⟩, componentCode_no_sub _ _ _⟩,
        componentCode_no_sub _ _ _⟩
      split <;> simp
  unfold leafText
  rw [List.count_append, List.count_eq_zero.2 hcode]
  simp [AppendScalar, List.count_cons]

/-- The text of a leaf call of `write_gradient_ranges`. -/
theorem write_gradient_ranges_fuel_leaf (info : GradientInfo) (fuel e : Nat)
    (hv : ValidEnds info [e]) (top first : Bool) :
    write_gradient_ranges_fuel (fuel + 1) info [e] top first =
      some (rangesHead top first (offsetAt info e) ++ leafText info e ++
        rangesTail top first) := by
  obtain ⟨hl1, hl2, hl3, hl4, hl5⟩ := hv e (List.mem_singleton_self e)
  have hrange : offsetAt info e - offsetAt info (e - 1) ≠ 0 := sub_ne_zero.2 hl5
  have hcode : ∃ code, interpolate_color_code (offsetAt info e - offsetAt info (e - 1))
      (colorAt info (e - 1)) (colorAt info e) = some code := by
    simp [interpolate_color_code, hrange]
  obtain ⟨code, hcode⟩ := hcode
  unfold write_gradient_ranges_fuel leafText
  simp only [List.getLast?_singleton, getElem?_offsetAt info e hl2, List.length_singleton,
    if_true, size_t_pred_eq e hl1 hl4, getElem?_offsetAt info (e - 1) (by omega),
    getElem?_colorAt info (e - 1) (by omega), getElem?_colorAt info e hl3, hcode,
    Option.getD_some]

/-- The text of an inner call of `write_gradient_ranges`: the list is cut at half its
length, whatever the offsets are. -/
theorem write_gradient_ranges_fuel_node (info : GradientInfo) (fuel : Nat) (ends : List Nat)
    (last : Nat) (hlast : ends.getLast? = some last) (hl : last < info.fColorOffsets.length)
    (h2 : 2 ≤ ends.length) (top first : Bool) :
    write_gradient_ranges_fuel (fuel + 1) info ends top first =
      match write_gradient_ranges_fuel fuel info (ends.take (ends.length / 2)) false true,
            write_gradient_ranges_fuel fuel info (ends.drop (ends.length / 2)) false false with
      | some lo, some hi =>
        some (rangesHead top first (offsetAt info last) ++ (lo ++ hi) ++ rangesTail top first)
      | _, _ => Option.none := by
  have h1 : ¬ ends.length = 1 := by omega
  rw [write_gradient_ranges_fuel]
  simp only [hlast, getElem?_offsetAt info last hl, h1, if_false]
  cases write_gradient_ranges_fuel fuel info (ends.take (ends.length / 2)) false true <;>
    cases write_gradient_ranges_fuel fuel info (ends.drop (ends.length / 2)) false false <;>
    rfl

theorem rangesHead_no_sub (top first : Bool) (rangeEnd : SkScalar) :
    Tok.op Op.sub ∉ rangesHead top first rangeEnd := by
  cases top <;> cases first <;> simp [rangesHead, AppendScalar]

theorem rangesTail_no_sub (top first : Bool) : Tok.op Op.sub ∉ rangesTail top first := by
  cases top <;> cases first <;> simp [rangesTail]

theorem write_gradient_ranges_fuel_leaves (info : GradientInfo) :
    ∀ (fuel : Nat) (ends : List Nat), ends ≠ [] → ends.length ≤ fuel → ValidEnds info ends →
      ∃ body : List Tok,
        (∀ top first, write_gradient_ranges_fuel fuel info ends top first =
          some (rangesHead top first (offsetAt info (ends.getLast?.getD 0)) ++ body ++
            rangesTail top first)) ∧
        LeavesIn (ends.map (leafText info)) body := by
  intro fuel
  induction fuel with
  | zero =>
    intro ends hne hlen _
    cases ends with
    | nil => exact absurd rfl hne
    | cons a l => simp at hlen
  | succ fuel ih =>
    intro ends hne hlen hv
    obtain ⟨last, hlast⟩ : ∃ x, ends.getLast? = some x := by
      cases h : ends.getLast? with
      | none => exact absurd (List.getLast?_eq_none_iff.1 h) hne
      | some x => exact ⟨x, rfl⟩
    have hlastmem : last ∈ ends := List.mem_of_getLast?_eq_some hlast
    obtain ⟨_, hl2, _, _, _⟩ := hv last hlastmem
    by_cases h1 : ends.length = 1
    · obtain ⟨e, rfl⟩ : ∃ e, ends = [e] := List.length_eq_one.1 h1
      refine ⟨leafText info e, fun top first => ?_, ?_⟩
      · rw [write_gradient_ranges_fuel_leaf info fuel e hv top first]
        rfl
      · have := LeavesIn.leaf [] (leafText info e) [] [] (by simp) (LeavesIn.done [] (by simp))
        simpa using this
    · have hn2 : 2 ≤ ends.length := by
        have : ends.length ≠ 0 := fun h => hne (List.length_eq_zero.1 h)
        omega
      have hlo_len : (ends.take (ends.length / 2)).length = ends.length / 2 := by
        rw [List.length_take]; omega
      have hhi_len : (ends.drop (ends.length / 2)).length = ends.length - ends.length / 2 := by
        rw [List.length_drop]
      have hlo_ne : ends.take (ends.length / 2) ≠ [] := by
        intro h; rw [h] at hlo_len; simp at hlo_len; omega
      have hhi_ne : ends.drop (ends.length / 2) ≠ [] := by
        intro h; rw [h] at hhi_len; simp at hhi_len; omega
      have hsplit : ends.take (ends.length / 2) ++ ends.drop (ends.length / 2) = ends :=
        List.take_append_drop _ _
      obtain ⟨bl, hbl, hleafL⟩ := ih (ends.take (ends.length / 2)) hlo_ne (by omega)
        (fun e he => hv e (List.mem_of_mem_take he))
      obtain ⟨bh, hbh, hleafH⟩ := ih (ends.drop (ends.length / 2)) hhi_ne (by omega)
        (fun e he => hv e (List.mem_of_mem_drop he))
      refine ⟨(rangesHead false true
          (offsetAt info ((ends.take (ends.length / 2)).getLast?.getD 0)) ++ bl ++
          rangesTail false true) ++
        (rangesHead false false
          (offsetAt info ((ends.drop (ends.length / 2)).getLast?.getD 0)) ++ bh ++
          rangesTail false false), fun top first => ?_, ?_⟩
      · rw [write_gradient_ranges_fuel_node info fuel ends last hlast hl2 hn2 top first,
          hbl false true, hbh false false, hlast]
        rfl
      · have hL := LeavesIn.concat (LeavesIn.prepend (rangesHead_no_sub false true
          (offsetAt info ((ends.take (ends.length / 2)).getLast?.getD 0))) hleafL)
          (LeavesIn.done _ (rangesTail_no_sub false true))
        have hH := LeavesIn.concat (LeavesIn.prepend (rangesHead_no_sub false false
          (offsetAt info ((ends.drop (ends.length / 2)).getLast?.getD 0))) hleafH)
          (LeavesIn.done _ (rangesTail_no_sub false false))
        have := LeavesIn.concat hL hH
        simp only [List.append_nil, ← List.map_append, hsplit] at this
        simpa [List.append_assoc] using this

/-- C29: for every non-empty list of kept range ends, `write_gradient_ranges` emits the
test of its node, then a body, then the closing text, where the body consists of the leaf
texts of the list entries, one per entry and in list order, separated by text without
`sub`; so the emitted text has exactly one `sub` per entry. A node called as a first (lo)
branch starts with `dup rangeEnd le {`, where `rangeEnd` is the offset of the last range
end of the node's own list. -/
theorem write_gradient_ranges_leaves (info : GradientInfo) (ends : List Nat) (hne : ends ≠ [])
    (hv : ValidEnds info ends) :
    ∃ body : List Tok,
      (∀ top first, write_gradient_ranges info ends top first =
        some (rangesHead top first (offsetAt info (ends.getLast?.getD 0)) ++ body ++
          rangesTail top first)) ∧
      LeavesIn (ends.map (leafText info)) body ∧
      body.count (Tok.op Op.sub) = ends.length ∧
      (∀ top first code, write_gradient_ranges info ends top first = some code →
        code.count (Tok.op Op.sub) = ends.length) ∧
      rangesHead false true (offsetAt info (ends.getLast?.getD 0)) =
        [Tok.op Op.dup, Tok.num (offsetAt info (ends.getLast?.getD 0)), Tok.op Op.le,
         Tok.lbrace] := by
  obtain ⟨body, hb, hl⟩ := write_gradient_ranges_fuel_leaves info ends.length ends hne
    (le_refl _) hv
  have hcount : body.count (Tok.op Op.sub) = ends.length := by
    rw [hl.count_sub (fun l hl => by
      obtain ⟨e, _, rfl⟩ := List.mem_map.1 hl
      exact leafText_count_sub info e), List.length_map]
  refine ⟨body, hb, hl, hcount, ?_, rfl⟩
  intro top first code hc
  rw [write_gradient_ranges, hb top first] at hc
  obtain rfl := Option.some.inj hc
  rw [List.count_append, List.count_append, hcount,
    List.count_eq_zero.2 (rangesHead_no_sub _ _ _), List.count_eq_zero.2 (rangesTail_no_sub _ _)]
  omega

theorem write_gradient_ranges_leaves_witness :
    ∃ body : List Tok,
      (∀ top first, write_gradient_ranges threeStops [1, 2] top first =
        some (rangesHead top first (offsetAt threeStops (([1, 2] : List Nat).getLast?.getD 0)) ++
          body ++ rangesTail top first)) ∧
      LeavesIn (([1, 2] : List Nat).map (leafText threeStops)) body := by
  obtain ⟨body, h1, h2, _⟩ :=
    write_gradient_ranges_leaves threeStops [1, 2] (by simp) threeStops_validEnds
  exact ⟨body, h1, h2⟩

/-! ## Termination of the range recursion -/

theorem halves_of_two_le (ends : List Nat) (h2 : 2 ≤ ends.length) :
    (ends.take (ends.length / 2)).length = ends.length / 2 ∧
    (ends.drop (ends.length / 2)).length = ends.length - ends.length / 2 ∧
    ends.take (ends.length / 2) ≠ [] ∧ ends.drop (ends.length / 2) ≠ [] ∧
    (ends.take (ends.length / 2)).length < ends.length ∧
    (ends.drop (ends.length / 2)).length < ends.length := by
  have hlo : (ends.take (ends.length / 2)).length = ends.length / 2 := by
    rw [List.length_take]; omega
  have hhi : (ends.drop (ends.length / 2)).length = ends.length - ends.length / 2 := by
    rw [List.length_drop]
  refine ⟨hlo, hhi, ?_, ?_, by omega, by omega⟩
  · intro h; rw [h] at hlo; simp at hlo; omega
  · intro h; rw [h] at hhi; simp at hhi; omega

/-- Any two depth bounds that are at least the length of the list give the same result:
the bound is never what stops the recursion. -/
theorem write_gradient_ranges_fuel_stable (info : GradientInfo) :
    ∀ (f1 f2 : Nat) (ends : List Nat), ends ≠ [] → ends.length ≤ f1 → ends.length ≤ f2 →
      ∀ top first, write_gradient_ranges_fuel f1 info ends top first =
        write_gradient_ranges_fuel f2 info ends top first := by
  intro f1
  induction f1 with
  | zero =>
    intro f2 ends hne h1 _
    exact absurd (List.length_eq_zero.1 (Nat.le_zero.1 h1)) hne
  | succ f1 ih =>
    intro f2 ends hne h1 h2 top first
    cases f2 with
    | zero => exact absurd (List.length_eq_zero.1 (Nat.le_zero.1 h2)) hne
    | succ f2 =>
      by_cases hone : ends.length = 1
      · conv_lhs => rw [write_gradient_ranges_fuel]
        conv_rhs => rw [write_gradient_ranges_fuel]
        simp only [hone, if_true]
      · have hn2 : 2 ≤ ends.length := by
          have : ends.length ≠ 0 := fun h => hne (List.length_eq_zero.1 h)
          omega
        obtain ⟨hlo, hhi, hlone, hhine, hlolt, hhilt⟩ := halves_of_two_le ends hn2
        have e1 := ih f2 (ends.take (ends.length / 2)) hlone (by omega) (by omega) false true
        have e2 := ih f2 (ends.drop (ends.length / 2)) hhine (by omega) (by omega) false false
        conv_lhs => rw [write_gradient_ranges_fuel]
        conv_rhs => rw [write_gradient_ranges_fuel]
        simp only [hone, if_false, e1, e2]

/-- C30: `write_gradient_ranges` returns on every non-empty list of valid range ends, and
no depth bound above the length of the list changes its result, valid or not. A list of
`n ≥ 2` range ends is cut into its first `n / 2` entries and its other `n - n / 2`
entries: both parts are non-empty and shorter than `n`, and the cut is taken at half the
length, for every gradient, whatever its offsets are. -/
theorem write_gradient_ranges_terminates (info : GradientInfo) (ends : List Nat)
    (hne : ends ≠ []) :
    (∀ fuel top first, ends.length ≤ fuel →
      write_gradient_ranges_fuel fuel info ends top first =
        write_gradient_ranges info ends top first) ∧
    (ValidEnds info ends → ∀ top first, (write_gradient_ranges info ends top first).isSome) ∧
    (2 ≤ ends.length →
      (ends.take (ends.length / 2)).length = ends.length / 2 ∧
      (ends.drop (ends.length / 2)).length = ends.length - ends.length / 2 ∧
      ends.take (ends.length / 2) ≠ [] ∧ ends.drop (ends.length / 2) ≠ [] ∧
      (ends.take (ends.length / 2)).length < ends.length ∧
      (ends.drop (ends.length / 2)).length < ends.length ∧
      ∀ (other : GradientInfo) (last : Nat), ends.getLast? = some last →
        last < other.fColorOffsets.length → ∀ top first,
        write_gradient_ranges other ends top first =
          match write_gradient_ranges other (ends.take (ends.length / 2)) false true,
                write_gradient_ranges other (ends.drop (ends.length / 2)) false false with
          | some lo, some hi =>
            some (rangesHead top first (offsetAt other last) ++ (lo ++ hi) ++
              rangesTail top first)
          | _, _ => Option.none) := by
  refine ⟨fun fuel top first hf => ?_, fun hv top first => ?_, fun hn2 => ?_⟩
  · exact write_gradient_ranges_fuel_stable info fuel ends.length ends hne hf (le_refl _)
      top first
  · obtain ⟨body, hb, _⟩ := write_gradient_ranges_fuel_leaves info ends.length ends hne
      (le_refl _) hv
    rw [write_gradient_ranges, hb top first]
    rfl
  · obtain ⟨hlo, hhi, hlone, hhine, hlolt, hhilt⟩ := halves_of_two_le ends hn2
    refine ⟨hlo, hhi, hlone, hhine, hlolt, hhilt, fun other last hlast hl top first => ?_⟩
    obtain ⟨k, hk⟩ : ∃ k, ends.length = k + 1 := ⟨ends.length - 1, by omega⟩
    have e0 : write_gradient_ranges other ends top first =
        write_gradient_ranges_fuel (k + 1) other ends top first := by
      rw [write_gradient_ranges, hk]
    have e1 : write_gradient_ranges other (ends.take (ends.length / 2)) false true =
        write_gradient_ranges_fuel k other (ends.take (ends.length / 2)) false true :=
      write_gradient_ranges_fuel_stable other _ k _ hlone (le_refl _) (by omega) false true
    have e2 : write_gradient_ranges other (ends.drop (ends.length / 2)) false false =
        write_gradient_ranges_fuel k other (ends.drop (ends.length / 2)) false false :=
      write_gradient_ranges_fuel_stable other _ k _ hhine (le_refl _) (by omega) false false
    rw [e0, e1, e2]
    exact write_gradient_ranges_fuel_node other k ends last hlast hl hn2 top first

theorem write_gradient_ranges_terminates_witness :
    (∀ top first, (write_gradient_ranges threeStops [1, 2] top first).isSome) ∧
    (([1, 2] : List Nat).take (([1, 2] : List Nat).length / 2)).length = 1 :=
  ⟨(write_gradient_ranges_terminates threeStops [1, 2] (by simp)).2.1 threeStops_validEnds,
   ((write_gradient_ranges_terminates threeStops [1, 2] (by simp)).2.2 (by simp)).1⟩

/-! ## The stack discipline of the gradient function -/

/-- Whatever the order of the offsets, the body `write_gradient_ranges` writes replaces
`t` on the stack by the colour of one of the kept ranges. -/
theorem write_gradient_ranges_fuel_some_leaf (info : GradientInfo) :
    ∀ (fuel : Nat) (ends : List Nat), ends ≠ [] → ends.length ≤ fuel → ValidEnds info ends →
      ∃ body : List Tok,
        (∀ top first, write_gradient_ranges_fuel fuel info ends top first =
          some (rangesHead top first (offsetAt info (ends.getLast?.getD 0)) ++ body ++
            rangesTail top first)) ∧
        Balanced body ∧
        (∀ t st, ∃ e ∈ ends, Runs body (Val.num t :: st) (leafStack info e t st)) := by
  intro fuel
  induction fuel with
  | zero =>
    intro ends hne hlen _
    cases ends with
    | nil => exact absurd rfl hne
    | cons a l => simp at hlen
  | succ fuel ih =>
    intro ends hne hlen hv
    by_cases h1 : ends.length = 1
    · obtain ⟨body, hbody, hbal, _, hruns⟩ :=
        write_gradient_ranges_fuel_spec info (fuel + 1) ends hne hlen hv
      obtain ⟨e, rfl⟩ : ∃ e, ends = [e] := List.length_eq_one.1 h1
      refine ⟨body, hbody, hbal, fun t st => ⟨e, List.mem_singleton_self e, ?_⟩⟩
      exact hruns (List.pairwise_singleton _ _) t st
    · obtain ⟨last, hlast⟩ : ∃ x, ends.getLast? = some x := by
        cases h : ends.getLast? with
        | none => exact absurd (List.getLast?_eq_none_iff.1 h) hne
        | some x => exact ⟨x, rfl⟩
      obtain ⟨_, hl2, _, _, _⟩ := hv last (List.mem_of_getLast?_eq_some hlast)
      have hn2 : 2 ≤ ends.length := by
        have : ends.length ≠ 0 := fun h => hne (List.length_eq_zero.1 h)
        omega
      obtain ⟨hlo, hhi, hlo_ne, hhi_ne, hlolt, hhilt⟩ := halves_of_two_le ends hn2
      obtain ⟨bl, hbl, hbalL, hrunL⟩ := ih (ends.take (ends.length / 2)) hlo_ne (by omega)
        (fun e he => hv e (List.mem_of_mem_take he))
      obtain ⟨bh, hbh, hbalH, hrunH⟩ := ih (ends.drop (ends.length / 2)) hhi_ne (by omega)
        (fun e he => hv e (List.mem_of_mem_drop he))
      refine ⟨(rangesHead false true
          (offsetAt info ((ends.take (ends.length / 2)).getLast?.getD 0)) ++ bl ++
          rangesTail false true) ++
        (rangesHead false false
          (offsetAt info ((ends.drop (ends.length / 2)).getLast?.getD 0)) ++ bh ++
          rangesTail false false), fun top first => ?_, ?_, fun t st => ?_⟩
      · rw [write_gradient_ranges_fuel_node info fuel ends last hlast hl2 hn2 top first,
          hbl false true, hbh false false, hlast]
        rfl
      · have e1 : rangesHead false true
            (offsetAt info ((ends.take (ends.length / 2)).getLast?.getD 0)) ++ bl ++
            rangesTail false true =
            [Tok.op Op.dup,
              Tok.num (offsetAt info ((ends.take (ends.length / 2)).getLast?.getD 0)),
              Tok.op Op.le] ++ (Tok.lbrace :: bl ++ [Tok.rbrace]) := by
          simp [rangesHead, rangesTail, AppendScalar]
        have e2 : rangesHead false false
            (offsetAt info ((ends.drop (ends.length / 2)).getLast?.getD 0)) ++ bh ++
            rangesTail false false =
            (Tok.lbrace :: bh ++ [Tok.rbrace]) ++ [Tok.op Op.ifelse] := by
          simp [rangesHead, rangesTail]
        rw [e1, e2]
        exact Balanced.of_append
          (Balanced.of_append (Balanced.of_cons_op _ (Balanced.of_cons_num _ (Balanced.of_op _)))
            (Balanced.braces hbalL))
          (Balanced.of_append (Balanced.braces hbalH) (Balanced.of_op _))
      · have hcode : (rangesHead false true
            (offsetAt info ((ends.take (ends.length / 2)).getLast?.getD 0)) ++ bl ++
            rangesTail false true) ++
            (rangesHead false false
              (offsetAt info ((ends.drop (ends.length / 2)).getLast?.getD 0)) ++ bh ++
              rangesTail false false) =
            [Tok.op Op.dup,
              Tok.num (offsetAt info ((ends.take (ends.length / 2)).getLast?.getD 0)),
              Tok.op Op.le] ++
              (Tok.lbrace :: bl ++ [Tok.rbrace] ++
                (Tok.lbrace :: bh ++ [Tok.rbrace, Tok.op Op.ifelse])) := by
          simp [rangesHead, rangesTail, AppendScalar]
        rw [hcode]
        have hpre : Runs [Tok.op Op.dup,
            Tok.num (offsetAt info ((ends.take (ends.length / 2)).getLast?.getD 0)),
            Tok.op Op.le] (Val.num t :: st)
            (Val.bool (decide (t ≤ offsetAt info
              ((ends.take (ends.length / 2)).getLast?.getD 0))) :: Val.num t :: st) :=
          Runs.cons_op_to (by decide) (by decide) (Val.num t :: Val.num t :: st) rfl
            (Runs.cons_num (Runs.op (by decide) (by decide) rfl))
        by_cases hc : t ≤ offsetAt info ((ends.take (ends.length / 2)).getLast?.getD 0)
        · obtain ⟨e, he, hr⟩ := hrunL t st
          refine ⟨e, List.mem_of_mem_take he, Runs.append hpre (Runs.ifelse hbalL hbalH ?_)⟩
          simp only [hc, decide_True, if_true]
          exact hr
        · obtain ⟨e, he, hr⟩ := hrunH t st
          refine ⟨e, List.mem_of_mem_drop he, Runs.append hpre (Runs.ifelse hbalL hbalH ?_)⟩
          simp only [hc, decide_False, Bool.false_eq_true, if_false]
          exact hr

theorem colorStack_length (c : SkColor) : (colorStack c []).length = 3 := rfl

theorem leafStack_length (info : GradientInfo) (e : Nat) (t : ℚ) :
    (leafStack info e t []).length = 3 := rfl

theorem resultStack_length (info : GradientInfo) (rangeEnd : SkScalar) (e : Nat) (t : ℚ) :
    (resultStack info rangeEnd e t).length = 3 := by
  unfold resultStack
  split
  · rfl
  · split <;> rfl

/-- C32: for a descriptor with a non-empty list of kept range ends, the program of
`gradient_function_code` is three texts in a row, and for every `t` it turns the stack
that holds only `t` into a stack of exactly three values. The first text leaves the
colour of the first stop under the marker 0 when `t ≤ 0` and the stack `[t]` otherwise;
the range search leaves the colour of a kept range under the marker 0 when `0 < t` and
`t` is at most the last range end, and leaves the stack as it was otherwise; the last
text takes the top value away and, when that value is above 0, puts the colour of the
last stop. So exactly one of the three cases produces the colour. -/
theorem gradient_function_code_stack (info : GradientInfo) (ends : List Nat)
    (hcount : info.fColorCount < 2147483648)
    (hcolors : info.fColors.length = info.fColorCount)
    (hends : rangeEndsOf info = some ends) (hne : ends ≠ []) :
    ∃ first ranges last : List Tok,
      gradient_function_code info = some (first ++ ranges ++ last) ∧
      ∀ t : ℚ, ∃ e ∈ ends,
        Runs first [Val.num t]
          (searchStack (decide (t ≤ 0))
            (resultStack info (offsetAt info (ends.getLast?.getD 0)) e t) t) ∧
        Runs ranges
          (searchStack (decide (t ≤ 0))
            (resultStack info (offsetAt info (ends.getLast?.getD 0)) e t) t)
          (searchStack (decide (t ≤ 0) || decide (t ≤ offsetAt info (ends.getLast?.getD 0)))
            (resultStack info (offsetAt info (ends.getLast?.getD 0)) e t) t) ∧
        Runs last
          (searchStack (decide (t ≤ 0) || decide (t ≤ offsetAt info (ends.getLast?.getD 0)))
            (resultStack info (offsetAt info (ends.getLast?.getD 0)) e t) t)
          (resultStack info (offsetAt info (ends.getLast?.getD 0)) e t) ∧
        Evaluates (first ++ ranges ++ last) [Val.num t]
          (resultStack info (offsetAt info (ends.getLast?.getD 0)) e t) ∧
        (resultStack info (offsetAt info (ends.getLast?.getD 0)) e t).length = 3 := by
  obtain ⟨hv, _, hmem⟩ := rangeEndsOf_valid info ends hcount hends
  obtain ⟨e0, he0⟩ : ∃ e, e ∈ ends := List.exists_mem_of_ne_nil ends hne
  have hpos : 0 < info.fColorCount := by have := hmem e0 he0; omega
  have hc0 : info.fColors[0]? = some (colorAt info 0) :=
    getElem?_colorAt info 0 (by omega)
  have hcLast : info.fColors[info.fColorCount - 1]? =
      some (colorAt info (info.fColorCount - 1)) :=
    getElem?_colorAt info _ (by omega)
  obtain ⟨body, hbody, hbal, hleaf⟩ :=
    write_gradient_ranges_fuel_some_leaf info ends.length ends hne (le_refl _) hv
  have hw := hbody true true
  refine ⟨[Tok.op Op.dup, Tok.num 0, Tok.op Op.le, Tok.lbrace, Tok.op Op.pop,
        AppendColorComponent (SkColorGetR (colorAt info 0)),
        AppendColorComponent (SkColorGetG (colorAt info 0)),
        AppendColorComponent (SkColorGetB (colorAt info 0)), Tok.num 0, Tok.rbrace,
        Tok.op Op.if_],
      rangesHead true true (offsetAt info (ends.getLast?.getD 0)) ++ body ++
        rangesTail true true,
      [Tok.num 0, Tok.op Op.gt, Tok.lbrace,
        AppendColorComponent (SkColorGetR (colorAt info (info.fColorCount - 1))),
        AppendColorComponent (SkColorGetG (colorAt info (info.fColorCount - 1))),
        AppendColorComponent (SkColorGetB (colorAt info (info.fColorCount - 1))), Tok.rbrace,
        Tok.op Op.if_], ?_, ?_⟩
  · unfold gradient_function_code write_gradient_ranges
    simp only [hc0, hends, hcLast, hw]
  · intro t
    obtain ⟨e, he, hrun⟩ := hleaf t []
    refine ⟨e, he, ?_⟩
    have hall : ∀ {a b c : List Tok} {s0 s1 s2 s3 : List Val}, Runs a s0 s1 → Runs b s1 s2 →
        Runs c s2 s3 → s3.length = 3 →
        Runs a s0 s1 ∧ Runs b s1 s2 ∧ Runs c s2 s3 ∧ Evaluates (a ++ b ++ c) s0 s3 ∧
          s3.length = 3 :=
      fun h1 h2 h3 h4 => ⟨h1, h2, h3, (Runs.append (Runs.append h1 h2) h3).evaluates, h4⟩
    refine hall ?_ ?_ ?_ (resultStack_length _ _ _ _)
    · have h1 := firstClamp_runs (colorAt info 0) t []
      by_cases ht : t ≤ 0
      · simp only [ht, if_true] at h1
        simpa [searchStack, resultStack, ht] using h1
      · simp only [ht, if_false] at h1
        simpa [searchStack, ht] using h1
    · by_cases ht : t ≤ 0
      · have h2 := rangesTop_runs (offsetAt info (ends.getLast?.getD 0)) body hbal 0
          (colorStack (colorAt info 0) []) [] (fun h => absurd h (lt_irrefl 0))
        simp only [lt_irrefl, false_and, if_false] at h2
        simpa [searchStack, resultStack, ht] using h2
      · have hpos : 0 < t := not_le.1 ht
        by_cases hle : t ≤ offsetAt info (ends.getLast?.getD 0)
        · have h2 := rangesTop_runs (offsetAt info (ends.getLast?.getD 0)) body hbal t []
            (leafStack info e t []) (fun _ _ => hrun)
          simp only [hpos, hle, and_self, if_true] at h2
          simpa [searchStack, resultStack, ht, hle] using h2
        · have h2 := rangesTop_runs (offsetAt info (ends.getLast?.getD 0)) body hbal t []
            [] (fun _ h => absurd h hle)
          simp only [hle, and_false, if_false] at h2
          simpa [searchStack, ht, hle] using h2
    · by_cases ht : t ≤ 0
      · have h3 := lastClamp_runs (colorAt info (info.fColorCount - 1)) 0
          (colorStack (colorAt info 0) [])
        simp only [lt_irrefl, if_false] at h3
        simpa [searchStack, resultStack, ht] using h3
      · have hpos : 0 < t := not_le.1 ht
        by_cases hle : t ≤ offsetAt info (ends.getLast?.getD 0)
        · have h3 := lastClamp_runs (colorAt info (info.fColorCount - 1)) 0
            (leafStack info e t [])
          simp only [lt_irrefl, if_false] at h3
          simpa [searchStack, resultStack, ht, hle] using h3
        · have h3 := lastClamp_runs (colorAt info (info.fColorCount - 1)) t []
          simp only [hpos, if_true] at h3
          simpa [searchStack, resultStack, ht, hle] using h3

theorem gradient_function_code_stack_witness :
    ∃ first ranges last : List Tok,
      gradient_function_code threeStops = some (first ++ ranges ++ last) ∧
      ∀ t : ℚ, ∃ e ∈ ([1, 2] : List Nat),
        Evaluates (first ++ ranges ++ last) [Val.num t]
          (resultStack threeStops (offsetAt threeStops (([1, 2] : List Nat).getLast?.getD 0))
            e t) := by
  obtain ⟨first, ranges, last, h1, h2⟩ :=
    gradient_function_code_stack threeStops [1, 2] (by decide) rfl threeStops_rangeEnds
      (by simp)
  refine ⟨first, ranges, last, h1, fun t => ?_⟩
  obtain ⟨e, he, _, _, _, h3, _⟩ := h2 t
  exact ⟨e, he, h3⟩

end SkPDFGradientShader
